import Mathlib

/-! # nesCheck: a shallow embedding of the pass and of its runtime library

The development follows the sources of the repository:

* `AnalysisState.hpp` / `AnalysisState.cpp`: the per-value abstract state store;
* `neschecklib.c`: the runtime metadata table;
* `NesCheck.cpp`: the bounds-check emitter, the signature transformer, the
  call-site rewriter, the instruction walker and the module driver.

LLVM itself (types, values, the constant-folding IR builder, the data layout and
the object-size evaluator) is an external library.  Its values are embedded as
finite trees, its folding rules as total functions on 64-bit two-complement
numbers, and what the data layout and the object-size evaluator answer is read
from fields of the instruction they are asked about.
-/

set_option linter.unusedVariables false

namespace NesCheck

/-! ## LLVM types -/

mutual
/-- The part of `llvm::Type` the pass looks at. -/
inductive LType where
  | VoidTy
  | IntegerTy (bits : Nat)
  | FloatTy
  | PointerTy (elem : LType)
  | ArrayTy (n : Nat) (elem : LType)
  | StructTy (elems : LTypes)
  | NamedStructTy (id : Nat)
  | FunctionTy (ret : LType) (params : LTypes) (isVarArg : Bool)
  deriving DecidableEq, Repr
/-- Element lists of literal struct types. -/
inductive LTypes where
  | nil
  | cons (hd : LType) (tl : LTypes)
  deriving DecidableEq, Repr
end

/-- `Type::isPointerTy`. -/
def LType.isPointerTy : LType → Bool
  | .PointerTy _ => true
  | _ => false

/-- `Type::isIntegerTy`. -/
def LType.isIntegerTy : LType → Bool
  | .IntegerTy _ => true
  | _ => false

/-- `isa<FunctionType>(t)`. -/
def LType.isFunctionTy : LType → Bool
  | .FunctionTy _ _ _ => true
  | _ => false

/-- The element list of a `std::vector<Type*>`. -/
def LTypes.ofList : List LType → LTypes
  | [] => .nil
  | t :: ts => .cons t (LTypes.ofList ts)

/-- The elements of a type list, in order. -/
def LTypes.toList : LTypes → List LType
  | .nil => []
  | .cons t ts => t :: ts.toList

/-- `FunctionType::getNumParams` (zero for a type that is no function type). -/
def LType.getNumParams : LType → Nat
  | .FunctionTy _ params _ => params.toList.length
  | _ => 0

/-- `FunctionType::getReturnType` (void for a type that is no function type). -/
def LType.getReturnType : LType → LType
  | .FunctionTy ret _ _ => ret
  | _ => .VoidTy

/-- `PointerType::getElementType` (the type itself when it is no pointer). -/
def LType.getElementType : LType → LType
  | .PointerTy elem => elem
  | t => t

/-- `StructType::get(a, b, NULL)`: the literal struct of two elements. -/
def LType.structOf2 (a b : LType) : LType :=
  .StructTy (.cons a (.cons b .nil))

/-- `MySizeType = Type::getInt64Ty(M.getContext())` (runOnModule). -/
def MySizeType : LType := .IntegerTy 64

/-! ## LLVM values

A value is identified by what defines it.  Instructions and blocks carry an
identifier: `input n` for those of the module the pass is given, `made n` for
those the pass creates (numbered by the counter `nextId` of the pass).  The operand
a `load`, a cast or a `getelementptr` reads is part of the value, so walking back
through such a chain is structural. -/

/-- Identity of an instruction or of a basic block. -/
inductive Ident where
  | input (n : Nat)
  | made (n : Nat)
  deriving DecidableEq, Repr

/-- Opcodes of the binary operators the IR builder is asked for. -/
inductive BinOp where
  | Sub
  | Mul
  deriving DecidableEq, Repr

/-- The part of `llvm::Value` the pass looks at.  The `Folded...` constructors are
the constant expressions `TargetFolder` leaves when an operand is a constant that
is not a `ConstantInt`. -/
inductive Value where
  | ConstantInt (bits : Nat) (val : Nat)
  | ConstantPointerNull (ty : LType)
  | ConstantAggregateZero (ty : LType)
  | Function (name : String) (ty : LType)
  | GlobalVariable (name : String) (ty : LType)
  | ConstantExpr (id : Nat) (ty : LType)
  | FoldedBinary (opc : BinOp) (lhs rhs : Value)
  | FoldedICmpSLT (lhs rhs : Value)
  | FoldedCast (ty : LType) (op : Value)
  | Argument (fn : String) (idx : Nat) (ty : LType)
  | AllocaInst (id : Ident) (ty : LType)
  | LoadInst (id : Ident) (ty : LType) (ptr : Value)
  | BitCastInst (id : Ident) (ty : LType) (op : Value)
  | CastInst (id : Ident) (ty : LType) (op : Value)
  | CallInst (id : Ident) (ty : LType) (callee : Option String)
  | InvokeInst (id : Ident) (ty : LType) (callee : Option String)
  | GetElementPtrInst (id : Ident) (ty : LType) (ptr : Value)
  | BinaryOperator (id : Ident) (opc : BinOp) (lhs rhs : Value)
  | ICmpInst (id : Ident) (lhs rhs : Value)
  | ExtractValueInst (id : Ident) (ty : LType) (agg : Value) (idx : Nat)
  | InsertValueInst (id : Ident) (agg elt : Value) (idx : Nat)
  | OtherInst (id : Ident) (ty : LType)
  deriving DecidableEq, Repr

/-- `Value::getType`. -/
def Value.getType : Value → LType
  | .ConstantInt bits _ => .IntegerTy bits
  | .ConstantPointerNull ty => ty
  | .ConstantAggregateZero ty => ty
  | .Function _ ty => ty
  | .GlobalVariable _ ty => ty
  | .ConstantExpr _ ty => ty
  | .FoldedBinary _ lhs _ => lhs.getType
  | .FoldedICmpSLT _ _ => .IntegerTy 1
  | .FoldedCast ty _ => ty
  | .Argument _ _ ty => ty
  | .AllocaInst _ ty => ty
  | .LoadInst _ ty _ => ty
  | .BitCastInst _ ty _ => ty
  | .CastInst _ ty _ => ty
  | .CallInst _ ty _ => ty
  | .InvokeInst _ ty _ => ty
  | .GetElementPtrInst _ ty _ => ty
  | .BinaryOperator _ _ lhs _ => lhs.getType
  | .ICmpInst _ _ _ => .IntegerTy 1
  | .ExtractValueInst _ ty _ _ => ty
  | .InsertValueInst _ agg _ _ => agg.getType
  | .OtherInst _ ty => ty

/-- `isa<ConstantPointerNull>(v)`. -/
def Value.isConstantPointerNull : Value → Bool
  | .ConstantPointerNull _ => true
  | _ => false

/-- `dyn_cast<ConstantInt>(v)` followed by `getZExtValue()`. -/
def Value.asConstantInt : Value → Option Nat
  | .ConstantInt _ val => some val
  | _ => none

/-- `isa<Constant>(v)`. -/
def Value.isConstant : Value → Bool
  | .ConstantInt _ _ => true
  | .ConstantPointerNull _ => true
  | .Function _ _ => true
  | .GlobalVariable _ _ => true
  | .ConstantExpr _ _ => true
  | .ConstantAggregateZero _ => true
  | .FoldedBinary _ _ _ => true
  | .FoldedICmpSLT _ _ => true
  | .FoldedCast _ _ => true
  | _ => false

/-- `isa<Instruction>(v)`. -/
def Value.isInstruction : Value → Bool
  | .AllocaInst _ _ => true
  | .LoadInst _ _ _ => true
  | .BitCastInst _ _ _ => true
  | .CastInst _ _ _ => true
  | .CallInst _ _ _ => true
  | .InvokeInst _ _ _ => true
  | .GetElementPtrInst _ _ _ => true
  | .BinaryOperator _ _ _ _ => true
  | .ICmpInst _ _ _ => true
  | .ExtractValueInst _ _ _ _ => true
  | .InsertValueInst _ _ _ _ => true
  | .OtherInst _ _ => true
  | _ => false

/-- What `Value::replaceAllUsesWith(old, new)` does to a value that may use `old`
as an operand, directly or through the operands embedded in it. -/
def Value.replaceUses (old new : Value) : Value → Value
  | .FoldedBinary opc l r =>
      if .FoldedBinary opc l r = old then new
      else .FoldedBinary opc (replaceUses old new l) (replaceUses old new r)
  | .FoldedICmpSLT l r =>
      if .FoldedICmpSLT l r = old then new
      else .FoldedICmpSLT (replaceUses old new l) (replaceUses old new r)
  | .FoldedCast ty op =>
      if .FoldedCast ty op = old then new else .FoldedCast ty (replaceUses old new op)
  | .LoadInst id ty ptr =>
      if .LoadInst id ty ptr = old then new else .LoadInst id ty (replaceUses old new ptr)
  | .BitCastInst id ty op =>
      if .BitCastInst id ty op = old then new else .BitCastInst id ty (replaceUses old new op)
  | .CastInst id ty op =>
      if .CastInst id ty op = old then new else .CastInst id ty (replaceUses old new op)
  | .GetElementPtrInst id ty ptr =>
      if .GetElementPtrInst id ty ptr = old then new
      else .GetElementPtrInst id ty (replaceUses old new ptr)
  | .BinaryOperator id opc l r =>
      if .BinaryOperator id opc l r = old then new
      else .BinaryOperator id opc (replaceUses old new l) (replaceUses old new r)
  | .ICmpInst id l r =>
      if .ICmpInst id l r = old then new
      else .ICmpInst id (replaceUses old new l) (replaceUses old new r)
  | .ExtractValueInst id ty agg idx =>
      if .ExtractValueInst id ty agg idx = old then new
      else .ExtractValueInst id ty (replaceUses old new agg) idx
  | .InsertValueInst id agg elt idx =>
      if .InsertValueInst id agg elt idx = old then new
      else .InsertValueInst id (replaceUses old new agg) (replaceUses old new elt) idx
  | v => if v = old then new else v

/-- `ConstantInt::get(IntegerType of width bits, v)`: the value is truncated to
the width. -/
def ConstantInt.get (bits : Nat) (v : Nat) : Value :=
  .ConstantInt bits (v % 2 ^ bits)

/-! ## Instructions, blocks, functions, modules -/

/-- A `getelementptr` instruction.  `ConstantOffset` is what
`accumulateConstantOffset` finds: the byte offset when every index is a constant. -/
structure GetElementPtrInst where
  id : Ident
  ty : LType
  PointerOperand : Value
  Indices : List Value
  ConstantOffset : Option Nat
  deriving DecidableEq, Repr

namespace GetElementPtrInst

/-- The instruction seen as a value. -/
def asValue (g : GetElementPtrInst) : Value :=
  .GetElementPtrInst g.id g.ty g.PointerOperand

/-- `GetElementPtrInst::hasIndices`. -/
def hasIndices (g : GetElementPtrInst) : Bool := !g.Indices.isEmpty

/-- `GetElementPtrInst::hasAllZeroIndices`: every index is the constant zero. -/
def hasAllZeroIndices (g : GetElementPtrInst) : Bool :=
  g.Indices.all (fun i => i.asConstantInt = some 0)

/-- `GetElementPtrInst::getResultElementType`. -/
def getResultElementType (g : GetElementPtrInst) : LType := g.ty.getElementType

/-- `getOperand(getNumIndices())`: operand zero is the pointer, the indices follow. -/
def lastIndexOperand (g : GetElementPtrInst) : Value :=
  (g.PointerOperand :: g.Indices).getD g.Indices.length g.PointerOperand

end GetElementPtrInst

/-- An instruction of a function body, with the operands the pass reads. -/
inductive Instruction where
  | Alloca (id : Ident) (AllocatedType : LType) (ArraySize : Value)
  | Call (id : Ident) (ty : LType) (CalledValue : Value) (Args : List Value)
      (isTailCall : Bool) (CallingConv : Nat)
  | Invoke (id : Ident) (ty : LType) (CalledValue : Value) (Args : List Value)
      (CallingConv : Nat) (NormalDest UnwindDest : Ident)
  | Return (id : Ident) (Operand : Option Value)
  | Store (id : Ident) (ValueOperand PointerOperand : Value)
  | Load (id : Ident) (ty : LType) (PointerOperand : Value)
  | GetElementPtr (gep : GetElementPtrInst)
  | Cast (id : Ident) (isBitCast : Bool) (ty : LType) (op : Value)
  | Br (id : Ident) (dest : Ident)
  | CondBr (id : Ident) (cond : Value) (ifTrue ifFalse : Ident)
  | Unreachable (id : Ident)
  | Other (id : Ident) (result : Value) (Operands : List Value)
  deriving DecidableEq, Repr

/-- `getCalledFunction()` of a called value: the name of the function when the
call is direct. -/
def Value.asFunctionName : Value → Option String
  | .Function name _ => some name
  | _ => none

/-- `getFunctionType()` of a called function value. -/
def Value.getFunctionType : Value → LType
  | .Function _ ty => ty.getElementType
  | _ => .VoidTy

namespace Instruction

/-- The instruction seen as a value (an `Instruction*` is a `Value*`). -/
def asValue : Instruction → Value
  | .Alloca id aty _ => .AllocaInst id (.PointerTy aty)
  | .Call id ty cv _ _ _ => .CallInst id ty cv.asFunctionName
  | .Invoke id ty cv _ _ _ _ => .InvokeInst id ty cv.asFunctionName
  | .Return id _ => .OtherInst id .VoidTy
  | .Store id _ _ => .OtherInst id .VoidTy
  | .Load id ty ptr => .LoadInst id ty ptr
  | .GetElementPtr g => g.asValue
  | .Cast id isBitCast ty op => if isBitCast then .BitCastInst id ty op else .CastInst id ty op
  | .Br id _ => .OtherInst id .VoidTy
  | .CondBr id _ _ _ => .OtherInst id .VoidTy
  | .Unreachable id => .OtherInst id .VoidTy
  | .Other _ result _ => result

/-- The identity of the instruction. -/
def ident : Instruction → Ident
  | .Alloca id _ _ => id
  | .Call id _ _ _ _ _ => id
  | .Invoke id _ _ _ _ _ _ => id
  | .Return id _ => id
  | .Store id _ _ => id
  | .Load id _ _ => id
  | .GetElementPtr g => g.id
  | .Cast id _ _ _ => id
  | .Br id _ => id
  | .CondBr id _ _ _ => id
  | .Unreachable id => id
  | .Other id _ _ => id

/-- The operands of the instruction. -/
def operands : Instruction → List Value
  | .Alloca _ _ n => [n]
  | .Call _ _ cv args _ _ => args ++ [cv]
  | .Invoke _ _ cv args _ _ _ => args ++ [cv]
  | .Return _ op => op.toList
  | .Store _ v p => [v, p]
  | .Load _ _ p => [p]
  | .GetElementPtr g => g.PointerOperand :: g.Indices
  | .Cast _ _ _ op => [op]
  | .Br _ _ => []
  | .CondBr _ c _ _ => [c]
  | .Unreachable _ => []
  | .Other _ _ ops => ops

/-- The instruction after `old->replaceAllUsesWith(new)`. -/
def replaceUses (old new : Value) : Instruction → Instruction
  | .Alloca id aty n => .Alloca id aty (Value.replaceUses old new n)
  | .Call id ty cv args t cc =>
      .Call id ty (Value.replaceUses old new cv) (args.map (Value.replaceUses old new)) t cc
  | .Invoke id ty cv args cc nd ud =>
      .Invoke id ty (Value.replaceUses old new cv) (args.map (Value.replaceUses old new)) cc nd ud
  | .Return id op => .Return id (op.map (Value.replaceUses old new))
  | .Store id v p => .Store id (Value.replaceUses old new v) (Value.replaceUses old new p)
  | .Load id ty p => .Load id ty (Value.replaceUses old new p)
  | .GetElementPtr g =>
      .GetElementPtr { g with
        PointerOperand := Value.replaceUses old new g.PointerOperand
        Indices := g.Indices.map (Value.replaceUses old new) }
  | .Cast id b ty op => .Cast id b ty (Value.replaceUses old new op)
  | .Br id d => .Br id d
  | .CondBr id c t f => .CondBr id (Value.replaceUses old new c) t f
  | .Unreachable id => .Unreachable id
  | .Other id r ops =>
      .Other id (if r = old then r else Value.replaceUses old new r)
        (ops.map (Value.replaceUses old new))

end Instruction

/-- A basic block: its identity and its instructions, the terminator last. -/
structure BasicBlock where
  id : Ident
  insts : List Instruction
  deriving DecidableEq, Repr

/-- The part of `llvm::Function` the pass looks at.  A declaration has no block. -/
structure Function where
  name : String
  ReturnType : LType
  Params : List (String × LType)
  isVarArg : Bool
  blocks : List BasicBlock
  deriving DecidableEq, Repr

namespace Function

/-- `Function::isDeclaration`. -/
def isDeclaration (F : Function) : Bool := F.blocks.isEmpty

/-- `Function::getFunctionType`. -/
def getFunctionType (F : Function) : LType :=
  .FunctionTy F.ReturnType (LTypes.ofList (F.Params.map (·.2))) F.isVarArg

/-- The function as a value: a constant of type pointer to its function type. -/
def asValue (F : Function) : Value := .Function F.name (.PointerTy F.getFunctionType)

/-- The `Argument` objects of the function, `arg_begin() .. arg_end()`. -/
def args (F : Function) : List Value :=
  F.Params.enum.map (fun p => .Argument F.name p.1 p.2.2)

/-- The `Argument` an `arg_iterator` at position `k` points to. -/
def getArg (F : Function) (k : Nat) : Value :=
  .Argument F.name k ((F.Params.map (·.2)).getD k .VoidTy)

/-- The instructions of the function in the order of `inst_begin .. inst_end`. -/
def instructions (F : Function) : List Instruction :=
  F.blocks.flatMap (·.insts)

end Function

/-- The part of `llvm::Module` the pass looks at. -/
structure Module where
  globals : List Value
  functions : List Function
  deriving DecidableEq, Repr

namespace Module

/-- `Module::getFunction(name)`. -/
def getFunction (M : Module) (name : String) : Option Function :=
  M.functions.find? (fun F => F.name = name)

/-- `Intrinsic::getDeclaration(M, Intrinsic::trap)`: the declaration of `llvm.trap`,
added to the module when it is not there. -/
def getTrapDeclaration (M : Module) : Module × Value :=
  let decl : Function :=
    { name := "llvm.trap", ReturnType := .VoidTy, Params := [], isVarArg := false, blocks := [] }
  match M.getFunction "llvm.trap" with
  | some F => (M, F.asValue)
  | none => ({ M with functions := M.functions ++ [decl] }, decl.asValue)

/-- Every instruction of the module. -/
def instructions (M : Module) : List Instruction :=
  M.functions.flatMap Function.instructions

/-- Apply an edit to every block of the module. -/
def mapBlocks (M : Module) (f : BasicBlock → BasicBlock) : Module :=
  { M with functions := M.functions.map (fun F => { F with blocks := F.blocks.map f }) }

/-- `I->getParent()`: the block that holds the instruction `v`. -/
def getParent (M : Module) (v : Value) : Option Ident :=
  ((M.functions.flatMap (·.blocks)).find?
    (fun b => b.insts.any (fun i => i.asValue = v))).map (·.id)

/-- `I->getParent()->getParent()`: the function that holds the instruction `v`. -/
def getParentFunction (M : Module) (v : Value) : Option String :=
  (M.functions.find?
    (fun F => F.instructions.any (fun i => i.asValue = v))).map (·.name)

end Module

/-- Insert `new` in front of the instruction `anchor`. -/
def insertBeforeIn (anchor : Value) (new : Instruction) : List Instruction → List Instruction
  | [] => []
  | i :: rest =>
    if i.asValue = anchor then new :: i :: rest else i :: insertBeforeIn anchor new rest

/-- Insert `new` right after the instruction `anchor`. -/
def insertAfterIn (anchor : Value) (new : Instruction) : List Instruction → List Instruction
  | [] => []
  | i :: rest =>
    if i.asValue = anchor then i :: new :: rest else i :: insertAfterIn anchor new rest

/-- The instructions in front of `anchor`. -/
def takeBefore (anchor : Value) : List Instruction → List Instruction
  | [] => []
  | i :: rest => if i.asValue = anchor then [] else i :: takeBefore anchor rest

/-- The instruction `anchor` and the instructions behind it. -/
def dropBefore (anchor : Value) : List Instruction → List Instruction
  | [] => []
  | i :: rest => if i.asValue = anchor then i :: rest else dropBefore anchor rest

namespace Module

/-- `new` is inserted before the instruction `anchor`. -/
def insertBefore (M : Module) (anchor : Value) (new : Instruction) : Module :=
  M.mapBlocks (fun b => { b with insts := insertBeforeIn anchor new b.insts })

/-- `new->insertAfter(anchor)`. -/
def insertAfter (M : Module) (anchor : Value) (new : Instruction) : Module :=
  M.mapBlocks (fun b => { b with insts := insertAfterIn anchor new b.insts })

/-- `new` is appended to the block `bb` (`InsertAtEnd`). -/
def appendToBlock (M : Module) (bb : Ident) (new : Instruction) : Module :=
  M.mapBlocks (fun b => if b.id = bb then { b with insts := b.insts ++ [new] } else b)

/-- `new` is inserted before the terminator of the block `bb`. -/
def insertBeforeTerminator (M : Module) (bb : Ident) (new : Instruction) : Module :=
  M.mapBlocks (fun b =>
    if b.id = bb then { b with insts := b.insts.dropLast ++ new :: b.insts.getLast?.toList }
    else b)

/-- `I->eraseFromParent()` / `I->removeFromParent()`. -/
def erase (M : Module) (v : Value) : Module :=
  M.mapBlocks (fun b => { b with insts := b.insts.filter (fun i => i.asValue ≠ v) })

/-- `bb->getTerminator()->eraseFromParent()`. -/
def eraseTerminator (M : Module) (bb : Ident) : Module :=
  M.mapBlocks (fun b => if b.id = bb then { b with insts := b.insts.dropLast } else b)

/-- `old->replaceAllUsesWith(new)`. -/
def replaceAllUsesWith (M : Module) (old new : Value) : Module :=
  M.mapBlocks (fun b => { b with insts := b.insts.map (Instruction.replaceUses old new) })

/-- `OldBB->splitBasicBlock(I)`: the block of `anchor` keeps the instructions in
front of `anchor` and gets a branch `br` to the new block `cont`, which takes
`anchor` and what follows it and is placed right behind. -/
def splitBasicBlock (M : Module) (anchor : Value) (cont br : Ident) : Module :=
  let split : BasicBlock → List BasicBlock := fun b =>
    if b.insts.any (fun i => i.asValue = anchor) then
      [BasicBlock.mk b.id (takeBefore anchor b.insts ++ [.Br br cont]),
       BasicBlock.mk cont (dropBefore anchor b.insts)]
    else [b]
  { M with functions := M.functions.map (fun F => { F with blocks := F.blocks.flatMap split }) }

/-- `BasicBlock::Create(ctx, name, Fn)`: an empty block is appended to `Fn`. -/
def createBlock (M : Module) (Fn : String) (bb : Ident) : Module :=
  { M with functions := M.functions.map (fun F =>
      if F.name = Fn then { F with blocks := F.blocks ++ [{ id := bb, insts := [] }] } else F) }

/-- `RI->setOperand(0, v)` on the return instruction `ret`. -/
def setReturnOperand (M : Module) (ret : Value) (v : Value) : Module :=
  M.mapBlocks (fun b => { b with insts := b.insts.map (fun i =>
    match i with
    | .Return id op => if (Instruction.Return id op).asValue = ret then .Return id (some v) else i
    | _ => i) })

/-- `F->getNumUses()` for the function named `name`: the operands that are the
function itself. -/
def getNumUses (M : Module) (name : String) : Nat :=
  (M.instructions.flatMap Instruction.operands).countP (fun v => v.asFunctionName = some name)

end Module

/-! ## AnalysisState.hpp / AnalysisState.cpp -/

/-- `enum class VariableStates { Unknown = -1, Safe = 0, Seq = 1, Dyn = 2 }`. -/
inductive VariableStates where
  | Unknown
  | Safe
  | Seq
  | Dyn
  deriving DecidableEq, Repr

/-- The integer behind each enumerator. -/
def VariableStates.toInt : VariableStates → Int
  | .Unknown => -1
  | .Safe => 0
  | .Seq => 1
  | .Dyn => 2

/-- The `typedef struct { ... } VariableInfo`. -/
structure VariableInfo where
  classification : VariableStates
  size : Value
  hasMetadataTableEntry : Bool
  hasExplicitSizeVariable : Bool
  instantiatedExplicitSizeVariable : Bool
  explicitSizeVariable : Option Value
  deriving DecidableEq, Repr

/-- The class `AnalysisState`: `Variables` is the `std::map` from value identity
to record, `sizetype` the bit width of the file-level `llvm::Type* sizetype`. -/
structure AnalysisState where
  numFunctions : Nat
  Variables : Value → Option VariableInfo
  sizetype : Nat

namespace AnalysisState

/-- The state a freshly constructed `AnalysisState` has once `SetSizeType` ran. -/
def init (sizetype : Nat) : AnalysisState :=
  { numFunctions := 0, Variables := fun _ => none, sizetype := sizetype }

/-- `SetSizeType`. -/
def SetSizeType (s : AnalysisState) (bits : Nat) : AnalysisState :=
  { s with sizetype := bits }

/-- `RegisterFunction`. -/
def RegisterFunction (s : AnalysisState) : AnalysisState :=
  { s with numFunctions := s.numFunctions + 1 }

/-- `Variables.count(Decl)`. -/
def count (s : AnalysisState) (Decl : Value) : Bool :=
  (s.Variables Decl).isSome

/-- `Variables[Decl] = info`. -/
def assign (s : AnalysisState) (Decl : Value) (info : VariableInfo) : AnalysisState :=
  { s with Variables := fun k => if k = Decl then some info else s.Variables k }

/-- The record `RegisterVariable` writes: `std::map::operator[]` value-initialises
the struct (all flags false, no explicit size variable), then the class is set to
`Safe` and the size to the zero constant. -/
def freshInfo (s : AnalysisState) : VariableInfo :=
  { classification := .Safe
    size := ConstantInt.get s.sizetype 0
    hasMetadataTableEntry := false
    hasExplicitSizeVariable := false
    instantiatedExplicitSizeVariable := false
    explicitSizeVariable := none }

/-- `RegisterVariable`. -/
def RegisterVariable (s : AnalysisState) (Decl : Value) : AnalysisState :=
  if s.count Decl then s else s.assign Decl s.freshInfo

/-- `Variables[Decl]` read after `RegisterVariable(Decl)`. -/
def record (s : AnalysisState) (Decl : Value) : VariableInfo :=
  (s.Variables Decl).getD s.freshInfo

/-- `ClassifyPointerVariable`. -/
def ClassifyPointerVariable (s : AnalysisState) (Decl : Value) (ptrType : VariableStates) :
    AnalysisState :=
  let s1 := s.RegisterVariable Decl
  if (s1.record Decl).classification.toInt < ptrType.toInt then
    s1.assign Decl { s1.record Decl with classification := ptrType }
  else
    s1

/-- `SetSizeForPointerVariable`; `size = none` is the `NULL` argument.  The record
the C++ function returns a pointer to is `(result).record Decl`. -/
def SetSizeForPointerVariable (s : AnalysisState) (Decl : Value) (size : Option Value) :
    AnalysisState :=
  let s1 := s.RegisterVariable Decl
  match size with
  | none => s1.assign Decl { s1.record Decl with size := ConstantInt.get s.sizetype 0 }
  | some sz => s1.assign Decl { s1.record Decl with size := sz }

/-- `SetExplicitSizeVariableForPointerVariable`. -/
def SetExplicitSizeVariableForPointerVariable (s : AnalysisState) (Decl : Value)
    (explicitSize : Option Value) : AnalysisState :=
  let s1 := s.RegisterVariable Decl
  s1.assign Decl { s1.record Decl with
    hasExplicitSizeVariable := explicitSize.isSome
    explicitSizeVariable := explicitSize }

/-- `SetInstantiatedExplicitSizeVariable`. -/
def SetInstantiatedExplicitSizeVariable (s : AnalysisState) (Ref : Value) (v : Bool) :
    AnalysisState :=
  let s1 := s.RegisterVariable Ref
  s1.assign Ref { s1.record Ref with instantiatedExplicitSizeVariable := v }

/-- `SetHasMetadataTableEntry`. -/
def SetHasMetadataTableEntry (s : AnalysisState) (Ref : Value) : AnalysisState :=
  let s1 := s.RegisterVariable Ref
  s1.assign Ref { s1.record Ref with hasMetadataTableEntry := true }

/-- `GetPointerVariableInfo`.  For the null-pointer constant the function returns
`new VariableInfo` with only `size` written; `fresh` stands for what the
allocation holds in its other fields.  The store is not written. -/
def GetPointerVariableInfo (s : AnalysisState) (fresh : VariableInfo) (Decl : Value) :
    Option VariableInfo :=
  if Decl.isConstantPointerNull then
    some { fresh with size := ConstantInt.get s.sizetype 0 }
  else
    s.Variables Decl

/-- The class recorded for `v`; `Safe` for a value that is not tracked yet, which
is the class `RegisterVariable` gives it on first reference. -/
def classOf (s : AnalysisState) (v : Value) : VariableStates :=
  ((s.Variables v).map (·.classification)).getD .Safe

/-- The operations of the store, as data. -/
inductive Op where
  | RegisterVariable (v : Value)
  | ClassifyPointerVariable (v : Value) (c : VariableStates)
  | SetSizeForPointerVariable (v : Value) (size : Option Value)
  | SetExplicitSizeVariableForPointerVariable (v : Value) (explicitSize : Option Value)
  | SetInstantiatedExplicitSizeVariable (v : Value) (b : Bool)
  | SetHasMetadataTableEntry (v : Value)
  | GetPointerVariableInfo (fresh : VariableInfo) (v : Value)

/-- The store after an operation. -/
def Op.run : Op → AnalysisState → AnalysisState
  | .RegisterVariable v, s => s.RegisterVariable v
  | .ClassifyPointerVariable v c, s => s.ClassifyPointerVariable v c
  | .SetSizeForPointerVariable v size, s => s.SetSizeForPointerVariable v size
  | .SetExplicitSizeVariableForPointerVariable v e, s =>
      s.SetExplicitSizeVariableForPointerVariable v e
  | .SetInstantiatedExplicitSizeVariable v b, s => s.SetInstantiatedExplicitSizeVariable v b
  | .SetHasMetadataTableEntry v, s => s.SetHasMetadataTableEntry v
  | .GetPointerVariableInfo _ _, s => s

end AnalysisState

/-- A `VariableInfo*` as the pass holds it: the record of a key of the store, which
later updates of the store are seen through, or the record `GetPointerVariableInfo`
allocates for the null-pointer constant. -/
inductive InfoPtr where
  | stored (key : Value)
  | heap (info : VariableInfo)
  deriving DecidableEq, Repr

namespace AnalysisState

/-- `GetPointerVariableInfo`, returning the pointer. -/
def GetPointerVariableInfoPtr (s : AnalysisState) (fresh : VariableInfo) (Decl : Value) :
    Option InfoPtr :=
  if Decl.isConstantPointerNull then
    some (.heap { fresh with size := ConstantInt.get s.sizetype 0 })
  else if s.count Decl then some (.stored Decl)
  else none

/-- What a `VariableInfo*` points to, in the store as it is now. -/
def deref (s : AnalysisState) : InfoPtr → VariableInfo
  | .stored key => s.record key
  | .heap info => info

end AnalysisState

/-! ## neschecklib.c: the runtime metadata table -/

/-- The `struct metadata_table_entry`. -/
structure metadata_table_entry where
  ptr : Int
  size : Int
  deriving DecidableEq, Repr

/-- The array `metadatatable[0 .. metadatatablecount)`. -/
abbrev MetadataTable := List metadata_table_entry

/-- `findMetadataTableEntry`: the index of the first entry whose `ptr` is `p`. -/
def findMetadataTableEntry (p : Int) : MetadataTable → Option Nat
  | [] => none
  | e :: rest =>
    if e.ptr = p then some 0 else (findMetadataTableEntry p rest).map (· + 1)

/-- `setMetadataTableEntry`. -/
def setMetadataTableEntry (t : MetadataTable) (p size addr : Int) : MetadataTable :=
  match findMetadataTableEntry p t with
  | none => t ++ [{ ptr := p, size := size }]
  | some i => t.modify (fun e => { e with size := size }) i

/-- `lookupMetadataTableEntry`. -/
def lookupMetadataTableEntry (t : MetadataTable) (p : Int) : Int :=
  match findMetadataTableEntry p t with
  | none => 0
  | some i => (t.getD i { ptr := p, size := 0 }).size

/-! ## NesCheck.cpp: the pass and what it asks of LLVM -/

/-- The answers of the LLVM analyses the pass consults: the data layout
(`CurrentDL`), `Type::isSized`, the object-size evaluator (`ObjSizeEval`, a pair of
size and offset, each possibly unknown), the line of the debug location of an
instruction, the address of an instruction object (`(long)CurrInst`), and `uninit`,
the content of a `new VariableInfo` nobody wrote yet. -/
structure Env where
  getTypeAllocSize : LType → Nat
  getTypeStoreSize : LType → Nat
  isSized : LType → Bool
  ObjSizeEval : Value → Option Value × Option Value
  getLineNumber : Value → Option Nat
  addressOf : Value → Nat
  uninit : VariableInfo

/-- Width of `CurrentDL->getIntPtrType(..)` and of an offset `APInt`: the pass
hands such an offset to `ConstantInt::get(MySizeType, Off)`, which wants the width
of `MySizeType`. -/
def IntPtrBits : Nat := 64

/-- `#define IS_DEBUGGING 0`. -/
def IS_DEBUGGING : Bool := false

/-- `#define IS_NAIVE 0`. -/
def IS_NAIVE : Bool := false

/-- The counters declared with `STATISTIC`. -/
structure Statistics where
  NesCheckFunctionCounter : Nat
  ChecksConsidered : Nat
  ChecksAdded : Nat
  ChecksAlwaysTrue : Nat
  ChecksAlwaysFalse : Nat
  ChecksSkippedForSafe : Nat
  ChecksUnable : Nat
  FunctionSignaturesRewritten : Nat
  FunctionCallSitesRewritten : Nat
  MetadataTableLookups : Nat
  MetadataTableUpdates : Nat
  deriving DecidableEq, Repr

/-- All counters at zero. -/
def Statistics.zero : Statistics :=
  ⟨0, 0, 0, 0, 0, 0, 0, 0, 0, 0, 0⟩

namespace Statistics

/-- `++NesCheckFunctionCounter`. -/
def incNesCheckFunctionCounter (st : Statistics) : Statistics :=
  { st with NesCheckFunctionCounter := st.NesCheckFunctionCounter + 1 }

/-- `++ChecksConsidered`. -/
def incChecksConsidered (st : Statistics) : Statistics :=
  { st with ChecksConsidered := st.ChecksConsidered + 1 }

/-- `++ChecksAdded`. -/
def incChecksAdded (st : Statistics) : Statistics :=
  { st with ChecksAdded := st.ChecksAdded + 1 }

/-- `++ChecksAlwaysTrue`. -/
def incChecksAlwaysTrue (st : Statistics) : Statistics :=
  { st with ChecksAlwaysTrue := st.ChecksAlwaysTrue + 1 }

/-- `++ChecksAlwaysFalse`. -/
def incChecksAlwaysFalse (st : Statistics) : Statistics :=
  { st with ChecksAlwaysFalse := st.ChecksAlwaysFalse + 1 }

/-- `++ChecksSkippedForSafe`. -/
def incChecksSkippedForSafe (st : Statistics) : Statistics :=
  { st with ChecksSkippedForSafe := st.ChecksSkippedForSafe + 1 }

/-- `++ChecksUnable`. -/
def incChecksUnable (st : Statistics) : Statistics :=
  { st with ChecksUnable := st.ChecksUnable + 1 }

/-- `++FunctionSignaturesRewritten`. -/
def incFunctionSignaturesRewritten (st : Statistics) : Statistics :=
  { st with FunctionSignaturesRewritten := st.FunctionSignaturesRewritten + 1 }

/-- `++FunctionCallSitesRewritten`. -/
def incFunctionCallSitesRewritten (st : Statistics) : Statistics :=
  { st with FunctionCallSitesRewritten := st.FunctionCallSitesRewritten + 1 }

/-- `++MetadataTableLookups`. -/
def incMetadataTableLookups (st : Statistics) : Statistics :=
  { st with MetadataTableLookups := st.MetadataTableLookups + 1 }

/-- `++MetadataTableUpdates`. -/
def incMetadataTableUpdates (st : Statistics) : Statistics :=
  { st with MetadataTableUpdates := st.MetadataTableUpdates + 1 }

end Statistics

/-- Where the IR builder inserts. -/
inductive InsertPoint where
  | before (I : Value)
  | atEnd (bb : Ident)
  deriving DecidableEq, Repr

/-- `Builder->GetInsertPoint()` as an instruction: there is none at the end of a
block. -/
def InsertPoint.instruction : InsertPoint → Option Value
  | .before I => some I
  | .atEnd _ => none

/-- The members of `NesCheckPass`, the statistics, the insertion point of
`Builder`, the counter that numbers what the pass creates, and what is left of the
snapshot `instructionsToAnalyze` of `analyzeFunction`.  The snapshot holds
pointers, so an instruction in it whose operand is replaced is seen with the new
operand when its turn comes. -/
structure PassState where
  CurrentModule : Module
  TheState : AnalysisState
  isCurrentFunctionWhitelisted : Bool
  isCurrentFunctionWhitelistedForInstrumentation : Bool
  TrapBB : Option Ident
  WhitelistedFunctions : List String
  FunctionsAddedWithNewReturnType : List String
  FunctionsToRemove : List String
  MyPrintErrorLineFn : Option Value
  MyPrintCheckFn : Option Value
  setMetadataFunction : Option Value
  lookupMetadataFunction : Option Value
  UnknownSizeConstInt : Value
  stats : Statistics
  InsertPt : InsertPoint
  nextId : Nat
  instructionsToAnalyze : List Instruction

/-- Two-complement subtraction at the given width. -/
def wrapSub (bits a b : Nat) : Nat :=
  (a + 2 ^ bits - b % 2 ^ bits) % 2 ^ bits

/-- The signed reading of a number of the given width. -/
def toSigned (bits x : Nat) : Int :=
  if x % 2 ^ bits < 2 ^ (bits - 1) then (x % 2 ^ bits : Nat) else (x % 2 ^ bits : Nat) - 2 ^ bits

/-- What `icmp slt` computes at the given width. -/
def icmpSLT (bits a b : Nat) : Bool :=
  decide (toSigned bits a < toSigned bits b)

/-- `TargetFolder::CreateSub` / `CreateMul` on two constants. -/
def foldBinary (opc : BinOp) (L R : Value) : Value :=
  match L, R with
  | .ConstantInt bits x, .ConstantInt _ y =>
    match opc with
    | .Sub => .ConstantInt bits (wrapSub bits x y)
    | .Mul => ConstantInt.get bits (x * y)
  | _, _ => .FoldedBinary opc L R

/-- `TargetFolder::CreateICmp(ICMP_SLT, ..)` on two constants. -/
def foldICmpSLT (L R : Value) : Value :=
  match L, R with
  | .ConstantInt bits x, .ConstantInt _ y => .ConstantInt 1 (if icmpSLT bits x y then 1 else 0)
  | _, _ => .FoldedICmpSLT L R

/-- `TargetFolder::CreateCast` of a constant to the integer type of width `bits`
(zero extension or truncation of a `ConstantInt`, `ptrtoint` of the null pointer). -/
def foldCastToInt (bits : Nat) (V : Value) : Value :=
  match V with
  | .ConstantInt _ x => ConstantInt.get bits x
  | .ConstantPointerNull _ => ConstantInt.get bits 0
  | _ => .FoldedCast (.IntegerTy bits) V

namespace PassState

/-- The state after a counter update. -/
def count (ps : PassState) (f : Statistics → Statistics) : PassState :=
  { ps with stats := f ps.stats }

/-- The state with the module replaced by an edited one. -/
def setModule (ps : PassState) (M : Module) : PassState :=
  { ps with CurrentModule := M }

/-- `old->replaceAllUsesWith(new)`: in the module and, through the pointers of
the snapshot, in the instructions still to analyse. -/
def replaceAllUsesWith (ps : PassState) (old new : Value) : PassState :=
  { ps with
    CurrentModule := ps.CurrentModule.replaceAllUsesWith old new
    instructionsToAnalyze := ps.instructionsToAnalyze.map (Instruction.replaceUses old new) }

/-- The state with the abstract store replaced by an updated one. -/
def setState (ps : PassState) (s : AnalysisState) : PassState :=
  { ps with TheState := s }

/-- A new identifier for something the pass creates. -/
def fresh (ps : PassState) : PassState × Ident :=
  ({ ps with nextId := ps.nextId + 1 }, .made ps.nextId)

/-- `IRBuilder::Insert`: the instruction goes to the insertion point. -/
def Insert (ps : PassState) (I : Instruction) : PassState :=
  match ps.InsertPt with
  | .before anchor => ps.setModule (ps.CurrentModule.insertBefore anchor I)
  | .atEnd bb => ps.setModule (ps.CurrentModule.appendToBlock bb I)

/-- `Builder->CreateSub` / `Builder->CreateMul`: folded when both operands are
constants, an inserted instruction otherwise. -/
def CreateBinOp (ps : PassState) (opc : BinOp) (L R : Value) : PassState × Value :=
  if L.isConstant && R.isConstant then (ps, foldBinary opc L R)
  else
    (ps.fresh.1.Insert (.Other ps.fresh.2 (.BinaryOperator ps.fresh.2 opc L R) [L, R]),
      .BinaryOperator ps.fresh.2 opc L R)

/-- `Builder->CreateICmpSLT`. -/
def CreateICmpSLT (ps : PassState) (L R : Value) : PassState × Value :=
  if L.isConstant && R.isConstant then (ps, foldICmpSLT L R)
  else
    (ps.fresh.1.Insert (.Other ps.fresh.2 (.ICmpInst ps.fresh.2 L R) [L, R]),
      .ICmpInst ps.fresh.2 L R)

/-- `Builder->CreateIntCast(V, IntegerType of width bits, false)` and
`Builder->CreatePtrToInt(V, IntegerType of width bits)`. -/
def CreateCastToInt (ps : PassState) (bits : Nat) (V : Value) : PassState × Value :=
  if V.getType = .IntegerTy bits then (ps, V)
  else if V.isConstant then (ps, foldCastToInt bits V)
  else
    (ps.fresh.1.Insert (.Cast ps.fresh.2 false (.IntegerTy bits) V),
      .CastInst ps.fresh.2 (.IntegerTy bits) V)

/-- The call instruction `Builder->CreateCall(Fn, Args)` creates. -/
def callTo (id : Ident) (fn : Value) (Args : List Value) : Instruction :=
  .Call id fn.getFunctionType.getReturnType fn Args false 0

/-- `Builder->CreateCall(Fn, Args)`; a null `Fn` is not survived. -/
def CreateCall (ps : PassState) (Fn : Option Value) (Args : List Value) :
    Option (PassState × Value) :=
  match Fn with
  | none => none
  | some fn =>
    some (ps.fresh.1.Insert (callTo ps.fresh.2 fn Args), (callTo ps.fresh.2 fn Args).asValue)

end PassState

/-- `getLineNumberForInstruction`, stored in an `unsigned long`: `-1` wraps. -/
def getLineNumberForInstruction (env : Env) (I : Value) : Nat :=
  match env.getLineNumber I with
  | some ln => ln
  | none => 2 ^ 64 - 1

/-- `getOffsetForGEPInst`. -/
def getOffsetForGEPInst (env : Env) (ps : PassState) (GEPInstr : GetElementPtrInst) :
    PassState × Value :=
  match (env.ObjSizeEval GEPInstr.asValue).2 with
  | some off => (ps, off)
  | none =>
    match GEPInstr.ConstantOffset with
    | some Off => (ps, ConstantInt.get 64 Off)
    | none =>
      let typeStoreSize := env.getTypeStoreSize GEPInstr.getResultElementType
      let Idx := ps.CreateCastToInt 64 GEPInstr.lastIndexOperand
      let Size := ConstantInt.get 64 typeStoreSize
      Idx.1.CreateBinOp .Mul Idx.2 Size

/-- The state in which `getTrapBB` fills the new block `bb` of `Fn`: the block is
created, remembered in `TrapBB`, and the builder is set to its end. -/
def enterTrapBB (ps : PassState) (Fn : String) (bb : Ident) : PassState :=
  { ps with
    CurrentModule := ps.CurrentModule.createBlock Fn bb
    TrapBB := some bb
    InsertPt := .atEnd bb }

/-- The state with the insertion point of the builder set. -/
def PassState.SetInsertPoint (ps : PassState) (pt : InsertPoint) : PassState :=
  { ps with InsertPt := pt }

/-- `getTrapBB`. -/
def getTrapBB (env : Env) (ps : PassState) (CurrInst : Value) : Option (PassState × Ident) :=
  match ps.TrapBB with
  | some bb => some (ps, bb)
  | none => do
    let Fn ← ps.CurrentModule.getParentFunction CurrInst
    let Guard := ps.InsertPt
    let bb := ps.fresh.2
    let ps2 := enterTrapBB ps.fresh.1 Fn bb
    let linenum := ConstantInt.get 64 (getLineNumberForInstruction env CurrInst)
    let r3 ← ps2.CreateCall ps2.MyPrintErrorLineFn [linenum]
    let F := r3.1.CurrentModule.getTrapDeclaration
    let r4 ← (r3.1.setModule F.1).CreateCall (some F.2) []
    let ps6 := r4.1.fresh.1.Insert (.Unreachable r4.1.fresh.2)
    some (ps6.SetInsertPoint Guard, bb)

/-- The branch `BranchInst::Create` makes: on `Cmp`, or unconditional when `Cmp` is
null. -/
def trapBranch (id : Ident) (Cmp : Option Value) (trap Cont : Ident) : Instruction :=
  match Cmp with
  | some c => .CondBr id c trap Cont
  | none => .Br id trap

/-- The end of `instrumentGEP`, once the check is known to be emitted: count it,
split the block at the insertion point and branch to the trap block, on `Cmp` or
(`Cmp = none`, the null `Cmp` of the C++ code) unconditionally. -/
def instrumentGEP.emit (env : Env) (ps : PassState) (Cmp : Option Value) :
    Option (PassState × Bool) := do
  let ps1 := ps.count Statistics.incChecksAdded
  let ps2 ← if IS_DEBUGGING then (ps1.CreateCall ps1.MyPrintCheckFn []).map (·.1) else some ps1
  let I ← ps2.InsertPt.instruction
  let OldBB ← ps2.CurrentModule.getParent I
  let Cont := ps2.fresh.2
  let br := ps2.fresh.1.fresh.2
  let ps3 := ps2.fresh.1.fresh.1.setModule
    ((ps2.CurrentModule.splitBasicBlock I Cont br).eraseTerminator OldBB)
  let r ← getTrapBB env ps3 I
  let branch := trapBranch r.1.fresh.2 Cmp r.2 Cont
  some (r.1.fresh.1.setModule (r.1.CurrentModule.appendToBlock OldBB branch), true)

/-- The left-hand side of the comparison: folded by hand when the recorded size is
a `ConstantInt`, a `sub` of the builder otherwise. -/
def instrumentGEP.LHS (ps : PassState) (size : Value) (typeStoreSize : Nat) :
    PassState × Value :=
  match size.asConstantInt with
  | some C => (ps, ConstantInt.get IntPtrBits (wrapSub 64 C typeStoreSize))
  | none => ps.CreateBinOp .Sub size (ConstantInt.get IntPtrBits typeStoreSize)

/-- The part of `instrumentGEP` behind the lookup of the pointer: the comparison is
built and, according to what it folds to, elided or emitted. -/
def instrumentGEP.compare (env : Env) (ps : PassState) (GEPInstr : GetElementPtrInst)
    (varinfo : VariableInfo) : Option (PassState × Bool) :=
  let typeStoreSize := env.getTypeStoreSize GEPInstr.getResultElementType
  let Offset := getOffsetForGEPInst env ps GEPInstr
  let LHS := instrumentGEP.LHS Offset.1 varinfo.size typeStoreSize
  let Cmp := LHS.1.CreateICmpSLT LHS.2 Offset.2
  match Cmp.2.asConstantInt with
  | some C =>
    if C = 0 then
      if !IS_NAIVE then some (Cmp.1.count Statistics.incChecksAlwaysFalse, false)
      else instrumentGEP.emit env (Cmp.1.count Statistics.incChecksAlwaysFalse) (some Cmp.2)
    else
      instrumentGEP.emit env (Cmp.1.count Statistics.incChecksAlwaysTrue) none
  | none => instrumentGEP.emit env Cmp.1 (some Cmp.2)

/-- `instrumentGEP`.  The result is `none` when the C++ code dereferences a null
pointer. -/
def instrumentGEP (env : Env) (ps : PassState) (GEPInstr : GetElementPtrInst) :
    Option (PassState × Bool) :=
  if ps.isCurrentFunctionWhitelisted || ps.isCurrentFunctionWhitelistedForInstrumentation then
    some (ps, false)
  else if !GEPInstr.hasIndices then
    some ((ps.count Statistics.incChecksConsidered).count Statistics.incChecksUnable, false)
  else
    match ps.TheState.GetPointerVariableInfo env.uninit GEPInstr.PointerOperand with
    | none =>
      some ((ps.count Statistics.incChecksConsidered).count Statistics.incChecksUnable, false)
    | some varinfo =>
      if varinfo.classification = .Safe then
        some ((ps.count Statistics.incChecksConsidered).count
          Statistics.incChecksSkippedForSafe, false)
      else
        instrumentGEP.compare env (ps.count Statistics.incChecksConsidered) GEPInstr varinfo

/-! ### The signature transformer -/

/-- `needsRewritten`. -/
def needsRewritten (t : LType) : Bool :=
  t.isPointerTy && !t.isFunctionTy

/-- The loop of the whitelisted branch of `rewriteFunctionSignature`: every
argument that needs rewriting is registered with the size `UnknownSizeConstInt`. -/
def registerWhitelistedArgs (UnknownSizeConstInt : Value) :
    List Value → AnalysisState → AnalysisState
  | [], s => s
  | i :: rest, s =>
    if needsRewritten i.getType then
      registerWhitelistedArgs UnknownSizeConstInt rest
        ((s.RegisterVariable i).SetSizeForPointerVariable i (some UnknownSizeConstInt))
    else
      registerWhitelistedArgs UnknownSizeConstInt rest s

/-- The loop of `rewriteFunctionSignature` that walks the old arguments (their
types, `AI`), the new arguments (position `NAI`) and the extra arguments (position
`NNAI`) together and records, for every argument that needs rewriting, the extra
argument as its size and as its instantiated explicit size variable. -/
def bindSizeArguments (NF : Function) : List LType → Nat → Nat → AnalysisState → AnalysisState
  | [], _, _, s => s
  | AI :: rest, NAI, NNAI, s =>
    if needsRewritten AI then
      bindSizeArguments NF rest (NAI + 1) (NNAI + 1)
        ((((s.RegisterVariable (NF.getArg NAI)).SetSizeForPointerVariable (NF.getArg NAI)
            (some (NF.getArg NNAI))).SetExplicitSizeVariableForPointerVariable (NF.getArg NAI)
            (some (NF.getArg NNAI))).SetInstantiatedExplicitSizeVariable (NF.getArg NAI) true)
    else
      bindSizeArguments NF rest (NAI + 1) NNAI s

/-- The loop `I->replaceAllUsesWith(NI)` over the arguments of `F` and `NF`, from
position `k` on. -/
def replaceArguments (F NF : Function) : List LType → Nat → Module → Module
  | [], _, M => M
  | _ :: rest, k, M =>
    replaceArguments F NF rest (k + 1) (M.replaceAllUsesWith (F.getArg k) (NF.getArg k))

/-- The extra arguments `rewriteFunctionSignature` plans: one of type `MySizeType`,
named `<param>_size`, for every parameter that needs rewriting. -/
def newSizeArgs (F : Function) : List (String × LType) :=
  (F.Params.filter (fun p => needsRewritten p.2)).map (fun p => (p.1 ++ "_size", MySizeType))

/-- The new return type: the old one, or the struct of the old one and the size
type when the old one needs rewriting. -/
def newReturnType (F : Function) : LType :=
  if needsRewritten F.ReturnType then LType.structOf2 F.ReturnType MySizeType else F.ReturnType

/-- The function `rewriteFunctionSignature` creates for `F`, before the body is
spliced in. -/
def newFunction (F : Function) : Function :=
  { name := F.name ++ "_nesCheck"
    ReturnType := newReturnType F
    Params := F.Params ++ newSizeArgs F
    isVarArg := F.isVarArg
    blocks := [] }

/-- `NF` is inserted in front of `F` in the function list and takes the body of
`F`, which is left empty. -/
def spliceInto (M : Module) (F NF : Function) : Module :=
  { M with functions := M.functions.flatMap (fun G =>
      if G.name = F.name then [{ NF with blocks := G.blocks }, { G with blocks := [] }]
      else [G]) }

/-- `rewriteFunctionSignature`: the state after the call and the function it
returns. -/
def rewriteFunctionSignature (ps : PassState) (F : Function) : PassState × Function :=
  if ps.isCurrentFunctionWhitelisted then
    (ps.setState (registerWhitelistedArgs ps.UnknownSizeConstInt F.args ps.TheState), F)
  else
    let needsChanged := !(newSizeArgs F).isEmpty || needsRewritten F.ReturnType
    if !needsChanged then (ps, F)
    else
      let ps1 := ps.count Statistics.incFunctionSignaturesRewritten
      let NF := newFunction F
      let ps2 := ps1.setModule (spliceInto ps1.CurrentModule F NF)
      let ps3 := ps2.setState
        (bindSizeArguments NF (F.Params.map (·.2)) 0 F.Params.length ps2.TheState)
      let ps4 : PassState :=
        if needsRewritten F.ReturnType then
          { ps3 with FunctionsAddedWithNewReturnType :=
              ps3.FunctionsAddedWithNewReturnType ++ [NF.name] }
        else ps3
      let ps5 := ps4.setModule
        (replaceArguments F NF (F.Params.map (·.2)) 0 ps4.CurrentModule)
      ({ ps5 with FunctionsToRemove := ps5.FunctionsToRemove ++ [F.name] },
        { NF with blocks := ((ps5.CurrentModule.getFunction NF.name).map (·.blocks)).getD [] })

/-! ### Sizes and the metadata table calls -/

/-- The integer width of a type (zero for a type that is no integer type). -/
def LType.getIntegerBitWidth : LType → Nat
  | .IntegerTy bits => bits
  | _ => 0

/-- `isa<CallInst>(v) || isa<InvokeInst>(v)`. -/
def Value.isCallOrInvoke : Value → Bool
  | .CallInst _ _ _ => true
  | .InvokeInst _ _ _ => true
  | _ => false

/-- `isa<CallInst>(v)`. -/
def Value.isCallInst : Value → Bool
  | .CallInst _ _ _ => true
  | _ => false

/-- `isa<AllocaInst>(v)`. -/
def Value.isAllocaInst : Value → Bool
  | .AllocaInst _ _ => true
  | _ => false

/-- The manual sizing of `getSizeForValue`, used when the object-size evaluator
does not know the size. -/
def getSizeForValue.manual (env : Env) (ps : PassState) (v : Value) : PassState × Value :=
  let t := if v.getType.isPointerTy then v.getType.getElementType else v.getType
  match t with
  | .ArrayTy n elem =>
    let arraysize := ConstantInt.get 64 n
    let totalsize := ConstantInt.get 64 (env.getTypeAllocSize elem)
    let mul := ps.CreateBinOp .Mul totalsize arraysize
    mul.1.CreateCastToInt 64 mul.2
  | .FunctionTy _ _ _ => (ps, ConstantInt.get 64 8)
  | _ =>
    if v.isCallOrInvoke && v.getType.isPointerTy then (ps, ps.UnknownSizeConstInt)
    else if env.isSized t then (ps, ConstantInt.get 64 (env.getTypeAllocSize t))
    else (ps, ConstantInt.get 64 0)

/-- `getSizeForValue`. -/
def getSizeForValue (env : Env) (ps : PassState) (v : Value) : PassState × Value :=
  match (env.ObjSizeEval v).1 with
  | some size => (ps, size)
  | none => getSizeForValue.manual env ps v

namespace NesCheckPass

/-- `NesCheckPass::lookupMetadataTableEntry`.  The cast and the call are created
at the insertion point and moved behind `CurrInst`. -/
def lookupMetadataTableEntry (ps : PassState) (Ptr CurrInst : Value) :
    Option (PassState × Value) :=
  if ps.isCurrentFunctionWhitelistedForInstrumentation then
    some (ps.setState (ps.TheState.SetSizeForPointerVariable Ptr (some (ConstantInt.get 64 10000))),
      ConstantInt.get 64 10000)
  else if Ptr.getType = .IntegerTy 64 || Ptr.isConstant then none
  else
    match ps.lookupMetadataFunction with
    | none => none
    | some fn =>
      let ptrcast : Instruction := .Cast ps.fresh.2 false (.IntegerTy 64) Ptr
      let call := PassState.callTo ps.fresh.1.fresh.2 fn [ptrcast.asValue]
      let M := (ps.CurrentModule.insertAfter CurrInst ptrcast).insertAfter ptrcast.asValue call
      let ps1 := (ps.fresh.1.fresh.1.setModule M).count Statistics.incMetadataTableLookups
      some (ps1.setState ((ps1.TheState.SetSizeForPointerVariable Ptr
        (some call.asValue)).SetHasMetadataTableEntry Ptr), call.asValue)

/-- `NesCheckPass::setMetadataTableEntry`. -/
def setMetadataTableEntry (env : Env) (ps : PassState) (Ptr Size CurrInst : Value) :
    Option PassState :=
  if ps.isCurrentFunctionWhitelistedForInstrumentation then some ps
  else
    let P := ps.CreateCastToInt 64 Ptr
    let addr := ConstantInt.get 64 (env.addressOf CurrInst)
    match P.1.CreateCall P.1.setMetadataFunction [P.2, Size, addr] with
    | none => none
    | some r =>
      let ps1 := r.1.count Statistics.incMetadataTableUpdates
      some (ps1.setState (ps1.TheState.SetHasMetadataTableEntry Ptr))

end NesCheckPass

/-! ### The call-site rewriter -/

/-- The loop `while (!(varinfo = GetPointerVariableInfo(varr)) && isa<LoadInst>(varr))
varr = load->getPointerOperand()` of `rewriteCallSite`: the pointer found and the
value it was found at. -/
def walkBackLoads (s : AnalysisState) (uninit : VariableInfo) : Value → Option InfoPtr × Value
  | .LoadInst id ty ptr =>
    match s.GetPointerVariableInfoPtr uninit (.LoadInst id ty ptr) with
    | some info => (some info, .LoadInst id ty ptr)
    | none => walkBackLoads s uninit ptr
  | v => (s.GetPointerVariableInfoPtr uninit v, v)

/-- The size argument `rewriteCallSite` finds for the argument `arg`; `none`
when the C++ code reads `varinfo->size` through a null `varinfo`. -/
def sizeArgumentFor (env : Env) (ps : PassState) (arg : Value) : Option (PassState × Value) :=
  match walkBackLoads ps.TheState env.uninit arg with
  | (some info, _) => some (ps, (ps.TheState.deref info).size)
  | (none, varr) =>
    if varr.isConstant then
      let size := getSizeForValue env ps varr
      let s1 := size.1.TheState.SetSizeForPointerVariable varr (some size.2)
      some (size.1.setState s1, (s1.record varr).size)
    else none

/-- The first loop of `rewriteCallSite` over the fixed arguments: the size
arguments collected in `SpecificNewArgs`. -/
def collectSizeArguments (env : Env) : PassState → List Value → Option (PassState × List Value)
  | ps, [] => some (ps, [])
  | ps, arg :: rest =>
    if needsRewritten arg.getType then
      match sizeArgumentFor env ps arg with
      | none => none
      | some r =>
        match collectSizeArguments env r.1 rest with
        | none => none
        | some r1 => some (r1.1, r.2 :: r1.2)
    else collectSizeArguments env ps rest

/-- Lines 604 to 637 of `rewriteCallSite`: the argument list of the new call, for
the called value `cv` and the arguments `Args` of the old call.  The fixed
arguments come first, the size arguments found for them next, the variadic
arguments last. -/
def rewriteCallSite.buildArgs (env : Env) (ps : PassState) (cv : Value) (Args : List Value) :
    Option (PassState × List Value) :=
  match collectSizeArguments env ps (Args.take cv.getFunctionType.getNumParams) with
  | none => none
  | some r =>
    some (r.1, Args.take cv.getFunctionType.getNumParams ++ r.2
      ++ Args.drop cv.getFunctionType.getNumParams)

/-- The end of `rewriteCallSite` for a call that returned a pointer: the
aggregate the new call returns is split, the uses of the old call are given the
first field, and the second is recorded as its size. -/
def splitNewReturn (ps : PassState) (Call NewCall : Instruction) : PassState :=
  let OrigRet : Value :=
    .ExtractValueInst ps.fresh.2 Call.asValue.getType NewCall.asValue 0
  let NewRet : Value :=
    .ExtractValueInst ps.fresh.1.fresh.2 MySizeType NewCall.asValue 1
  let M := (ps.CurrentModule.insertBefore Call.asValue
      (.Other ps.fresh.2 OrigRet [NewCall.asValue])).insertBefore Call.asValue
      (.Other ps.fresh.1.fresh.2 NewRet [NewCall.asValue])
  ((ps.fresh.1.fresh.1.setModule M).replaceAllUsesWith Call.asValue OrigRet).setState
    ((ps.TheState.RegisterVariable OrigRet).SetSizeForPointerVariable OrigRet (some NewRet))

/-- Lines 639 to 678 of `rewriteCallSite`: `NewCall` is inserted in front of
`Call`, the uses of `Call` are redirected, and `Call` is erased. -/
def rewriteCallSite.replace (ps : PassState) (Call NewCall : Instruction) : PassState :=
  let ps2 := ps.fresh.1.setModule (ps.CurrentModule.insertBefore Call.asValue NewCall)
  let ps3 :=
    if needsRewritten Call.asValue.getType then splitNewReturn ps2 Call NewCall
    else ps2.replaceAllUsesWith Call.asValue NewCall.asValue
  ps3.setModule (ps3.CurrentModule.erase Call.asValue)

/-- The value `rewriteCallSite` gives the uses of the old call: the first field
split from the aggregate the new call returns when the old call returned a
pointer, the new call otherwise. -/
def rewriteCallSite.usesGiven (ps : PassState) (Call NewCall : Instruction) : Value :=
  if needsRewritten Call.asValue.getType then
    .ExtractValueInst ps.fresh.1.fresh.2 Call.asValue.getType NewCall.asValue 0
  else NewCall.asValue

/-- `rewriteCallSite`, for the call instructions the walker hands it (for an
`invoke` the operand range `op_begin() .. op_end() - 1` the C++ code copies holds
more than the arguments; the walker never passes one).  The result is `none`
when the C++ code dereferences a null pointer: no called function, no size record
for a pointer argument, no companion function in the module. -/
def rewriteCallSite (env : Env) (ps : PassState) (Call : Instruction) : Option PassState :=
  match Call with
  | .Call _ _ cv Args isTailCall CallingConv =>
    match cv.asFunctionName with
    | none => none
    | some calledF =>
      match rewriteCallSite.buildArgs env
          (ps.count Statistics.incFunctionCallSitesRewritten) cv Args with
      | none => none
      | some r =>
        match r.1.CurrentModule.getFunction (calledF ++ "_nesCheck") with
        | none => none
        | some NF =>
          some (rewriteCallSite.replace r.1 Call
            (.Call r.1.fresh.2 NF.ReturnType NF.asValue r.2 isTailCall CallingConv))
  | _ => none

/-! ### The instruction walker -/

/-- `countIndirections`. -/
def countIndirections : LType → Nat
  | .PointerTy elem => countIndirections elem + 1
  | _ => 0

/-- `unwrapPointer`. -/
def unwrapPointer : LType → LType
  | .PointerTy elem => unwrapPointer elem
  | t => t

/-- `GetPointerVariableInfo(v)`, followed, as the store and load cases do, by
`SetSizeForPointerVariable(v, getSizeForValue(v))` when nothing is found and `v`
is a constant. -/
def lookupOrSizeConstant (env : Env) (ps : PassState) (v : Value) :
    PassState × Option InfoPtr :=
  match ps.TheState.GetPointerVariableInfoPtr env.uninit v with
  | some info => (ps, some info)
  | none =>
    if v.isConstant then
      let size := getSizeForValue env ps v
      (size.1.setState (size.1.TheState.SetSizeForPointerVariable v (some size.2)),
        some (.stored v))
    else (ps, none)

/-- The alloca case of `processInstruction`. -/
def processAlloca (env : Env) (ps : PassState) (II : Value) (AllocatedType : LType)
    (ArraySize : Value) : PassState :=
  if AllocatedType.isPointerTy then ps.setState (ps.TheState.RegisterVariable II)
  else
    let totalsize := ConstantInt.get ArraySize.getType.getIntegerBitWidth
      (env.getTypeAllocSize AllocatedType)
    let mul := ps.CreateBinOp .Mul totalsize ArraySize
    let cast := mul.1.CreateCastToInt 64 mul.2
    cast.1.setState (cast.1.TheState.SetSizeForPointerVariable II (some cast.2))

/-- The loop of the `free` case: walking back through loads and bitcasts, the size
of every value reached is reset. -/
def freeWalk : Value → AnalysisState → AnalysisState
  | .LoadInst _ _ ptr, s => freeWalk ptr (s.SetSizeForPointerVariable ptr none)
  | .BitCastInst _ _ op, s => freeWalk op (s.SetSizeForPointerVariable op none)
  | _, s => s

/-- The first part of the call case of `processInstruction`: the size of the
result of `malloc` and `realloc`, the reset on `free`, `getSizeForValue` for any
other call that returns a pointer. -/
def processCall.size (env : Env) (ps : PassState) (II : Value) (cv : Value)
    (Args : List Value) : Option PassState :=
  let name := cv.asFunctionName
  let arg_size := cv.getFunctionType.getNumParams
  if name = some "malloc" && arg_size = 1 then
    (Args.get? 0).map (fun a => ps.setState (ps.TheState.SetSizeForPointerVariable II (some a)))
  else if name = some "realloc" && arg_size = 2 then
    (Args.get? 1).map (fun a => ps.setState (ps.TheState.SetSizeForPointerVariable II (some a)))
  else if name = some "free" && arg_size = 1 then
    (Args.get? 0).map (fun a =>
      ps.setState (freeWalk a (ps.TheState.SetSizeForPointerVariable a none)))
  else if II.getType.isPointerTy then
    let size := getSizeForValue env ps II
    some (size.1.setState (size.1.TheState.SetSizeForPointerVariable II (some size.2)))
  else some ps

/-- `CONTAINS(FunctionsToRemove, II->getCalledFunction())`. -/
def calleeToRemove (ps : PassState) (cv : Value) : Bool :=
  match cv.asFunctionName with
  | some name => ps.FunctionsToRemove.contains name
  | none => false

/-- The call case of `processInstruction`. -/
def processCall (env : Env) (ps : PassState) (I : Instruction) (cv : Value)
    (Args : List Value) : Option PassState :=
  match processCall.size env ps I.asValue cv Args with
  | none => none
  | some ps1 => if calleeToRemove ps1 cv then rewriteCallSite env ps1 I else some ps1

/-- The loop of the return case: `while (!(varinfo = GetPointerVariableInfo(varr)))`
stepping from a load to its pointer operand and from a cast to its operand. -/
def walkBackLoadsAndCasts (s : AnalysisState) (uninit : VariableInfo) :
    Value → Option InfoPtr
  | .LoadInst id ty ptr =>
    match s.GetPointerVariableInfoPtr uninit (.LoadInst id ty ptr) with
    | some info => some info
    | none => walkBackLoadsAndCasts s uninit ptr
  | .BitCastInst id ty op =>
    match s.GetPointerVariableInfoPtr uninit (.BitCastInst id ty op) with
    | some info => some info
    | none => walkBackLoadsAndCasts s uninit op
  | .CastInst id ty op =>
    match s.GetPointerVariableInfoPtr uninit (.CastInst id ty op) with
    | some info => some info
    | none => walkBackLoadsAndCasts s uninit op
  | v => s.GetPointerVariableInfoPtr uninit v

/-- The return case of `processInstruction`. -/
def processReturn (env : Env) (ps : PassState) (RI : Value) (Operand : Option Value) :
    Option PassState := do
  let Fn ← ps.CurrentModule.getParentFunction RI
  if ps.FunctionsAddedWithNewReturnType.contains Fn then
    let F ← ps.CurrentModule.getFunction Fn
    let op0 ← Operand
    let varinfo ← walkBackLoadsAndCasts ps.TheState env.uninit op0
    let CCC := (ps.TheState.deref varinfo).size
    let Return0 : Value := .ConstantAggregateZero F.ReturnType
    let Return1 : Value := .InsertValueInst ps.fresh.2 Return0 op0 0
    let Return2 : Value := .InsertValueInst ps.fresh.1.fresh.2 Return1 CCC 1
    let M := ((ps.CurrentModule.insertBefore RI
      (.Other ps.fresh.2 Return1 [Return0, op0])).insertBefore RI
      (.Other ps.fresh.1.fresh.2 Return2 [Return1, CCC])).setReturnOperand RI Return2
    some (ps.fresh.1.fresh.1.setModule M)
  else some ps

/-- The part of the store case for a pointer operand defined in another block:
the explicit size variable of `instr` is created in the block `B` of `instr` if
there is none yet, and the size carried by `varinfo` is stored to it. -/
def processStore.otherBlock (env : Env) (ps : PassState) (instr : Value) (B : Option Ident)
    (varinfo : Option InfoPtr) : Option PassState := do
  let varinfo2 ← ps.TheState.GetPointerVariableInfoPtr env.uninit instr
  let r : PassState × Option Value :=
    if !(ps.TheState.deref varinfo2).hasExplicitSizeVariable then
      let sizevaralloca : Instruction := .Alloca ps.fresh.2 MySizeType (.ConstantInt 32 1)
      let init : Instruction :=
        .Store ps.fresh.1.fresh.2 (ps.TheState.deref varinfo2).size sizevaralloca.asValue
      let M := match B with
        | some bb => (ps.CurrentModule.insertBeforeTerminator bb sizevaralloca
            ).insertBeforeTerminator bb init
        | none => ps.CurrentModule
      ((ps.fresh.1.fresh.1.setModule M).setState
        (ps.TheState.SetExplicitSizeVariableForPointerVariable instr
          (some sizevaralloca.asValue)), some sizevaralloca.asValue)
    else (ps, (ps.TheState.deref varinfo2).explicitSizeVariable)
  let sizevaralloca ← r.2
  let vi ← varinfo
  some (r.1.fresh.1.Insert
    (.Store r.1.fresh.2 (r.1.TheState.deref vi).size sizevaralloca))

/-- The store case of `processInstruction`. -/
def processStore (env : Env) (ps : PassState) (II : Value) (valoperand ptroperand : Value) :
    Option PassState :=
  if valoperand.getType.isPointerTy then
    let r := lookupOrSizeConstant env ps valoperand
    if ptroperand.isInstruction
        && decide (r.1.CurrentModule.getParent II ≠ r.1.CurrentModule.getParent ptroperand) then
      processStore.otherBlock env r.1 ptroperand (r.1.CurrentModule.getParent ptroperand) r.2
    else
      match r.2 with
      | none => none
      | some varinfo =>
        let s1 := r.1.TheState.ClassifyPointerVariable ptroperand
          (r.1.TheState.deref varinfo).classification
        let s2 := s1.SetSizeForPointerVariable ptroperand (some (s1.deref varinfo).size)
        if !ptroperand.isAllocaInst then
          NesCheckPass.setMetadataTableEntry env (r.1.setState s2) ptroperand
            (s2.deref varinfo).size II
        else some (r.1.setState s2)
  else some ps

/-- The load case of `processInstruction`. -/
def processLoad (env : Env) (ps : PassState) (II : Value) (ty : LType) (ptroperand : Value) :
    Option PassState :=
  if ty.isPointerTy then
    let r := lookupOrSizeConstant env ps ptroperand
    match r.2 with
    | none => none
    | some varinfo =>
      let vi := r.1.TheState.deref varinfo
      let r1 : Option PassState :=
        if vi.hasExplicitSizeVariable && (!vi.instantiatedExplicitSizeVariable ||
            (vi.size.isInstruction &&
              decide (r.1.CurrentModule.getParent vi.size ≠ r.1.CurrentModule.getParent II))) then
          match vi.explicitSizeVariable with
          | none => none
          | some slot =>
            let loadsize : Instruction := .Load r.1.fresh.2 slot.getType.getElementType slot
            let ps1 := r.1.fresh.1.Insert loadsize
            some (ps1.setState ((ps1.TheState.SetSizeForPointerVariable ptroperand
              (some loadsize.asValue)).SetInstantiatedExplicitSizeVariable ptroperand true))
        else some r.1
      match r1 with
      | none => none
      | some ps2 =>
        let s1 := ps2.TheState.ClassifyPointerVariable II
          (ps2.TheState.deref varinfo).classification
        some (ps2.setState (s1.SetSizeForPointerVariable II (some (s1.deref varinfo).size)))
  else some ps

/-- The part of the getelementptr case that sets the size of the result when its
element type is no pointer: the size of the base, less the offset unless all
indices are zero. -/
def processGEP.size (env : Env) (ps : PassState) (II : GetElementPtrInst) :
    Option PassState :=
  match ps.TheState.GetPointerVariableInfoPtr env.uninit II.PointerOperand with
  | none => none
  | some varinfo =>
    let otherSize : PassState × Value :=
      if !II.hasAllZeroIndices then
        let Offset := getOffsetForGEPInst env ps II
        Offset.1.CreateBinOp .Sub (ps.TheState.deref varinfo).size Offset.2
      else (ps, (ps.TheState.deref varinfo).size)
    some (otherSize.1.setState
      (otherSize.1.TheState.SetSizeForPointerVariable II.asValue (some otherSize.2)))

/-- The getelementptr case of `processInstruction`. -/
def processGEP (env : Env) (ps : PassState) (II : GetElementPtrInst) :
    Option (PassState × Bool) :=
  let s1 :=
    if !II.hasAllZeroIndices then ps.TheState.ClassifyPointerVariable II.PointerOperand .Seq
    else ps.TheState
  let ps1 := ps.setState (s1.RegisterVariable II.asValue)
  let r : Option PassState :=
    if II.getResultElementType.isPointerTy then
      (NesCheckPass.lookupMetadataTableEntry ps1 II.asValue II.asValue).map (·.1)
    else processGEP.size env ps1 II
  match r with
  | none => none
  | some ps2 => instrumentGEP env ps2 II

/-- The promotion to `Dyn` of the cast case, for a cast `II` of `op` that changes
the depth of indirection or the integer-ness of the innermost type.  For a call
result the condition `isa<BitCastInst>(II) && isa<ConstantInt>(varinfo->size) && ..`
reads `varinfo->size` only when `II` is a bitcast: a null `varinfo` is not
survived then, and is never read for any other cast. -/
def processCast.promote (env : Env) (ps : PassState) (II : Value) (isBitCast : Bool)
    (op : Value) (varinfo : Option InfoPtr) : Option PassState :=
  match op with
  | .LoadInst _ _ ptr => some (ps.setState (ps.TheState.ClassifyPointerVariable ptr .Dyn))
  | .CallInst _ _ _ =>
    let r : Option PassState :=
      if isBitCast then
        match varinfo with
        | none => none
        | some vi =>
          if (ps.TheState.deref vi).size.asConstantInt = some 1 then
            let size := getSizeForValue env ps II
            some (size.1.setState (size.1.TheState.SetSizeForPointerVariable op (some size.2)))
          else some ps
      else some ps
    r.map (fun ps1 => ps1.setState
      ((ps1.TheState.ClassifyPointerVariable op .Dyn).ClassifyPointerVariable II .Dyn))
  | _ => some ps

/-- The cast case of `processInstruction`. -/
def processCast (env : Env) (ps : PassState) (II : Value) (isBitCast : Bool) (dstT : LType)
    (op : Value) : Option PassState :=
  let srcT := op.getType
  if srcT.isPointerTy then
    let varinfo := ps.TheState.GetPointerVariableInfoPtr env.uninit op
    let r : Option PassState :=
      if countIndirections srcT ≠ countIndirections dstT
          || (unwrapPointer srcT).isIntegerTy != (unwrapPointer dstT).isIntegerTy then
        processCast.promote env ps II isBitCast op varinfo
      else some ps
    match r with
    | none => none
    | some ps1 =>
      match varinfo with
      | some vi =>
        some (ps1.setState
          (ps1.TheState.SetSizeForPointerVariable II (some (ps1.TheState.deref vi).size)))
      | none => some ps1
  else some ps

/-- `processInstruction`: the state after the instruction and the `changed` flag.
The result is `none` when the C++ code dereferences a null pointer. -/
def processInstruction (env : Env) (ps : PassState) (I : Instruction) :
    Option (PassState × Bool) :=
  match I with
  | .Alloca _ AllocatedType ArraySize =>
    some (processAlloca env ps I.asValue AllocatedType ArraySize, false)
  | .Call _ _ cv Args _ _ => (processCall env ps I cv Args).map (·, false)
  | .Return _ Operand => (processReturn env ps I.asValue Operand).map (·, false)
  | .Store _ valoperand ptroperand =>
    (processStore env ps I.asValue valoperand ptroperand).map (·, false)
  | .Load _ ty ptroperand => (processLoad env ps I.asValue ty ptroperand).map (·, false)
  | .GetElementPtr g => processGEP env ps g
  | .Cast _ isBitCast ty op => (processCast env ps I.asValue isBitCast ty op).map (·, false)
  | _ => some (ps, false)

/-! ### Whitelisting -/

/-- `StringRef::startswith`. -/
def startswith (s pre : String) : Bool := pre.data.isPrefixOf s.data

/-- `StringRef::endswith`. -/
def endswith (s suf : String) : Bool := suf.data.isSuffixOf s.data

/-- `StringRef::drop_back(n)`. -/
def drop_back (s : String) (n : Nat) : String := ⟨s.data.take (s.data.length - n)⟩

/-- `isWhitelisted`, on the name of the function. -/
def isWhitelisted (fname : String) : Bool :=
  startswith fname "sim_" || startswith fname "heap" || endswith fname "heap" ||
    startswith fname "hashtable_" || endswith fname "_hashtable"

/-- `isWhitelistedForInstrumentation`, on the name of the function. -/
def isWhitelistedForInstrumentation (WhitelistedFunctions : List String) (fname : String) :
    Bool :=
  isWhitelisted fname || WhitelistedFunctions.contains fname ||
    (endswith fname "_nesCheck" && WhitelistedFunctions.contains (drop_back fname 9))

/-! ### The driver -/

/-- The state in which the next instruction `I` of the snapshot is processed:
`I` is taken off the snapshot and `Builder->SetInsertPoint(I)` is done. -/
def nextInstruction (ps : PassState) (I : Instruction) (rest : List Instruction) : PassState :=
  { ps with instructionsToAnalyze := rest, InsertPt := .before I.asValue }

/-- The loop of `analyzeFunction` over the snapshot `instructionsToAnalyze`, which
has `n` entries when the loop starts. -/
def analyzeInstructions (env : Env) : Nat → PassState → Option PassState
  | 0, ps => some ps
  | n + 1, ps =>
    match ps.instructionsToAnalyze with
    | [] => some ps
    | I :: rest =>
      match processInstruction env (nextInstruction ps I rest) I with
      | none => none
      | some r => analyzeInstructions env n r.1

/-- The state `analyzeFunction` starts the walk of `Fn` in. -/
def enterFunction (ps : PassState) (Fn : Function) : PassState :=
  { ps with
    TheState := ps.TheState.RegisterFunction
    TrapBB := none
    instructionsToAnalyze := Fn.instructions }

/-- `analyzeFunction`, for the function of the module named `F`. -/
def analyzeFunction (env : Env) (ps : PassState) (F : String) : Option PassState :=
  match ps.CurrentModule.getFunction F with
  | none => none
  | some Fn => analyzeInstructions env Fn.instructions.length (enterFunction ps Fn)

/-- The names `runOnModule` skips: the functions of the runtime library. -/
def isNesCheckLibFunction (fname : String) : Bool :=
  fname = "printCheck" || fname = "printErrorLine" || fname = "printFaultInjectionExecuted" ||
    fname = "setMetadataTableEntry" || fname = "lookupMetadataTableEntry" ||
    fname = "findMetadataTableEntry"

/-- The state of the pass when `runOnModule` has set its members, before the
globals are registered. -/
def initialState (M : Module) : PassState :=
  { CurrentModule := M
    TheState := (AnalysisState.init 0).SetSizeType 64
    isCurrentFunctionWhitelisted := false
    isCurrentFunctionWhitelistedForInstrumentation := false
    TrapBB := none
    WhitelistedFunctions :=
      ["active_message_deliver", "arrangeKey", "fillInOutput", "is_empty", "makeNoiseModel",
       "makePmfDistr", "RandomInitialise", "RandomUniform"]
    FunctionsAddedWithNewReturnType := []
    FunctionsToRemove := []
    MyPrintErrorLineFn := (M.getFunction "printErrorLine").map Function.asValue
    MyPrintCheckFn := (M.getFunction "printCheck").map Function.asValue
    setMetadataFunction := (M.getFunction "setMetadataTableEntry").map Function.asValue
    lookupMetadataFunction := (M.getFunction "lookupMetadataTableEntry").map Function.asValue
    UnknownSizeConstInt := ConstantInt.get 64 10000000
    stats := Statistics.zero
    InsertPt := .atEnd (.input 0)
    nextId := 0
    instructionsToAnalyze := [] }

/-- The loop of `runOnModule` that registers the global variables. -/
def registerGlobals (env : Env) : List Value → PassState → PassState
  | [], ps => ps
  | gv :: rest, ps =>
    let ps1 := ps.setState (ps.TheState.RegisterVariable gv)
    if gv.getType.isPointerTy then
      let size := getSizeForValue env ps1 gv
      registerGlobals env rest
        (size.1.setState (size.1.TheState.SetSizeForPointerVariable gv (some size.2)))
    else registerGlobals env rest ps1

/-- The first loop of `runOnModule` over the functions: signatures are rewritten,
the functions to analyse are collected (by name), `changed` is accumulated. -/
def rewriteSignatures : List Function → PassState × List String × Bool →
    PassState × List String × Bool
  | [], acc => acc
  | F :: rest, (ps, FunctionsToAnalyze, changed) =>
    if F.isDeclaration || isNesCheckLibFunction F.name then
      rewriteSignatures rest (ps, FunctionsToAnalyze, changed)
    else
      let ps1 : PassState :=
        { ps.count Statistics.incNesCheckFunctionCounter with
          isCurrentFunctionWhitelisted := isWhitelisted F.name }
      let r := rewriteFunctionSignature ps1 F
      rewriteSignatures rest
        (r.1, FunctionsToAnalyze ++ [r.2.name], changed || decide (F.name ≠ r.2.name))

/-- The second loop of `runOnModule`: every collected function is analysed. -/
def analyzeFunctions (env : Env) : List String → PassState → Option PassState
  | [], ps => some ps
  | F :: rest, ps =>
    let ps1 : PassState :=
      { ps with
        isCurrentFunctionWhitelisted := isWhitelisted F
        isCurrentFunctionWhitelistedForInstrumentation :=
          isWhitelisted F || isWhitelistedForInstrumentation ps.WhitelistedFunctions F }
    match analyzeFunction env ps1 F with
    | none => none
    | some ps2 => analyzeFunctions env rest ps2

/-- The last loop of `runOnModule`: a function marked for removal is erased from
the module when it has no use left. -/
def removeOldFunctions : List String → Module → Module
  | [], M => M
  | F :: rest, M =>
    if M.getNumUses F > 0 then removeOldFunctions rest M
    else removeOldFunctions rest { M with functions := M.functions.filter (fun G => G.name ≠ F) }

/-- `runOnModule`: the state of the pass at the end and the value returned. -/
def runOnModule (env : Env) (M : Module) : Option (PassState × Bool) :=
  let ps0 := registerGlobals env M.globals (initialState M)
  let r := rewriteSignatures M.functions (ps0, [], false)
  match analyzeFunctions env r.2.1 r.1 with
  | none => none
  | some ps2 =>
    some (ps2.setModule (removeOldFunctions ps2.FunctionsToRemove ps2.CurrentModule), r.2.2)

/-- The six counters of `instrumentGEP` as left by the calls so far, put into the
state the next call is made in. -/
def carryCheckCounters (st : Statistics) (ps : PassState) : PassState :=
  ps.count (fun own => { own with
      ChecksConsidered := st.ChecksConsidered
      ChecksAdded := st.ChecksAdded
      ChecksAlwaysTrue := st.ChecksAlwaysTrue
      ChecksAlwaysFalse := st.ChecksAlwaysFalse
      ChecksSkippedForSafe := st.ChecksSkippedForSafe
      ChecksUnable := st.ChecksUnable })

/-- A sequence of `instrumentGEP` calls.  Between two calls the pass may change
anything but the six counters only `instrumentGEP` writes, so each call comes
with the state it is made in and the counters are carried from call to call. -/
def instrumentGEPs (env : Env) :
    List (PassState × GetElementPtrInst) → Statistics → Option Statistics
  | [], st => some st
  | (ps, g) :: rest, st =>
    match instrumentGEP env (carryCheckCounters st ps) g with
    | none => none
    | some (ps1, _) => instrumentGEPs env rest ps1.stats

/-! ### Call-site completeness: what is stated about the pass -/

/-- The called value names a function of the list `R`. -/
def calleeIn (R : List String) (cv : Value) : Bool :=
  match cv.asFunctionName with
  | some name => R.contains name
  | none => false

/-- The instruction is a call instruction that names a function of the list `R`. -/
def Instruction.namesOneOf (R : List String) : Instruction → Bool
  | .Call _ _ cv _ _ _ => calleeIn R cv
  | _ => false

/-- The names of the functions of the module, in the order of the function list. -/
def Module.names (M : Module) : List String := M.functions.map Function.name

/-- The suffix of the functions `rewriteFunctionSignature` creates. -/
def nesCheckSuffix : String := "_nesCheck"

/-- What the walk keeps true of the pass state while the deletion list is `R`:
the names on the list are names the pass may rewrite, the runtime functions the
pass calls are not on it, the functions of the module have different names, `n`
instructions are left in the snapshot, and a call instruction of the module that
names a function of `R` sits in a function `Q` holds of, or is still in the
snapshot, or is the instruction `o` being rewritten. -/
structure Good (R : List String) (Q : String → Prop) (o : Option Value) (n : Nat)
    (ps : PassState) : Prop where
  list : ps.FunctionsToRemove = R
  removed : ∀ x ∈ R,
    isNesCheckLibFunction x = false ∧ endswith x nesCheckSuffix = false ∧ x ≠ "llvm.trap"
  members : ∀ v ∈ [ps.MyPrintErrorLineFn, ps.MyPrintCheckFn, ps.setMetadataFunction,
      ps.lookupMetadataFunction], ∀ w, v = some w → calleeIn R w = false
  nodup : ps.CurrentModule.names.Nodup
  length : ps.instructionsToAnalyze.length = n
  calls : ∀ G ∈ ps.CurrentModule.functions, ∀ J ∈ G.instructions,
    J.namesOneOf R = true → Q G.name ∨ J ∈ ps.instructionsToAnalyze ∨ o = some J.asValue

/-- One step of the pass from `ps` to `qs` keeps what `Good` says. -/
def Keeps (ps qs : PassState) : Prop :=
  ∀ (R : List String) (Q : String → Prop) (o : Option Value) (n : Nat),
    Good R Q o n ps → Good R Q o n qs

/-- The module `N` is an edit of the module `M` that adds no call instruction
naming a function of `R` and keeps the names of the functions different. -/
def Module.Edits (R : List String) (M N : Module) : Prop :=
  (M.names.Nodup → N.names.Nodup) ∧
  ∀ G ∈ N.functions, ∀ J ∈ G.instructions, J.namesOneOf R = true →
    ∃ F ∈ M.functions, F.name = G.name ∧ J ∈ F.instructions

/-- What the first loop of `runOnModule` keeps true while the functions `rest`
are still to come and the names `FunctionsToAnalyze` have been collected: the
names on the deletion list are names the pass may rewrite, the runtime functions
the pass calls are runtime functions by name, the functions of the module have
different names and none has the name a function still to come would be rewritten
to, and a function of the module with a body is a runtime function, or collected,
or still to come. -/
structure Rewriting (rest : List Function) (ps : PassState)
    (FunctionsToAnalyze : List String) : Prop where
  removed : ∀ x ∈ ps.FunctionsToRemove,
    isNesCheckLibFunction x = false ∧ endswith x nesCheckSuffix = false ∧ x ≠ "llvm.trap"
  members : ∀ v ∈ [ps.MyPrintErrorLineFn, ps.MyPrintCheckFn, ps.setMetadataFunction,
      ps.lookupMetadataFunction], ∀ w, v = some w →
    ∀ name, w.asFunctionName = some name → isNesCheckLibFunction name = true
  nodup : ps.CurrentModule.names.Nodup
  pending : (rest.map Function.name).Nodup
  hygiene : ∀ F ∈ rest, endswith F.name nesCheckSuffix = false ∧
    (F.name = "llvm.trap" → F.isDeclaration = true)
  unused : ∀ F ∈ rest, F.name ++ nesCheckSuffix ∉ ps.CurrentModule.names
  bodies : ∀ G ∈ ps.CurrentModule.functions, G.blocks ≠ [] →
    isNesCheckLibFunction G.name = true ∨ G.name ∈ FunctionsToAnalyze ∨
      ∃ F ∈ rest, F.name = G.name ∧ F.blocks ≠ []
  snapshot : ps.instructionsToAnalyze = []

/-- The function named `Fn` of the module `M` holds an instruction `P` is true of. -/
def Module.hasIn (M : Module) (Fn : String) (P : Instruction → Prop) : Prop :=
  ∃ G ∈ M.functions, G.name = Fn ∧ ∃ J ∈ G.instructions, P J

/-! ### Whitelisting: what the specification says -/

/-- The text `sub` occurs somewhere in `s`. -/
def containsText (s sub : String) : Bool :=
  s.data.tails.any (fun t => sub.data.isPrefixOf t)

/-- The full whitelist in the words of the specification: the name starts with
`sim_` or `hashtable_`, contains `heap`, or ends with `_hashtable`. -/
def isWhitelisted_asSpecified (fname : String) : Bool :=
  startswith fname "sim_" || startswith fname "hashtable_" || containsText fname "heap" ||
    endswith fname "_hashtable"

/-! ### Walks over operand chains: what the specification says -/

/-- The values reached from `p` by stepping from a load to its address operand
and from a bitcast to its operand, `p` first; the walk ends at the first value
that is neither a load nor a bitcast. -/
def freeChain : Value → List Value
  | .LoadInst id ty ptr => .LoadInst id ty ptr :: freeChain ptr
  | .BitCastInst id ty op => .BitCastInst id ty op :: freeChain op
  | v => [v]

/-- The values reached from `v` by stepping from a load to its address operand
and from a cast to its operand, `v` first. -/
def returnChain : Value → List Value
  | .LoadInst id ty ptr => .LoadInst id ty ptr :: returnChain ptr
  | .BitCastInst id ty op => .BitCastInst id ty op :: returnChain op
  | .CastInst id ty op => .CastInst id ty op :: returnChain op
  | v => [v]

/-- The values reached from `v` by stepping from a load to its address operand,
`v` first: the walk of `rewriteCallSite` behind an argument. -/
def loadChain : Value → List Value
  | .LoadInst id ty ptr => .LoadInst id ty ptr :: loadChain ptr
  | v => [v]

/-- The function named `Fn` of the module `M` has the basic block `b`. -/
def Module.hasBlock (M : Module) (Fn : String) (b : BasicBlock) : Prop :=
  ∃ G ∈ M.functions, G.name = Fn ∧ b ∈ G.blocks

/-! ## Concrete inputs

A small module in the shape of `test/test.c`: `main` loads a pointer from a local
slot and indexes it. -/

namespace Demo

/-- `i32*`. -/
def i32p : LType := .PointerTy (.IntegerTy 32)

/-- A data layout in which every type the examples use takes `e` bytes, an
object-size evaluator that knows nothing, and line 7 for every instruction. -/
def env (e : Nat) : Env :=
  { getTypeAllocSize := fun _ => e
    getTypeStoreSize := fun _ => e
    isSized := fun _ => true
    ObjSizeEval := fun _ => (none, none)
    getLineNumber := fun _ => some 7
    addressOf := fun _ => 4096
    uninit := AnalysisState.freshInfo (AnalysisState.init 64) }

/-- The local slot `%a = alloca i32*`. -/
def slot : Value := .AllocaInst (.input 0) (.PointerTy i32p)

/-- `%p = load i32*, i32** %a`. -/
def p : Value := .LoadInst (.input 1) i32p slot

/-- `%q = getelementptr i32, i32* %p, i64 idx`, at the constant byte offset `off`. -/
def gep (idx off : Nat) : GetElementPtrInst :=
  { id := .input 2, ty := i32p, PointerOperand := p
    Indices := [.ConstantInt 64 idx], ConstantOffset := some off }

/-- The declaration of the runtime function `printErrorLine`. -/
def printErrorLine : Function :=
  { name := "printErrorLine", ReturnType := .VoidTy, Params := [("l", .IntegerTy 64)]
    isVarArg := false, blocks := [] }

/-- `main`: one block with the slot, the load, the `getelementptr` and a return. -/
def main (idx off : Nat) : Function :=
  { name := "main", ReturnType := .IntegerTy 32, Params := [], isVarArg := false
    blocks := [⟨.input 100,
      [ .Alloca (.input 0) i32p (.ConstantInt 32 1),
        .Load (.input 1) i32p slot,
        .GetElementPtr (gep idx off),
        .Return (.input 3) (some (.ConstantInt 32 0)) ]⟩] }

/-- The pass at the `getelementptr` of `main`, when `%p` is recorded with the
constant size `S` and the class `c`. -/
def ps (S idx off : Nat) (c : VariableStates) : PassState :=
  { CurrentModule := { globals := [], functions := [printErrorLine, main idx off] }
    TheState := ((AnalysisState.init 64).SetSizeForPointerVariable p
      (some (.ConstantInt 64 S))).ClassifyPointerVariable p c
    isCurrentFunctionWhitelisted := false
    isCurrentFunctionWhitelistedForInstrumentation := false
    TrapBB := none
    WhitelistedFunctions := []
    FunctionsAddedWithNewReturnType := []
    FunctionsToRemove := []
    MyPrintErrorLineFn := some printErrorLine.asValue
    MyPrintCheckFn := none
    setMetadataFunction := none
    lookupMetadataFunction := none
    UnknownSizeConstInt := .ConstantInt 64 10000000
    stats := Statistics.zero
    InsertPt := .before (gep idx off).asValue
    nextId := 0
    instructionsToAnalyze := [] }

/-! The module of `test/test_paper.c`, as far as `testMT_aux` and
`testMetadataTable` go, with declarations of the runtime functions. -/

/-- `i32`. -/
def i32 : LType := .IntegerTy 32

/-- `%struct.foo*`. -/
def fooP : LType := .PointerTy (.NamedStructTy 0)

/-- The global `myfoo`. -/
def myfoo : Value := .GlobalVariable "myfoo" fooP

/-- A data layout: 16 bytes for `struct foo`, 8 for a pointer, 4 for anything
else. -/
def layout : LType → Nat
  | .NamedStructTy _ => 16
  | .PointerTy _ => 8
  | _ => 4

/-- The answers of LLVM for the module of `test_paper.c`. -/
def paperEnv : Env :=
  { getTypeAllocSize := layout
    getTypeStoreSize := layout
    isSized := fun _ => true
    ObjSizeEval := fun _ => (none, none)
    getLineNumber := fun _ => some 18
    addressOf := fun _ => 4096
    uninit := AnalysisState.freshInfo (AnalysisState.init 64) }

/-- A declaration. -/
def declare (name : String) (ret : LType) (Params : List (String × LType)) : Function :=
  { name := name, ReturnType := ret, Params := Params, isVarArg := false, blocks := [] }

/-- `%n = alloca ty`, as a value. -/
def slotOf (n : Nat) (ty : LType) : Value := .AllocaInst (.input n) (.PointerTy ty)

/-- `%n = load ty, ty* ptr`, as a value. -/
def loaded (n : Nat) (ty : LType) (ptr : Value) : Value := .LoadInst (.input n) ty ptr

/-- `foo_t* testMT_aux(int* p) { foo_t* blurb = &myfoo; blurb->bar = p; return blurb; }` -/
def testMT_aux : Function :=
  { name := "testMT_aux", ReturnType := fooP, Params := [("p", i32p)], isVarArg := false
    blocks := [⟨.input 100,
      [ .Alloca (.input 0) i32p (.ConstantInt 32 1),
        .Alloca (.input 1) fooP (.ConstantInt 32 1),
        .Store (.input 2) (.Argument "testMT_aux" 0 i32p) (slotOf 0 i32p),
        .Store (.input 3) myfoo (slotOf 1 fooP),
        .Load (.input 4) i32p (slotOf 0 i32p),
        .Load (.input 5) fooP (slotOf 1 fooP),
        .GetElementPtr
          { id := .input 6, ty := .PointerTy i32p, PointerOperand := loaded 5 fooP (slotOf 1 fooP)
            Indices := [.ConstantInt 32 0, .ConstantInt 32 1], ConstantOffset := some 8 },
        .Store (.input 7) (loaded 4 i32p (slotOf 0 i32p))
          (.GetElementPtrInst (.input 6) (.PointerTy i32p) (loaded 5 fooP (slotOf 1 fooP))),
        .Load (.input 8) fooP (slotOf 1 fooP),
        .Return (.input 9) (some (loaded 8 fooP (slotOf 1 fooP))) ]⟩] }

/-- The call `testMT_aux(p)` in `testMetadataTable`. -/
def theCall : Instruction :=
  .Call (.input 14) fooP testMT_aux.asValue [loaded 13 i32p (slotOf 10 i32p)] false 0

/-- `bla->bar`, the address the second `getelementptr` of `testMetadataTable` is
based on. -/
def blaBar : Value :=
  .GetElementPtrInst (.input 17) (.PointerTy i32p) (loaded 16 fooP (slotOf 11 fooP))

/-- `void testMetadataTable(int* p) { foo_t* bla = testMT_aux(p); (bla->bar)[2] = 13; }` -/
def testMetadataTable : Function :=
  { name := "testMetadataTable", ReturnType := .VoidTy, Params := [("p", i32p)]
    isVarArg := false
    blocks := [⟨.input 101,
      [ .Alloca (.input 10) i32p (.ConstantInt 32 1),
        .Alloca (.input 11) fooP (.ConstantInt 32 1),
        .Store (.input 12) (.Argument "testMetadataTable" 0 i32p) (slotOf 10 i32p),
        .Load (.input 13) i32p (slotOf 10 i32p),
        theCall,
        .Store (.input 15) theCall.asValue (slotOf 11 fooP),
        .Load (.input 16) fooP (slotOf 11 fooP),
        .GetElementPtr
          { id := .input 17, ty := .PointerTy i32p, PointerOperand := loaded 16 fooP (slotOf 11 fooP)
            Indices := [.ConstantInt 32 0, .ConstantInt 32 1], ConstantOffset := some 8 },
        .Load (.input 18) i32p blaBar,
        .GetElementPtr
          { id := .input 19, ty := i32p, PointerOperand := loaded 18 i32p blaBar
            Indices := [.ConstantInt 64 2], ConstantOffset := some 8 },
        .Store (.input 20) (.ConstantInt 32 13)
          (.GetElementPtrInst (.input 19) i32p (loaded 18 i32p blaBar)),
        .Return (.input 21) none ]⟩] }

/-- The declarations of the runtime functions the pass looks up. -/
def runtimeDeclarations : List Function :=
  [ declare "printErrorLine" .VoidTy [("l", .IntegerTy 64)],
    declare "printCheck" .VoidTy [],
    declare "setMetadataTableEntry" .VoidTy
      [("p", .IntegerTy 64), ("size", .IntegerTy 64), ("addr", .IntegerTy 64)],
    declare "lookupMetadataTableEntry" (.IntegerTy 64) [("p", .IntegerTy 64)] ]

/-- The module. -/
def paper : Module :=
  { globals := [myfoo], functions := runtimeDeclarations ++ [testMT_aux, testMetadataTable] }

/-- The pass on `paper` when the signatures are rewritten and the walk is about
to start. -/
def paperRewritten : PassState :=
  (rewriteSignatures paper.functions
    (registerGlobals paperEnv paper.globals (initialState paper), [], false)).1

/-! A variadic function and a call of it, for the call-site rewriter. -/

/-- `i8*`. -/
def i8p : LType := .PointerTy (.IntegerTy 8)

/-- `void logf(char* fmt, ...) { }` -/
def logf : Function :=
  { name := "logf", ReturnType := .VoidTy, Params := [("fmt", i8p)], isVarArg := true
    blocks := [⟨.input 200, [.Return (.input 201) none]⟩] }

/-- The string constant passed as `fmt`. -/
def fmt : Value := .GlobalVariable "str" i8p

/-- A pointer passed among the variadic arguments. -/
def extra : Value := .AllocaInst (.input 210) i8p

/-- `call void (i8*, ...) @logf(i8* @str, i32 7, i8* %extra)`. -/
def logCall : Instruction :=
  .Call (.input 211) .VoidTy logf.asValue [fmt, .ConstantInt 32 7, extra] false 0

/-- `void caller() { char extra; logf(str, 7, &extra); }` -/
def caller : Function :=
  { name := "caller", ReturnType := .VoidTy, Params := [], isVarArg := false
    blocks := [⟨.input 202,
      [.Alloca (.input 210) (.IntegerTy 8) (.ConstantInt 32 1), logCall,
       .Return (.input 212) none]⟩] }

/-- The module of `logf` and `caller`. -/
def logModule : Module :=
  { globals := [fmt], functions := runtimeDeclarations ++ [logf, caller] }

/-- The pass on `logModule` when the signatures are rewritten. -/
def logRewritten : PassState :=
  (rewriteSignatures logModule.functions
    (registerGlobals paperEnv logModule.globals (initialState logModule), [], false)).1

/-! A module in which a function of the runtime library has a body that calls a
function with a pointer parameter. -/

/-- The call `logf(str, 7)` in `printCheck`. -/
def leftoverCall : Instruction :=
  .Call (.input 221) .VoidTy logf.asValue [fmt, .ConstantInt 32 7] false 0

/-- `void printCheck() { logf(str, 7); }` -/
def printCheck : Function :=
  { name := "printCheck", ReturnType := .VoidTy, Params := [], isVarArg := false
    blocks := [⟨.input 220, [leftoverCall, .Return (.input 222) none]⟩] }

/-- The module of `printCheck` and `logf`, with declarations of the other runtime
functions. -/
def leftover : Module :=
  { globals := [fmt]
    functions :=
      [ declare "printErrorLine" .VoidTy [("l", .IntegerTy 64)],
        printCheck,
        declare "setMetadataTableEntry" .VoidTy
          [("p", .IntegerTy 64), ("size", .IntegerTy 64), ("addr", .IntegerTy 64)],
        declare "lookupMetadataTableEntry" (.IntegerTy 64) [("p", .IntegerTy 64)],
        logf ] }

/-! A fully whitelisted function with a pointer parameter, and a call of `free`. -/

/-- `void sim_send(int* p) { }` -/
def sim_send : Function :=
  { name := "sim_send", ReturnType := .VoidTy, Params := [("p", i32p)], isVarArg := false
    blocks := [⟨.input 300, [.Return (.input 301) none]⟩] }

/-- The module of `sim_send`. -/
def simModule : Module :=
  { globals := [], functions := runtimeDeclarations ++ [sim_send] }

/-- The state in which the first loop of `runOnModule` calls
`rewriteFunctionSignature` for `sim_send`. -/
def simState : PassState :=
  { (initialState simModule).count Statistics.incNesCheckFunctionCounter with
    isCurrentFunctionWhitelisted := isWhitelisted sim_send.name }

/-- `declare void @free(i8*)`. -/
def free : Function := declare "free" .VoidTy [("ptr", i8p)]

/-- `%32 = bitcast i32* %31 to i8*` of `%31 = load i32*, i32** %30`. -/
def freed : Value := .BitCastInst (.input 32) i8p (loaded 31 i32p (slotOf 30 i32p))

/-- `call void @free(i8* %32)`. -/
def freeCall : Instruction := .Call (.input 33) .VoidTy free.asValue [freed] false 0

/-! The function `int* f(int* q) { return q + 1; }`. -/

/-- `%add.ptr = getelementptr inbounds i32, i32* %402, i64 1`, as a value. -/
def addPtr : Value := .GetElementPtrInst (.input 403) i32p (loaded 402 i32p (slotOf 400 i32p))

/-- `ret i32* %add.ptr`. -/
def retAddPtr : Instruction := .Return (.input 404) (some addPtr)

/-- `int* f(int* q) { return q + 1; }` -/
def f : Function :=
  { name := "f", ReturnType := i32p, Params := [("q", i32p)], isVarArg := false
    blocks := [⟨.input 410,
      [ .Alloca (.input 400) i32p (.ConstantInt 32 1),
        .Store (.input 401) (.Argument "f" 0 i32p) (slotOf 400 i32p),
        .Load (.input 402) i32p (slotOf 400 i32p),
        .GetElementPtr
          { id := .input 403, ty := i32p, PointerOperand := loaded 402 i32p (slotOf 400 i32p)
            Indices := [.ConstantInt 64 1], ConstantOffset := some 4 },
        retAddPtr ]⟩] }

/-- The module of `f`. -/
def fModule : Module :=
  { globals := [], functions := runtimeDeclarations ++ [f] }

/-- The pass on `fModule` when the second loop of `runOnModule` is about to
analyse `f_nesCheck`. -/
def fRewritten : PassState :=
  { (rewriteSignatures fModule.functions (initialState fModule, [], false)).1 with
    isCurrentFunctionWhitelisted := isWhitelisted "f_nesCheck"
    isCurrentFunctionWhitelistedForInstrumentation :=
      isWhitelisted "f_nesCheck" ||
        isWhitelistedForInstrumentation (initialState fModule).WhitelistedFunctions "f_nesCheck" }

/-- The pass when the walk of `f_nesCheck` has reached the return instruction:
the four instructions in front of it are processed, the return instruction is
taken off the snapshot and the builder is set in front of it. -/
def beforeReturn : Option PassState :=
  ((fRewritten.CurrentModule.getFunction "f_nesCheck").bind (fun Fn =>
    analyzeInstructions paperEnv 4 (enterFunction fRewritten Fn))).map (fun ps =>
      nextInstruction ps retAddPtr [])

/-! Inputs for the claims on the whole pipeline. -/

/-- `void sim(int* p) { }`: the name is not whitelisted, the name of the function
it is rewritten to is. -/
def sim : Function :=
  { name := "sim", ReturnType := .VoidTy, Params := [("p", i32p)], isVarArg := false
    blocks := [⟨.input 500, [.Return (.input 501) none]⟩] }

/-- The module of `sim`. -/
def simOnly : Module :=
  { globals := [], functions := runtimeDeclarations ++ [sim] }

/-- The global `@.str = constant [4 x i8] c"abc\00"`. -/
def str : Value := .GlobalVariable ".str" (.PointerTy (.ArrayTy 4 (.IntegerTy 8)))

/-- The constant expression `getelementptr ([4 x i8], [4 x i8]* @.str, i32 0, i32 0)`. -/
def strDecay : Value := .ConstantExpr 0 i8p

/-- `ret i8* getelementptr (...)`. -/
def retStr : Instruction := .Return (.input 601) (some strDecay)

/-- `char* name(void) { return "abc"; }` -/
def name : Function :=
  { name := "name", ReturnType := i8p, Params := [], isVarArg := false
    blocks := [⟨.input 600, [retStr]⟩] }

/-- The module of `name`. -/
def nameModule : Module :=
  { globals := [str], functions := runtimeDeclarations ++ [name] }

/-- The pass on `nameModule` when the second loop of `runOnModule` has entered
`name_nesCheck` and the return instruction is taken off the snapshot. -/
def atReturnOfName : Option PassState :=
  (((rewriteSignatures nameModule.functions
      (registerGlobals paperEnv nameModule.globals (initialState nameModule), [], false)
    ).1.CurrentModule.getFunction "name_nesCheck").map (fun Fn =>
      nextInstruction (enterFunction
        (rewriteSignatures nameModule.functions
          (registerGlobals paperEnv nameModule.globals (initialState nameModule), [], false)).1
        Fn) retStr []))

/-! `int main(void) { int* a = malloc(n); return a[i]; }`, in the shape of
`test/test.c`. -/

/-- `declare i8* @malloc(i64)`. -/
def malloc : Function := declare "malloc" i8p [("size", .IntegerTy 64)]

/-- `%call = call i8* @malloc(i64 n)`. -/
def mallocCall (n : Nat) : Instruction :=
  .Call (.input 701) i8p malloc.asValue [.ConstantInt 64 n] false 0

/-- The result `%call`. -/
def mallocResult : Value := .CallInst (.input 701) i8p (some "malloc")

/-- `%0 = bitcast i8* %call to i32*`. -/
def heapCast : Instruction := .Cast (.input 702) true i32p mallocResult

/-- `store i32* %0, i32** %a`. -/
def heapStore : Instruction :=
  .Store (.input 703) (.BitCastInst (.input 702) i32p mallocResult) (slotOf 700 i32p)

/-- `%1 = load i32*, i32** %a`. -/
def heapLoad : Instruction := .Load (.input 704) i32p (slotOf 700 i32p)

/-- `%arrayidx = getelementptr i32, i32* %1, i64 i`. -/
def heapGEP (i : Nat) : GetElementPtrInst :=
  { id := .input 705, ty := i32p, PointerOperand := loaded 704 i32p (slotOf 700 i32p)
    Indices := [.ConstantInt 64 i], ConstantOffset := some (i * 4) }

/-- The instructions of `main` behind the `alloca`. -/
def heapBody (n i : Nat) : List Instruction :=
  [ mallocCall n, heapCast, heapStore, heapLoad, .GetElementPtr (heapGEP i),
    .Load (.input 706) i32 (heapGEP i).asValue,
    .Return (.input 707) (some (loaded 706 i32 (heapGEP i).asValue)) ]

/-- `main`. -/
def heapMain (n i : Nat) : Function :=
  { name := "main", ReturnType := i32, Params := [], isVarArg := false
    blocks := [⟨.input 710, .Alloca (.input 700) i32p (.ConstantInt 32 1) :: heapBody n i⟩] }

/-- The module of `main`. -/
def heapModule (n i : Nat) : Module :=
  { globals := [], functions := runtimeDeclarations ++ [malloc, heapMain n i] }

/-! `int main(void) { int* a = malloc(8); (foo_t*) a; return 0; }` -/

/-- `%2 = bitcast i32* %1 to %struct.foo*`, of the loaded `%1`. -/
def castOfLoad : Instruction := .Cast (.input 720) true fooP heapLoad.asValue

/-- `main`. -/
def castMain : Function :=
  { name := "main", ReturnType := i32, Params := [], isVarArg := false
    blocks := [⟨.input 710,
      [ .Alloca (.input 700) i32p (.ConstantInt 32 1), mallocCall 8, heapCast, heapStore,
        heapLoad, castOfLoad, .Return (.input 721) (some (.ConstantInt 32 0)) ]⟩] }

/-- The module of `main`. -/
def castModule : Module :=
  { globals := [], functions := runtimeDeclarations ++ [malloc, castMain] }

/-! `void h(bool c)` with a pointer `q` loaded in the entry block and stored
through in another block:
`entry: %qq = alloca i32**; %x = alloca i32; %q = load i32**, i32*** %qq; br i1 %c, then, end`,
`then: store i32* %x, i32** %q; br end`, `end: ret void`. -/

/-- The loaded pointer `%q`. -/
def q : Value := loaded 803 (.PointerTy i32p) (slotOf 801 (.PointerTy i32p))

/-- `store i32* %x, i32** %q`. -/
def storeThroughQ : Instruction := .Store (.input 811) (slotOf 802 i32) q

/-- The function `h`. -/
def h : Function :=
  { name := "h", ReturnType := .VoidTy, Params := [("c", .IntegerTy 1)], isVarArg := false
    blocks :=
      [ ⟨.input 800,
          [ .Alloca (.input 801) (.PointerTy i32p) (.ConstantInt 32 1),
            .Alloca (.input 802) i32 (.ConstantInt 32 1),
            .Load (.input 803) (.PointerTy i32p) (slotOf 801 (.PointerTy i32p)),
            .CondBr (.input 804) (.Argument "h" 0 (.IntegerTy 1)) (.input 810) (.input 820) ]⟩,
        ⟨.input 810, [storeThroughQ, .Br (.input 812) (.input 820)]⟩,
        ⟨.input 820, [.Return (.input 821) none]⟩ ] }

/-- The module of `h`. -/
def hModule : Module :=
  { globals := [], functions := runtimeDeclarations ++ [h] }

/-- `blurb->bar`, the address the store of `testMT_aux` writes to. -/
def blurbBar : Value :=
  .GetElementPtrInst (.input 6) (.PointerTy i32p) (loaded 5 fooP (slotOf 1 fooP))

/-- `store i32* %4, i32** %6`: the store `blurb->bar = p` of `testMT_aux`. -/
def storeBar : Instruction := .Store (.input 7) (loaded 4 i32p (slotOf 0 i32p)) blurbBar

/-- The pass when the walk of `testMT_aux_nesCheck` has reached the store
`blurb->bar = p`: the seven instructions in front of it are processed, the store
is taken off the snapshot and the builder is set in front of it. -/
def beforeStore : Option PassState :=
  ((paperRewritten.CurrentModule.getFunction "testMT_aux_nesCheck").bind (fun Fn =>
    analyzeInstructions paperEnv 7 (enterFunction paperRewritten Fn))).map (fun ps =>
      nextInstruction ps storeBar ps.instructionsToAnalyze.tail)

/-- The pass on `heapModule n i` when the walk of `main` has processed the
`alloca`: the instructions behind it are left in the snapshot. -/
def heapStart (n i : Nat) : PassState :=
  processAlloca paperEnv
    (nextInstruction
      (enterFunction
        (rewriteSignatures (heapModule n i).functions (initialState (heapModule n i), [], false)).1
        (heapMain n i))
      (.Alloca (.input 700) i32p (.ConstantInt 32 1)) (heapBody n i))
    (slotOf 700 i32p) i32p (.ConstantInt 32 1)

/-! `int main(void) { foo_t* a = malloc(32); a[1]; return 0; }`: the cast of the
result of `malloc` toggles the integer-ness of the innermost type. -/

/-- `%0 = bitcast i8* %call to %struct.foo*`. -/
def structCast : Instruction := .Cast (.input 702) true fooP mallocResult

/-- `%1 = load %struct.foo*, %struct.foo** %a`. -/
def structLoad : Value := loaded 704 fooP (slotOf 700 fooP)

/-- `%arrayidx = getelementptr %struct.foo, %struct.foo* %1, i64 1`. -/
def structGEP : GetElementPtrInst :=
  { id := .input 705, ty := fooP, PointerOperand := structLoad
    Indices := [.ConstantInt 64 1], ConstantOffset := some 16 }

/-- `main`. -/
def structMain : Function :=
  { name := "main", ReturnType := i32, Params := [], isVarArg := false
    blocks := [⟨.input 710,
      [ .Alloca (.input 700) fooP (.ConstantInt 32 1), mallocCall 32, structCast,
        .Store (.input 703) structCast.asValue (slotOf 700 fooP),
        .Load (.input 704) fooP (slotOf 700 fooP), .GetElementPtr structGEP,
        .Return (.input 707) (some (.ConstantInt 32 0)) ]⟩] }

/-- The module of `main`. -/
def structModule : Module :=
  { globals := [], functions := runtimeDeclarations ++ [malloc, structMain] }

end Demo

/-! # Theorems -/

/-! ## The abstract state store -/

namespace AnalysisState

@[simp] theorem assign_same (s : AnalysisState) (v : Value) (i : VariableInfo) :
    (s.assign v i).Variables v = some i := by
  simp [assign]

theorem assign_other (s : AnalysisState) (v w : Value) (i : VariableInfo) (h : w ≠ v) :
    (s.assign v i).Variables w = s.Variables w := by
  simp [assign, h]

@[simp] theorem assign_sizetype (s : AnalysisState) (v : Value) (i : VariableInfo) :
    (s.assign v i).sizetype = s.sizetype := rfl

@[simp] theorem RegisterVariable_sizetype (s : AnalysisState) (v : Value) :
    (s.RegisterVariable v).sizetype = s.sizetype := by
  unfold RegisterVariable; split <;> rfl

theorem RegisterVariable_same (s : AnalysisState) (v : Value) :
    (s.RegisterVariable v).Variables v = some (s.record v) := by
  unfold RegisterVariable record count
  cases h : s.Variables v <;> simp [h, assign]

theorem RegisterVariable_other (s : AnalysisState) (v w : Value) (h : w ≠ v) :
    (s.RegisterVariable v).Variables w = s.Variables w := by
  unfold RegisterVariable
  split
  · rfl
  · exact assign_other s v w _ h

theorem RegisterVariable_record (s : AnalysisState) (v : Value) :
    (s.RegisterVariable v).record v = s.record v := by
  simp [record, RegisterVariable_same]

theorem RegisterVariable_tracked (s : AnalysisState) (v : Value) (i : VariableInfo)
    (h : s.Variables v = some i) : s.RegisterVariable v = s := by
  simp [RegisterVariable, count, h]

theorem ClassifyPointerVariable_same (s : AnalysisState) (v : Value) (c : VariableStates) :
    (s.ClassifyPointerVariable v c).Variables v =
      some (if (s.record v).classification.toInt < c.toInt
        then { s.record v with classification := c } else s.record v) := by
  unfold ClassifyPointerVariable
  simp only [RegisterVariable_record]
  split
  · simp
  · exact RegisterVariable_same s v

theorem ClassifyPointerVariable_other (s : AnalysisState) (v w : Value) (c : VariableStates)
    (h : w ≠ v) : (s.ClassifyPointerVariable v c).Variables w = s.Variables w := by
  unfold ClassifyPointerVariable
  simp only []
  split
  · rw [assign_other _ _ _ _ h, RegisterVariable_other _ _ _ h]
  · exact RegisterVariable_other _ _ _ h

theorem classOf_eq_record (s : AnalysisState) (v : Value) :
    s.classOf v = (s.record v).classification := by
  unfold classOf record
  cases s.Variables v <;> rfl

theorem classOf_ClassifyPointerVariable (s : AnalysisState) (v : Value) (c : VariableStates) :
    ((s.ClassifyPointerVariable v c).classOf v).toInt = max (s.classOf v).toInt c.toInt := by
  rw [classOf_eq_record s v, classOf, ClassifyPointerVariable_same]
  by_cases h : (s.record v).classification.toInt < c.toInt
  · simp [h, max_eq_right (le_of_lt h)]
  · simp [h, max_eq_left (not_lt.mp h)]

theorem ClassifyPointerVariable_tracked (s : AnalysisState) (v : Value) (c : VariableStates) :
    ((s.ClassifyPointerVariable v c).Variables v).isSome = true := by
  rw [ClassifyPointerVariable_same]; rfl

theorem foldl_Classify_tracked (v : Value) (cs : List VariableStates) (s : AnalysisState)
    (h : (s.Variables v).isSome = true) :
    ((cs.foldl (fun st c => st.ClassifyPointerVariable v c) s).Variables v).isSome = true := by
  induction cs generalizing s with
  | nil => exact h
  | cons c rest ih => exact ih _ (ClassifyPointerVariable_tracked s v c)

theorem SetSizeForPointerVariable_same (s : AnalysisState) (v : Value) (size : Option Value) :
    (s.SetSizeForPointerVariable v size).Variables v =
      some { s.record v with size := size.getD (ConstantInt.get s.sizetype 0) } := by
  unfold SetSizeForPointerVariable
  cases size <;> simp [RegisterVariable_record]

theorem SetSizeForPointerVariable_other (s : AnalysisState) (v w : Value)
    (size : Option Value) (h : w ≠ v) :
    (s.SetSizeForPointerVariable v size).Variables w = s.Variables w := by
  unfold SetSizeForPointerVariable
  cases size <;> simp only [] <;>
    rw [assign_other _ _ _ _ h, RegisterVariable_other _ _ _ h]

@[simp] theorem SetSizeForPointerVariable_sizetype (s : AnalysisState) (v : Value)
    (size : Option Value) : (s.SetSizeForPointerVariable v size).sizetype = s.sizetype := by
  unfold SetSizeForPointerVariable
  cases size <;> simp

theorem SetExplicitSizeVariableForPointerVariable_same (s : AnalysisState) (v : Value)
    (e : Option Value) :
    (s.SetExplicitSizeVariableForPointerVariable v e).Variables v =
      some { s.record v with hasExplicitSizeVariable := e.isSome, explicitSizeVariable := e } := by
  unfold SetExplicitSizeVariableForPointerVariable
  simp [RegisterVariable_record]

theorem SetExplicitSizeVariableForPointerVariable_other (s : AnalysisState) (v w : Value)
    (e : Option Value) (h : w ≠ v) :
    (s.SetExplicitSizeVariableForPointerVariable v e).Variables w = s.Variables w := by
  unfold SetExplicitSizeVariableForPointerVariable
  simp only []
  rw [assign_other _ _ _ _ h, RegisterVariable_other _ _ _ h]

@[simp] theorem SetExplicitSizeVariableForPointerVariable_sizetype (s : AnalysisState)
    (v : Value) (e : Option Value) :
    (s.SetExplicitSizeVariableForPointerVariable v e).sizetype = s.sizetype := by
  unfold SetExplicitSizeVariableForPointerVariable
  simp

theorem SetInstantiatedExplicitSizeVariable_same (s : AnalysisState) (v : Value) (b : Bool) :
    (s.SetInstantiatedExplicitSizeVariable v b).Variables v =
      some { s.record v with instantiatedExplicitSizeVariable := b } := by
  unfold SetInstantiatedExplicitSizeVariable
  simp [RegisterVariable_record]

theorem SetInstantiatedExplicitSizeVariable_other (s : AnalysisState) (v w : Value)
    (b : Bool) (h : w ≠ v) :
    (s.SetInstantiatedExplicitSizeVariable v b).Variables w = s.Variables w := by
  unfold SetInstantiatedExplicitSizeVariable
  simp only []
  rw [assign_other _ _ _ _ h, RegisterVariable_other _ _ _ h]

theorem record_of_some (s : AnalysisState) (v : Value) (i : VariableInfo)
    (h : s.Variables v = some i) : s.record v = i := by
  simp [record, h]

end AnalysisState

/-- C1. Monotone classification: after `ClassifyPointerVariable(v, c_1)`, ...,
`ClassifyPointerVariable(v, c_n)` the class recorded for `v` is the maximum of the
class `v` had before (`Safe` when it was not tracked) and of `c_1 .. c_n`, in the
order of the enumerators `Unknown = -1 < Safe = 0 < Seq = 1 < Dyn = 2`; and after at
least one call `v` is tracked. -/
theorem C1_classify_sequence_is_max (s : AnalysisState) (v : Value)
    (cs : List VariableStates) :
    ((cs.foldl (fun st c => st.ClassifyPointerVariable v c) s).classOf v).toInt
        = cs.foldl (fun m c => max m c.toInt) (s.classOf v).toInt
      ∧ (cs = [] ∨
          ((cs.foldl (fun st c => st.ClassifyPointerVariable v c) s).Variables v).isSome
            = true) := by
  constructor
  · induction cs generalizing s with
    | nil => rfl
    | cons c rest ih =>
      simp only [List.foldl_cons]
      rw [ih, AnalysisState.classOf_ClassifyPointerVariable]
  · cases cs with
    | nil => exact Or.inl rfl
    | cons c rest =>
      exact Or.inr (AnalysisState.foldl_Classify_tracked v rest _
        (AnalysisState.ClassifyPointerVariable_tracked s v c))

/-- One step of C2 for the setters that leave the class alone. -/
theorem AnalysisState.assign_Register_keeps (s : AnalysisState) (v w : Value)
    (f : VariableInfo → VariableInfo) (hf : ∀ i, (f i).classification = i.classification)
    (info : VariableInfo) (h : s.Variables w = some info) :
    ∃ i, ((s.RegisterVariable v).assign v (f ((s.RegisterVariable v).record v))).Variables w
        = some i ∧ info.classification.toInt ≤ i.classification.toInt := by
  by_cases hw : w = v
  · subst hw
    refine ⟨_, AnalysisState.assign_same _ _ _, ?_⟩
    rw [hf, AnalysisState.RegisterVariable_record]
    simp [AnalysisState.record, h]
  · refine ⟨info, ?_, le_refl _⟩
    rw [AnalysisState.assign_other _ _ _ _ hw, AnalysisState.RegisterVariable_other _ _ _ hw, h]

/-- C2. Records are never demoted or deleted: for every operation of the store and
every value that is tracked before the operation, the value is still tracked after
it and its class is not lower than before. -/
theorem C2_records_never_demoted_or_deleted (op : AnalysisState.Op) (s : AnalysisState)
    (w : Value) (info : VariableInfo) (h : s.Variables w = some info) :
    ∃ i, (op.run s).Variables w = some i
      ∧ info.classification.toInt ≤ i.classification.toInt := by
  cases op with
  | RegisterVariable v =>
    refine ⟨info, ?_, le_refl _⟩
    by_cases hw : w = v
    · subst hw
      simp [AnalysisState.Op.run, AnalysisState.RegisterVariable_tracked s w info h, h]
    · simp [AnalysisState.Op.run, AnalysisState.RegisterVariable_other _ _ _ hw, h]
  | ClassifyPointerVariable v c =>
    by_cases hw : w = v
    · subst hw
      simp only [AnalysisState.Op.run, AnalysisState.ClassifyPointerVariable_same]
      have hr : s.record w = info := by simp [AnalysisState.record, h]
      rw [hr]
      by_cases hc : info.classification.toInt < c.toInt
      · exact ⟨_, by rw [if_pos hc], le_of_lt hc⟩
      · exact ⟨_, by rw [if_neg hc], le_refl _⟩
    · exact ⟨info, by
        simp [AnalysisState.Op.run, AnalysisState.ClassifyPointerVariable_other _ _ _ _ hw, h],
        le_refl _⟩
  | SetSizeForPointerVariable v size =>
    cases size with
    | none =>
      exact AnalysisState.assign_Register_keeps s v w
        (fun i => { i with size := ConstantInt.get s.sizetype 0 }) (fun _ => rfl) info h
    | some sz =>
      exact AnalysisState.assign_Register_keeps s v w
        (fun i => { i with size := sz }) (fun _ => rfl) info h
  | SetExplicitSizeVariableForPointerVariable v e =>
    exact AnalysisState.assign_Register_keeps s v w
      (fun i => { i with hasExplicitSizeVariable := e.isSome, explicitSizeVariable := e })
      (fun _ => rfl) info h
  | SetInstantiatedExplicitSizeVariable v b =>
    exact AnalysisState.assign_Register_keeps s v w
      (fun i => { i with instantiatedExplicitSizeVariable := b }) (fun _ => rfl) info h
  | SetHasMetadataTableEntry v =>
    exact AnalysisState.assign_Register_keeps s v w
      (fun i => { i with hasMetadataTableEntry := true }) (fun _ => rfl) info h
  | GetPointerVariableInfo fresh v => exact ⟨info, h, le_refl _⟩

/-- C2 at a concrete store: `x` is tracked as `Dyn`; a request to classify it as
`Seq` leaves it tracked, with a class that is not lower. -/
theorem C2_records_never_demoted_or_deleted_witness :
    ∃ i, ((AnalysisState.Op.ClassifyPointerVariable (.Argument "f" 0 (.PointerTy (.IntegerTy 32)))
              .Seq).run
            ((AnalysisState.init 64).ClassifyPointerVariable
              (.Argument "f" 0 (.PointerTy (.IntegerTy 32))) .Dyn)).Variables
          (.Argument "f" 0 (.PointerTy (.IntegerTy 32))) = some i
      ∧ (AnalysisState.freshInfo (AnalysisState.init 64)).classification.toInt
          ≤ i.classification.toInt ∧ VariableStates.Dyn.toInt ≤ i.classification.toInt :=
  let ⟨i, hi, hle⟩ := C2_records_never_demoted_or_deleted
    (.ClassifyPointerVariable (.Argument "f" 0 (.PointerTy (.IntegerTy 32))) .Seq)
    ((AnalysisState.init 64).ClassifyPointerVariable
      (.Argument "f" 0 (.PointerTy (.IntegerTy 32))) .Dyn)
    (.Argument "f" 0 (.PointerTy (.IntegerTy 32)))
    { AnalysisState.freshInfo (AnalysisState.init 64) with classification := .Dyn }
    (by rw [AnalysisState.ClassifyPointerVariable_same]; rfl)
  ⟨i, hi, le_trans (by decide) hle, hle⟩

/-! ## The runtime metadata table -/

theorem setMetadataTableEntry_cons (e : metadata_table_entry) (rest : MetadataTable)
    (p size addr : Int) :
    setMetadataTableEntry (e :: rest) p size addr =
      if e.ptr = p then { e with size := size } :: rest
      else e :: setMetadataTableEntry rest p size addr := by
  unfold setMetadataTableEntry
  by_cases h : e.ptr = p
  · simp [findMetadataTableEntry, h]
  · simp only [findMetadataTableEntry, h, if_false]
    cases findMetadataTableEntry p rest <;> simp

theorem lookupMetadataTableEntry_cons (e : metadata_table_entry) (rest : MetadataTable)
    (q : Int) :
    lookupMetadataTableEntry (e :: rest) q =
      if e.ptr = q then e.size else lookupMetadataTableEntry rest q := by
  unfold lookupMetadataTableEntry
  by_cases h : e.ptr = q
  · simp [findMetadataTableEntry, h]
  · simp only [findMetadataTableEntry, h, if_false]
    cases findMetadataTableEntry q rest <;> simp

theorem lookup_setMetadataTableEntry (t : MetadataTable) (p size addr q : Int) :
    lookupMetadataTableEntry (setMetadataTableEntry t p size addr) q =
      if p = q then size else lookupMetadataTableEntry t q := by
  induction t with
  | nil =>
    by_cases h : p = q <;>
      simp [setMetadataTableEntry, lookupMetadataTableEntry, findMetadataTableEntry, h]
  | cons e rest ih =>
    rw [setMetadataTableEntry_cons]
    by_cases hp : e.ptr = p
    · rw [if_pos hp, lookupMetadataTableEntry_cons, lookupMetadataTableEntry_cons]
      by_cases hq : p = q
      · simp [hp, hq]
      · have : ¬ e.ptr = q := fun h => hq (hp ▸ h)
        simp [hq, this]
    · rw [if_neg hp, lookupMetadataTableEntry_cons, lookupMetadataTableEntry_cons, ih]
      by_cases hq : e.ptr = q
      · have : ¬ p = q := fun h => hp (h ▸ hq)
        simp [hq, this]
      · simp [hq]

/-- C10. The runtime metadata table is a finite map with default zero: after any
sequence of `setMetadataTableEntry(p_i, size_i, addr_i)` calls on the empty table,
`lookupMetadataTableEntry(p)` is the size of the last call whose key is `p`, and
zero when no call has key `p`; `addr_i` plays no part. -/
theorem C10_metadata_table_is_finite_map (calls : List (Int × Int × Int)) (p : Int) :
    lookupMetadataTableEntry
        (calls.foldl (fun t c => setMetadataTableEntry t c.1 c.2.1 c.2.2) []) p
      = match calls.reverse.find? (fun c => decide (c.1 = p)) with
        | some c => c.2.1
        | none => 0 := by
  induction calls using List.reverseRecOn with
  | nil => rfl
  | append_singleton init c ih =>
    rw [List.foldl_append, List.reverse_append]
    simp only [List.foldl_cons, List.foldl_nil, List.reverse_cons, List.reverse_nil,
      List.nil_append, List.singleton_append, List.find?_cons]
    rw [lookup_setMetadataTableEntry, ih]
    by_cases h : c.1 = p <;> simp [h]

/-! ## What the builder leaves alone -/

namespace PassState

@[simp] theorem fresh_TheState (ps : PassState) :
    ps.fresh.1.TheState = ps.TheState := rfl

@[simp] theorem fresh_isCurrentFunctionWhitelisted (ps : PassState) :
    ps.fresh.1.isCurrentFunctionWhitelisted = ps.isCurrentFunctionWhitelisted := rfl

@[simp] theorem fresh_isCurrentFunctionWhitelistedForInstrumentation (ps : PassState) :
    ps.fresh.1.isCurrentFunctionWhitelistedForInstrumentation = ps.isCurrentFunctionWhitelistedForInstrumentation := rfl

@[simp] theorem fresh_TrapBB (ps : PassState) :
    ps.fresh.1.TrapBB = ps.TrapBB := rfl

@[simp] theorem fresh_WhitelistedFunctions (ps : PassState) :
    ps.fresh.1.WhitelistedFunctions = ps.WhitelistedFunctions := rfl

@[simp] theorem fresh_FunctionsAddedWithNewReturnType (ps : PassState) :
    ps.fresh.1.FunctionsAddedWithNewReturnType = ps.FunctionsAddedWithNewReturnType := rfl

@[simp] theorem fresh_FunctionsToRemove (ps : PassState) :
    ps.fresh.1.FunctionsToRemove = ps.FunctionsToRemove := rfl

@[simp] theorem fresh_MyPrintErrorLineFn (ps : PassState) :
    ps.fresh.1.MyPrintErrorLineFn = ps.MyPrintErrorLineFn := rfl

@[simp] theorem fresh_MyPrintCheckFn (ps : PassState) :
    ps.fresh.1.MyPrintCheckFn = ps.MyPrintCheckFn := rfl

@[simp] theorem fresh_setMetadataFunction (ps : PassState) :
    ps.fresh.1.setMetadataFunction = ps.setMetadataFunction := rfl

@[simp] theorem fresh_lookupMetadataFunction (ps : PassState) :
    ps.fresh.1.lookupMetadataFunction = ps.lookupMetadataFunction := rfl

@[simp] theorem fresh_UnknownSizeConstInt (ps : PassState) :
    ps.fresh.1.UnknownSizeConstInt = ps.UnknownSizeConstInt := rfl

@[simp] theorem fresh_stats (ps : PassState) :
    ps.fresh.1.stats = ps.stats := rfl

@[simp] theorem fresh_CurrentModule (ps : PassState) :
    ps.fresh.1.CurrentModule = ps.CurrentModule := rfl

@[simp] theorem fresh_InsertPt (ps : PassState) :
    ps.fresh.1.InsertPt = ps.InsertPt := rfl

@[simp] theorem fresh_instructionsToAnalyze (ps : PassState) :
    ps.fresh.1.instructionsToAnalyze = ps.instructionsToAnalyze := rfl

@[simp] theorem count_TheState (ps : PassState) (f : Statistics → Statistics) :
    (ps.count f).TheState = ps.TheState := rfl

@[simp] theorem count_isCurrentFunctionWhitelisted (ps : PassState) (f : Statistics → Statistics) :
    (ps.count f).isCurrentFunctionWhitelisted = ps.isCurrentFunctionWhitelisted := rfl

@[simp] theorem count_isCurrentFunctionWhitelistedForInstrumentation (ps : PassState) (f : Statistics → Statistics) :
    (ps.count f).isCurrentFunctionWhitelistedForInstrumentation = ps.isCurrentFunctionWhitelistedForInstrumentation := rfl

@[simp] theorem count_TrapBB (ps : PassState) (f : Statistics → Statistics) :
    (ps.count f).TrapBB = ps.TrapBB := rfl

@[simp] theorem count_WhitelistedFunctions (ps : PassState) (f : Statistics → Statistics) :
    (ps.count f).WhitelistedFunctions = ps.WhitelistedFunctions := rfl

@[simp] theorem count_FunctionsAddedWithNewReturnType (ps : PassState) (f : Statistics → Statistics) :
    (ps.count f).FunctionsAddedWithNewReturnType = ps.FunctionsAddedWithNewReturnType := rfl

@[simp] theorem count_FunctionsToRemove (ps : PassState) (f : Statistics → Statistics) :
    (ps.count f).FunctionsToRemove = ps.FunctionsToRemove := rfl

@[simp] theorem count_MyPrintErrorLineFn (ps : PassState) (f : Statistics → Statistics) :
    (ps.count f).MyPrintErrorLineFn = ps.MyPrintErrorLineFn := rfl

@[simp] theorem count_MyPrintCheckFn (ps : PassState) (f : Statistics → Statistics) :
    (ps.count f).MyPrintCheckFn = ps.MyPrintCheckFn := rfl

@[simp] theorem count_setMetadataFunction (ps : PassState) (f : Statistics → Statistics) :
    (ps.count f).setMetadataFunction = ps.setMetadataFunction := rfl

@[simp] theorem count_lookupMetadataFunction (ps : PassState) (f : Statistics → Statistics) :
    (ps.count f).lookupMetadataFunction = ps.lookupMetadataFunction := rfl

@[simp] theorem count_UnknownSizeConstInt (ps : PassState) (f : Statistics → Statistics) :
    (ps.count f).UnknownSizeConstInt = ps.UnknownSizeConstInt := rfl

@[simp] theorem count_CurrentModule (ps : PassState) (f : Statistics → Statistics) :
    (ps.count f).CurrentModule = ps.CurrentModule := rfl

@[simp] theorem count_InsertPt (ps : PassState) (f : Statistics → Statistics) :
    (ps.count f).InsertPt = ps.InsertPt := rfl

@[simp] theorem count_nextId (ps : PassState) (f : Statistics → Statistics) :
    (ps.count f).nextId = ps.nextId := rfl

@[simp] theorem count_instructionsToAnalyze (ps : PassState) (f : Statistics → Statistics) :
    (ps.count f).instructionsToAnalyze = ps.instructionsToAnalyze := rfl

@[simp] theorem setModule_TheState (ps : PassState) (M : Module) :
    (ps.setModule M).TheState = ps.TheState := rfl

@[simp] theorem setModule_isCurrentFunctionWhitelisted (ps : PassState) (M : Module) :
    (ps.setModule M).isCurrentFunctionWhitelisted = ps.isCurrentFunctionWhitelisted := rfl

@[simp] theorem setModule_isCurrentFunctionWhitelistedForInstrumentation (ps : PassState) (M : Module) :
    (ps.setModule M).isCurrentFunctionWhitelistedForInstrumentation = ps.isCurrentFunctionWhitelistedForInstrumentation := rfl

@[simp] theorem setModule_TrapBB (ps : PassState) (M : Module) :
    (ps.setModule M).TrapBB = ps.TrapBB := rfl

@[simp] theorem setModule_WhitelistedFunctions (ps : PassState) (M : Module) :
    (ps.setModule M).WhitelistedFunctions = ps.WhitelistedFunctions := rfl

@[simp] theorem setModule_FunctionsAddedWithNewReturnType (ps : PassState) (M : Module) :
    (ps.setModule M).FunctionsAddedWithNewReturnType = ps.FunctionsAddedWithNewReturnType := rfl

@[simp] theorem setModule_FunctionsToRemove (ps : PassState) (M : Module) :
    (ps.setModule M).FunctionsToRemove = ps.FunctionsToRemove := rfl

@[simp] theorem setModule_MyPrintErrorLineFn (ps : PassState) (M : Module) :
    (ps.setModule M).MyPrintErrorLineFn = ps.MyPrintErrorLineFn := rfl

@[simp] theorem setModule_MyPrintCheckFn (ps : PassState) (M : Module) :
    (ps.setModule M).MyPrintCheckFn = ps.MyPrintCheckFn := rfl

@[simp] theorem setModule_setMetadataFunction (ps : PassState) (M : Module) :
    (ps.setModule M).setMetadataFunction = ps.setMetadataFunction := rfl

@[simp] theorem setModule_lookupMetadataFunction (ps : PassState) (M : Module) :
    (ps.setModule M).lookupMetadataFunction = ps.lookupMetadataFunction := rfl

@[simp] theorem setModule_UnknownSizeConstInt (ps : PassState) (M : Module) :
    (ps.setModule M).UnknownSizeConstInt = ps.UnknownSizeConstInt := rfl

@[simp] theorem setModule_stats (ps : PassState) (M : Module) :
    (ps.setModule M).stats = ps.stats := rfl

@[simp] theorem setModule_InsertPt (ps : PassState) (M : Module) :
    (ps.setModule M).InsertPt = ps.InsertPt := rfl

@[simp] theorem setModule_nextId (ps : PassState) (M : Module) :
    (ps.setModule M).nextId = ps.nextId := rfl

@[simp] theorem setModule_instructionsToAnalyze (ps : PassState) (M : Module) :
    (ps.setModule M).instructionsToAnalyze = ps.instructionsToAnalyze := rfl

@[simp] theorem setState_isCurrentFunctionWhitelisted (ps : PassState) (s : AnalysisState) :
    (ps.setState s).isCurrentFunctionWhitelisted = ps.isCurrentFunctionWhitelisted := rfl

@[simp] theorem setState_isCurrentFunctionWhitelistedForInstrumentation (ps : PassState) (s : AnalysisState) :
    (ps.setState s).isCurrentFunctionWhitelistedForInstrumentation = ps.isCurrentFunctionWhitelistedForInstrumentation := rfl

@[simp] theorem setState_TrapBB (ps : PassState) (s : AnalysisState) :
    (ps.setState s).TrapBB = ps.TrapBB := rfl

@[simp] theorem setState_WhitelistedFunctions (ps : PassState) (s : AnalysisState) :
    (ps.setState s).WhitelistedFunctions = ps.WhitelistedFunctions := rfl

@[simp] theorem setState_FunctionsAddedWithNewReturnType (ps : PassState) (s : AnalysisState) :
    (ps.setState s).FunctionsAddedWithNewReturnType = ps.FunctionsAddedWithNewReturnType := rfl

@[simp] theorem setState_FunctionsToRemove (ps : PassState) (s : AnalysisState) :
    (ps.setState s).FunctionsToRemove = ps.FunctionsToRemove := rfl

@[simp] theorem setState_MyPrintErrorLineFn (ps : PassState) (s : AnalysisState) :
    (ps.setState s).MyPrintErrorLineFn = ps.MyPrintErrorLineFn := rfl

@[simp] theorem setState_MyPrintCheckFn (ps : PassState) (s : AnalysisState) :
    (ps.setState s).MyPrintCheckFn = ps.MyPrintCheckFn := rfl

@[simp] theorem setState_setMetadataFunction (ps : PassState) (s : AnalysisState) :
    (ps.setState s).setMetadataFunction = ps.setMetadataFunction := rfl

@[simp] theorem setState_lookupMetadataFunction (ps : PassState) (s : AnalysisState) :
    (ps.setState s).lookupMetadataFunction = ps.lookupMetadataFunction := rfl

@[simp] theorem setState_UnknownSizeConstInt (ps : PassState) (s : AnalysisState) :
    (ps.setState s).UnknownSizeConstInt = ps.UnknownSizeConstInt := rfl

@[simp] theorem setState_stats (ps : PassState) (s : AnalysisState) :
    (ps.setState s).stats = ps.stats := rfl

@[simp] theorem setState_CurrentModule (ps : PassState) (s : AnalysisState) :
    (ps.setState s).CurrentModule = ps.CurrentModule := rfl

@[simp] theorem setState_InsertPt (ps : PassState) (s : AnalysisState) :
    (ps.setState s).InsertPt = ps.InsertPt := rfl

@[simp] theorem setState_nextId (ps : PassState) (s : AnalysisState) :
    (ps.setState s).nextId = ps.nextId := rfl

@[simp] theorem setState_instructionsToAnalyze (ps : PassState) (s : AnalysisState) :
    (ps.setState s).instructionsToAnalyze = ps.instructionsToAnalyze := rfl

@[simp] theorem SetInsertPoint_TheState (ps : PassState) (pt : InsertPoint) :
    (ps.SetInsertPoint pt).TheState = ps.TheState := rfl

@[simp] theorem SetInsertPoint_isCurrentFunctionWhitelisted (ps : PassState) (pt : InsertPoint) :
    (ps.SetInsertPoint pt).isCurrentFunctionWhitelisted = ps.isCurrentFunctionWhitelisted := rfl

@[simp] theorem SetInsertPoint_isCurrentFunctionWhitelistedForInstrumentation (ps : PassState) (pt : InsertPoint) :
    (ps.SetInsertPoint pt).isCurrentFunctionWhitelistedForInstrumentation = ps.isCurrentFunctionWhitelistedForInstrumentation := rfl

@[simp] theorem SetInsertPoint_TrapBB (ps : PassState) (pt : InsertPoint) :
    (ps.SetInsertPoint pt).TrapBB = ps.TrapBB := rfl

@[simp] theorem SetInsertPoint_WhitelistedFunctions (ps : PassState) (pt : InsertPoint) :
    (ps.SetInsertPoint pt).WhitelistedFunctions = ps.WhitelistedFunctions := rfl

@[simp] theorem SetInsertPoint_FunctionsAddedWithNewReturnType (ps : PassState) (pt : InsertPoint) :
    (ps.SetInsertPoint pt).FunctionsAddedWithNewReturnType = ps.FunctionsAddedWithNewReturnType := rfl

@[simp] theorem SetInsertPoint_FunctionsToRemove (ps : PassState) (pt : InsertPoint) :
    (ps.SetInsertPoint pt).FunctionsToRemove = ps.FunctionsToRemove := rfl

@[simp] theorem SetInsertPoint_MyPrintErrorLineFn (ps : PassState) (pt : InsertPoint) :
    (ps.SetInsertPoint pt).MyPrintErrorLineFn = ps.MyPrintErrorLineFn := rfl

@[simp] theorem SetInsertPoint_MyPrintCheckFn (ps : PassState) (pt : InsertPoint) :
    (ps.SetInsertPoint pt).MyPrintCheckFn = ps.MyPrintCheckFn := rfl

@[simp] theorem SetInsertPoint_setMetadataFunction (ps : PassState) (pt : InsertPoint) :
    (ps.SetInsertPoint pt).setMetadataFunction = ps.setMetadataFunction := rfl

@[simp] theorem SetInsertPoint_lookupMetadataFunction (ps : PassState) (pt : InsertPoint) :
    (ps.SetInsertPoint pt).lookupMetadataFunction = ps.lookupMetadataFunction := rfl

@[simp] theorem SetInsertPoint_UnknownSizeConstInt (ps : PassState) (pt : InsertPoint) :
    (ps.SetInsertPoint pt).UnknownSizeConstInt = ps.UnknownSizeConstInt := rfl

@[simp] theorem SetInsertPoint_stats (ps : PassState) (pt : InsertPoint) :
    (ps.SetInsertPoint pt).stats = ps.stats := rfl

@[simp] theorem SetInsertPoint_CurrentModule (ps : PassState) (pt : InsertPoint) :
    (ps.SetInsertPoint pt).CurrentModule = ps.CurrentModule := rfl

@[simp] theorem SetInsertPoint_nextId (ps : PassState) (pt : InsertPoint) :
    (ps.SetInsertPoint pt).nextId = ps.nextId := rfl

@[simp] theorem SetInsertPoint_instructionsToAnalyze (ps : PassState) (pt : InsertPoint) :
    (ps.SetInsertPoint pt).instructionsToAnalyze = ps.instructionsToAnalyze := rfl

@[simp] theorem replaceAllUsesWith_TheState (ps : PassState) (old new : Value) :
    (ps.replaceAllUsesWith old new).TheState = ps.TheState := rfl

@[simp] theorem replaceAllUsesWith_isCurrentFunctionWhitelisted (ps : PassState) (old new : Value) :
    (ps.replaceAllUsesWith old new).isCurrentFunctionWhitelisted = ps.isCurrentFunctionWhitelisted := rfl

@[simp] theorem replaceAllUsesWith_isCurrentFunctionWhitelistedForInstrumentation (ps : PassState) (old new : Value) :
    (ps.replaceAllUsesWith old new).isCurrentFunctionWhitelistedForInstrumentation = ps.isCurrentFunctionWhitelistedForInstrumentation := rfl

@[simp] theorem replaceAllUsesWith_TrapBB (ps : PassState) (old new : Value) :
    (ps.replaceAllUsesWith old new).TrapBB = ps.TrapBB := rfl

@[simp] theorem replaceAllUsesWith_WhitelistedFunctions (ps : PassState) (old new : Value) :
    (ps.replaceAllUsesWith old new).WhitelistedFunctions = ps.WhitelistedFunctions := rfl

@[simp] theorem replaceAllUsesWith_FunctionsAddedWithNewReturnType (ps : PassState) (old new : Value) :
    (ps.replaceAllUsesWith old new).FunctionsAddedWithNewReturnType = ps.FunctionsAddedWithNewReturnType := rfl

@[simp] theorem replaceAllUsesWith_FunctionsToRemove (ps : PassState) (old new : Value) :
    (ps.replaceAllUsesWith old new).FunctionsToRemove = ps.FunctionsToRemove := rfl

@[simp] theorem replaceAllUsesWith_MyPrintErrorLineFn (ps : PassState) (old new : Value) :
    (ps.replaceAllUsesWith old new).MyPrintErrorLineFn = ps.MyPrintErrorLineFn := rfl

@[simp] theorem replaceAllUsesWith_MyPrintCheckFn (ps : PassState) (old new : Value) :
    (ps.replaceAllUsesWith old new).MyPrintCheckFn = ps.MyPrintCheckFn := rfl

@[simp] theorem replaceAllUsesWith_setMetadataFunction (ps : PassState) (old new : Value) :
    (ps.replaceAllUsesWith old new).setMetadataFunction = ps.setMetadataFunction := rfl

@[simp] theorem replaceAllUsesWith_lookupMetadataFunction (ps : PassState) (old new : Value) :
    (ps.replaceAllUsesWith old new).lookupMetadataFunction = ps.lookupMetadataFunction := rfl

@[simp] theorem replaceAllUsesWith_UnknownSizeConstInt (ps : PassState) (old new : Value) :
    (ps.replaceAllUsesWith old new).UnknownSizeConstInt = ps.UnknownSizeConstInt := rfl

@[simp] theorem replaceAllUsesWith_stats (ps : PassState) (old new : Value) :
    (ps.replaceAllUsesWith old new).stats = ps.stats := rfl

@[simp] theorem replaceAllUsesWith_InsertPt (ps : PassState) (old new : Value) :
    (ps.replaceAllUsesWith old new).InsertPt = ps.InsertPt := rfl

@[simp] theorem replaceAllUsesWith_nextId (ps : PassState) (old new : Value) :
    (ps.replaceAllUsesWith old new).nextId = ps.nextId := rfl

@[simp] theorem Insert_TheState (ps : PassState) (I : Instruction) :
    (ps.Insert I).TheState = ps.TheState := by
  unfold Insert; split <;> rfl

@[simp] theorem Insert_isCurrentFunctionWhitelisted (ps : PassState) (I : Instruction) :
    (ps.Insert I).isCurrentFunctionWhitelisted = ps.isCurrentFunctionWhitelisted := by
  unfold Insert; split <;> rfl

@[simp] theorem Insert_isCurrentFunctionWhitelistedForInstrumentation (ps : PassState) (I : Instruction) :
    (ps.Insert I).isCurrentFunctionWhitelistedForInstrumentation = ps.isCurrentFunctionWhitelistedForInstrumentation := by
  unfold Insert; split <;> rfl

@[simp] theorem Insert_TrapBB (ps : PassState) (I : Instruction) :
    (ps.Insert I).TrapBB = ps.TrapBB := by
  unfold Insert; split <;> rfl

@[simp] theorem Insert_WhitelistedFunctions (ps : PassState) (I : Instruction) :
    (ps.Insert I).WhitelistedFunctions = ps.WhitelistedFunctions := by
  unfold Insert; split <;> rfl

@[simp] theorem Insert_FunctionsAddedWithNewReturnType (ps : PassState) (I : Instruction) :
    (ps.Insert I).FunctionsAddedWithNewReturnType = ps.FunctionsAddedWithNewReturnType := by
  unfold Insert; split <;> rfl

@[simp] theorem Insert_FunctionsToRemove (ps : PassState) (I : Instruction) :
    (ps.Insert I).FunctionsToRemove = ps.FunctionsToRemove := by
  unfold Insert; split <;> rfl

@[simp] theorem Insert_MyPrintErrorLineFn (ps : PassState) (I : Instruction) :
    (ps.Insert I).MyPrintErrorLineFn = ps.MyPrintErrorLineFn := by
  unfold Insert; split <;> rfl

@[simp] theorem Insert_MyPrintCheckFn (ps : PassState) (I : Instruction) :
    (ps.Insert I).MyPrintCheckFn = ps.MyPrintCheckFn := by
  unfold Insert; split <;> rfl

@[simp] theorem Insert_setMetadataFunction (ps : PassState) (I : Instruction) :
    (ps.Insert I).setMetadataFunction = ps.setMetadataFunction := by
  unfold Insert; split <;> rfl

@[simp] theorem Insert_lookupMetadataFunction (ps : PassState) (I : Instruction) :
    (ps.Insert I).lookupMetadataFunction = ps.lookupMetadataFunction := by
  unfold Insert; split <;> rfl

@[simp] theorem Insert_UnknownSizeConstInt (ps : PassState) (I : Instruction) :
    (ps.Insert I).UnknownSizeConstInt = ps.UnknownSizeConstInt := by
  unfold Insert; split <;> rfl

@[simp] theorem Insert_stats (ps : PassState) (I : Instruction) :
    (ps.Insert I).stats = ps.stats := by
  unfold Insert; split <;> rfl

@[simp] theorem Insert_InsertPt (ps : PassState) (I : Instruction) :
    (ps.Insert I).InsertPt = ps.InsertPt := by
  unfold Insert; split <;> rfl

@[simp] theorem Insert_nextId (ps : PassState) (I : Instruction) :
    (ps.Insert I).nextId = ps.nextId := by
  unfold Insert; split <;> rfl

@[simp] theorem Insert_instructionsToAnalyze (ps : PassState) (I : Instruction) :
    (ps.Insert I).instructionsToAnalyze = ps.instructionsToAnalyze := by
  unfold Insert; split <;> rfl

@[simp] theorem CreateBinOp_TheState (ps : PassState) (opc : BinOp) (L R : Value) :
    (ps.CreateBinOp opc L R).1.TheState = ps.TheState := by
  unfold CreateBinOp; split <;> simp

@[simp] theorem CreateBinOp_isCurrentFunctionWhitelisted (ps : PassState) (opc : BinOp) (L R : Value) :
    (ps.CreateBinOp opc L R).1.isCurrentFunctionWhitelisted = ps.isCurrentFunctionWhitelisted := by
  unfold CreateBinOp; split <;> simp

@[simp] theorem CreateBinOp_isCurrentFunctionWhitelistedForInstrumentation (ps : PassState) (opc : BinOp) (L R : Value) :
    (ps.CreateBinOp opc L R).1.isCurrentFunctionWhitelistedForInstrumentation = ps.isCurrentFunctionWhitelistedForInstrumentation := by
  unfold CreateBinOp; split <;> simp

@[simp] theorem CreateBinOp_TrapBB (ps : PassState) (opc : BinOp) (L R : Value) :
    (ps.CreateBinOp opc L R).1.TrapBB = ps.TrapBB := by
  unfold CreateBinOp; split <;> simp

@[simp] theorem CreateBinOp_WhitelistedFunctions (ps : PassState) (opc : BinOp) (L R : Value) :
    (ps.CreateBinOp opc L R).1.WhitelistedFunctions = ps.WhitelistedFunctions := by
  unfold CreateBinOp; split <;> simp

@[simp] theorem CreateBinOp_FunctionsAddedWithNewReturnType (ps : PassState) (opc : BinOp) (L R : Value) :
    (ps.CreateBinOp opc L R).1.FunctionsAddedWithNewReturnType = ps.FunctionsAddedWithNewReturnType := by
  unfold CreateBinOp; split <;> simp

@[simp] theorem CreateBinOp_FunctionsToRemove (ps : PassState) (opc : BinOp) (L R : Value) :
    (ps.CreateBinOp opc L R).1.FunctionsToRemove = ps.FunctionsToRemove := by
  unfold CreateBinOp; split <;> simp

@[simp] theorem CreateBinOp_MyPrintErrorLineFn (ps : PassState) (opc : BinOp) (L R : Value) :
    (ps.CreateBinOp opc L R).1.MyPrintErrorLineFn = ps.MyPrintErrorLineFn := by
  unfold CreateBinOp; split <;> simp

@[simp] theorem CreateBinOp_MyPrintCheckFn (ps : PassState) (opc : BinOp) (L R : Value) :
    (ps.CreateBinOp opc L R).1.MyPrintCheckFn = ps.MyPrintCheckFn := by
  unfold CreateBinOp; split <;> simp

@[simp] theorem CreateBinOp_setMetadataFunction (ps : PassState) (opc : BinOp) (L R : Value) :
    (ps.CreateBinOp opc L R).1.setMetadataFunction = ps.setMetadataFunction := by
  unfold CreateBinOp; split <;> simp

@[simp] theorem CreateBinOp_lookupMetadataFunction (ps : PassState) (opc : BinOp) (L R : Value) :
    (ps.CreateBinOp opc L R).1.lookupMetadataFunction = ps.lookupMetadataFunction := by
  unfold CreateBinOp; split <;> simp

@[simp] theorem CreateBinOp_UnknownSizeConstInt (ps : PassState) (opc : BinOp) (L R : Value) :
    (ps.CreateBinOp opc L R).1.UnknownSizeConstInt = ps.UnknownSizeConstInt := by
  unfold CreateBinOp; split <;> simp

@[simp] theorem CreateBinOp_stats (ps : PassState) (opc : BinOp) (L R : Value) :
    (ps.CreateBinOp opc L R).1.stats = ps.stats := by
  unfold CreateBinOp; split <;> simp

@[simp] theorem CreateBinOp_InsertPt (ps : PassState) (opc : BinOp) (L R : Value) :
    (ps.CreateBinOp opc L R).1.InsertPt = ps.InsertPt := by
  unfold CreateBinOp; split <;> simp

@[simp] theorem CreateBinOp_instructionsToAnalyze (ps : PassState) (opc : BinOp) (L R : Value) :
    (ps.CreateBinOp opc L R).1.instructionsToAnalyze = ps.instructionsToAnalyze := by
  unfold CreateBinOp; split <;> simp

@[simp] theorem CreateICmpSLT_TheState (ps : PassState) (L R : Value) :
    (ps.CreateICmpSLT L R).1.TheState = ps.TheState := by
  unfold CreateICmpSLT; split <;> simp

@[simp] theorem CreateICmpSLT_isCurrentFunctionWhitelisted (ps : PassState) (L R : Value) :
    (ps.CreateICmpSLT L R).1.isCurrentFunctionWhitelisted = ps.isCurrentFunctionWhitelisted := by
  unfold CreateICmpSLT; split <;> simp

@[simp] theorem CreateICmpSLT_isCurrentFunctionWhitelistedForInstrumentation (ps : PassState) (L R : Value) :
    (ps.CreateICmpSLT L R).1.isCurrentFunctionWhitelistedForInstrumentation = ps.isCurrentFunctionWhitelistedForInstrumentation := by
  unfold CreateICmpSLT; split <;> simp

@[simp] theorem CreateICmpSLT_TrapBB (ps : PassState) (L R : Value) :
    (ps.CreateICmpSLT L R).1.TrapBB = ps.TrapBB := by
  unfold CreateICmpSLT; split <;> simp

@[simp] theorem CreateICmpSLT_WhitelistedFunctions (ps : PassState) (L R : Value) :
    (ps.CreateICmpSLT L R).1.WhitelistedFunctions = ps.WhitelistedFunctions := by
  unfold CreateICmpSLT; split <;> simp

@[simp] theorem CreateICmpSLT_FunctionsAddedWithNewReturnType (ps : PassState) (L R : Value) :
    (ps.CreateICmpSLT L R).1.FunctionsAddedWithNewReturnType = ps.FunctionsAddedWithNewReturnType := by
  unfold CreateICmpSLT; split <;> simp

@[simp] theorem CreateICmpSLT_FunctionsToRemove (ps : PassState) (L R : Value) :
    (ps.CreateICmpSLT L R).1.FunctionsToRemove = ps.FunctionsToRemove := by
  unfold CreateICmpSLT; split <;> simp

@[simp] theorem CreateICmpSLT_MyPrintErrorLineFn (ps : PassState) (L R : Value) :
    (ps.CreateICmpSLT L R).1.MyPrintErrorLineFn = ps.MyPrintErrorLineFn := by
  unfold CreateICmpSLT; split <;> simp

@[simp] theorem CreateICmpSLT_MyPrintCheckFn (ps : PassState) (L R : Value) :
    (ps.CreateICmpSLT L R).1.MyPrintCheckFn = ps.MyPrintCheckFn := by
  unfold CreateICmpSLT; split <;> simp

@[simp] theorem CreateICmpSLT_setMetadataFunction (ps : PassState) (L R : Value) :
    (ps.CreateICmpSLT L R).1.setMetadataFunction = ps.setMetadataFunction := by
  unfold CreateICmpSLT; split <;> simp

@[simp] theorem CreateICmpSLT_lookupMetadataFunction (ps : PassState) (L R : Value) :
    (ps.CreateICmpSLT L R).1.lookupMetadataFunction = ps.lookupMetadataFunction := by
  unfold CreateICmpSLT; split <;> simp

@[simp] theorem CreateICmpSLT_UnknownSizeConstInt (ps : PassState) (L R : Value) :
    (ps.CreateICmpSLT L R).1.UnknownSizeConstInt = ps.UnknownSizeConstInt := by
  unfold CreateICmpSLT; split <;> simp

@[simp] theorem CreateICmpSLT_stats (ps : PassState) (L R : Value) :
    (ps.CreateICmpSLT L R).1.stats = ps.stats := by
  unfold CreateICmpSLT; split <;> simp

@[simp] theorem CreateICmpSLT_InsertPt (ps : PassState) (L R : Value) :
    (ps.CreateICmpSLT L R).1.InsertPt = ps.InsertPt := by
  unfold CreateICmpSLT; split <;> simp

@[simp] theorem CreateICmpSLT_instructionsToAnalyze (ps : PassState) (L R : Value) :
    (ps.CreateICmpSLT L R).1.instructionsToAnalyze = ps.instructionsToAnalyze := by
  unfold CreateICmpSLT; split <;> simp

@[simp] theorem CreateCastToInt_TheState (ps : PassState) (bits : Nat) (V : Value) :
    (ps.CreateCastToInt bits V).1.TheState = ps.TheState := by
  unfold CreateCastToInt; split
  · rfl
  · split <;> simp

@[simp] theorem CreateCastToInt_isCurrentFunctionWhitelisted (ps : PassState) (bits : Nat) (V : Value) :
    (ps.CreateCastToInt bits V).1.isCurrentFunctionWhitelisted = ps.isCurrentFunctionWhitelisted := by
  unfold CreateCastToInt; split
  · rfl
  · split <;> simp

@[simp] theorem CreateCastToInt_isCurrentFunctionWhitelistedForInstrumentation (ps : PassState) (bits : Nat) (V : Value) :
    (ps.CreateCastToInt bits V).1.isCurrentFunctionWhitelistedForInstrumentation = ps.isCurrentFunctionWhitelistedForInstrumentation := by
  unfold CreateCastToInt; split
  · rfl
  · split <;> simp

@[simp] theorem CreateCastToInt_TrapBB (ps : PassState) (bits : Nat) (V : Value) :
    (ps.CreateCastToInt bits V).1.TrapBB = ps.TrapBB := by
  unfold CreateCastToInt; split
  · rfl
  · split <;> simp

@[simp] theorem CreateCastToInt_WhitelistedFunctions (ps : PassState) (bits : Nat) (V : Value) :
    (ps.CreateCastToInt bits V).1.WhitelistedFunctions = ps.WhitelistedFunctions := by
  unfold CreateCastToInt; split
  · rfl
  · split <;> simp

@[simp] theorem CreateCastToInt_FunctionsAddedWithNewReturnType (ps : PassState) (bits : Nat) (V : Value) :
    (ps.CreateCastToInt bits V).1.FunctionsAddedWithNewReturnType = ps.FunctionsAddedWithNewReturnType := by
  unfold CreateCastToInt; split
  · rfl
  · split <;> simp

@[simp] theorem CreateCastToInt_FunctionsToRemove (ps : PassState) (bits : Nat) (V : Value) :
    (ps.CreateCastToInt bits V).1.FunctionsToRemove = ps.FunctionsToRemove := by
  unfold CreateCastToInt; split
  · rfl
  · split <;> simp

@[simp] theorem CreateCastToInt_MyPrintErrorLineFn (ps : PassState) (bits : Nat) (V : Value) :
    (ps.CreateCastToInt bits V).1.MyPrintErrorLineFn = ps.MyPrintErrorLineFn := by
  unfold CreateCastToInt; split
  · rfl
  · split <;> simp

@[simp] theorem CreateCastToInt_MyPrintCheckFn (ps : PassState) (bits : Nat) (V : Value) :
    (ps.CreateCastToInt bits V).1.MyPrintCheckFn = ps.MyPrintCheckFn := by
  unfold CreateCastToInt; split
  · rfl
  · split <;> simp

@[simp] theorem CreateCastToInt_setMetadataFunction (ps : PassState) (bits : Nat) (V : Value) :
    (ps.CreateCastToInt bits V).1.setMetadataFunction = ps.setMetadataFunction := by
  unfold CreateCastToInt; split
  · rfl
  · split <;> simp

@[simp] theorem CreateCastToInt_lookupMetadataFunction (ps : PassState) (bits : Nat) (V : Value) :
    (ps.CreateCastToInt bits V).1.lookupMetadataFunction = ps.lookupMetadataFunction := by
  unfold CreateCastToInt; split
  · rfl
  · split <;> simp

@[simp] theorem CreateCastToInt_UnknownSizeConstInt (ps : PassState) (bits : Nat) (V : Value) :
    (ps.CreateCastToInt bits V).1.UnknownSizeConstInt = ps.UnknownSizeConstInt := by
  unfold CreateCastToInt; split
  · rfl
  · split <;> simp

@[simp] theorem CreateCastToInt_stats (ps : PassState) (bits : Nat) (V : Value) :
    (ps.CreateCastToInt bits V).1.stats = ps.stats := by
  unfold CreateCastToInt; split
  · rfl
  · split <;> simp

@[simp] theorem CreateCastToInt_InsertPt (ps : PassState) (bits : Nat) (V : Value) :
    (ps.CreateCastToInt bits V).1.InsertPt = ps.InsertPt := by
  unfold CreateCastToInt; split
  · rfl
  · split <;> simp

@[simp] theorem CreateCastToInt_instructionsToAnalyze (ps : PassState) (bits : Nat) (V : Value) :
    (ps.CreateCastToInt bits V).1.instructionsToAnalyze = ps.instructionsToAnalyze := by
  unfold CreateCastToInt; split
  · rfl
  · split <;> simp

@[simp] theorem count_stats (ps : PassState) (f : Statistics → Statistics) :
    (ps.count f).stats = f ps.stats := rfl

@[simp] theorem setModule_CurrentModule (ps : PassState) (M : Module) :
    (ps.setModule M).CurrentModule = M := rfl

@[simp] theorem setState_TheState (ps : PassState) (s : AnalysisState) :
    (ps.setState s).TheState = s := rfl

@[simp] theorem SetInsertPoint_InsertPt (ps : PassState) (pt : InsertPoint) :
    (ps.SetInsertPoint pt).InsertPt = pt := rfl

@[simp] theorem fresh_nextId (ps : PassState) : ps.fresh.1.nextId = ps.nextId + 1 := rfl

@[simp] theorem fresh_snd (ps : PassState) : ps.fresh.2 = .made ps.nextId := rfl

theorem CreateCall_eq (ps : PassState) (Fn : Option Value) (Args : List Value)
    (r : PassState × Value) (h : ps.CreateCall Fn Args = some r) :
    ∃ fn, Fn = some fn ∧ r = (ps.fresh.1.Insert (callTo ps.fresh.2 fn Args),
      (callTo ps.fresh.2 fn Args).asValue) := by
  unfold CreateCall at h
  cases Fn with
  | none => simp at h
  | some fn => exact ⟨fn, rfl, by simpa using h.symm⟩

theorem CreateCall_stats (ps : PassState) (Fn : Option Value) (Args : List Value)
    (r : PassState × Value) (h : ps.CreateCall Fn Args = some r) : r.1.stats = ps.stats := by
  obtain ⟨fn, -, rfl⟩ := CreateCall_eq ps Fn Args r h
  simp

theorem CreateCall_TrapBB (ps : PassState) (Fn : Option Value) (Args : List Value)
    (r : PassState × Value) (h : ps.CreateCall Fn Args = some r) : r.1.TrapBB = ps.TrapBB := by
  obtain ⟨fn, -, rfl⟩ := CreateCall_eq ps Fn Args r h
  simp

end PassState

/-! ## The bounds-check emitter -/

@[simp] theorem enterTrapBB_stats (ps : PassState) (Fn : String) (bb : Ident) :
    (enterTrapBB ps Fn bb).stats = ps.stats := rfl

@[simp] theorem getOffsetForGEPInst_stats (env : Env) (ps : PassState)
    (g : GetElementPtrInst) : (getOffsetForGEPInst env ps g).1.stats = ps.stats := by
  unfold getOffsetForGEPInst
  split
  · rfl
  · split
    · rfl
    · simp

@[simp] theorem instrumentGEP_LHS_stats (ps : PassState) (size : Value) (e : Nat) :
    (instrumentGEP.LHS ps size e).1.stats = ps.stats := by
  unfold instrumentGEP.LHS; split <;> simp

theorem getTrapBB_stats (env : Env) (ps : PassState) (I : Value) (r : PassState × Ident)
    (h : getTrapBB env ps I = some r) : r.1.stats = ps.stats := by
  unfold getTrapBB at h
  split at h
  · simp only [Option.some.injEq] at h; rw [← h]
  · simp only [Option.bind_eq_bind, Option.bind_eq_some, Option.some.injEq] at h
    obtain ⟨Fn, -, r3, h3, r4, h4, h⟩ := h
    have e3 := PassState.CreateCall_stats _ _ _ _ h3
    have e4 := PassState.CreateCall_stats _ _ _ _ h4
    rw [← h]
    simp only [PassState.Insert_stats, PassState.fresh_stats, PassState.setModule_stats,
      PassState.SetInsertPoint_stats, enterTrapBB_stats] at e3 e4 ⊢
    rw [e4, e3]

theorem instrumentGEP_emit_stats (env : Env) (ps : PassState) (Cmp : Option Value)
    (r : PassState × Bool) (h : instrumentGEP.emit env ps Cmp = some r) :
    r.1.stats = ps.stats.incChecksAdded ∧ r.2 = true := by
  unfold instrumentGEP.emit at h
  simp only [IS_DEBUGGING, Bool.false_eq_true, if_false, Option.bind_eq_bind,
    Option.bind_eq_some, Option.some.injEq] at h
  obtain ⟨ps2, h2, I, -, OldBB, -, r3, h3, h⟩ := h
  subst h2
  have e3 := getTrapBB_stats _ _ _ _ h3
  rw [← h]
  exact ⟨by simpa using e3, rfl⟩

/-- The conservation law of the counters of `instrumentGEP`. -/
theorem instrumentGEP_compare_counters (env : Env) (ps : PassState) (g : GetElementPtrInst)
    (varinfo : VariableInfo) (r : PassState × Bool)
    (h : instrumentGEP.compare env ps g varinfo = some r) :
    ((r.1.stats = ps.stats.incChecksAlwaysFalse) ∨
     (r.1.stats = ps.stats.incChecksAlwaysTrue.incChecksAdded) ∨
     (r.1.stats = ps.stats.incChecksAdded)) := by
  unfold instrumentGEP.compare at h
  simp only [IS_NAIVE, Bool.not_false, if_true] at h
  split at h
  · split at h
    · simp only [Option.some.injEq] at h
      left; rw [← h]; simp
    · right; left
      rw [(instrumentGEP_emit_stats _ _ _ _ h).1]; simp
  · right; right
    rw [(instrumentGEP_emit_stats _ _ _ _ h).1]; simp

/-- One call of `instrumentGEP` keeps the conservation law of the counters. -/
theorem instrumentGEP_counters (env : Env) (ps : PassState) (g : GetElementPtrInst)
    (r : PassState × Bool) (h : instrumentGEP env ps g = some r)
    (hinv : ps.stats.ChecksConsidered = ps.stats.ChecksAdded + ps.stats.ChecksSkippedForSafe
        + ps.stats.ChecksUnable + ps.stats.ChecksAlwaysFalse
      ∧ ps.stats.ChecksAlwaysTrue ≤ ps.stats.ChecksAdded) :
    r.1.stats.ChecksConsidered = r.1.stats.ChecksAdded + r.1.stats.ChecksSkippedForSafe
        + r.1.stats.ChecksUnable + r.1.stats.ChecksAlwaysFalse
      ∧ r.1.stats.ChecksAlwaysTrue ≤ r.1.stats.ChecksAdded := by
  unfold instrumentGEP at h
  split at h
  · simp only [Option.some.injEq] at h; subst h; exact hinv
  · split at h
    · simp only [Option.some.injEq] at h; subst h
      simp only [PassState.count_stats, Statistics.incChecksConsidered,
        Statistics.incChecksUnable]
      omega
    · split at h
      · simp only [Option.some.injEq] at h; subst h
        simp only [PassState.count_stats, Statistics.incChecksConsidered,
          Statistics.incChecksUnable]
        omega
      · split at h
        · simp only [Option.some.injEq] at h; subst h
          simp only [PassState.count_stats, Statistics.incChecksConsidered,
            Statistics.incChecksSkippedForSafe]
          omega
        · rcases instrumentGEP_compare_counters _ _ _ _ _ h with e | e | e <;>
            rw [e] <;>
            simp only [PassState.count_stats, Statistics.incChecksConsidered,
              Statistics.incChecksAlwaysFalse, Statistics.incChecksAlwaysTrue,
              Statistics.incChecksAdded] <;>
            omega

theorem instrumentGEPs_counters (env : Env) (calls : List (PassState × GetElementPtrInst))
    (st st1 : Statistics) (h : instrumentGEPs env calls st = some st1)
    (hinv : st.ChecksConsidered = st.ChecksAdded + st.ChecksSkippedForSafe
        + st.ChecksUnable + st.ChecksAlwaysFalse ∧ st.ChecksAlwaysTrue ≤ st.ChecksAdded) :
    st1.ChecksConsidered = st1.ChecksAdded + st1.ChecksSkippedForSafe
        + st1.ChecksUnable + st1.ChecksAlwaysFalse
      ∧ st1.ChecksAlwaysTrue ≤ st1.ChecksAdded := by
  induction calls generalizing st with
  | nil =>
    simp only [instrumentGEPs, Option.some.injEq] at h
    subst h; exact hinv
  | cons c rest ih =>
    obtain ⟨ps, g⟩ := c
    simp only [instrumentGEPs] at h
    split at h
    · simp at h
    · rename_i ps1 b h1
      exact ih _ h (instrumentGEP_counters env _ g _ h1 (by simpa [carryCheckCounters] using hinv))

/-- C3. Statistics conservation: starting from zeroed counters, with the naive
switch off as shipped, after any sequence of `instrumentGEP` calls
`ChecksConsidered = ChecksAdded + ChecksSkippedForSafe + ChecksUnable +
ChecksAlwaysFalse`, and the checks counted in `ChecksAlwaysTrue` are counted in
`ChecksAdded` as well. -/
theorem C3_statistics_conservation (env : Env)
    (calls : List (PassState × GetElementPtrInst)) (st : Statistics)
    (h : instrumentGEPs env calls Statistics.zero = some st) :
    st.ChecksConsidered = st.ChecksAdded + st.ChecksSkippedForSafe
        + st.ChecksUnable + st.ChecksAlwaysFalse
      ∧ st.ChecksAlwaysTrue ≤ st.ChecksAdded :=
  instrumentGEPs_counters env calls Statistics.zero st h ⟨rfl, le_refl _⟩

/-- C3 on three calls: `p[5]` with 8 bytes recorded (always true), `p[2]` with 12
bytes recorded (always false), and `p[2]` on a `Safe` pointer (skipped). -/
theorem C3_statistics_conservation_witness :
    instrumentGEPs (Demo.env 4)
        [(Demo.ps 8 5 20 .Seq, Demo.gep 5 20), (Demo.ps 12 2 8 .Seq, Demo.gep 2 8),
         (Demo.ps 12 2 8 .Safe, Demo.gep 2 8)] Statistics.zero
      = some ⟨0, 3, 1, 1, 1, 1, 0, 0, 0, 0, 0⟩
    ∧ (3 = 1 + 1 + 0 + 1 ∧ 1 ≤ 1) :=
  ⟨by rfl, C3_statistics_conservation (Demo.env 4)
    [(Demo.ps 8 5 20 .Seq, Demo.gep 5 20), (Demo.ps 12 2 8 .Seq, Demo.gep 2 8),
     (Demo.ps 12 2 8 .Safe, Demo.gep 2 8)] ⟨0, 3, 1, 1, 1, 1, 0, 0, 0, 0, 0⟩ (by rfl)⟩

theorem wrapSub_lt (bits a b : Nat) : wrapSub bits a b < 2 ^ bits :=
  Nat.mod_lt _ (Nat.pos_pow_of_pos _ (by decide))

theorem ConstantInt_get_wrapSub (bits a b : Nat) :
    ConstantInt.get bits (wrapSub bits a b) = .ConstantInt bits (wrapSub bits a b) := by
  unfold ConstantInt.get
  rw [Nat.mod_eq_of_lt (wrapSub_lt bits a b)]

/-- A constant offset is found without touching the state, whatever the state. -/
theorem getOffsetForGEPInst_const (env : Env) (ps : PassState) (g : GetElementPtrInst)
    (bits off : Nat) (h : (getOffsetForGEPInst env ps g).2 = .ConstantInt bits off)
    (ps1 : PassState) : getOffsetForGEPInst env ps1 g = (ps1, .ConstantInt bits off) := by
  unfold getOffsetForGEPInst at h ⊢
  cases h1 : (env.ObjSizeEval g.asValue).2 with
  | some o => simp only [h1] at h ⊢; rw [h]
  | none =>
    simp only [h1] at h ⊢
    cases h2 : g.ConstantOffset with
    | some Off => simp only [h2] at h ⊢; rw [h]
    | none =>
      simp only [h2] at h ⊢
      unfold PassState.CreateCastToInt at h ⊢
      by_cases c1 : g.lastIndexOperand.getType = .IntegerTy 64
      · simp only [c1, if_true] at h ⊢
        unfold PassState.CreateBinOp at h ⊢
        by_cases c2 : (g.lastIndexOperand.isConstant &&
            (ConstantInt.get 64 (env.getTypeStoreSize g.getResultElementType)).isConstant) = true
        · simp only [c2, if_true] at h ⊢; rw [h]
        · simp only [c2] at h; simp at h
      · simp only [c1, if_false] at h ⊢
        by_cases c3 : g.lastIndexOperand.isConstant = true
        · simp only [c3, if_true] at h ⊢
          unfold PassState.CreateBinOp at h ⊢
          by_cases c2 : ((foldCastToInt 64 g.lastIndexOperand).isConstant &&
              (ConstantInt.get 64 (env.getTypeStoreSize g.getResultElementType)).isConstant) = true
          · simp only [c2, if_true] at h ⊢; rw [h]
          · simp only [c2] at h; simp at h
        · simp only [c3] at h
          unfold PassState.CreateBinOp at h
          simp [Value.isConstant] at h

/-- With a constant size and a constant offset the comparison folds: the check
is elided when it is false and emitted without a condition when it is true. -/
theorem instrumentGEP_compare_const (env : Env) (ps : PassState) (g : GetElementPtrInst)
    (info : VariableInfo) (bits S off : Nat) (hsize : info.size = .ConstantInt bits S)
    (hoff : (getOffsetForGEPInst env ps g).2 = .ConstantInt 64 off) :
    instrumentGEP.compare env ps g info =
      if icmpSLT 64 (wrapSub 64 S (env.getTypeStoreSize g.getResultElementType)) off = true
      then instrumentGEP.emit env (ps.count Statistics.incChecksAlwaysTrue) none
      else some (ps.count Statistics.incChecksAlwaysFalse, false) := by
  unfold instrumentGEP.compare
  simp only [getOffsetForGEPInst_const env ps g 64 off hoff ps, instrumentGEP.LHS, hsize,
    Value.asConstantInt, IntPtrBits, ConstantInt_get_wrapSub, PassState.CreateICmpSLT,
    Value.isConstant, Bool.and_self, if_true, foldICmpSLT, IS_NAIVE, Bool.not_false]
  by_cases hc : icmpSLT 64 (wrapSub 64 S (env.getTypeStoreSize g.getResultElementType)) off = true
  · simp [hc]
  · simp [hc]

theorem getTrapBB_TrapBB (env : Env) (ps : PassState) (I : Value) (r : PassState × Ident)
    (h : getTrapBB env ps I = some r) : r.1.TrapBB = some r.2 := by
  unfold getTrapBB at h
  split at h
  · rename_i bb hbb
    simp only [Option.some.injEq] at h; rw [← h]; exact hbb
  · simp only [Option.bind_eq_bind, Option.bind_eq_some, Option.some.injEq] at h
    obtain ⟨Fn, -, r3, h3, r4, h4, h⟩ := h
    have e3 := PassState.CreateCall_TrapBB _ _ _ _ h3
    have e4 := PassState.CreateCall_TrapBB _ _ _ _ h4
    rw [← h]
    simp only [PassState.SetInsertPoint_TrapBB, PassState.Insert_TrapBB,
      PassState.fresh_TrapBB, PassState.setModule_TrapBB] at e4 ⊢
    rw [e4, e3]
    rfl

/-- What the emitting end of `instrumentGEP` leaves: the block `OldBB` that held
the insertion point got the branch to the trap block appended. -/
theorem instrumentGEP_emit_branch (env : Env) (ps : PassState) (Cmp : Option Value)
    (r : PassState × Bool) (h : instrumentGEP.emit env ps Cmp = some r) :
    r.2 = true ∧ ∃ (I : Value) (OldBB trap Cont id : Ident) (M : Module),
      ps.InsertPt = .before I ∧ ps.CurrentModule.getParent I = some OldBB ∧
      r.1.TrapBB = some trap ∧
      r.1.CurrentModule = M.appendToBlock OldBB (trapBranch id Cmp trap Cont) := by
  unfold instrumentGEP.emit at h
  simp only [IS_DEBUGGING, Bool.false_eq_true, if_false, Option.bind_eq_bind,
    Option.bind_eq_some, Option.some.injEq] at h
  obtain ⟨ps2, h2, I, hI, OldBB, hOld, r3, h3, h⟩ := h
  subst h2
  refine ⟨by rw [← h], I, OldBB, r3.2, (ps.count Statistics.incChecksAdded).fresh.2,
    r3.1.fresh.2, r3.1.CurrentModule, ?_, hOld, ?_, ?_⟩
  · have : (ps.count Statistics.incChecksAdded).InsertPt = ps.InsertPt := rfl
    rw [this] at hI
    cases hp : ps.InsertPt with
    | before J => rw [hp] at hI; simp only [InsertPoint.instruction, Option.some.injEq] at hI; rw [hI]
    | atEnd bb => rw [hp] at hI; simp [InsertPoint.instruction] at hI
  · rw [← h]
    simpa using getTrapBB_TrapBB _ _ _ _ h3
  · rw [← h]; rfl

/-- C4. Constant bounds checks.  For a `getelementptr` with indices in a function
that is not whitelisted, whose base pointer has a record with the constant size
`S`, with result element byte size `e` and constant byte offset `off`: a `Safe`
base gets nothing emitted; for a `Seq` or `Dyn` base, when the signed comparison
`(S - e) < off` is false nothing is emitted, `ChecksAlwaysFalse` grows by one and
`ChecksAdded` stays; when it is true `instrumentGEP` takes its emitting end with
the null condition, and what that leaves is `ChecksAlwaysTrue` and `ChecksAdded`
grown by one and the block of the insertion point ended by an unconditional
branch to the trap block. -/
theorem C4_constant_check (env : Env) (ps : PassState) (g : GetElementPtrInst)
    (info : VariableInfo) (bits S off : Nat)
    (hwl : ps.isCurrentFunctionWhitelisted = false)
    (hwli : ps.isCurrentFunctionWhitelistedForInstrumentation = false)
    (hidx : g.hasIndices = true)
    (hinfo : ps.TheState.GetPointerVariableInfo env.uninit g.PointerOperand = some info)
    (hsize : info.size = .ConstantInt bits S)
    (hoff : (getOffsetForGEPInst env ps g).2 = .ConstantInt 64 off) :
    (info.classification = .Safe →
      ∃ ps1, instrumentGEP env ps g = some (ps1, false)
        ∧ ps1.CurrentModule = ps.CurrentModule) ∧
    (info.classification = .Seq ∨ info.classification = .Dyn →
      (icmpSLT 64 (wrapSub 64 S (env.getTypeStoreSize g.getResultElementType)) off = false →
        ∃ ps1, instrumentGEP env ps g = some (ps1, false)
          ∧ ps1.CurrentModule = ps.CurrentModule
          ∧ ps1.stats.ChecksAlwaysFalse = ps.stats.ChecksAlwaysFalse + 1
          ∧ ps1.stats.ChecksAdded = ps.stats.ChecksAdded) ∧
      (icmpSLT 64 (wrapSub 64 S (env.getTypeStoreSize g.getResultElementType)) off = true →
        instrumentGEP env ps g = instrumentGEP.emit env
            ((ps.count Statistics.incChecksConsidered).count Statistics.incChecksAlwaysTrue) none
          ∧ ∀ r, instrumentGEP env ps g = some r →
            r.2 = true
            ∧ r.1.stats.ChecksAlwaysTrue = ps.stats.ChecksAlwaysTrue + 1
            ∧ r.1.stats.ChecksAdded = ps.stats.ChecksAdded + 1
            ∧ ∃ (I : Value) (OldBB trap id : Ident) (M : Module), ps.InsertPt = .before I
                ∧ ps.CurrentModule.getParent I = some OldBB
                ∧ r.1.TrapBB = some trap
                ∧ r.1.CurrentModule = M.appendToBlock OldBB (.Br id trap))) := by
  have hunf : ∀ (hns : info.classification ≠ .Safe), instrumentGEP env ps g =
      instrumentGEP.compare env (ps.count Statistics.incChecksConsidered) g info := by
    intro hns
    unfold instrumentGEP
    simp [hwl, hwli, hidx, hinfo, hns]
  have hoff1 : (getOffsetForGEPInst env (ps.count Statistics.incChecksConsidered) g).2
      = .ConstantInt 64 off := by
    rw [getOffsetForGEPInst_const env ps g 64 off hoff]
  refine ⟨?_, ?_⟩
  · intro hsafe
    refine ⟨(ps.count Statistics.incChecksConsidered).count
      Statistics.incChecksSkippedForSafe, ?_, rfl⟩
    unfold instrumentGEP
    simp [hwl, hwli, hidx, hinfo, hsafe]
  · intro hcls
    have hns : info.classification ≠ .Safe := by
      rcases hcls with h | h <;> rw [h] <;> decide
    refine ⟨?_, ?_⟩
    · intro hfalse
      refine ⟨(ps.count Statistics.incChecksConsidered).count
        Statistics.incChecksAlwaysFalse, ?_, rfl, rfl, rfl⟩
      rw [hunf hns, instrumentGEP_compare_const env _ g info bits S off hsize hoff1, hfalse]
      rfl
    · intro htrue
      have heq : instrumentGEP env ps g = instrumentGEP.emit env
          ((ps.count Statistics.incChecksConsidered).count Statistics.incChecksAlwaysTrue)
          none := by
        rw [hunf hns, instrumentGEP_compare_const env _ g info bits S off hsize hoff1, htrue]
        rfl
      refine ⟨heq, ?_⟩
      intro r hr
      rw [heq] at hr
      obtain ⟨hb, I, OldBB, trap, Cont, id, M, hI, hOld, hT, hM⟩ :=
        instrumentGEP_emit_branch _ _ _ _ hr
      have hst := (instrumentGEP_emit_stats _ _ _ _ hr).1
      refine ⟨hb, ?_, ?_, I, OldBB, trap, id, M, hI, hOld, hT, hM⟩
      · rw [hst]; rfl
      · rw [hst]; rfl

/-- C4 on `p = malloc(8); x = p[5]` with `sizeof(int) = 4`: the record of `p` is
`Seq` with size 8, the comparison is `4 < 20`, the check is emitted without a
condition: the block of the `getelementptr` now ends in a branch to the trap
block, the trap block ends in `unreachable`. -/
theorem C4_constant_check_witness :
    icmpSLT 64 (wrapSub 64 8 4) 20 = true
    ∧ (∃ r, instrumentGEP (Demo.env 4) (Demo.ps 8 5 20 .Seq) (Demo.gep 5 20) = some r
        ∧ r.2 = true ∧ r.1.stats.ChecksAlwaysTrue = 1 ∧ r.1.stats.ChecksAdded = 1
        ∧ ∃ (I : Value) (OldBB trap id : Ident) (M : Module),
            (Demo.ps 8 5 20 .Seq).InsertPt = .before I
            ∧ (Demo.ps 8 5 20 .Seq).CurrentModule.getParent I = some OldBB
            ∧ r.1.TrapBB = some trap
            ∧ r.1.CurrentModule = M.appendToBlock OldBB (.Br id trap))
    ∧ (instrumentGEP (Demo.env 4) (Demo.ps 8 5 20 .Seq) (Demo.gep 5 20)).map
        (fun r => (r.1.TrapBB, (r.1.CurrentModule.getFunction "main").map
          (fun F => F.blocks.map (fun b => (b.id, b.insts.getLast?)))))
      = some (some (.made 2), some
          [ (.input 100, some (.Br (.made 6) (.made 2))),
            (.made 0, some (.Return (.input 3) (some (.ConstantInt 32 0)))),
            (.made 2, some (.Unreachable (.made 5))) ]) := by
  refine ⟨by decide, ?_, by rfl⟩
  obtain ⟨r, hr⟩ := Option.isSome_iff_exists.mp
    (show (instrumentGEP (Demo.env 4) (Demo.ps 8 5 20 .Seq) (Demo.gep 5 20)).isSome = true
      by rfl)
  exact ⟨r, hr, (((C4_constant_check (Demo.env 4) (Demo.ps 8 5 20 .Seq) (Demo.gep 5 20)
    { AnalysisState.freshInfo (AnalysisState.init 64) with
      classification := .Seq, size := .ConstantInt 64 8 }
    64 8 20 rfl rfl rfl (by rfl) rfl (by rfl)).2 (Or.inl rfl)).2 (by decide)).2 r hr⟩

/-! ## Soundness of the comparison -/

/-- C5, as stated, fails: with recorded size 8, a result element of size 0 and
offset 8 the signed comparison `(S - e) < off` is `8 < 8`, false, yet the offset is
not below the size, neither as unsigned nor as signed numbers. -/
theorem C5_check_soundness_counterexample :
    icmpSLT 64 (wrapSub 64 8 0) 8 = false
    ∧ ¬ (8 < 8)
    ∧ ¬ (toSigned 64 8 < toSigned 64 8)
    ∧ ¬ (∀ S e off : Nat, S < 2 ^ 64 → e < 2 ^ 64 → off < 2 ^ 64 →
          icmpSLT 64 (wrapSub 64 S e) off = false → off < S) := by
  refine ⟨by decide, by decide, by decide, ?_⟩
  intro h
  exact absurd (h 8 0 8 (by decide) (by decide) (by decide) (by decide)) (by decide)

/-- C5, amended.  For a recorded size `S` and a result element size `e` that are
positive as signed 64-bit numbers (`S < 2^63`, `0 < e < 2^63`) and every 64-bit
offset: whenever the signed comparison `(S - e) < off` is false, the offset read as
a signed number is strictly below `S`; so an offset that is not negative is below
`S` as a byte count. -/
theorem C5_check_soundness (S e off : Nat) (hS : S < 2 ^ 63) (he0 : 0 < e)
    (he : e < 2 ^ 63) (hoff : off < 2 ^ 64)
    (h : icmpSLT 64 (wrapSub 64 S e) off = false) :
    toSigned 64 off < (S : Int) ∧ (off < 2 ^ 63 → off < S) := by
  unfold icmpSLT at h
  simp only [decide_eq_false_iff_not, not_lt] at h
  unfold toSigned wrapSub at h
  unfold toSigned
  norm_num at h hS he hoff ⊢
  have e1 : off % 18446744073709551616 = off := Nat.mod_eq_of_lt hoff
  have e2 : e % 18446744073709551616 = e := Nat.mod_eq_of_lt (by omega)
  rw [e1, e2] at h
  rw [e1]
  by_cases c : e ≤ S
  · have e3 : (S + 18446744073709551616 - e) % 18446744073709551616 = S - e := by
      have : S + 18446744073709551616 - e = (S - e) + 18446744073709551616 := by omega
      rw [this, Nat.add_mod_right, Nat.mod_eq_of_lt (by omega)]
    rw [e3] at h
    split at h <;> split at h <;> split <;> omega
  · have e3 : (S + 18446744073709551616 - e) % 18446744073709551616
        = S + 18446744073709551616 - e := Nat.mod_eq_of_lt (by omega)
    rw [e3] at h
    split at h <;> split at h <;> split <;> omega

/-- C5, amended, at `S = 12`, `e = 4`, `off = 8`: `8 < 8` is false and `8 < 12`. -/
theorem C5_check_soundness_witness :
    icmpSLT 64 (wrapSub 64 12 4) 8 = false
    ∧ toSigned 64 8 < ((12 : Nat) : Int) ∧ ((8 : Nat) < 2 ^ 63 → (8 : Nat) < 12) :=
  ⟨by decide, C5_check_soundness 12 4 8 (by decide) (by decide) (by decide) (by decide)
    (by decide)⟩

/-! ## The signature transformer -/

theorem needsRewritten_eq_isPointerTy (t : LType) : needsRewritten t = t.isPointerTy := by
  cases t <;> rfl

theorem newSizeArgs_types (Params : List (String × LType)) :
    ((Params.filter (fun p => needsRewritten p.2)).map
        (fun p => (p.1 ++ "_size", MySizeType))).map (·.2)
      = List.replicate (Params.countP (fun p => p.2.isPointerTy)) MySizeType := by
  induction Params with
  | nil => rfl
  | cons p rest ih =>
    by_cases h : p.2.isPointerTy = true
    · have h1 : needsRewritten p.2 = true := by rw [needsRewritten_eq_isPointerTy]; exact h
      simp only [List.filter_cons, h1, if_true, List.map_cons, List.countP_cons, h,
        List.replicate_succ] at ih ⊢
      rw [ih]
    · have h1 : needsRewritten p.2 = false := by
        rw [needsRewritten_eq_isPointerTy]; simpa using h
      simp only [List.filter_cons, h1, List.countP_cons, h] at ih ⊢
      simpa using ih

/-- What `rewriteFunctionSignature` returns when it rewrites. -/
theorem rewriteFunctionSignature_rewritten (ps : PassState) (F : Function)
    (h : (rewriteFunctionSignature ps F).2 ≠ F) :
    ps.isCurrentFunctionWhitelisted = false
    ∧ (!(newSizeArgs F).isEmpty || needsRewritten F.ReturnType) = true
    ∧ (rewriteFunctionSignature ps F).2.name = F.name ++ "_nesCheck"
    ∧ (rewriteFunctionSignature ps F).2.ReturnType = newReturnType F
    ∧ (rewriteFunctionSignature ps F).2.Params = F.Params ++ newSizeArgs F
    ∧ (rewriteFunctionSignature ps F).2.isVarArg = F.isVarArg := by
  unfold rewriteFunctionSignature at h ⊢
  by_cases hw : ps.isCurrentFunctionWhitelisted = true
  · simp [hw] at h
  · simp only [hw, if_false] at h ⊢
    by_cases hc : (!(newSizeArgs F).isEmpty || needsRewritten F.ReturnType) = true
    · simp only [hc, Bool.not_true, Bool.false_eq_true, if_false] at h ⊢
      exact ⟨by simp [hw], trivial, rfl, rfl, rfl, rfl⟩
    · simp [hc] at h

/-- Parameter types and arity of the rewritten function. -/
theorem C6_signature_fidelity_aux (ps : PassState) (F : Function)
    (h : (rewriteFunctionSignature ps F).2 ≠ F) :
    ((rewriteFunctionSignature ps F).2.Params.map (·.2)
        = F.Params.map (·.2)
          ++ List.replicate (F.Params.countP (fun p => p.2.isPointerTy)) (.IntegerTy 64))
    ∧ (rewriteFunctionSignature ps F).2.Params.length
        = F.Params.length + F.Params.countP (fun p => p.2.isPointerTy) := by
  obtain ⟨-, -, -, -, hpar, -⟩ := rewriteFunctionSignature_rewritten ps F h
  have htypes : (rewriteFunctionSignature ps F).2.Params.map (·.2)
      = F.Params.map (·.2)
        ++ List.replicate (F.Params.countP (fun p => p.2.isPointerTy)) (.IntegerTy 64) := by
    rw [hpar, List.map_append]
    unfold newSizeArgs
    rw [newSizeArgs_types]
    rfl
  refine ⟨htypes, ?_⟩
  have := congrArg List.length htypes
  simpa using this

/-- C6. Signature fidelity: when `rewriteFunctionSignature` rewrites `F`, the
parameter types of the new function are those of `F`, in order, followed by one
64-bit size type per pointer-typed parameter of `F`, so the new arity is the old
one plus the number of pointer parameters; the return type is the struct of the
old return type and the size type when `F` returns a pointer, and the old return
type otherwise. -/
theorem C6_signature_fidelity (ps : PassState) (F : Function)
    (h : (rewriteFunctionSignature ps F).2 ≠ F) :
    ((rewriteFunctionSignature ps F).2.Params.map (·.2)
        = F.Params.map (·.2)
          ++ List.replicate (F.Params.countP (fun p => p.2.isPointerTy)) (.IntegerTy 64))
    ∧ (rewriteFunctionSignature ps F).2.Params.length
        = F.Params.length + F.Params.countP (fun p => p.2.isPointerTy)
    ∧ (rewriteFunctionSignature ps F).2.ReturnType
        = (if F.ReturnType.isPointerTy = true
            then .StructTy (.cons F.ReturnType (.cons (.IntegerTy 64) .nil))
            else F.ReturnType) := by
  obtain ⟨-, -, -, hret, -, -⟩ := rewriteFunctionSignature_rewritten ps F h
  refine ⟨(C6_signature_fidelity_aux ps F h).1, (C6_signature_fidelity_aux ps F h).2, ?_⟩
  rw [hret]
  unfold newReturnType
  rw [needsRewritten_eq_isPointerTy]
  rfl

/-- The four updates `rewriteFunctionSignature` makes for one pointer argument `a`
with the extra argument `c`: the record of `a`. -/
theorem bindOne_same (s : AnalysisState) (a c : Value) :
    ((((s.RegisterVariable a).SetSizeForPointerVariable a (some c)
        ).SetExplicitSizeVariableForPointerVariable a (some c)
        ).SetInstantiatedExplicitSizeVariable a true).Variables a
      = some { s.record a with
          size := c
          hasExplicitSizeVariable := true
          explicitSizeVariable := some c
          instantiatedExplicitSizeVariable := true } := by
  rw [AnalysisState.SetInstantiatedExplicitSizeVariable_same]
  rw [AnalysisState.record_of_some _ _ _
    (AnalysisState.SetExplicitSizeVariableForPointerVariable_same _ _ _)]
  rw [AnalysisState.record_of_some _ _ _ (AnalysisState.SetSizeForPointerVariable_same _ _ _)]
  rw [AnalysisState.RegisterVariable_record]
  rfl

theorem bindOne_other (s : AnalysisState) (a c w : Value) (h : w ≠ a) :
    ((((s.RegisterVariable a).SetSizeForPointerVariable a (some c)
        ).SetExplicitSizeVariableForPointerVariable a (some c)
        ).SetInstantiatedExplicitSizeVariable a true).Variables w = s.Variables w := by
  rw [AnalysisState.SetInstantiatedExplicitSizeVariable_other _ _ _ _ h,
    AnalysisState.SetExplicitSizeVariableForPointerVariable_other _ _ _ _ h,
    AnalysisState.SetSizeForPointerVariable_other _ _ _ _ h,
    AnalysisState.RegisterVariable_other _ _ _ h]

theorem getArg_ne (NF : Function) (k m : Nat) (h : k ≠ m) : NF.getArg k ≠ NF.getArg m := by
  unfold Function.getArg
  intro e
  injection e with _ hk _
  exact h hk

/-- The loop leaves alone the arguments in front of the position it starts at. -/
theorem bindSizeArguments_before (NF : Function) (tys : List LType) (NAI NNAI : Nat)
    (s : AnalysisState) (k : Nat) (hk : k < NAI) :
    (bindSizeArguments NF tys NAI NNAI s).Variables (NF.getArg k) = s.Variables (NF.getArg k) := by
  induction tys generalizing NAI NNAI s with
  | nil => rfl
  | cons AI rest ih =>
    unfold bindSizeArguments
    split
    · rw [ih _ _ _ (by omega), bindOne_other _ _ _ _ (getArg_ne NF k NAI (by omega))]
    · exact ih _ _ _ (by omega)

/-- The record the loop leaves for the argument at position `NAI + i` when it
needs rewriting: its size and explicit size variable are the extra argument at
position `NNAI` plus the number of arguments in front of it that need rewriting. -/
theorem bindSizeArguments_at (NF : Function) (tys : List LType) (NAI NNAI : Nat)
    (s : AnalysisState) (i : Nat) (ty : LType) (hi : tys.get? i = some ty)
    (hty : needsRewritten ty = true) :
    ∃ info, (bindSizeArguments NF tys NAI NNAI s).Variables (NF.getArg (NAI + i)) = some info
      ∧ info.size = NF.getArg (NNAI + (tys.take i).countP needsRewritten)
      ∧ info.hasExplicitSizeVariable = true
      ∧ info.explicitSizeVariable = some (NF.getArg (NNAI + (tys.take i).countP needsRewritten))
      ∧ info.instantiatedExplicitSizeVariable = true := by
  induction tys generalizing NAI NNAI s i with
  | nil => simp at hi
  | cons AI rest ih =>
    cases i with
    | zero =>
      simp only [List.get?_cons_zero, Option.some.injEq] at hi
      subst hi
      unfold bindSizeArguments
      simp only [hty, if_true, Nat.add_zero, List.take_zero, List.countP_nil]
      rw [bindSizeArguments_before NF rest (NAI + 1) (NNAI + 1) _ NAI (by omega), bindOne_same]
      exact ⟨_, rfl, rfl, rfl, rfl, rfl⟩
    | succ i =>
      simp only [List.get?_cons_succ] at hi
      unfold bindSizeArguments
      by_cases hA : needsRewritten AI = true
      · simp only [hA, if_true, List.take_succ_cons, List.countP_cons_of_pos]
        obtain ⟨info, h1, h2, h3, h4, h5⟩ := ih (NAI + 1) (NNAI + 1) _ i hi
        refine ⟨info, ?_, ?_, h3, ?_, h5⟩
        · rw [← h1]; congr 2; omega
        · rw [h2]; congr 1; omega
        · rw [h4]; congr 2; omega
      · simp only [hA, List.take_succ_cons]
        rw [List.countP_cons_of_neg _ _ (by simpa using hA)]
        obtain ⟨info, h1, h2, h3, h4, h5⟩ := ih (NAI + 1) NNAI s i hi
        refine ⟨info, ?_, h2, h3, h4, h5⟩
        rw [← h1]; congr 2; omega

theorem rewriteFunctionSignature_TheState (ps : PassState) (F : Function)
    (h : (rewriteFunctionSignature ps F).2 ≠ F) :
    (rewriteFunctionSignature ps F).1.TheState =
      bindSizeArguments (newFunction F) (F.Params.map (·.2)) 0 F.Params.length ps.TheState := by
  obtain ⟨hw, hc, -⟩ := rewriteFunctionSignature_rewritten ps F h
  unfold rewriteFunctionSignature
  simp only [hw, hc, Bool.false_eq_true, if_false, Bool.not_true]
  split <;> rfl

theorem countP_take_lt (p : LType → Bool) (tys : List LType) (i : Nat) (ty : LType)
    (hi : tys.get? i = some ty) (hty : p ty = true) :
    (tys.take i).countP p < tys.countP p := by
  induction tys generalizing i with
  | nil => simp at hi
  | cons a rest ih =>
    cases i with
    | zero =>
      simp only [List.get?_cons_zero, Option.some.injEq] at hi
      subst hi
      simp [List.countP_cons, hty]
    | succ i =>
      simp only [List.get?_cons_succ] at hi
      have := ih i hi
      simp only [List.take_succ_cons, List.countP_cons]
      omega

theorem countP_take_strictMono (p : LType → Bool) (tys : List LType) (i k : Nat) (ty : LType)
    (hi : tys.get? i = some ty) (hty : p ty = true) (hik : i < k) :
    (tys.take i).countP p < (tys.take k).countP p := by
  have h1 : (tys.take k).get? i = some ty := by
    rw [List.get?_eq_getElem?, List.getElem?_take_of_lt hik, ← List.get?_eq_getElem?]; exact hi
  have := countP_take_lt p (tys.take k) i ty h1 hty
  rwa [List.take_take, Nat.min_eq_left (le_of_lt hik)] at this

/-- C9. Companion size parameters: when `rewriteFunctionSignature` rewrites a
function `F` with `n` parameters, the pointer-typed parameter at position `i`,
with `j` pointer-typed parameters in front of it, has the new parameter at
position `n + j` as its companion: that position is one of the new trailing
parameters, of the 64-bit size type, no other pointer parameter has the same
companion, and after the rewrite the record of the parameter has the companion as
its size and as its explicit size variable, with `hasExplicitSizeVariable` and
`instantiatedExplicitSizeVariable` set. -/
theorem C9_companion_size_parameter (ps : PassState) (F : Function)
    (h : (rewriteFunctionSignature ps F).2 ≠ F) (i : Nat) (ty : LType)
    (hi : (F.Params.map (·.2)).get? i = some ty) (hty : ty.isPointerTy = true) :
    F.Params.length + ((F.Params.map (·.2)).take i).countP LType.isPointerTy
        < (rewriteFunctionSignature ps F).2.Params.length
    ∧ (rewriteFunctionSignature ps F).2.getArg
          (F.Params.length + ((F.Params.map (·.2)).take i).countP LType.isPointerTy)
        = .Argument (F.name ++ "_nesCheck")
            (F.Params.length + ((F.Params.map (·.2)).take i).countP LType.isPointerTy)
            (.IntegerTy 64)
    ∧ (∀ k ty1, k ≠ i → (F.Params.map (·.2)).get? k = some ty1 → ty1.isPointerTy = true →
        ((F.Params.map (·.2)).take k).countP LType.isPointerTy
          ≠ ((F.Params.map (·.2)).take i).countP LType.isPointerTy)
    ∧ ∃ info, (rewriteFunctionSignature ps F).1.TheState.Variables
          ((rewriteFunctionSignature ps F).2.getArg i) = some info
        ∧ info.size = (rewriteFunctionSignature ps F).2.getArg
            (F.Params.length + ((F.Params.map (·.2)).take i).countP LType.isPointerTy)
        ∧ info.hasExplicitSizeVariable = true
        ∧ info.explicitSizeVariable = some ((rewriteFunctionSignature ps F).2.getArg
            (F.Params.length + ((F.Params.map (·.2)).take i).countP LType.isPointerTy))
        ∧ info.instantiatedExplicitSizeVariable = true := by
  have hfun : needsRewritten = LType.isPointerTy := funext needsRewritten_eq_isPointerTy
  obtain ⟨-, -, hname, -, hpar, -⟩ := rewriteFunctionSignature_rewritten ps F h
  have hC6 := C6_signature_fidelity_aux ps F h
  have hlt := countP_take_lt LType.isPointerTy (F.Params.map (·.2)) i ty hi hty
  have hcount : (F.Params.map (·.2)).countP LType.isPointerTy
      = F.Params.countP (fun p => p.2.isPointerTy) := by
    rw [List.countP_map]; rfl
  have hgetArg : ∀ k, (rewriteFunctionSignature ps F).2.getArg k
      = (newFunction F).getArg k := by
    intro k
    unfold Function.getArg
    rw [hname, hpar]; rfl
  refine ⟨?_, ?_, ?_, ?_⟩
  · rw [hC6.2]; omega
  · unfold Function.getArg
    rw [hname, hC6.1]
    congr 1
    rw [List.getD_eq_getElem?_getD, List.getElem?_append_right (by simp)]
    simp only [List.length_map, Nat.add_sub_cancel_left]
    rw [List.getElem?_replicate]
    simp only [hcount] at hlt
    simp [hlt]
  · intro k ty1 hki hk hty1
    rcases Nat.lt_or_gt_of_ne hki with hlt1 | hlt1
    · exact ne_of_lt (countP_take_strictMono _ _ k i ty1 hk hty1 hlt1)
    · exact ne_of_gt (countP_take_strictMono _ _ i k ty hi hty hlt1)
  · rw [rewriteFunctionSignature_TheState ps F h]
    simp only [hgetArg]
    have := bindSizeArguments_at (newFunction F) (F.Params.map (·.2)) 0 F.Params.length
      ps.TheState i ty hi (by rw [needsRewritten_eq_isPointerTy]; exact hty)
    simpa [hfun] using this

/-- C6 on `foo_t* testMT_aux(int* p)`: the new function takes `(i32*, i64)` and
returns `{ foo_t*, i64 }`. -/
theorem C6_signature_fidelity_witness :
    ((rewriteFunctionSignature (initialState Demo.paper) Demo.testMT_aux).2 ≠ Demo.testMT_aux)
    ∧ ((rewriteFunctionSignature (initialState Demo.paper) Demo.testMT_aux).2.Params.map (·.2)
        = [Demo.i32p] ++ List.replicate 1 (.IntegerTy 64))
    ∧ (rewriteFunctionSignature (initialState Demo.paper) Demo.testMT_aux).2.Params.length = 1 + 1
    ∧ (rewriteFunctionSignature (initialState Demo.paper) Demo.testMT_aux).2.ReturnType
        = .StructTy (.cons Demo.fooP (.cons (.IntegerTy 64) .nil)) :=
  ⟨by decide, C6_signature_fidelity (initialState Demo.paper) Demo.testMT_aux (by decide)⟩

/-- C9 on `foo_t* testMT_aux(int* p)`: the companion of `p` (position 0, no
pointer parameter in front of it) is the new parameter at position 1. -/
theorem C9_companion_size_parameter_witness :
    (1 + 0 < (rewriteFunctionSignature (initialState Demo.paper) Demo.testMT_aux).2.Params.length)
    ∧ (rewriteFunctionSignature (initialState Demo.paper) Demo.testMT_aux).2.getArg (1 + 0)
        = .Argument "testMT_aux_nesCheck" 1 (.IntegerTy 64)
    ∧ ∃ info, (rewriteFunctionSignature (initialState Demo.paper) Demo.testMT_aux).1.TheState.Variables
          (.Argument "testMT_aux_nesCheck" 0 Demo.i32p) = some info
        ∧ info.size = .Argument "testMT_aux_nesCheck" 1 (.IntegerTy 64)
        ∧ info.hasExplicitSizeVariable = true
        ∧ info.explicitSizeVariable = some (.Argument "testMT_aux_nesCheck" 1 (.IntegerTy 64))
        ∧ info.instantiatedExplicitSizeVariable = true :=
  have h := C9_companion_size_parameter (initialState Demo.paper) Demo.testMT_aux (by decide)
    0 Demo.i32p rfl rfl
  ⟨h.1, h.2.1, h.2.2.2⟩

/-! ## The call-site rewriter -/

/-- The size arguments collected for the fixed arguments: one for each argument
that needs rewriting, in the order of the arguments, each the size found for its
argument. -/
theorem collectSizeArguments_spec (env : Env) (args : List Value) (ps : PassState)
    (r : PassState × List Value) (h : collectSizeArguments env ps args = some r) :
    r.2.length = args.countP (fun a => a.getType.isPointerTy)
    ∧ List.Forall₂ (fun a sz => ∃ p q, sizeArgumentFor env p a = some (q, sz))
        (args.filter (fun a => a.getType.isPointerTy)) r.2 := by
  induction args generalizing ps r with
  | nil =>
    simp only [collectSizeArguments, Option.some.injEq] at h
    subst h
    exact ⟨rfl, List.Forall₂.nil⟩
  | cons a rest ih =>
    unfold collectSizeArguments at h
    by_cases hp : a.getType.isPointerTy = true
    · have hn : needsRewritten a.getType = true := by
        rw [needsRewritten_eq_isPointerTy]; exact hp
      simp only [hn, if_true] at h
      cases h1 : sizeArgumentFor env ps a with
      | none => simp [h1] at h
      | some r1 =>
        simp only [h1] at h
        cases h2 : collectSizeArguments env r1.1 rest with
        | none => simp [h2] at h
        | some r2 =>
          simp only [h2, Option.some.injEq] at h
          subst h
          obtain ⟨hl, hf⟩ := ih r1.1 r2 h2
          refine ⟨?_, ?_⟩
          · simp [List.countP_cons, hp, hl]
          · rw [List.filter_cons_of_pos (by simpa using hp)]
            exact List.Forall₂.cons ⟨ps, r1.1, h1⟩ hf
    · have hn : needsRewritten a.getType = false := by
        rw [needsRewritten_eq_isPointerTy]; simpa using hp
      simp only [hn] at h
      obtain ⟨hl, hf⟩ := ih ps r h
      refine ⟨?_, ?_⟩
      · simp [List.countP_cons, hp, hl]
      · rw [List.filter_cons_of_neg (by simpa using hp)]
        exact hf

/-- What `rewriteCallSite` does when it succeeds: the new argument list and the
call that replaces the old one. -/
theorem rewriteCallSite_spec (env : Env) (ps ps1 : PassState) (id : Ident) (ty : LType)
    (cv : Value) (Args : List Value) (isTailCall : Bool) (CallingConv : Nat)
    (h : rewriteCallSite env ps (.Call id ty cv Args isTailCall CallingConv) = some ps1) :
    ∃ (sizes : List Value) (ps2 : PassState) (NF : Function),
      sizes.length = (Args.take cv.getFunctionType.getNumParams).countP
          (fun a => a.getType.isPointerTy)
      ∧ List.Forall₂ (fun a sz => ∃ p q, sizeArgumentFor env p a = some (q, sz))
          ((Args.take cv.getFunctionType.getNumParams).filter (fun a => a.getType.isPointerTy))
          sizes
      ∧ (Args.take cv.getFunctionType.getNumParams ++ sizes
            ++ Args.drop cv.getFunctionType.getNumParams).length
          = Args.length + (Args.take cv.getFunctionType.getNumParams).countP
              (fun a => a.getType.isPointerTy)
      ∧ cv.asFunctionName.map (· ++ "_nesCheck") = some NF.name
      ∧ collectSizeArguments env (ps.count Statistics.incFunctionCallSitesRewritten)
          (Args.take cv.getFunctionType.getNumParams) = some (ps2, sizes)
      ∧ ps1 = rewriteCallSite.replace ps2 (.Call id ty cv Args isTailCall CallingConv)
          (.Call ps2.fresh.2 NF.ReturnType NF.asValue
            (Args.take cv.getFunctionType.getNumParams ++ sizes
              ++ Args.drop cv.getFunctionType.getNumParams) isTailCall CallingConv) := by
  unfold rewriteCallSite at h
  cases hn : cv.asFunctionName with
  | none => simp [hn] at h
  | some calledF =>
    simp only [hn] at h
    unfold rewriteCallSite.buildArgs at h
    cases hc : collectSizeArguments env (ps.count Statistics.incFunctionCallSitesRewritten)
        (Args.take cv.getFunctionType.getNumParams) with
    | none => simp [hc] at h
    | some r =>
      simp only [hc] at h
      cases hf : r.1.CurrentModule.getFunction (calledF ++ "_nesCheck") with
      | none => simp [hf] at h
      | some NF =>
        simp only [hf, Option.some.injEq] at h
        obtain ⟨hl, hfa⟩ := collectSizeArguments_spec env _ _ r hc
        refine ⟨r.2, r.1, NF, hl, hfa, ?_, ?_, rfl, h.symm⟩
        · have hlen := congrArg List.length
            (List.take_append_drop cv.getFunctionType.getNumParams Args)
          simp only [List.length_append] at hlen ⊢
          omega
        · have hname := List.find?_some hf
          simp only [decide_eq_true_eq] at hname
          simp [hname]

/-! ## Call-site completeness -/

/-! ### Call instructions that name a function to remove -/

theorem calleeIn_iff (R : List String) (cv : Value) :
    calleeIn R cv = true ↔ ∃ name, cv.asFunctionName = some name ∧ name ∈ R := by
  unfold calleeIn
  cases h : cv.asFunctionName with
  | none => simp
  | some name => simp

theorem calleeToRemove_eq (ps : PassState) (cv : Value) :
    calleeToRemove ps cv = calleeIn ps.FunctionsToRemove cv := rfl

theorem namesOneOf_iff (R : List String) (J : Instruction) :
    J.namesOneOf R = true ↔
      ∃ id ty cv Args t cc, J = .Call id ty cv Args t cc ∧ calleeIn R cv = true := by
  cases J <;> simp only [Instruction.namesOneOf]
  case Call id ty cv Args t cc =>
    constructor
    · intro h; exact ⟨id, ty, cv, Args, t, cc, rfl, h⟩
    · rintro ⟨_, _, _, _, _, _, h1, h2⟩
      cases h1; exact h2
  all_goals simp

theorem namesOneOf_nil (J : Instruction) : J.namesOneOf [] = false := by
  cases J <;> simp [Instruction.namesOneOf, calleeIn]
  split <;> simp

/-- The name of a value after `replaceAllUsesWith`, when the new value is no
function. -/
theorem asFunctionName_replaceUses (old new v : Value) (name : String)
    (hnew : new.asFunctionName = none)
    (h : (Value.replaceUses old new v).asFunctionName = some name) :
    v.asFunctionName = some name := by
  cases v <;> unfold Value.replaceUses at h <;> split at h <;>
    simp_all [Value.asFunctionName]

/-- A call instruction that names a function of `R` after `replaceAllUsesWith`
named it before and has kept its value. -/
theorem namesOneOf_replaceUses (R : List String) (old new : Value) (J : Instruction)
    (hnew : new.asFunctionName = none)
    (h : (Instruction.replaceUses old new J).namesOneOf R = true) :
    J.namesOneOf R = true ∧ (Instruction.replaceUses old new J).asValue = J.asValue := by
  cases J <;> simp [Instruction.replaceUses, Instruction.namesOneOf] at h
  case Call id ty cv args t cc =>
    obtain ⟨name, h1, h2⟩ := (calleeIn_iff R _).mp h
    have h3 := asFunctionName_replaceUses old new cv name hnew h1
    refine ⟨?_, ?_⟩
    · simp only [Instruction.namesOneOf]
      exact (calleeIn_iff R cv).mpr ⟨name, h3, h2⟩
    · simp [Instruction.replaceUses, Instruction.asValue, h1, h3]

/-! ### Edits of the module -/

theorem Module.Edits.unchanged (R : List String) (M : Module) : Module.Edits R M M :=
  ⟨id, fun G hG J hJ _ => ⟨G, hG, rfl, hJ⟩⟩

theorem Module.Edits.andThen {R : List String} {M N P : Module}
    (h1 : Module.Edits R M N) (h2 : Module.Edits R N P) : Module.Edits R M P := by
  refine ⟨fun h => h2.1 (h1.1 h), fun G hG J hJ hb => ?_⟩
  obtain ⟨F, hF, hn, hJF⟩ := h2.2 G hG J hJ hb
  obtain ⟨F1, hF1, hn1, hJF1⟩ := h1.2 F hF J hJF hb
  exact ⟨F1, hF1, hn1.trans hn, hJF1⟩

/-- An edit that replaces the blocks of every function by blocks whose call
instructions naming a function of `R` were in the function before. -/
theorem Module.Edits.blocks (R : List String) (M : Module)
    (g : Function → List BasicBlock)
    (hg : ∀ F : Function, ∀ b ∈ g F, ∀ J ∈ b.insts, J.namesOneOf R = true →
      J ∈ F.instructions) :
    Module.Edits R M
      { M with functions := M.functions.map (fun F => { F with blocks := g F }) } := by
  refine ⟨fun h => ?_, fun G hG J hJ hb => ?_⟩
  · simpa [Module.names, Function.comp_def] using h
  · simp only [List.mem_map] at hG
    obtain ⟨F, hF, rfl⟩ := hG
    simp only [Function.instructions, List.mem_flatMap] at hJ
    obtain ⟨b, hb1, hb2⟩ := hJ
    exact ⟨F, hF, rfl, hg F b hb1 J hb2 hb⟩

theorem Module.Edits.mapBlocks (R : List String) (M : Module) (f : BasicBlock → BasicBlock)
    (hf : ∀ b : BasicBlock, ∀ J ∈ (f b).insts, J.namesOneOf R = true → J ∈ b.insts) :
    Module.Edits R M (M.mapBlocks f) := by
  refine Module.Edits.blocks R M (fun F => F.blocks.map f) ?_
  intro F b hb J hJ hbad
  simp only [List.mem_map] at hb
  obtain ⟨b0, hb0, rfl⟩ := hb
  simp only [Function.instructions, List.mem_flatMap]
  exact ⟨b0, hb0, hf b0 J hJ hbad⟩

theorem mem_insertBeforeIn (anchor : Value) (new J : Instruction) (l : List Instruction)
    (h : J ∈ insertBeforeIn anchor new l) : J = new ∨ J ∈ l := by
  induction l with
  | nil => simp [insertBeforeIn] at h
  | cons i rest ih =>
    simp only [insertBeforeIn] at h
    split at h
    · simp only [List.mem_cons] at h ⊢
      tauto
    · simp only [List.mem_cons] at h ⊢
      rcases h with h | h
      · tauto
      · rcases ih h with h | h <;> tauto

theorem mem_insertAfterIn (anchor : Value) (new J : Instruction) (l : List Instruction)
    (h : J ∈ insertAfterIn anchor new l) : J = new ∨ J ∈ l := by
  induction l with
  | nil => simp [insertAfterIn] at h
  | cons i rest ih =>
    simp only [insertAfterIn] at h
    split at h
    · simp only [List.mem_cons] at h ⊢
      tauto
    · simp only [List.mem_cons] at h ⊢
      rcases h with h | h
      · tauto
      · rcases ih h with h | h <;> tauto

theorem mem_takeBefore (anchor : Value) (J : Instruction) (l : List Instruction)
    (h : J ∈ takeBefore anchor l) : J ∈ l := by
  induction l with
  | nil => simp [takeBefore] at h
  | cons i rest ih =>
    simp only [takeBefore] at h
    split at h
    · simp at h
    · simp only [List.mem_cons] at h ⊢
      rcases h with h | h
      · tauto
      · exact Or.inr (ih h)

theorem mem_dropBefore (anchor : Value) (J : Instruction) (l : List Instruction)
    (h : J ∈ dropBefore anchor l) : J ∈ l := by
  induction l with
  | nil => simp [dropBefore] at h
  | cons i rest ih =>
    simp only [dropBefore] at h
    split at h
    · exact h
    · exact List.mem_cons_of_mem _ (ih h)

theorem Module.Edits.insertBefore (R : List String) (M : Module) (anchor : Value)
    (new : Instruction) (hnew : new.namesOneOf R = false) :
    Module.Edits R M (M.insertBefore anchor new) := by
  refine Module.Edits.mapBlocks R M _ ?_
  intro b J hJ hbad
  rcases mem_insertBeforeIn anchor new J b.insts hJ with h | h
  · subst h; simp [hnew] at hbad
  · exact h

theorem Module.Edits.insertAfter (R : List String) (M : Module) (anchor : Value)
    (new : Instruction) (hnew : new.namesOneOf R = false) :
    Module.Edits R M (M.insertAfter anchor new) := by
  refine Module.Edits.mapBlocks R M _ ?_
  intro b J hJ hbad
  rcases mem_insertAfterIn anchor new J b.insts hJ with h | h
  · subst h; simp [hnew] at hbad
  · exact h

theorem Module.Edits.appendToBlock (R : List String) (M : Module) (bb : Ident)
    (new : Instruction) (hnew : new.namesOneOf R = false) :
    Module.Edits R M (M.appendToBlock bb new) := by
  refine Module.Edits.mapBlocks R M _ ?_
  intro b J hJ hbad
  split at hJ
  · simp only [List.mem_append, List.mem_singleton] at hJ
    rcases hJ with h | h
    · exact h
    · subst h; simp [hnew] at hbad
  · exact hJ

theorem Module.Edits.insertBeforeTerminator (R : List String) (M : Module) (bb : Ident)
    (new : Instruction) (hnew : new.namesOneOf R = false) :
    Module.Edits R M (M.insertBeforeTerminator bb new) := by
  refine Module.Edits.mapBlocks R M _ ?_
  intro b J hJ hbad
  split at hJ
  · simp only [List.mem_append, List.mem_cons] at hJ
    rcases hJ with h | h | h
    · exact List.mem_of_mem_dropLast h
    · subst h; simp [hnew] at hbad
    · simp only [Option.mem_toList, Option.mem_def] at h
      exact List.mem_of_getLast?_eq_some h
  · exact hJ

theorem Module.Edits.erased (R : List String) (M : Module) (v : Value) :
    Module.Edits R M (M.erase v) := by
  refine Module.Edits.mapBlocks R M _ ?_
  intro b J hJ _
  exact List.mem_of_mem_filter hJ

theorem Module.Edits.eraseTerminator (R : List String) (M : Module) (bb : Ident) :
    Module.Edits R M (M.eraseTerminator bb) := by
  refine Module.Edits.mapBlocks R M _ ?_
  intro b J hJ _
  split at hJ
  · exact List.mem_of_mem_dropLast hJ
  · exact hJ

theorem Module.Edits.setReturnOperand (R : List String) (M : Module) (ret v : Value) :
    Module.Edits R M (M.setReturnOperand ret v) := by
  refine Module.Edits.mapBlocks R M _ ?_
  intro b J hJ hbad
  simp only [List.mem_map] at hJ
  obtain ⟨i, hi, rfl⟩ := hJ
  cases i <;> first | exact hi | skip
  case Return id op =>
    simp only at hbad
    split at hbad
    · simp [Instruction.namesOneOf] at hbad
    · simp [Instruction.namesOneOf] at hbad

theorem Module.Edits.splitBasicBlock (R : List String) (M : Module) (anchor : Value)
    (cont br : Ident) : Module.Edits R M (M.splitBasicBlock anchor cont br) := by
  refine Module.Edits.blocks R M _ ?_
  intro F b hb J hJ hbad
  simp only [List.mem_flatMap] at hb
  obtain ⟨b0, hb0, hb1⟩ := hb
  simp only [Function.instructions, List.mem_flatMap]
  refine ⟨b0, hb0, ?_⟩
  split at hb1
  · simp only [List.mem_cons, List.mem_singleton, List.not_mem_nil, or_false] at hb1
    rcases hb1 with rfl | rfl
    · simp only [List.mem_append, List.mem_singleton] at hJ
      rcases hJ with h | h
      · exact mem_takeBefore _ _ _ h
      · subst h; simp [Instruction.namesOneOf] at hbad
    · exact mem_dropBefore _ _ _ hJ
  · simp only [List.mem_singleton] at hb1
    subst hb1; exact hJ

theorem Module.Edits.createBlock (R : List String) (M : Module) (Fn : String) (bb : Ident) :
    Module.Edits R M (M.createBlock Fn bb) := by
  have : M.createBlock Fn bb = { M with functions := M.functions.map (fun F =>
      { F with blocks := if F.name = Fn then F.blocks ++ [{ id := bb, insts := [] }]
                         else F.blocks }) } := by
    simp only [Module.createBlock]
    congr 1
    apply List.map_congr_left
    intro F _
    split <;> rfl
  rw [this]
  refine Module.Edits.blocks R M _ ?_
  intro F b hb J hJ _
  simp only [Function.instructions, List.mem_flatMap]
  split at hb
  · simp only [List.mem_append, List.mem_singleton] at hb
    rcases hb with h | h
    · exact ⟨b, h, hJ⟩
    · subst h; simp at hJ
  · exact ⟨b, hb, hJ⟩

theorem Module.getFunction_eq_some {M : Module} {name : String} {F : Function}
    (h : M.getFunction name = some F) : F ∈ M.functions ∧ F.name = name := by
  unfold Module.getFunction at h
  have h1 := List.find?_some h
  have h2 := List.mem_of_find?_eq_some h
  simp only [decide_eq_true_eq] at h1
  exact ⟨h2, h1⟩

theorem Module.getFunction_eq_none {M : Module} {name : String}
    (h : M.getFunction name = none) : name ∉ M.names := by
  unfold Module.getFunction at h
  rw [List.find?_eq_none] at h
  simp only [Module.names, List.mem_map, not_exists, not_and]
  intro F hF hn
  have := h F hF
  simp [hn] at this

theorem Module.Edits.getTrapDeclaration (R : List String) (M : Module) :
    Module.Edits R M M.getTrapDeclaration.1 := by
  unfold Module.getTrapDeclaration
  cases h : M.getFunction "llvm.trap" with
  | some F => exact Module.Edits.unchanged R M
  | none =>
    refine ⟨fun hn => ?_, fun G hG J hJ hb => ?_⟩
    · have h1 := Module.getFunction_eq_none h
      simp only [Module.names, List.map_append, List.map_cons, List.map_nil] at h1 ⊢
      rw [List.nodup_append]
      refine ⟨hn, List.nodup_singleton _, ?_⟩
      intro a ha hb
      simp only [List.mem_singleton] at hb
      subst hb
      exact h1 ha
    · simp only [List.mem_append, List.mem_singleton] at hG
      rcases hG with hG | hG
      · exact ⟨G, hG, rfl, hJ⟩
      · subst hG
        simp [Function.instructions] at hJ

theorem Module.getTrapDeclaration_name (M : Module) :
    M.getTrapDeclaration.2.asFunctionName = some "llvm.trap" := by
  unfold Module.getTrapDeclaration
  cases h : M.getFunction "llvm.trap" with
  | some F =>
    simp only [Function.asValue, Value.asFunctionName]
    rw [(Module.getFunction_eq_some h).2]
  | none => rfl

/-! ### Steps of the pass that keep the invariant -/

theorem Good.mono {R : List String} {Q Q1 : String → Prop} {o : Option Value} {n : Nat}
    {ps : PassState} (h : Good R Q o n ps) (hQ : ∀ x, Q x → Q1 x) : Good R Q1 o n ps :=
  { list := h.list, removed := h.removed, members := h.members, nodup := h.nodup
    length := h.length
    calls := fun G hG J hJ hb => (h.calls G hG J hJ hb).imp (hQ _) id }

theorem Good.edit {R : List String} {Q : String → Prop} {o : Option Value} {n : Nat}
    {ps qs : PassState} (h : Good R Q o n ps)
    (hm : Module.Edits R ps.CurrentModule qs.CurrentModule)
    (h1 : qs.FunctionsToRemove = ps.FunctionsToRemove)
    (h2 : qs.MyPrintErrorLineFn = ps.MyPrintErrorLineFn)
    (h3 : qs.MyPrintCheckFn = ps.MyPrintCheckFn)
    (h4 : qs.setMetadataFunction = ps.setMetadataFunction)
    (h5 : qs.lookupMetadataFunction = ps.lookupMetadataFunction)
    (h6 : qs.instructionsToAnalyze = ps.instructionsToAnalyze) : Good R Q o n qs :=
  { list := h1.trans h.list
    removed := h.removed
    members := by rw [h2, h3, h4, h5]; exact h.members
    nodup := hm.1 h.nodup
    length := by rw [h6]; exact h.length
    calls := by
      intro G hG J hJ hb
      obtain ⟨F, hF, hn, hJF⟩ := hm.2 G hG J hJ hb
      rw [h6, ← hn]
      exact h.calls F hF J hJF hb }

theorem Keeps.refl (ps : PassState) : Keeps ps ps := fun _ _ _ _ h => h

theorem Keeps.trans {ps qs rs : PassState} (h1 : Keeps ps qs) (h2 : Keeps qs rs) :
    Keeps ps rs := fun R Q o n h => h2 R Q o n (h1 R Q o n h)

theorem Keeps.of_eq {ps qs : PassState} (h : qs = ps) : Keeps ps qs := by
  subst h; exact Keeps.refl _

theorem Keeps.edits {ps qs : PassState}
    (hm : ∀ R, Module.Edits R ps.CurrentModule qs.CurrentModule)
    (h1 : qs.FunctionsToRemove = ps.FunctionsToRemove)
    (h2 : qs.MyPrintErrorLineFn = ps.MyPrintErrorLineFn)
    (h3 : qs.MyPrintCheckFn = ps.MyPrintCheckFn)
    (h4 : qs.setMetadataFunction = ps.setMetadataFunction)
    (h5 : qs.lookupMetadataFunction = ps.lookupMetadataFunction)
    (h6 : qs.instructionsToAnalyze = ps.instructionsToAnalyze) : Keeps ps qs :=
  fun R _ _ _ h => h.edit (hm R) h1 h2 h3 h4 h5 h6

theorem Keeps.same {ps qs : PassState}
    (h0 : qs.CurrentModule = ps.CurrentModule)
    (h1 : qs.FunctionsToRemove = ps.FunctionsToRemove)
    (h2 : qs.MyPrintErrorLineFn = ps.MyPrintErrorLineFn)
    (h3 : qs.MyPrintCheckFn = ps.MyPrintCheckFn)
    (h4 : qs.setMetadataFunction = ps.setMetadataFunction)
    (h5 : qs.lookupMetadataFunction = ps.lookupMetadataFunction)
    (h6 : qs.instructionsToAnalyze = ps.instructionsToAnalyze) : Keeps ps qs :=
  Keeps.edits (fun R => by rw [h0]; exact Module.Edits.unchanged R _) h1 h2 h3 h4 h5 h6

theorem Keeps.count (ps : PassState) (f : Statistics → Statistics) : Keeps ps (ps.count f) :=
  Keeps.same rfl rfl rfl rfl rfl rfl rfl

theorem Keeps.setState (ps : PassState) (s : AnalysisState) : Keeps ps (ps.setState s) :=
  Keeps.same rfl rfl rfl rfl rfl rfl rfl

theorem Keeps.fresh (ps : PassState) : Keeps ps ps.fresh.1 :=
  Keeps.same rfl rfl rfl rfl rfl rfl rfl

theorem Keeps.SetInsertPoint (ps : PassState) (pt : InsertPoint) :
    Keeps ps (ps.SetInsertPoint pt) :=
  Keeps.same rfl rfl rfl rfl rfl rfl rfl

theorem Good.setModule {R : List String} {Q : String → Prop} {o : Option Value} {n : Nat}
    {ps : PassState} (h : Good R Q o n ps) (M : Module)
    (hm : Module.Edits R ps.CurrentModule M) : Good R Q o n (ps.setModule M) :=
  h.edit hm rfl rfl rfl rfl rfl rfl

theorem Keeps.module (ps : PassState) (M : Module)
    (hm : ∀ R, Module.Edits R ps.CurrentModule M) : Keeps ps (ps.setModule M) :=
  fun R _ _ _ h => h.setModule M (hm R)

theorem Good.Insert {R : List String} {Q : String → Prop} {o : Option Value} {n : Nat}
    {ps : PassState} (h : Good R Q o n ps) (I : Instruction)
    (hI : I.namesOneOf R = false) : Good R Q o n (ps.Insert I) := by
  unfold PassState.Insert
  split
  · exact h.setModule _ (Module.Edits.insertBefore R _ _ _ hI)
  · exact h.setModule _ (Module.Edits.appendToBlock R _ _ _ hI)

theorem Keeps.inserted (ps : PassState) (I : Instruction)
    (hI : ∀ R, I.namesOneOf R = false) : Keeps ps (ps.Insert I) :=
  fun R _ _ _ h => h.Insert I (hI R)

theorem Keeps.CreateBinOp (ps : PassState) (opc : BinOp) (L R : Value) :
    Keeps ps (ps.CreateBinOp opc L R).1 := by
  unfold PassState.CreateBinOp
  split
  · exact Keeps.refl _
  · exact (Keeps.fresh ps).trans (Keeps.inserted _ _ (fun _ => rfl))

theorem Keeps.CreateICmpSLT (ps : PassState) (L R : Value) :
    Keeps ps (ps.CreateICmpSLT L R).1 := by
  unfold PassState.CreateICmpSLT
  split
  · exact Keeps.refl _
  · exact (Keeps.fresh ps).trans (Keeps.inserted _ _ (fun _ => rfl))

theorem Keeps.CreateCastToInt (ps : PassState) (bits : Nat) (V : Value) :
    Keeps ps (ps.CreateCastToInt bits V).1 := by
  unfold PassState.CreateCastToInt
  split
  · exact Keeps.refl _
  · split
    · exact Keeps.refl _
    · exact (Keeps.fresh ps).trans (Keeps.inserted _ _ (fun _ => rfl))

theorem Good.CreateCall {R : List String} {Q : String → Prop} {o : Option Value} {n : Nat}
    {ps : PassState} (h : Good R Q o n ps) (Fn : Option Value) (Args : List Value)
    (r : PassState × Value) (hr : ps.CreateCall Fn Args = some r)
    (hFn : ∀ w, Fn = some w → calleeIn R w = false) : Good R Q o n r.1 := by
  unfold PassState.CreateCall at hr
  cases Fn with
  | none => simp at hr
  | some fn =>
    simp only [Option.some.injEq] at hr
    subst hr
    exact (Keeps.fresh ps R Q o n h).Insert _ (by
      simp only [PassState.callTo, Instruction.namesOneOf]
      exact hFn fn rfl)

theorem Keeps.replaceAllUsesWith (ps : PassState) (old new : Value)
    (hnew : new.asFunctionName = none) : Keeps ps (ps.replaceAllUsesWith old new) := by
  intro R Q o n h
  refine
    { list := h.list, removed := h.removed, members := h.members, nodup := ?_
      length := ?_, calls := ?_ }
  · have := h.nodup
    simpa [PassState.replaceAllUsesWith, Module.replaceAllUsesWith, Module.mapBlocks,
      Module.names, Function.comp_def] using this
  · simp [PassState.replaceAllUsesWith, h.length]
  · intro G hG J hJ hb
    simp only [PassState.replaceAllUsesWith, Module.replaceAllUsesWith, Module.mapBlocks,
      List.mem_map] at hG
    obtain ⟨F, hF, rfl⟩ := hG
    simp only [Function.instructions, List.mem_flatMap, List.mem_map] at hJ
    obtain ⟨b, ⟨b0, hb0, rfl⟩, hJ⟩ := hJ
    simp only [List.mem_map] at hJ
    obtain ⟨J0, hJ0, rfl⟩ := hJ
    obtain ⟨hbad, hval⟩ := namesOneOf_replaceUses R old new J0 hnew hb
    have hmem : J0 ∈ F.instructions := by
      simp only [Function.instructions, List.mem_flatMap]
      exact ⟨b0, hb0, hJ0⟩
    rcases h.calls F hF J0 hmem hbad with h1 | h1 | h1
    · exact Or.inl h1
    · refine Or.inr (Or.inl ?_)
      simp only [PassState.replaceAllUsesWith, List.mem_map]
      exact ⟨J0, h1, rfl⟩
    · exact Or.inr (Or.inr (by rw [hval]; exact h1))

theorem Good.printErrorLine {R : List String} {Q : String → Prop} {o : Option Value}
    {n : Nat} {ps : PassState} (h : Good R Q o n ps) :
    ∀ w, ps.MyPrintErrorLineFn = some w → calleeIn R w = false :=
  fun w hw => h.members _ (by simp) w hw

theorem Good.printCheck {R : List String} {Q : String → Prop} {o : Option Value}
    {n : Nat} {ps : PassState} (h : Good R Q o n ps) :
    ∀ w, ps.MyPrintCheckFn = some w → calleeIn R w = false :=
  fun w hw => h.members _ (by simp) w hw

theorem Good.setMetadata {R : List String} {Q : String → Prop} {o : Option Value}
    {n : Nat} {ps : PassState} (h : Good R Q o n ps) :
    ∀ w, ps.setMetadataFunction = some w → calleeIn R w = false :=
  fun w hw => h.members _ (by simp) w hw

theorem Good.lookupMetadata {R : List String} {Q : String → Prop} {o : Option Value}
    {n : Nat} {ps : PassState} (h : Good R Q o n ps) :
    ∀ w, ps.lookupMetadataFunction = some w → calleeIn R w = false :=
  fun w hw => h.members _ (by simp) w hw

theorem Good.trap {R : List String} {Q : String → Prop} {o : Option Value}
    {n : Nat} {ps : PassState} (h : Good R Q o n ps) (M : Module) :
    calleeIn R M.getTrapDeclaration.2 = false := by
  rw [Bool.eq_false_iff]
  intro hc
  obtain ⟨name, h1, h2⟩ := (calleeIn_iff R _).mp hc
  rw [Module.getTrapDeclaration_name] at h1
  cases h1
  exact (h.removed _ h2).2.2 rfl

theorem getOffsetForGEPInst_keeps (env : Env) (ps : PassState) (g : GetElementPtrInst) :
    Keeps ps (getOffsetForGEPInst env ps g).1 := by
  unfold getOffsetForGEPInst
  split
  · exact Keeps.refl _
  · split
    · exact Keeps.refl _
    · exact (Keeps.CreateCastToInt _ _ _).trans (Keeps.CreateBinOp _ _ _ _)

theorem enterTrapBB_keeps (ps : PassState) (Fn : String) (bb : Ident) :
    Keeps ps (enterTrapBB ps Fn bb) :=
  Keeps.edits (fun R => Module.Edits.createBlock R _ _ _) rfl rfl rfl rfl rfl rfl

theorem getTrapBB_keeps (env : Env) (ps : PassState) (I : Value) (r : PassState × Ident)
    (h : getTrapBB env ps I = some r) : Keeps ps r.1 := by
  intro R Q o n hg
  unfold getTrapBB at h
  split at h
  · simp only [Option.some.injEq] at h; rw [← h]; exact hg
  · simp only [Option.bind_eq_bind, Option.bind_eq_some, Option.some.injEq] at h
    obtain ⟨Fn, -, r3, h3, r4, h4, h⟩ := h
    have g2 := enterTrapBB_keeps _ Fn ps.fresh.2 R Q o n (Keeps.fresh ps R Q o n hg)
    have g3 := g2.CreateCall _ _ r3 h3 g2.printErrorLine
    have g3a := g3.setModule _ (Module.Edits.getTrapDeclaration R r3.1.CurrentModule)
    have g4 := g3a.CreateCall _ _ r4 h4 (by
      intro w hw
      cases hw
      exact g3.trap _)
    rw [← h]
    exact Keeps.SetInsertPoint _ _ R Q o n
      ((Keeps.fresh _ R Q o n g4).Insert _ rfl)

theorem trapBranch_namesOneOf (R : List String) (id : Ident) (Cmp : Option Value)
    (trap Cont : Ident) : (trapBranch id Cmp trap Cont).namesOneOf R = false := by
  unfold trapBranch
  split <;> rfl

theorem instrumentGEP_emit_keeps (env : Env) (ps : PassState) (Cmp : Option Value)
    (r : PassState × Bool) (h : instrumentGEP.emit env ps Cmp = some r) : Keeps ps r.1 := by
  intro R Q o n hg
  unfold instrumentGEP.emit at h
  simp only [IS_DEBUGGING, Bool.false_eq_true, if_false, Option.bind_eq_bind,
    Option.bind_eq_some, Option.some.injEq] at h
  obtain ⟨ps2, h2, I, -, OldBB, -, r3, h3, h⟩ := h
  subst h2
  have g1 := Keeps.count ps Statistics.incChecksAdded R Q o n hg
  have g2 := (Keeps.fresh _ R Q o n (Keeps.fresh _ R Q o n g1)).setModule
    (((ps.count Statistics.incChecksAdded).CurrentModule.splitBasicBlock I
      (ps.count Statistics.incChecksAdded).fresh.2
      (ps.count Statistics.incChecksAdded).fresh.1.fresh.2).eraseTerminator OldBB)
    ((Module.Edits.splitBasicBlock R _ _ _ _).andThen (Module.Edits.eraseTerminator R _ _))
  have g3 := getTrapBB_keeps _ _ _ _ h3 R Q o n g2
  rw [← h]
  exact (Keeps.fresh _ R Q o n g3).setModule _
    (Module.Edits.appendToBlock R _ _ _ (trapBranch_namesOneOf _ _ _ _ _))

theorem instrumentGEP_LHS_keeps (ps : PassState) (size : Value) (typeStoreSize : Nat) :
    Keeps ps (instrumentGEP.LHS ps size typeStoreSize).1 := by
  unfold instrumentGEP.LHS
  split
  · exact Keeps.refl _
  · exact Keeps.CreateBinOp _ _ _ _

theorem instrumentGEP_compare_keeps (env : Env) (ps : PassState) (g : GetElementPtrInst)
    (varinfo : VariableInfo) (r : PassState × Bool)
    (h : instrumentGEP.compare env ps g varinfo = some r) : Keeps ps r.1 := by
  unfold instrumentGEP.compare at h
  simp only [IS_NAIVE, Bool.not_false, if_true] at h
  have k := ((getOffsetForGEPInst_keeps env ps g).trans
    (instrumentGEP_LHS_keeps _ varinfo.size
      (env.getTypeStoreSize g.getResultElementType))).trans
    (Keeps.CreateICmpSLT _ (instrumentGEP.LHS (getOffsetForGEPInst env ps g).1 varinfo.size
      (env.getTypeStoreSize g.getResultElementType)).2 (getOffsetForGEPInst env ps g).2)
  split at h
  · split at h
    · simp only [Option.some.injEq] at h
      rw [← h]
      exact k.trans (Keeps.count _ _)
    · exact (k.trans (Keeps.count _ _)).trans (instrumentGEP_emit_keeps _ _ _ _ h)
  · exact k.trans (instrumentGEP_emit_keeps _ _ _ _ h)

theorem instrumentGEP_keeps (env : Env) (ps : PassState) (g : GetElementPtrInst)
    (r : PassState × Bool) (h : instrumentGEP env ps g = some r) : Keeps ps r.1 := by
  unfold instrumentGEP at h
  split at h
  · simp only [Option.some.injEq] at h; rw [← h]; exact Keeps.refl _
  · split at h
    · simp only [Option.some.injEq] at h; rw [← h]
      exact (Keeps.count _ _).trans (Keeps.count _ _)
    · split at h
      · simp only [Option.some.injEq] at h; rw [← h]
        exact (Keeps.count _ _).trans (Keeps.count _ _)
      · split at h
        · simp only [Option.some.injEq] at h; rw [← h]
          exact (Keeps.count _ _).trans (Keeps.count _ _)
        · exact (Keeps.count _ _).trans (instrumentGEP_compare_keeps _ _ _ _ _ h)

theorem getSizeForValue_manual_keeps (env : Env) (ps : PassState) (v : Value) :
    Keeps ps (getSizeForValue.manual env ps v).1 := by
  unfold getSizeForValue.manual
  generalize (if v.getType.isPointerTy = true then v.getType.getElementType
    else v.getType) = t
  simp only []
  split
  · exact (Keeps.CreateBinOp _ _ _ _).trans (Keeps.CreateCastToInt _ _ _)
  · exact Keeps.refl _
  · split
    · exact Keeps.refl _
    · split <;> exact Keeps.refl _

theorem getSizeForValue_keeps (env : Env) (ps : PassState) (v : Value) :
    Keeps ps (getSizeForValue env ps v).1 := by
  unfold getSizeForValue
  split
  · exact Keeps.refl _
  · exact getSizeForValue_manual_keeps env ps v

theorem lookupMetadataTableEntry_keeps (ps : PassState) (Ptr CurrInst : Value)
    (r : PassState × Value) (h : NesCheckPass.lookupMetadataTableEntry ps Ptr CurrInst = some r) :
    Keeps ps r.1 := by
  intro R Q o n hg
  unfold NesCheckPass.lookupMetadataTableEntry at h
  split at h
  · simp only [Option.some.injEq] at h; rw [← h]; exact Keeps.setState _ _ R Q o n hg
  · split at h
    · simp at h
    · split at h
      · simp at h
      · rename_i fn hfn
        simp only [Option.some.injEq] at h
        rw [← h]
        refine Keeps.setState _ _ R Q o n (Keeps.count _ _ R Q o n ?_)
        refine (Keeps.fresh _ R Q o n (Keeps.fresh _ R Q o n hg)).setModule _ ?_
        refine (Module.Edits.insertAfter R _ CurrInst
          (.Cast ps.fresh.2 false (.IntegerTy 64) Ptr) rfl).andThen
          (Module.Edits.insertAfter R _ _ _ ?_)
        simp only [PassState.callTo, Instruction.namesOneOf]
        exact hg.lookupMetadata fn hfn

theorem setMetadataTableEntry_keeps (env : Env) (ps : PassState) (Ptr Size CurrInst : Value)
    (r : PassState) (h : NesCheckPass.setMetadataTableEntry env ps Ptr Size CurrInst = some r) :
    Keeps ps r := by
  intro R Q o n hg
  unfold NesCheckPass.setMetadataTableEntry at h
  split at h
  · simp only [Option.some.injEq] at h; rw [← h]; exact hg
  · simp only [] at h
    cases h1 : (ps.CreateCastToInt 64 Ptr).1.CreateCall
        (ps.CreateCastToInt 64 Ptr).1.setMetadataFunction
        [(ps.CreateCastToInt 64 Ptr).2, Size, ConstantInt.get 64 (env.addressOf CurrInst)] with
    | none => rw [h1] at h; simp at h
    | some r1 =>
      rw [h1] at h
      simp only [Option.some.injEq] at h
      rw [← h]
      have g1 := Keeps.CreateCastToInt ps 64 Ptr R Q o n hg
      have g2 := g1.CreateCall _ _ r1 h1 g1.setMetadata
      exact Keeps.setState _ _ R Q o n (Keeps.count _ _ R Q o n g2)

theorem lookupOrSizeConstant_keeps (env : Env) (ps : PassState) (v : Value) :
    Keeps ps (lookupOrSizeConstant env ps v).1 := by
  unfold lookupOrSizeConstant
  split
  · exact Keeps.refl _
  · split
    · exact (getSizeForValue_keeps env ps v).trans (Keeps.setState _ _)
    · exact Keeps.refl _

theorem processAlloca_keeps (env : Env) (ps : PassState) (II : Value) (AllocatedType : LType)
    (ArraySize : Value) : Keeps ps (processAlloca env ps II AllocatedType ArraySize) := by
  unfold processAlloca
  split
  · exact Keeps.setState _ _
  · exact ((Keeps.CreateBinOp _ _ _ _).trans (Keeps.CreateCastToInt _ _ _)).trans
      (Keeps.setState _ _)

theorem processCall_size_keeps (env : Env) (ps : PassState) (II cv : Value)
    (Args : List Value) (r : PassState) (h : processCall.size env ps II cv Args = some r) :
    Keeps ps r := by
  unfold processCall.size at h
  simp only at h
  split at h
  · simp only [Option.map_eq_some'] at h
    obtain ⟨a, -, rfl⟩ := h
    exact Keeps.setState _ _
  · split at h
    · simp only [Option.map_eq_some'] at h
      obtain ⟨a, -, rfl⟩ := h
      exact Keeps.setState _ _
    · split at h
      · simp only [Option.map_eq_some'] at h
        obtain ⟨a, -, rfl⟩ := h
        exact Keeps.setState _ _
      · split at h
        · simp only [Option.some.injEq] at h; rw [← h]
          exact (getSizeForValue_keeps env ps II).trans (Keeps.setState _ _)
        · simp only [Option.some.injEq] at h; rw [← h]; exact Keeps.refl _

theorem sizeArgumentFor_keeps (env : Env) (ps : PassState) (arg : Value)
    (r : PassState × Value) (h : sizeArgumentFor env ps arg = some r) : Keeps ps r.1 := by
  unfold sizeArgumentFor at h
  split at h
  · simp only [Option.some.injEq] at h; rw [← h]; exact Keeps.refl _
  · split at h
    · simp only [Option.some.injEq] at h; rw [← h]
      exact (getSizeForValue_keeps env ps _).trans (Keeps.setState _ _)
    · simp at h

theorem collectSizeArguments_keeps (env : Env) (args : List Value) (ps : PassState)
    (r : PassState × List Value) (h : collectSizeArguments env ps args = some r) :
    Keeps ps r.1 := by
  induction args generalizing ps r with
  | nil =>
    simp only [collectSizeArguments, Option.some.injEq] at h
    rw [← h]; exact Keeps.refl _
  | cons a rest ih =>
    unfold collectSizeArguments at h
    split at h
    · cases h1 : sizeArgumentFor env ps a with
      | none => rw [h1] at h; simp at h
      | some r1 =>
        rw [h1] at h
        simp only at h
        cases h2 : collectSizeArguments env r1.1 rest with
        | none => rw [h2] at h; simp at h
        | some r2 =>
          rw [h2] at h
          simp only [Option.some.injEq] at h
          rw [← h]
          exact (sizeArgumentFor_keeps env ps a r1 h1).trans (ih r1.1 r2 h2)
    · exact ih ps r h

theorem buildArgs_keeps (env : Env) (ps : PassState) (cv : Value) (Args : List Value)
    (r : PassState × List Value) (h : rewriteCallSite.buildArgs env ps cv Args = some r) :
    Keeps ps r.1 := by
  unfold rewriteCallSite.buildArgs at h
  cases hc : collectSizeArguments env ps (Args.take cv.getFunctionType.getNumParams) with
  | none => rw [hc] at h; simp at h
  | some r1 =>
    rw [hc] at h
    simp only [Option.some.injEq] at h
    rw [← h]
    exact collectSizeArguments_keeps env _ ps r1 hc

theorem splitNewReturn_keeps (ps : PassState) (Call NewCall : Instruction) :
    Keeps ps (splitNewReturn ps Call NewCall) := by
  unfold splitNewReturn
  simp only []
  refine Keeps.trans ?_ (Keeps.setState _ _)
  refine Keeps.trans ?_ (Keeps.replaceAllUsesWith _ _ _ rfl)
  refine ((Keeps.fresh ps).trans (Keeps.fresh _)).trans (Keeps.module _ _ ?_)
  intro R
  exact (Module.Edits.insertBefore R _ Call.asValue
      (.Other ps.fresh.2
        (.ExtractValueInst ps.fresh.2 Call.asValue.getType NewCall.asValue 0)
        [NewCall.asValue]) rfl).andThen
    (Module.Edits.insertBefore R _ _ _ rfl)

theorem processReturn_keeps (env : Env) (ps : PassState) (RI : Value) (Operand : Option Value)
    (r : PassState) (h : processReturn env ps RI Operand = some r) : Keeps ps r := by
  unfold processReturn at h
  simp only [Option.bind_eq_bind, Option.bind_eq_some] at h
  obtain ⟨Fn, -, h⟩ := h
  split at h
  · simp only [Option.bind_eq_some, Option.some.injEq] at h
    obtain ⟨F, -, op0, -, varinfo, -, h⟩ := h
    rw [← h]
    refine ((Keeps.fresh ps).trans (Keeps.fresh _)).trans (Keeps.module _ _ ?_)
    intro R
    exact ((Module.Edits.insertBefore R _ RI
        (.Other ps.fresh.2
          (.InsertValueInst ps.fresh.2 (.ConstantAggregateZero F.ReturnType) op0 0)
          [.ConstantAggregateZero F.ReturnType, op0]) rfl).andThen
      (Module.Edits.insertBefore R _ _ (.Other _ _ _) rfl)).andThen
      (Module.Edits.setReturnOperand R _ _ _)
  · simp only [Option.some.injEq] at h; rw [← h]; exact Keeps.refl _

theorem processStore_otherBlock_keeps (env : Env) (ps : PassState) (instr : Value)
    (B : Option Ident) (varinfo : Option InfoPtr) (r : PassState)
    (h : processStore.otherBlock env ps instr B varinfo = some r) : Keeps ps r := by
  unfold processStore.otherBlock at h
  simp only [Option.bind_eq_bind, Option.bind_eq_some, Option.some.injEq] at h
  obtain ⟨varinfo2, -, sizevaralloca, -, vi, -, h⟩ := h
  rw [← h]
  refine Keeps.trans ?_ ((Keeps.fresh _).trans (Keeps.inserted _ _ (fun _ => rfl)))
  split
  · refine (((Keeps.fresh ps).trans (Keeps.fresh _)).trans
      (Keeps.module _ _ ?_)).trans (Keeps.setState _ _)
    intro R
    cases B with
    | none => exact Module.Edits.unchanged R _
    | some bb =>
      exact (Module.Edits.insertBeforeTerminator R _ bb
          (.Alloca ps.fresh.2 MySizeType (.ConstantInt 32 1)) rfl).andThen
        (Module.Edits.insertBeforeTerminator R _ _ _ rfl)
  · exact Keeps.refl _

theorem processStore_keeps (env : Env) (ps : PassState) (II valoperand ptroperand : Value)
    (r : PassState) (h : processStore env ps II valoperand ptroperand = some r) :
    Keeps ps r := by
  unfold processStore at h
  split at h
  · simp only [] at h
    have k := lookupOrSizeConstant_keeps env ps valoperand
    split at h
    · exact k.trans (processStore_otherBlock_keeps _ _ _ _ _ _ h)
    · split at h
      · simp at h
      · split at h
        · exact (k.trans (Keeps.setState _ _)).trans
            (setMetadataTableEntry_keeps _ _ _ _ _ _ h)
        · simp only [Option.some.injEq] at h; rw [← h]
          exact k.trans (Keeps.setState _ _)
  · simp only [Option.some.injEq] at h; rw [← h]; exact Keeps.refl _

theorem processLoad_keeps (env : Env) (ps : PassState) (II : Value) (ty : LType)
    (ptroperand : Value) (r : PassState) (h : processLoad env ps II ty ptroperand = some r) :
    Keeps ps r := by
  unfold processLoad at h
  split at h
  · simp only [] at h
    have k := lookupOrSizeConstant_keeps env ps ptroperand
    split at h
    · simp at h
    · split at h
      · simp at h
      · rename_i ps2 h2
        simp only [Option.some.injEq] at h; rw [← h]
        refine (k.trans ?_).trans (Keeps.setState _ _)
        split at h2
        · split at h2
          · simp at h2
          · simp only [Option.some.injEq] at h2; rw [← h2]
            exact ((Keeps.fresh _).trans
              (Keeps.inserted _ (.Load _ _ _) (fun _ => rfl))).trans (Keeps.setState _ _)
        · simp only [Option.some.injEq] at h2; rw [← h2]; exact Keeps.refl _
  · simp only [Option.some.injEq] at h; rw [← h]; exact Keeps.refl _

theorem processGEP_size_keeps (env : Env) (ps : PassState) (II : GetElementPtrInst)
    (r : PassState) (h : processGEP.size env ps II = some r) : Keeps ps r := by
  unfold processGEP.size at h
  split at h
  · simp at h
  · simp only [Option.some.injEq] at h; rw [← h]
    refine Keeps.trans ?_ (Keeps.setState _ _)
    split
    · exact (getOffsetForGEPInst_keeps env ps II).trans (Keeps.CreateBinOp _ _ _ _)
    · exact Keeps.refl _

theorem processGEP_keeps (env : Env) (ps : PassState) (II : GetElementPtrInst)
    (r : PassState × Bool) (h : processGEP env ps II = some r) : Keeps ps r.1 := by
  unfold processGEP at h
  simp only [] at h
  split at h
  · simp at h
  · rename_i ps2 h2
    refine Keeps.trans ?_ (instrumentGEP_keeps _ _ _ _ h)
    generalize ((if (!II.hasAllZeroIndices) = true then
        ps.TheState.ClassifyPointerVariable II.PointerOperand VariableStates.Seq
      else ps.TheState).RegisterVariable II.asValue) = s at h2
    refine (Keeps.setState ps s).trans ?_
    split at h2
    · simp only [Option.map_eq_some'] at h2
      obtain ⟨a, ha, rfl⟩ := h2
      exact lookupMetadataTableEntry_keeps _ _ _ _ ha
    · exact processGEP_size_keeps _ _ _ _ h2

theorem processCast_promote_keeps (env : Env) (ps : PassState) (II : Value) (isBitCast : Bool)
    (op : Value) (varinfo : Option InfoPtr) (r : PassState)
    (h : processCast.promote env ps II isBitCast op varinfo = some r) : Keeps ps r := by
  unfold processCast.promote at h
  split at h
  · simp only [Option.some.injEq] at h; rw [← h]; exact Keeps.setState _ _
  · simp only [Option.map_eq_some'] at h
    obtain ⟨ps1, h1, rfl⟩ := h
    refine Keeps.trans ?_ (Keeps.setState ps1 _)
    split at h1
    · split at h1
      · simp at h1
      · split at h1
        · simp only [Option.some.injEq] at h1; rw [← h1]
          exact (getSizeForValue_keeps env ps II).trans (Keeps.setState _ _)
        · simp only [Option.some.injEq] at h1; rw [← h1]; exact Keeps.refl _
    · simp only [Option.some.injEq] at h1; rw [← h1]; exact Keeps.refl _
  · simp only [Option.some.injEq] at h; rw [← h]; exact Keeps.refl _

theorem processCast_keeps (env : Env) (ps : PassState) (II : Value) (isBitCast : Bool)
    (dstT : LType) (op : Value) (r : PassState)
    (h : processCast env ps II isBitCast dstT op = some r) : Keeps ps r := by
  unfold processCast at h
  simp only [] at h
  split at h
  · split at h
    · simp at h
    · rename_i ps1 h1
      have k : Keeps ps ps1 := by
        split at h1
        · exact processCast_promote_keeps _ _ _ _ _ _ _ h1
        · simp only [Option.some.injEq] at h1; rw [← h1]; exact Keeps.refl _
      split at h
      · simp only [Option.some.injEq] at h; rw [← h]
        exact k.trans (Keeps.setState _ _)
      · simp only [Option.some.injEq] at h; rw [← h]; exact k
  · simp only [Option.some.injEq] at h; rw [← h]; exact Keeps.refl _

theorem endswith_append (s suf : String) : endswith (s ++ suf) suf = true := by
  unfold endswith
  rw [String.data_append, List.isSuffixOf_iff_suffix]
  exact List.suffix_append _ _

/-- Erasing the instruction that is being rewritten ends its turn. -/
theorem Good.erase {R : List String} {Q : String → Prop} {n : Nat} {ps : PassState}
    {v : Value} (h : Good R Q (some v) n ps) :
    Good R Q none n (ps.setModule (ps.CurrentModule.erase v)) := by
  have h0 := h.setModule _ (Module.Edits.erased R ps.CurrentModule v)
  refine
    { list := h0.list, removed := h0.removed, members := h0.members, nodup := h0.nodup
      length := h0.length, calls := ?_ }
  intro G hG J hJ hb
  simp only [PassState.setModule, Module.erase, Module.mapBlocks, List.mem_map] at hG
  obtain ⟨F, hF, rfl⟩ := hG
  simp only [Function.instructions, List.mem_flatMap, List.mem_map] at hJ
  obtain ⟨b, ⟨b0, hb0, rfl⟩, hJ⟩ := hJ
  simp only [List.mem_filter, decide_eq_true_eq] at hJ
  have hmem : J ∈ F.instructions := by
    simp only [Function.instructions, List.mem_flatMap]
    exact ⟨b0, hb0, hJ.1⟩
  rcases h.calls F hF J hmem hb with h1 | h1 | h1
  · exact Or.inl h1
  · exact Or.inr (Or.inl h1)
  · simp only [Option.some.injEq] at h1
    exact absurd h1.symm hJ.2

theorem rewriteCallSite_replace_good {R : List String} {Q : String → Prop} {n : Nat}
    {ps : PassState} (Call NewCall : Instruction)
    (h : Good R Q (some Call.asValue) n ps) (hnew : NewCall.namesOneOf R = false)
    (hname : NewCall.asValue.asFunctionName = none) :
    Good R Q none n (rewriteCallSite.replace ps Call NewCall) := by
  unfold rewriteCallSite.replace
  simp only []
  have g2 := (Keeps.fresh ps R Q _ n h).setModule
    (ps.CurrentModule.insertBefore Call.asValue NewCall)
    (Module.Edits.insertBefore R _ _ _ hnew)
  split
  · exact (splitNewReturn_keeps _ Call NewCall R Q _ n g2).erase
  · exact (Keeps.replaceAllUsesWith _ _ _ hname R Q _ n g2).erase

theorem rewriteCallSite_good {R : List String} {Q : String → Prop} {n : Nat}
    (env : Env) (ps : PassState) (I : Instruction) (r : PassState)
    (h : rewriteCallSite env ps I = some r) (hg : Good R Q (some I.asValue) n ps) :
    Good R Q none n r := by
  unfold rewriteCallSite at h
  split at h
  · rename_i id ty cv Args isTailCall CallingConv
    split at h
    · simp at h
    · rename_i calledF hcalled
      split at h
      · simp at h
      · rename_i r1 h1
        split at h
        · simp at h
        · rename_i NF hNF
          simp only [Option.some.injEq] at h
          rw [← h]
          have g1 := buildArgs_keeps env _ cv Args r1 h1 R Q _ n
            (Keeps.count ps Statistics.incFunctionCallSitesRewritten R Q _ n hg)
          refine rewriteCallSite_replace_good _ _ g1 ?_ rfl
          simp only [Instruction.namesOneOf]
          rw [Bool.eq_false_iff]
          intro hc
          obtain ⟨name, hn1, hn2⟩ := (calleeIn_iff R _).mp hc
          simp only [Function.asValue, Value.asFunctionName, Option.some.injEq] at hn1
          have hn3 := (Module.getFunction_eq_some hNF).2
          have hn4 := (g1.removed name hn2).2.1
          rw [← hn1, hn3] at hn4
          have := endswith_append calledF "_nesCheck"
          simp only [nesCheckSuffix] at hn4
          rw [hn4] at this
          exact Bool.false_ne_true this
  · simp at h

theorem processCall_good {R : List String} {Q : String → Prop} {n : Nat}
    (env : Env) (ps : PassState) (id : Ident) (ty : LType) (cv : Value) (Args : List Value)
    (t : Bool) (cc : Nat) (r : PassState)
    (h : processCall env ps (.Call id ty cv Args t cc) cv Args = some r)
    (hg : Good R Q (if calleeIn R cv = true then
        some (Instruction.Call id ty cv Args t cc).asValue else none) n ps) :
    Good R Q none n r := by
  unfold processCall at h
  split at h
  · simp at h
  · rename_i ps1 h1
    have g1 := processCall_size_keeps env ps _ cv Args ps1 h1 R Q _ n hg
    rw [calleeToRemove_eq, g1.list] at h
    split at h
    · rename_i hc
      rw [if_pos hc] at g1
      exact rewriteCallSite_good env ps1 _ r h g1
    · rename_i hc
      rw [if_neg hc] at g1
      simp only [Option.some.injEq] at h
      rw [← h]; exact g1

theorem processInstruction_good {R : List String} {Q : String → Prop} {n : Nat}
    (env : Env) (ps : PassState) (I : Instruction) (r : PassState × Bool)
    (h : processInstruction env ps I = some r)
    (hg : Good R Q (if I.namesOneOf R = true then some I.asValue else none) n ps) :
    Good R Q none n r.1 := by
  cases I with
  | Call id ty cv Args t cc =>
    simp only [processInstruction, Option.map_eq_some'] at h
    obtain ⟨a, ha, rfl⟩ := h
    exact processCall_good env ps id ty cv Args t cc a ha hg
  | Alloca id aty sz =>
    simp only [processInstruction, Option.some.injEq] at h
    rw [← h]
    exact processAlloca_keeps env ps _ aty sz R Q _ n hg
  | Return id op =>
    simp only [processInstruction, Option.map_eq_some'] at h
    obtain ⟨a, ha, rfl⟩ := h
    exact processReturn_keeps env ps _ op a ha R Q _ n hg
  | Store id v p =>
    simp only [processInstruction, Option.map_eq_some'] at h
    obtain ⟨a, ha, rfl⟩ := h
    exact processStore_keeps env ps _ v p a ha R Q _ n hg
  | Load id ty p =>
    simp only [processInstruction, Option.map_eq_some'] at h
    obtain ⟨a, ha, rfl⟩ := h
    exact processLoad_keeps env ps _ ty p a ha R Q _ n hg
  | GetElementPtr g =>
    simp only [processInstruction] at h
    exact processGEP_keeps env ps g r h R Q _ n hg
  | Cast id b ty op =>
    simp only [processInstruction, Option.map_eq_some'] at h
    obtain ⟨a, ha, rfl⟩ := h
    exact processCast_keeps env ps _ b ty op a ha R Q _ n hg
  | Invoke id ty cv Args cc nd ud =>
    simp only [processInstruction, Option.some.injEq] at h
    rw [← h]; exact hg
  | Br id d =>
    simp only [processInstruction, Option.some.injEq] at h
    rw [← h]; exact hg
  | CondBr id c a b =>
    simp only [processInstruction, Option.some.injEq] at h
    rw [← h]; exact hg
  | Unreachable id =>
    simp only [processInstruction, Option.some.injEq] at h
    rw [← h]; exact hg
  | Other id res ops =>
    simp only [processInstruction, Option.some.injEq] at h
    rw [← h]; exact hg

theorem nextInstruction_good {R : List String} {Q : String → Prop} {n : Nat}
    (ps : PassState) (I : Instruction) (rest : List Instruction)
    (hw : ps.instructionsToAnalyze = I :: rest) (hg : Good R Q none (n + 1) ps) :
    Good R Q (if I.namesOneOf R = true then some I.asValue else none) n
      (nextInstruction ps I rest) := by
  refine
    { list := hg.list, removed := hg.removed, members := hg.members, nodup := hg.nodup
      length := ?_, calls := ?_ }
  · have := hg.length
    rw [hw] at this
    simpa [nextInstruction] using this
  · intro G hG J hJ hb
    rcases hg.calls G hG J hJ hb with h1 | h1 | h1
    · exact Or.inl h1
    · rw [hw, List.mem_cons] at h1
      rcases h1 with h1 | h1
      · subst h1
        rw [if_pos hb]
        exact Or.inr (Or.inr rfl)
      · exact Or.inr (Or.inl h1)
    · simp at h1

theorem analyzeInstructions_good {R : List String} {Q : String → Prop} (env : Env) :
    ∀ (fuel : Nat) (ps r : PassState), analyzeInstructions env fuel ps = some r →
      ∀ n, n ≤ fuel → Good R Q none n ps → Good R Q none 0 r := by
  intro fuel
  induction fuel with
  | zero =>
    intro ps r h n hn hg
    simp only [analyzeInstructions, Option.some.injEq] at h
    have : n = 0 := by omega
    subst this; rw [← h]; exact hg
  | succ k ih =>
    intro ps r h n hn hg
    unfold analyzeInstructions at h
    cases hw : ps.instructionsToAnalyze with
    | nil =>
      rw [hw] at h
      simp only [Option.some.injEq] at h
      have hl := hg.length
      rw [hw] at hl
      simp only [List.length_nil] at hl
      rw [← hl] at hg
      rw [← h]; exact hg
    | cons I rest =>
      rw [hw] at h
      simp only at h
      cases hp : processInstruction env (nextInstruction ps I rest) I with
      | none => rw [hp] at h; simp at h
      | some r1 =>
        rw [hp] at h
        simp only at h
        have hl := hg.length
        rw [hw] at hl
        simp only [List.length_cons] at hl
        have hg1 : Good R Q none (rest.length + 1) ps := by rw [hl]; exact hg
        have g1 := nextInstruction_good ps I rest hw hg1
        have g2 := processInstruction_good env _ I r1 hp g1
        exact ih r1.1 r h rest.length (by omega) g2

theorem Module.eq_of_name_eq {M : Module} (hn : M.names.Nodup) {F G : Function}
    (hF : F ∈ M.functions) (hG : G ∈ M.functions) (h : F.name = G.name) : F = G :=
  List.inj_on_of_nodup_map hn hF hG h

theorem analyzeFunction_good {R : List String} (env : Env) (ps r : PassState)
    (F : String) (rest : List String) (h : analyzeFunction env ps F = some r)
    (hg : Good R (fun x => isNesCheckLibFunction x = true ∨ x ∈ F :: rest) none 0 ps) :
    Good R (fun x => isNesCheckLibFunction x = true ∨ x ∈ rest) none 0 r := by
  unfold analyzeFunction at h
  split at h
  · simp at h
  · rename_i Fn hFn
    obtain ⟨hmem, hname⟩ := Module.getFunction_eq_some hFn
    refine analyzeInstructions_good env _ _ r h Fn.instructions.length (le_refl _) ?_
    refine
      { list := hg.list, removed := hg.removed, members := hg.members, nodup := hg.nodup
        length := rfl, calls := ?_ }
    intro G hG J hJ hb
    rcases hg.calls G hG J hJ hb with h1 | h1 | h1
    · rcases h1 with h1 | h1
      · exact Or.inl (Or.inl h1)
      · rw [List.mem_cons] at h1
        rcases h1 with h1 | h1
        · have : G = Fn := Module.eq_of_name_eq hg.nodup hG hmem (h1.trans hname.symm)
          subst this
          exact Or.inr (Or.inl hJ)
        · exact Or.inl (Or.inr h1)
    · have hl := List.length_eq_zero.mp hg.length
      rw [hl] at h1
      simp at h1
    · simp at h1

theorem analyzeFunctions_good {R : List String} (env : Env) :
    ∀ (FunctionsToAnalyze : List String) (ps r : PassState),
      analyzeFunctions env FunctionsToAnalyze ps = some r →
      Good R (fun x => isNesCheckLibFunction x = true ∨ x ∈ FunctionsToAnalyze) none 0 ps →
      Good R (fun x => isNesCheckLibFunction x = true) none 0 r := by
  intro l
  induction l with
  | nil =>
    intro ps r h hg
    simp only [analyzeFunctions, Option.some.injEq] at h
    rw [← h]
    exact hg.mono (fun x hx => hx.elim id (fun h => by simp at h))
  | cons F rest ih =>
    intro ps r h hg
    unfold analyzeFunctions at h
    simp only [] at h
    split at h
    · simp at h
    · rename_i ps2 h2
      refine ih ps2 r h (analyzeFunction_good env _ ps2 F rest h2 ?_)
      exact hg.edit (Module.Edits.unchanged R _) rfl rfl rfl rfl rfl rfl

/-! ### The first loop of `runOnModule` -/

theorem getSizeForValue_fst (env : Env) (ps : PassState) (v : Value) :
    (getSizeForValue env ps v).1 = ps := by
  unfold getSizeForValue
  split
  · rfl
  · unfold getSizeForValue.manual
    generalize (if v.getType.isPointerTy = true then v.getType.getElementType
      else v.getType) = t
    simp only []
    split
    · simp [PassState.CreateBinOp, PassState.CreateCastToInt, ConstantInt.get,
        Value.isConstant, foldBinary, Value.getType]
    · rfl
    · split
      · rfl
      · split <;> rfl

theorem registerGlobals_eq (env : Env) (gvs : List Value) (ps : PassState) :
    ∃ s, registerGlobals env gvs ps = ps.setState s := by
  induction gvs generalizing ps with
  | nil => exact ⟨ps.TheState, rfl⟩
  | cons gv rest ih =>
    unfold registerGlobals
    simp only []
    split
    · rw [getSizeForValue_fst]
      obtain ⟨s, hs⟩ := ih ((ps.setState (ps.TheState.RegisterVariable gv)).setState
        ((ps.setState (ps.TheState.RegisterVariable gv)).TheState.SetSizeForPointerVariable gv
          (some (getSizeForValue env (ps.setState (ps.TheState.RegisterVariable gv)) gv).2)))
      exact ⟨s, hs⟩
    · obtain ⟨s, hs⟩ := ih (ps.setState (ps.TheState.RegisterVariable gv))
      exact ⟨s, hs⟩

theorem String.append_right_cancel {a b s : String} (h : a ++ s = b ++ s) : a = b := by
  have := congrArg String.data h
  simp only [String.data_append, List.append_cancel_right_eq] at this
  exact String.ext this

theorem mem_spliceNames (x a m : String) (l : List String)
    (h : m ∈ l.flatMap (fun n => if n = x then [a, n] else [n])) :
    m ∈ l ∨ (m = a ∧ x ∈ l) := by
  simp only [List.mem_flatMap] at h
  obtain ⟨n, hn, hm⟩ := h
  split at hm
  · rename_i hx
    simp only [List.mem_cons, List.mem_singleton, List.not_mem_nil, or_false] at hm
    rcases hm with hm | hm
    · exact Or.inr ⟨hm, hx ▸ hn⟩
    · exact Or.inl (hm ▸ hn)
  · simp only [List.mem_singleton] at hm
    exact Or.inl (hm ▸ hn)

theorem nodup_spliceNames (x a : String) (l : List String) (hl : l.Nodup) (ha : a ∉ l) :
    (l.flatMap (fun n => if n = x then [a, n] else [n])).Nodup := by
  induction l with
  | nil => simp
  | cons y ys ih =>
    simp only [List.nodup_cons] at hl
    simp only [List.mem_cons, not_or] at ha
    have ih1 := ih hl.2 ha.2
    simp only [List.flatMap_cons]
    rw [List.nodup_append]
    refine ⟨?_, ih1, ?_⟩
    · split
      · simp only [List.nodup_cons, List.mem_singleton, List.not_mem_nil, not_false_eq_true,
          List.nodup_nil, and_true]
        exact ha.1
      · simp
    · intro m hm1 hm2
      rcases mem_spliceNames x a m ys hm2 with h | ⟨h1, h2⟩
      · split at hm1
        · simp only [List.mem_cons, List.mem_singleton, List.not_mem_nil, or_false] at hm1
          rcases hm1 with hm1 | hm1
          · exact ha.2 (hm1 ▸ h)
          · exact hl.1 (hm1 ▸ h)
        · simp only [List.mem_singleton] at hm1
          exact hl.1 (hm1 ▸ h)
      · split at hm1
        · rename_i hx
          exact hl.1 (hx ▸ h2)
        · simp only [List.mem_singleton] at hm1
          exact ha.1 (h1 ▸ hm1)

theorem spliceInto_names (M : Module) (F NF : Function) :
    (spliceInto M F NF).names =
      M.names.flatMap (fun n => if n = F.name then [NF.name, n] else [n]) := by
  simp only [Module.names, spliceInto]
  induction M.functions with
  | nil => rfl
  | cons G rest ih =>
    simp only [List.flatMap_cons, List.map_append, List.map_cons, ih]
    congr 1
    split <;> rfl

theorem mem_spliceInto (M : Module) (F NF G : Function)
    (h : G ∈ (spliceInto M F NF).functions) :
    G.name = NF.name ∨ G.blocks = [] ∨ (G ∈ M.functions ∧ G.name ≠ F.name) := by
  simp only [spliceInto, List.mem_flatMap] at h
  obtain ⟨G0, hG0, hG⟩ := h
  split at hG
  · simp only [List.mem_cons, List.mem_singleton, List.not_mem_nil, or_false] at hG
    rcases hG with rfl | rfl
    · exact Or.inl rfl
    · exact Or.inr (Or.inl rfl)
  · rename_i hne
    simp only [List.mem_singleton] at hG
    subst hG
    exact Or.inr (Or.inr ⟨hG0, hne⟩)

theorem replaceAllUsesWith_names (M : Module) (old new : Value) :
    (M.replaceAllUsesWith old new).names = M.names := by
  simp [Module.names, Module.replaceAllUsesWith, Module.mapBlocks, Function.comp_def]

theorem mem_replaceAllUsesWith (M : Module) (old new : Value) (G : Function)
    (h : G ∈ (M.replaceAllUsesWith old new).functions) :
    ∃ G0 ∈ M.functions, G.name = G0.name ∧ (G.blocks ≠ [] → G0.blocks ≠ []) := by
  simp only [Module.replaceAllUsesWith, Module.mapBlocks, List.mem_map] at h
  obtain ⟨G0, hG0, rfl⟩ := h
  refine ⟨G0, hG0, rfl, ?_⟩
  intro h1 h2
  simp [h2] at h1

theorem replaceArguments_spec (F NF : Function) (tys : List LType) :
    ∀ (k : Nat) (M : Module),
      (replaceArguments F NF tys k M).names = M.names ∧
      ∀ G ∈ (replaceArguments F NF tys k M).functions,
        ∃ G0 ∈ M.functions, G.name = G0.name ∧ (G.blocks ≠ [] → G0.blocks ≠ []) := by
  induction tys with
  | nil =>
    intro k M
    exact ⟨rfl, fun G hG => ⟨G, hG, rfl, id⟩⟩
  | cons ty rest ih =>
    intro k M
    unfold replaceArguments
    obtain ⟨h1, h2⟩ := ih (k + 1) (M.replaceAllUsesWith (F.getArg k) (NF.getArg k))
    refine ⟨h1.trans (replaceAllUsesWith_names _ _ _), fun G hG => ?_⟩
    obtain ⟨G1, hG1, hn1, hb1⟩ := h2 G hG
    obtain ⟨G0, hG0, hn0, hb0⟩ := mem_replaceAllUsesWith _ _ _ _ hG1
    exact ⟨G0, hG0, hn1.trans hn0, fun h => hb0 (hb1 h)⟩

/-- The first loop skips the function `F`. -/
theorem Rewriting.skip {F : Function} {rest : List Function} {ps : PassState}
    {FA : List String} (h : Rewriting (F :: rest) ps FA)
    (hs : (F.isDeclaration || isNesCheckLibFunction F.name) = true) : Rewriting rest ps FA :=
  { removed := h.removed, members := h.members, nodup := h.nodup
    pending := (List.nodup_cons.mp h.pending).2
    hygiene := fun G hG => h.hygiene G (List.mem_cons_of_mem _ hG)
    unused := fun G hG => h.unused G (List.mem_cons_of_mem _ hG)
    snapshot := h.snapshot
    bodies := by
      intro G hG hb
      rcases h.bodies G hG hb with h1 | h1 | ⟨F1, hF1, hn, hb1⟩
      · exact Or.inl h1
      · exact Or.inr (Or.inl h1)
      · rw [List.mem_cons] at hF1
        rcases hF1 with rfl | hF1
        · left
          simp only [Function.isDeclaration, Bool.or_eq_true, List.isEmpty_iff] at hs
          rcases hs with hs | hs
          · exact absurd hs hb1
          · rw [← hn]; exact hs
        · exact Or.inr (Or.inr ⟨F1, hF1, hn, hb1⟩) }

/-- The first loop leaves the function `F` as it is and collects it. -/
theorem Rewriting.keep {F : Function} {rest : List Function} {ps qs : PassState}
    {FA : List String} (h : Rewriting (F :: rest) ps FA)
    (h0 : qs.CurrentModule = ps.CurrentModule)
    (h1 : qs.FunctionsToRemove = ps.FunctionsToRemove)
    (h2 : qs.MyPrintErrorLineFn = ps.MyPrintErrorLineFn)
    (h3 : qs.MyPrintCheckFn = ps.MyPrintCheckFn)
    (h4 : qs.setMetadataFunction = ps.setMetadataFunction)
    (h5 : qs.lookupMetadataFunction = ps.lookupMetadataFunction)
    (h6 : qs.instructionsToAnalyze = ps.instructionsToAnalyze) :
    Rewriting rest qs (FA ++ [F.name]) :=
  { removed := by rw [h1]; exact h.removed
    members := by rw [h2, h3, h4, h5]; exact h.members
    nodup := by rw [h0]; exact h.nodup
    pending := (List.nodup_cons.mp h.pending).2
    hygiene := fun G hG => h.hygiene G (List.mem_cons_of_mem _ hG)
    unused := by rw [h0]; exact fun G hG => h.unused G (List.mem_cons_of_mem _ hG)
    snapshot := by rw [h6]; exact h.snapshot
    bodies := by
      rw [h0]
      intro G hG hb
      rcases h.bodies G hG hb with h1 | h1 | ⟨F1, hF1, hn, hb1⟩
      · exact Or.inl h1
      · exact Or.inr (Or.inl (List.mem_append_left _ h1))
      · rw [List.mem_cons] at hF1
        rcases hF1 with rfl | hF1
        · exact Or.inr (Or.inl (by rw [← hn]; simp))
        · exact Or.inr (Or.inr ⟨F1, hF1, hn, hb1⟩) }

/-- The first loop rewrites the signature of the function `F`. -/
theorem Rewriting.rewrite {F : Function} {rest : List Function} {ps qs : PassState}
    {FA : List String} (h : Rewriting (F :: rest) ps FA)
    (hlib : isNesCheckLibFunction F.name = false) (hdecl : F.isDeclaration = false)
    (h0 : qs.CurrentModule = replaceArguments F (newFunction F) (F.Params.map (·.2)) 0
      (spliceInto ps.CurrentModule F (newFunction F)))
    (h1 : qs.FunctionsToRemove = ps.FunctionsToRemove ++ [F.name])
    (h2 : qs.MyPrintErrorLineFn = ps.MyPrintErrorLineFn)
    (h3 : qs.MyPrintCheckFn = ps.MyPrintCheckFn)
    (h4 : qs.setMetadataFunction = ps.setMetadataFunction)
    (h5 : qs.lookupMetadataFunction = ps.lookupMetadataFunction)
    (h6 : qs.instructionsToAnalyze = ps.instructionsToAnalyze) :
    Rewriting rest qs (FA ++ [(newFunction F).name]) := by
  obtain ⟨hnames, hfun⟩ := replaceArguments_spec F (newFunction F) (F.Params.map (·.2)) 0
    (spliceInto ps.CurrentModule F (newFunction F))
  rw [← h0] at hnames hfun
  rw [spliceInto_names] at hnames
  have hF := h.hygiene F (List.mem_cons_self _ _)
  have hfr := h.unused F (List.mem_cons_self _ _)
  have hpend := List.nodup_cons.mp h.pending
  refine
    { removed := ?_, members := by rw [h2, h3, h4, h5]; exact h.members, nodup := ?_
      pending := hpend.2
      hygiene := fun G hG => h.hygiene G (List.mem_cons_of_mem _ hG)
      unused := ?_, snapshot := by rw [h6]; exact h.snapshot, bodies := ?_ }
  · intro x hx
    rw [h1, List.mem_append, List.mem_singleton] at hx
    rcases hx with hx | rfl
    · exact h.removed x hx
    · refine ⟨hlib, hF.1, fun ht => ?_⟩
      rw [hF.2 ht] at hdecl
      exact Bool.noConfusion hdecl
  · rw [hnames]
    exact nodup_spliceNames _ _ _ h.nodup hfr
  · intro G hG hmem
    rw [hnames] at hmem
    rcases mem_spliceNames _ _ _ _ hmem with hm | ⟨hm, -⟩
    · exact h.unused G (List.mem_cons_of_mem _ hG) hm
    · have : G.name = F.name := String.append_right_cancel hm
      exact hpend.1 (by rw [← this]; exact List.mem_map_of_mem _ hG)
  · intro G hG hb
    obtain ⟨G0, hG0, hn0, hb0⟩ := hfun G hG
    rcases mem_spliceInto _ _ _ _ hG0 with hc | hc | ⟨hc1, hc2⟩
    · exact Or.inr (Or.inl (by rw [hn0, hc]; simp))
    · exact absurd hc (hb0 hb)
    · rcases h.bodies G0 hc1 (hb0 hb) with h7 | h7 | ⟨F1, hF1, hn, hb1⟩
      · exact Or.inl (by rw [hn0]; exact h7)
      · exact Or.inr (Or.inl (by rw [hn0]; exact List.mem_append_left _ h7))
      · rw [List.mem_cons] at hF1
        rcases hF1 with rfl | hF1
        · exact absurd hn.symm hc2
        · exact Or.inr (Or.inr ⟨F1, hF1, by rw [hn0]; exact hn, hb1⟩)

/-- One call of `rewriteFunctionSignature` in the first loop. -/
theorem Rewriting.step {F : Function} {rest : List Function} {ps : PassState}
    {FA : List String} (h : Rewriting (F :: rest) ps FA)
    (hlib : isNesCheckLibFunction F.name = false) (hdecl : F.isDeclaration = false)
    (ps1 : PassState)
    (h0 : ps1.CurrentModule = ps.CurrentModule)
    (h1 : ps1.FunctionsToRemove = ps.FunctionsToRemove)
    (h2 : ps1.MyPrintErrorLineFn = ps.MyPrintErrorLineFn)
    (h3 : ps1.MyPrintCheckFn = ps.MyPrintCheckFn)
    (h4 : ps1.setMetadataFunction = ps.setMetadataFunction)
    (h5 : ps1.lookupMetadataFunction = ps.lookupMetadataFunction)
    (h6 : ps1.instructionsToAnalyze = ps.instructionsToAnalyze) :
    Rewriting rest (rewriteFunctionSignature ps1 F).1
      (FA ++ [(rewriteFunctionSignature ps1 F).2.name]) := by
  unfold rewriteFunctionSignature
  split
  · exact h.keep h0 h1 h2 h3 h4 h5 h6
  · simp only []
    split
    · exact h.keep h0 h1 h2 h3 h4 h5 h6
    · refine h.rewrite hlib hdecl ?_ ?_ ?_ ?_ ?_ ?_ ?_
      · split <;> simp [PassState.setModule, PassState.setState, PassState.count, h0]
      · split <;> simp [PassState.setModule, PassState.setState, PassState.count, h1]
      · split <;> simp [PassState.setModule, PassState.setState, PassState.count, h2]
      · split <;> simp [PassState.setModule, PassState.setState, PassState.count, h3]
      · split <;> simp [PassState.setModule, PassState.setState, PassState.count, h4]
      · split <;> simp [PassState.setModule, PassState.setState, PassState.count, h5]
      · split <;> simp [PassState.setModule, PassState.setState, PassState.count, h6]

theorem rewriteSignatures_spec :
    ∀ (rest : List Function) (ps : PassState) (FA : List String) (changed : Bool),
      Rewriting rest ps FA →
      Rewriting [] (rewriteSignatures rest (ps, FA, changed)).1
        (rewriteSignatures rest (ps, FA, changed)).2.1 := by
  intro rest
  induction rest with
  | nil => intro ps FA changed h; exact h
  | cons F rest ih =>
    intro ps FA changed h
    unfold rewriteSignatures
    split
    · rename_i hs
      exact ih ps FA changed (h.skip hs)
    · rename_i hs
      simp only [Bool.or_eq_true, not_or, Bool.not_eq_true] at hs
      simp only []
      exact ih _ _ _ (h.step hs.2 hs.1 _ rfl rfl rfl rfl rfl rfl rfl)

/-! ### The call that replaces a rewritten call -/

theorem Module.hasIn_mapBlocks (M : Module) (f : BasicBlock → BasicBlock) (Fn : String)
    (P P1 : Instruction → Prop)
    (hf : ∀ b : BasicBlock, ∀ J ∈ b.insts, P J → ∃ J1 ∈ (f b).insts, P1 J1)
    (h : M.hasIn Fn P) : (M.mapBlocks f).hasIn Fn P1 := by
  obtain ⟨G, hG, hn, J, hJ, hP⟩ := h
  simp only [Function.instructions, List.mem_flatMap] at hJ
  obtain ⟨b, hb, hJb⟩ := hJ
  obtain ⟨J1, hJ1, hP1⟩ := hf b J hJb hP
  refine ⟨{ G with blocks := G.blocks.map f }, ?_, hn, J1, ?_, hP1⟩
  · simp only [Module.mapBlocks, List.mem_map]
    exact ⟨G, hG, rfl⟩
  · simp only [Function.instructions, List.mem_flatMap, List.mem_map]
    exact ⟨f b, ⟨b, hb, rfl⟩, hJ1⟩

theorem mem_insertBeforeIn_of_mem (anchor : Value) (new J : Instruction)
    (l : List Instruction) (h : J ∈ l) : J ∈ insertBeforeIn anchor new l := by
  induction l with
  | nil => simp at h
  | cons i rest ih =>
    simp only [insertBeforeIn]
    rw [List.mem_cons] at h
    split
    · rcases h with h | h
      · subst h; simp
      · simp [h]
    · rcases h with h | h
      · subst h; simp
      · exact List.mem_cons_of_mem _ (ih h)

theorem new_mem_insertBeforeIn (anchor : Value) (new J : Instruction)
    (l : List Instruction) (h : J ∈ l) (hJ : J.asValue = anchor) :
    new ∈ insertBeforeIn anchor new l := by
  induction l with
  | nil => simp at h
  | cons i rest ih =>
    simp only [insertBeforeIn]
    rw [List.mem_cons] at h
    split
    · simp
    · rename_i hne
      rcases h with h | h
      · subst h; exact absurd hJ hne
      · exact List.mem_cons_of_mem _ (ih h)

theorem Module.hasIn_insertBefore (M : Module) (anchor : Value) (new : Instruction)
    (Fn : String) (P : Instruction → Prop) (h : M.hasIn Fn P) :
    (M.insertBefore anchor new).hasIn Fn P :=
  Module.hasIn_mapBlocks M _ Fn P P
    (fun _ J hJ hP => ⟨J, mem_insertBeforeIn_of_mem _ _ _ _ hJ, hP⟩) h

theorem Module.hasIn_insertBefore_new (M : Module) (new I : Instruction) (Fn : String)
    (P : Instruction → Prop) (hP : P new) (h : M.hasIn Fn (fun J => J = I)) :
    (M.insertBefore I.asValue new).hasIn Fn P :=
  Module.hasIn_mapBlocks M _ Fn (fun J => J = I) P
    (fun _ J hJ hJI => ⟨new, new_mem_insertBeforeIn _ _ J _ hJ (by rw [hJI]), hP⟩) h

/-- The calls of the function named `nm` with the identity `nid`. -/
theorem isCallOf_replaceUses (old new : Value) (nid : Ident) (rty fty : LType) (nm : String)
    (t : Bool) (cc : Nat) (hold : old.asFunctionName = none) (J : Instruction)
    (h : ∃ args, J = .Call nid rty (.Function nm fty) args t cc) :
    ∃ args, Instruction.replaceUses old new J = .Call nid rty (.Function nm fty) args t cc := by
  obtain ⟨args, rfl⟩ := h
  refine ⟨args.map (Value.replaceUses old new), ?_⟩
  simp only [Instruction.replaceUses, Value.replaceUses]
  split
  · rename_i heq
    rw [← heq] at hold
    simp [Value.asFunctionName] at hold
  · rfl

theorem Module.hasIn_replaceAllUsesWith (M : Module) (old new : Value) (Fn : String)
    (nid : Ident) (rty fty : LType) (nm : String) (t : Bool) (cc : Nat)
    (hold : old.asFunctionName = none)
    (h : M.hasIn Fn (fun J => ∃ args, J = .Call nid rty (.Function nm fty) args t cc)) :
    (M.replaceAllUsesWith old new).hasIn Fn
      (fun J => ∃ args, J = .Call nid rty (.Function nm fty) args t cc) :=
  Module.hasIn_mapBlocks M _ Fn _ _
    (fun _ J hJ hP => ⟨Instruction.replaceUses old new J, List.mem_map_of_mem _ hJ,
      isCallOf_replaceUses old new nid rty fty nm t cc hold J hP⟩) h

theorem Module.hasIn_erase (M : Module) (v : Value) (Fn : String) (P : Instruction → Prop)
    (hv : ∀ J, P J → J.asValue ≠ v) (h : M.hasIn Fn P) : (M.erase v).hasIn Fn P :=
  Module.hasIn_mapBlocks M _ Fn P P
    (fun _ J hJ hP => ⟨J, by
      simp only [List.mem_filter, decide_eq_true_eq]
      exact ⟨hJ, hv J hP⟩, hP⟩) h

theorem Module.not_mem_erase (M : Module) (v : Value) :
    ∀ G ∈ (M.erase v).functions, ∀ J ∈ G.instructions, J.asValue ≠ v := by
  intro G hG J hJ
  simp only [Module.erase, Module.mapBlocks, List.mem_map] at hG
  obtain ⟨F, -, rfl⟩ := hG
  simp only [Function.instructions, List.mem_flatMap, List.mem_map] at hJ
  obtain ⟨b, ⟨b0, -, rfl⟩, hJ⟩ := hJ
  simp only [List.mem_filter, decide_eq_true_eq] at hJ
  exact hJ.2

theorem String.append_ne_self (a : String) : a ++ "_nesCheck" ≠ a := by
  intro h
  have h1 : (a ++ "_nesCheck").data.length = a.data.length := by rw [h]
  have h9 : "_nesCheck".data.length = 9 := by decide
  rw [String.data_append, List.length_append, h9] at h1
  omega

/-- What `rewriteCallSite.replace` leaves in the module: the old call is gone
and, where it was, there is a call of the new function. -/
theorem rewriteCallSite_replace_spec (ps : PassState) (id : Ident) (ty : LType) (cv : Value)
    (Args : List Value) (t : Bool) (cc : Nat) (nid : Ident) (rty fty : LType) (nm : String)
    (NewArgs : List Value) (hnm : cv.asFunctionName ≠ some nm) :
    (∀ G ∈ (rewriteCallSite.replace ps (.Call id ty cv Args t cc)
          (.Call nid rty (.Function nm fty) NewArgs t cc)).CurrentModule.functions,
        ∀ J ∈ G.instructions, J.asValue ≠ (Instruction.Call id ty cv Args t cc).asValue)
    ∧ ∀ Fn, ps.CurrentModule.hasIn Fn (fun J => J = .Call id ty cv Args t cc) →
        (rewriteCallSite.replace ps (.Call id ty cv Args t cc)
          (.Call nid rty (.Function nm fty) NewArgs t cc)).CurrentModule.hasIn Fn
          (fun J => ∃ args, J = .Call nid rty (.Function nm fty) args t cc) := by
  unfold rewriteCallSite.replace
  simp only []
  refine ⟨fun G hG J hJ => Module.not_mem_erase _ _ G hG J hJ, fun Fn h => ?_⟩
  have h2 := Module.hasIn_insertBefore_new ps.CurrentModule
    (.Call nid rty (.Function nm fty) NewArgs t cc) (.Call id ty cv Args t cc) Fn
    (fun J => ∃ args, J = .Call nid rty (.Function nm fty) args t cc) ⟨NewArgs, rfl⟩ h
  refine Module.hasIn_erase _ _ Fn _ ?_ ?_
  · rintro J ⟨args, rfl⟩ heq
    simp only [Instruction.asValue, Value.asFunctionName, Value.CallInst.injEq] at heq
    exact hnm heq.2.2.symm
  · split
    · simp only [splitNewReturn, PassState.setState, PassState.replaceAllUsesWith,
        PassState.setModule, PassState.fresh]
      refine Module.hasIn_replaceAllUsesWith _ _ _ Fn nid rty fty nm t cc rfl ?_
      exact Module.hasIn_insertBefore _ _ _ Fn _ (Module.hasIn_insertBefore _ _ _ Fn _ h2)
    · simp only [PassState.replaceAllUsesWith, PassState.setModule, PassState.fresh]
      exact Module.hasIn_replaceAllUsesWith _ _ _ Fn nid rty fty nm t cc rfl h2

theorem sizeArgumentFor_module (env : Env) (ps : PassState) (arg : Value)
    (r : PassState × Value) (h : sizeArgumentFor env ps arg = some r) :
    r.1.CurrentModule = ps.CurrentModule ∧ r.1.nextId = ps.nextId := by
  unfold sizeArgumentFor at h
  split at h
  · simp only [Option.some.injEq] at h; rw [← h]; exact ⟨rfl, rfl⟩
  · split at h
    · simp only [Option.some.injEq] at h; rw [← h]
      simp [PassState.setState, getSizeForValue_fst]
    · simp at h

theorem collectSizeArguments_module (env : Env) (args : List Value) (ps : PassState)
    (r : PassState × List Value) (h : collectSizeArguments env ps args = some r) :
    r.1.CurrentModule = ps.CurrentModule ∧ r.1.nextId = ps.nextId := by
  induction args generalizing ps r with
  | nil =>
    simp only [collectSizeArguments, Option.some.injEq] at h
    rw [← h]; exact ⟨rfl, rfl⟩
  | cons a rest ih =>
    unfold collectSizeArguments at h
    split at h
    · cases h1 : sizeArgumentFor env ps a with
      | none => rw [h1] at h; simp at h
      | some r1 =>
        rw [h1] at h
        simp only at h
        cases h2 : collectSizeArguments env r1.1 rest with
        | none => rw [h2] at h; simp at h
        | some r2 =>
          rw [h2] at h
          simp only [Option.some.injEq] at h
          rw [← h]
          have e1 := sizeArgumentFor_module env ps a r1 h1
          have e2 := ih r1.1 r2 h2
          exact ⟨e2.1.trans e1.1, e2.2.trans e1.2⟩
    · exact ih ps r h

theorem processCall_size_eq (env : Env) (ps : PassState) (II cv : Value)
    (Args : List Value) (r : PassState) (h : processCall.size env ps II cv Args = some r) :
    ∃ s, r = ps.setState s := by
  unfold processCall.size at h
  simp only at h
  split at h
  · simp only [Option.map_eq_some'] at h
    obtain ⟨a, -, rfl⟩ := h
    exact ⟨_, rfl⟩
  · split at h
    · simp only [Option.map_eq_some'] at h
      obtain ⟨a, -, rfl⟩ := h
      exact ⟨_, rfl⟩
    · split at h
      · simp only [Option.map_eq_some'] at h
        obtain ⟨a, -, rfl⟩ := h
        exact ⟨_, rfl⟩
      · split at h
        · simp only [Option.some.injEq] at h; rw [← h, getSizeForValue_fst]
          exact ⟨_, rfl⟩
        · simp only [Option.some.injEq] at h; rw [← h]; exact ⟨ps.TheState, rfl⟩

/-- The call case of `processInstruction` for a call that names a function on the
deletion list: the call is replaced by a call of the companion function. -/
theorem processInstruction_call_spec (env : Env) (qs qs1 : PassState) (id : Ident)
    (ty : LType) (cv : Value) (Args : List Value) (t : Bool) (cc : Nat) (changed : Bool)
    (h : processInstruction env qs (.Call id ty cv Args t cc) = some (qs1, changed))
    (hc : calleeIn qs.FunctionsToRemove cv = true) :
    ∃ (NF : Function) (nid : Ident),
      cv.asFunctionName.map (· ++ "_nesCheck") = some NF.name
      ∧ (∀ G ∈ qs1.CurrentModule.functions, ∀ J ∈ G.instructions,
          J.asValue ≠ (Instruction.Call id ty cv Args t cc).asValue)
      ∧ ∀ Fn, qs.CurrentModule.hasIn Fn (fun J => J = .Call id ty cv Args t cc) →
          qs1.CurrentModule.hasIn Fn
            (fun J => ∃ args, J = .Call nid NF.ReturnType NF.asValue args t cc) := by
  simp only [processInstruction, Option.map_eq_some', Prod.mk.injEq] at h
  obtain ⟨a, ha, rfl, -⟩ := h
  unfold processCall at ha
  split at ha
  · simp at ha
  · rename_i ps1 h1
    obtain ⟨s, rfl⟩ := processCall_size_eq env qs _ cv Args ps1 h1
    rw [calleeToRemove_eq] at ha
    simp only [PassState.setState] at ha
    rw [if_pos hc] at ha
    obtain ⟨sizes, ps2, NF, -, -, -, hname, hcol, hrep⟩ :=
      rewriteCallSite_spec env _ a id ty cv Args t cc ha
    have hmod := (collectSizeArguments_module env _ _ _ hcol).1
    simp only [PassState.count] at hmod
    have hne : cv.asFunctionName ≠ some NF.name := by
      intro hcontra
      rw [hcontra] at hname
      simp only [Option.map_some', Option.some.injEq] at hname
      exact String.append_ne_self _ hname
    obtain ⟨k1, k2⟩ := rewriteCallSite_replace_spec ps2 id ty cv Args t cc ps2.fresh.2
      NF.ReturnType (.PointerTy NF.getFunctionType) NF.name
      (Args.take cv.getFunctionType.getNumParams ++ sizes
        ++ Args.drop cv.getFunctionType.getNumParams) hne
    refine ⟨NF, ps2.fresh.2, hname, ?_, ?_⟩
    · rw [hrep]; exact k1
    · intro Fn hFn
      rw [hrep]
      exact k2 Fn (by rw [hmod]; exact hFn)

/-! ### `runOnModule` -/

theorem Rewriting.initial (env : Env) (M : Module) (hnames : M.names.Nodup)
    (hsuffix : ∀ F ∈ M.functions, endswith F.name nesCheckSuffix = false)
    (htrap : ∀ F ∈ M.functions, F.name = "llvm.trap" → F.isDeclaration = true) :
    Rewriting M.functions (registerGlobals env M.globals (initialState M)) [] := by
  obtain ⟨s, hs⟩ := registerGlobals_eq env M.globals (initialState M)
  rw [hs]
  refine
    { removed := ?_, members := ?_, nodup := hnames, pending := hnames
      hygiene := fun F hF => ⟨hsuffix F hF, htrap F hF⟩
      unused := ?_, bodies := ?_, snapshot := rfl }
  · intro x hx
    simp [PassState.setState, initialState] at hx
  · intro v hv w hw name hname
    simp only [PassState.setState, initialState, List.mem_cons, List.mem_singleton,
      List.not_mem_nil, or_false] at hv
    rcases hv with rfl | rfl | rfl | rfl
    all_goals
      simp only [Option.map_eq_some'] at hw
      obtain ⟨F, hF, rfl⟩ := hw
      simp only [Function.asValue, Value.asFunctionName, Option.some.injEq] at hname
      rw [← hname, (Module.getFunction_eq_some hF).2]
      rfl
  · intro F hF hmem
    simp only [PassState.setState, initialState, Module.names, List.mem_map] at hmem
    obtain ⟨G, hG, hn⟩ := hmem
    have h1 := hsuffix G hG
    rw [hn] at h1
    have h2 := endswith_append F.name nesCheckSuffix
    rw [h1] at h2
    exact Bool.false_ne_true h2
  · intro G hG hb
    exact Or.inr (Or.inr ⟨G, hG, rfl, hb⟩)

/-- When the first loop is over, the walk can start. -/
theorem Rewriting.good {ps : PassState} {FA : List String} (h : Rewriting [] ps FA) :
    Good ps.FunctionsToRemove (fun x => isNesCheckLibFunction x = true ∨ x ∈ FA) none 0 ps :=
  { list := rfl
    removed := h.removed
    members := by
      intro v hv w hw
      rw [Bool.eq_false_iff]
      intro hc
      obtain ⟨name, h1, h2⟩ := (calleeIn_iff _ _).mp hc
      have h3 := h.members v hv w hw name h1
      rw [(h.removed name h2).1] at h3
      exact Bool.false_ne_true h3
    nodup := h.nodup
    length := by rw [h.snapshot]; rfl
    calls := by
      intro G hG J hJ _
      have hb : G.blocks ≠ [] := by
        intro hb
        simp [Function.instructions, hb] at hJ
      rcases h.bodies G hG hb with h1 | h1 | ⟨F, hF, -⟩
      · exact Or.inl (Or.inl h1)
      · exact Or.inl (Or.inr h1)
      · simp at hF }

theorem mem_removeOldFunctions (l : List String) :
    ∀ (M : Module) (G : Function), G ∈ (removeOldFunctions l M).functions → G ∈ M.functions := by
  induction l with
  | nil => intro M G h; exact h
  | cons F rest ih =>
    intro M G h
    unfold removeOldFunctions at h
    split at h
    · exact ih M G h
    · have := ih _ G h
      exact List.mem_of_mem_filter this

/-- No call instruction outside the runtime library names a function of the
deletion list when `runOnModule` is over. -/
theorem runOnModule_calls (env : Env) (M : Module) (ps : PassState) (changed : Bool)
    (hnames : M.names.Nodup)
    (hsuffix : ∀ F ∈ M.functions, endswith F.name nesCheckSuffix = false)
    (htrap : ∀ F ∈ M.functions, F.name = "llvm.trap" → F.isDeclaration = true)
    (h : runOnModule env M = some (ps, changed)) :
    ∀ G ∈ ps.CurrentModule.functions, isNesCheckLibFunction G.name = false →
      ∀ J ∈ G.instructions, J.namesOneOf ps.FunctionsToRemove = false := by
  unfold runOnModule at h
  simp only [] at h
  split at h
  · simp at h
  · rename_i ps2 h2
    simp only [Option.some.injEq, Prod.mk.injEq] at h
    obtain ⟨rfl, -⟩ := h
    have g1 := (rewriteSignatures_spec M.functions _ [] false
      (Rewriting.initial env M hnames hsuffix htrap)).good
    have g2 := analyzeFunctions_good env _ _ ps2 h2 g1
    intro G hG hlib J hJ
    have hG2 := mem_removeOldFunctions _ _ G hG
    rw [Bool.eq_false_iff]
    intro hb
    simp only [PassState.setModule] at hb
    rw [g2.list] at hb
    rcases g2.calls G hG2 J hJ hb with h3 | h3 | h3
    · rw [hlib] at h3; exact Bool.false_ne_true h3
    · rw [List.length_eq_zero.mp g2.length] at h3
      simp at h3
    · simp at h3

/-- C8, as stated, fails on the module `Demo.leftover`, in which the runtime
function `printCheck` has a body that calls `logf`: `runOnModule` returns, `logf`
is on the deletion list, and the call of `logf` is still in `printCheck`, which
the pass skips by name. -/
theorem C8_call_site_completeness_counterexample :
    ∃ (ps : PassState) (changed : Bool),
      runOnModule Demo.paperEnv Demo.leftover = some (ps, changed)
      ∧ ps.FunctionsToRemove = ["logf"]
      ∧ ps.CurrentModule.hasIn "printCheck" (fun J => J = Demo.leftoverCall)
      ∧ Demo.leftoverCall.namesOneOf ps.FunctionsToRemove = true := by
  obtain ⟨r, hr⟩ := Option.isSome_iff_exists.mp
    (show (runOnModule Demo.paperEnv Demo.leftover).isSome = true by rfl)
  have h1 : (runOnModule Demo.paperEnv Demo.leftover).map (fun r => r.1.FunctionsToRemove)
      = some ["logf"] := by rfl
  have h2 : (runOnModule Demo.paperEnv Demo.leftover).map
      (fun r => (r.1.CurrentModule.getFunction "printCheck").map Function.instructions)
      = some (some [Demo.leftoverCall, .Return (.input 222) none]) := by rfl
  rw [hr] at h1 h2
  simp only [Option.map_some', Option.some.injEq] at h1 h2
  obtain ⟨G, hG, hi⟩ := Option.map_eq_some'.mp h2
  obtain ⟨hmem, hname⟩ := Module.getFunction_eq_some hG
  refine ⟨r.1, r.2, hr, h1, ⟨G, hmem, hname, Demo.leftoverCall, ?_, rfl⟩, ?_⟩
  · rw [hi]; simp
  · rw [h1]; rfl

/-- C8 (amended). Call-site completeness outside the runtime library.  Let the
functions of the module have different names, none ending in `_nesCheck`, and let
`llvm.trap` have no body.  When `runOnModule` returns, no call instruction of a
function that is not one of the six runtime functions skipped by name names a
function of the deletion list.  And when the walker processes a call instruction
whose callee `F` is on the deletion list, no instruction with the value of that
call is left in the module, and the function that held it holds a call, with the
same tail-call flag and calling convention, of the function `F_nesCheck`. -/
theorem C8_call_site_completeness (env : Env) (M : Module) (ps : PassState) (changed : Bool)
    (hnames : M.names.Nodup)
    (hsuffix : ∀ F ∈ M.functions, endswith F.name "_nesCheck" = false)
    (htrap : ∀ F ∈ M.functions, F.name = "llvm.trap" → F.isDeclaration = true)
    (h : runOnModule env M = some (ps, changed)) :
    (∀ G ∈ ps.CurrentModule.functions, isNesCheckLibFunction G.name = false →
      ∀ J ∈ G.instructions, J.namesOneOf ps.FunctionsToRemove = false)
    ∧ ∀ (qs qs1 : PassState) (id : Ident) (ty : LType) (cv : Value) (Args : List Value)
        (t : Bool) (cc : Nat) (c : Bool),
        processInstruction env qs (.Call id ty cv Args t cc) = some (qs1, c) →
        calleeIn qs.FunctionsToRemove cv = true →
        ∃ (NF : Function) (nid : Ident),
          cv.asFunctionName.map (· ++ "_nesCheck") = some NF.name
          ∧ (∀ G ∈ qs1.CurrentModule.functions, ∀ J ∈ G.instructions,
              J.asValue ≠ (Instruction.Call id ty cv Args t cc).asValue)
          ∧ ∀ Fn, qs.CurrentModule.hasIn Fn (fun J => J = .Call id ty cv Args t cc) →
              qs1.CurrentModule.hasIn Fn
                (fun J => ∃ args, J = .Call nid NF.ReturnType NF.asValue args t cc) :=
  ⟨runOnModule_calls env M ps changed hnames hsuffix htrap h,
    fun qs qs1 id ty cv Args t cc c hp hc =>
      processInstruction_call_spec env qs qs1 id ty cv Args t cc c hp hc⟩

/-- C8 (amended), on the module of `test_paper.c`: the names are different, none
ends in `_nesCheck`, `llvm.trap` is not defined, `runOnModule` returns, and no
call instruction outside the runtime library names `testMT_aux` or
`testMetadataTable`. -/
theorem C8_call_site_completeness_witness :
    Demo.paper.names.Nodup
    ∧ (runOnModule Demo.paperEnv Demo.paper).map (fun r => r.1.FunctionsToRemove)
        = some ["testMT_aux", "testMetadataTable"]
    ∧ ∀ r ∈ runOnModule Demo.paperEnv Demo.paper,
        ∀ G ∈ r.1.CurrentModule.functions, isNesCheckLibFunction G.name = false →
          ∀ J ∈ G.instructions, J.namesOneOf r.1.FunctionsToRemove = false :=
  ⟨by decide, by rfl, fun r hr =>
    (C8_call_site_completeness Demo.paperEnv Demo.paper r.1 r.2 (by decide) (by decide)
      (by decide) hr).1⟩


/-! ## Whitelisting -/

theorem startswith_iff (s pre : String) :
    startswith s pre = true ↔ ∃ r : String, s = pre ++ r := by
  unfold startswith
  rw [List.isPrefixOf_iff_prefix]
  constructor
  · rintro ⟨t, ht⟩
    exact ⟨⟨t⟩, String.ext (by rw [String.data_append]; exact ht.symm)⟩
  · rintro ⟨r, rfl⟩
    exact ⟨r.data, by rw [String.data_append]⟩

theorem endswith_iff (s suf : String) :
    endswith s suf = true ↔ ∃ r : String, s = r ++ suf := by
  unfold endswith
  rw [List.isSuffixOf_iff_suffix]
  constructor
  · rintro ⟨t, ht⟩
    exact ⟨⟨t⟩, String.ext (by rw [String.data_append]; exact ht.symm)⟩
  · rintro ⟨r, rfl⟩
    exact ⟨r.data, by rw [String.data_append]⟩

theorem containsText_of_startswith (s sub : String) (h : startswith s sub = true) :
    containsText s sub = true := by
  unfold containsText
  rw [List.any_eq_true]
  exact ⟨s.data, by cases s.data <;> simp [List.tails], h⟩

theorem containsText_of_endswith (s sub : String) (h : endswith s sub = true) :
    containsText s sub = true := by
  unfold containsText
  unfold endswith at h
  rw [List.isSuffixOf_iff_suffix] at h
  rw [List.any_eq_true]
  refine ⟨sub.data, (List.mem_tails _ _).mpr h, ?_⟩
  rw [List.isPrefixOf_iff_prefix]

/-- C11, as stated, fails on the name `my_heap_x`: the name contains `heap`, so
the specification counts it as fully whitelisted, and `isWhitelisted` returns
false for it, since the name neither starts nor ends with `heap`. -/
theorem C11_isWhitelisted_counterexample :
    isWhitelisted_asSpecified "my_heap_x" = true ∧ isWhitelisted "my_heap_x" = false := by
  decide

/-- C11 (amended). `isWhitelisted` returns true exactly when the name starts with
`sim_`, `hashtable_` or `heap`, or ends with `heap` or `_hashtable`; a name it
returns true for is whitelisted in the words of the specification. -/
theorem C11_isWhitelisted (fname : String) :
    (isWhitelisted fname = true ↔
      (∃ r : String, fname = "sim_" ++ r) ∨ (∃ r : String, fname = "hashtable_" ++ r) ∨
      (∃ r : String, fname = "heap" ++ r) ∨ (∃ r : String, fname = r ++ "heap") ∨
      (∃ r : String, fname = r ++ "_hashtable"))
    ∧ (isWhitelisted fname = true → isWhitelisted_asSpecified fname = true) := by
  constructor
  · unfold isWhitelisted
    simp only [Bool.or_eq_true, startswith_iff, endswith_iff]
    tauto
  · unfold isWhitelisted isWhitelisted_asSpecified
    simp only [Bool.or_eq_true]
    rintro ((((h | h) | h) | h) | h)
    · exact Or.inl (Or.inl (Or.inl h))
    · exact Or.inl (Or.inr (containsText_of_startswith _ _ h))
    · exact Or.inl (Or.inr (containsText_of_endswith _ _ h))
    · exact Or.inl (Or.inl (Or.inr h))
    · exact Or.inr h

theorem contains_eq_true_iff (l : List String) (a : String) :
    l.contains a = true ↔ a ∈ l := by
  rw [List.contains_iff_exists_mem_beq]
  simp

theorem drop_back_append (base suf : String) :
    drop_back (base ++ suf) suf.data.length = base := by
  unfold drop_back
  apply String.ext
  simp [String.data_append]

/-- C12. For the set `WhitelistedFunctions` that `runOnModule` configures,
`isWhitelistedForInstrumentation` returns true exactly when the function is fully
whitelisted, or its name is in the set, or its name ends with `_nesCheck` and
the name without that suffix is in the set; so every fully whitelisted function
is whitelisted for instrumentation. -/
theorem C12_isWhitelistedForInstrumentation (M : Module) (fname : String) :
    (isWhitelistedForInstrumentation (initialState M).WhitelistedFunctions fname = true ↔
      isWhitelisted fname = true ∨
      fname ∈ ["active_message_deliver", "arrangeKey", "fillInOutput", "is_empty",
        "makeNoiseModel", "makePmfDistr", "RandomInitialise", "RandomUniform"] ∨
      ∃ base : String, fname = base ++ "_nesCheck" ∧
        base ∈ ["active_message_deliver", "arrangeKey", "fillInOutput", "is_empty",
          "makeNoiseModel", "makePmfDistr", "RandomInitialise", "RandomUniform"])
    ∧ (isWhitelisted fname = true →
        isWhitelistedForInstrumentation (initialState M).WhitelistedFunctions fname = true) := by
  have key : ∀ WL : List String,
      (isWhitelistedForInstrumentation WL fname = true ↔
        isWhitelisted fname = true ∨ fname ∈ WL ∨
          ∃ base : String, fname = base ++ "_nesCheck" ∧ base ∈ WL) := by
    intro WL
    unfold isWhitelistedForInstrumentation
    simp only [Bool.or_eq_true, Bool.and_eq_true, contains_eq_true_iff, endswith_iff]
    constructor
    · rintro ((h | h) | ⟨⟨base, hb⟩, h⟩)
      · exact Or.inl h
      · exact Or.inr (Or.inl h)
      · refine Or.inr (Or.inr ⟨base, hb, ?_⟩)
        have h9 : (9 : Nat) = "_nesCheck".data.length := by decide
        rw [hb, h9, drop_back_append] at h
        exact h
    · rintro (h | h | ⟨base, hb, h⟩)
      · exact Or.inl (Or.inl h)
      · exact Or.inl (Or.inr h)
      · refine Or.inr ⟨⟨base, hb⟩, ?_⟩
        have h9 : (9 : Nat) = "_nesCheck".data.length := by decide
        rw [hb, h9, drop_back_append]
        exact h
  refine ⟨key _, fun h => (key _).mpr (Or.inl h)⟩

/-! ## The `free` case of the walker -/

theorem classOf_SetSizeForPointerVariable (s : AnalysisState) (v w : Value)
    (size : Option Value) : (s.SetSizeForPointerVariable v size).classOf w = s.classOf w := by
  by_cases h : w = v
  · subst h
    rw [AnalysisState.classOf_eq_record, AnalysisState.classOf_eq_record,
      AnalysisState.record_of_some _ _ _ (AnalysisState.SetSizeForPointerVariable_same s w size)]
  · unfold AnalysisState.classOf
    rw [AnalysisState.SetSizeForPointerVariable_other s v w size h]

/-- A value whose recorded size is zero keeps that size when the size of any
value is reset. -/
theorem zero_SetSizeForPointerVariable_none (s : AnalysisState) (v w : Value)
    (h : (s.Variables v).isSome = true ∧ (s.record v).size = .ConstantInt s.sizetype 0) :
    ((s.SetSizeForPointerVariable w none).Variables v).isSome = true
    ∧ ((s.SetSizeForPointerVariable w none).record v).size
        = .ConstantInt (s.SetSizeForPointerVariable w none).sizetype 0 := by
  by_cases hvw : v = w
  · subst hvw
    have := AnalysisState.SetSizeForPointerVariable_same s v none
    rw [AnalysisState.record_of_some _ _ _ this, this]
    simp [ConstantInt.get]
  · have := AnalysisState.SetSizeForPointerVariable_other s w v none hvw
    simp only [AnalysisState.record, this, AnalysisState.SetSizeForPointerVariable_sizetype]
    exact ⟨h.1, by
      have h2 := h.2
      simp only [AnalysisState.record] at h2
      cases hv : s.Variables v with
      | none => rw [hv] at h; simp at h
      | some i =>
        rw [hv] at h2
        simp only [Option.getD_some] at h2 ⊢
        exact h2⟩

theorem reset_SetSizeForPointerVariable_none (s : AnalysisState) (w : Value) :
    ((s.SetSizeForPointerVariable w none).Variables w).isSome = true
    ∧ ((s.SetSizeForPointerVariable w none).record w).size
        = .ConstantInt (s.SetSizeForPointerVariable w none).sizetype 0 := by
  have := AnalysisState.SetSizeForPointerVariable_same s w none
  rw [AnalysisState.record_of_some _ _ _ this, this]
  simp [ConstantInt.get]

/-- The loop of the `free` case: the values of the walk behind `p` end with size
zero, values whose size was zero keep it, classes stay, other records stay. -/
theorem freeWalk_spec (p : Value) :
    ∀ (s : AnalysisState) (D : List Value),
      (∀ v ∈ D, (s.Variables v).isSome = true ∧ (s.record v).size = .ConstantInt s.sizetype 0) →
      (∀ v ∈ D ++ (freeChain p).tail,
          ((freeWalk p s).Variables v).isSome = true
          ∧ ((freeWalk p s).record v).size = .ConstantInt (freeWalk p s).sizetype 0)
      ∧ (∀ v, (freeWalk p s).classOf v = s.classOf v)
      ∧ (∀ w, w ∉ (freeChain p).tail → (freeWalk p s).Variables w = s.Variables w)
      ∧ (freeWalk p s).sizetype = s.sizetype := by
  have step : ∀ (q : Value),
      (∀ (s : AnalysisState) (D : List Value),
        (∀ v ∈ D, (s.Variables v).isSome = true
          ∧ (s.record v).size = .ConstantInt s.sizetype 0) →
        (∀ v ∈ D ++ (freeChain q).tail,
            ((freeWalk q s).Variables v).isSome = true
            ∧ ((freeWalk q s).record v).size = .ConstantInt (freeWalk q s).sizetype 0)
        ∧ (∀ v, (freeWalk q s).classOf v = s.classOf v)
        ∧ (∀ w, w ∉ (freeChain q).tail → (freeWalk q s).Variables w = s.Variables w)
        ∧ (freeWalk q s).sizetype = s.sizetype) →
      q :: (freeChain q).tail = freeChain q →
      ∀ (s : AnalysisState) (D : List Value),
        (∀ v ∈ D, (s.Variables v).isSome = true
          ∧ (s.record v).size = .ConstantInt s.sizetype 0) →
        (∀ v ∈ D ++ freeChain q,
            ((freeWalk q (s.SetSizeForPointerVariable q none)).Variables v).isSome = true
            ∧ ((freeWalk q (s.SetSizeForPointerVariable q none)).record v).size
                = .ConstantInt (freeWalk q (s.SetSizeForPointerVariable q none)).sizetype 0)
        ∧ (∀ v, (freeWalk q (s.SetSizeForPointerVariable q none)).classOf v = s.classOf v)
        ∧ (∀ w, w ∉ freeChain q →
            (freeWalk q (s.SetSizeForPointerVariable q none)).Variables w = s.Variables w)
        ∧ (freeWalk q (s.SetSizeForPointerVariable q none)).sizetype = s.sizetype := by
    intro q ih hq s D hD
    have hD1 : ∀ v ∈ D ++ [q],
        ((s.SetSizeForPointerVariable q none).Variables v).isSome = true
        ∧ ((s.SetSizeForPointerVariable q none).record v).size
            = .ConstantInt (s.SetSizeForPointerVariable q none).sizetype 0 := by
      intro v hv
      rw [List.mem_append, List.mem_singleton] at hv
      rcases hv with hv | rfl
      · exact zero_SetSizeForPointerVariable_none s v q (hD v hv)
      · exact reset_SetSizeForPointerVariable_none s v
    obtain ⟨h1, h2, h3, h4⟩ := ih (s.SetSizeForPointerVariable q none) (D ++ [q]) hD1
    refine ⟨?_, ?_, ?_, ?_⟩
    · intro v hv
      apply h1
      rw [← hq] at hv
      simpa using hv
    · intro v
      rw [h2, classOf_SetSizeForPointerVariable]
    · intro w hw
      rw [← hq, List.mem_cons, not_or] at hw
      rw [h3 w hw.2, AnalysisState.SetSizeForPointerVariable_other _ _ _ _ hw.1]
    · rw [h4, AnalysisState.SetSizeForPointerVariable_sizetype]
  have head : ∀ q : Value, q :: (freeChain q).tail = freeChain q := by
    intro q
    cases q <;> simp [freeChain]
  induction p with
  | LoadInst id ty ptr ih =>
    intro s D hD
    simp only [freeWalk, freeChain, List.tail_cons]
    exact step ptr ih (head ptr) s D hD
  | BitCastInst id ty op ih =>
    intro s D hD
    simp only [freeWalk, freeChain, List.tail_cons]
    exact step op ih (head op) s D hD
  | _ =>
    intro s D hD
    simp only [freeWalk, freeChain, List.tail_cons, List.append_nil]
    refine ⟨hD, ?_, ?_, ?_⟩ <;> intros <;> trivial

theorem freeChain_head (q : Value) : q :: (freeChain q).tail = freeChain q := by
  cases q <;> simp [freeChain]

theorem processCall_size_free (env : Env) (ps : PassState) (II cv : Value)
    (Args : List Value) (p : Value) (hname : cv.asFunctionName = some "free")
    (harity : cv.getFunctionType.getNumParams = 1) (harg : Args.get? 0 = some p) :
    processCall.size env ps II cv Args = some (ps.setState
      (freeWalk p (ps.TheState.SetSizeForPointerVariable p none))) := by
  unfold processCall.size
  simp only [hname, harity, harg, Option.some.injEq, Option.map_some']
  simp

theorem walkBackLoads_tracked (s : AnalysisState) (u : VariableInfo) (p : Value)
    (h : (s.Variables p).isSome = true) : ∃ i, walkBackLoads s u p = (some i, p) := by
  cases p <;>
    simp [walkBackLoads, AnalysisState.GetPointerVariableInfoPtr, AnalysisState.count, h,
      Value.isConstantPointerNull]

theorem sizeArgumentFor_tracked (env : Env) (ps : PassState) (p : Value)
    (h : (ps.TheState.Variables p).isSome = true) :
    ∃ sz, sizeArgumentFor env ps p = some (ps, sz) := by
  obtain ⟨i, hi⟩ := walkBackLoads_tracked ps.TheState env.uninit p h
  unfold sizeArgumentFor
  rw [hi]
  exact ⟨_, rfl⟩

theorem collectSizeArguments_tracked (env : Env) (ps : PassState) (p : Value)
    (h : (ps.TheState.Variables p).isSome = true) (r : PassState × List Value)
    (hr : collectSizeArguments env ps [p] = some r) : r.1 = ps := by
  unfold collectSizeArguments at hr
  split at hr
  · obtain ⟨sz, hsz⟩ := sizeArgumentFor_tracked env ps p h
    rw [hsz] at hr
    simp only [collectSizeArguments, Option.some.injEq] at hr
    rw [← hr]
  · simp only [collectSizeArguments, Option.some.injEq] at hr
    rw [← hr]

theorem rewriteCallSite_replace_TheState (ps : PassState) (Call NewCall : Instruction)
    (h : needsRewritten Call.asValue.getType = false) :
    (rewriteCallSite.replace ps Call NewCall).TheState = ps.TheState := by
  unfold rewriteCallSite.replace
  simp [h]

/-- C13. Free propagation.  For a call of the function named `free` that has one
parameter, with first argument `p`: when `free` is not on the deletion list the
walker processes the call; and once the call is processed, `free` being off the
deletion list or the call returning no pointer, `p` and every value reached from
`p` by stepping from a load to its address operand or from a bitcast to its
operand are tracked with size the zero constant, the class of every value is
as before, and the record of any value outside that walk is as before. -/
theorem C13_free_propagation (env : Env) (ps : PassState) (id : Ident) (ty : LType)
    (cv : Value) (Args : List Value) (t : Bool) (cc : Nat) (p : Value)
    (hname : cv.asFunctionName = some "free")
    (harity : cv.getFunctionType.getNumParams = 1)
    (harg : Args.get? 0 = some p) :
    (calleeIn ps.FunctionsToRemove cv = false →
      (processInstruction env ps (.Call id ty cv Args t cc)).isSome = true)
    ∧ ∀ (ps1 : PassState) (c : Bool),
        processInstruction env ps (.Call id ty cv Args t cc) = some (ps1, c) →
        (calleeIn ps.FunctionsToRemove cv = false ∨ ty.isPointerTy = false) →
        (∀ v ∈ freeChain p,
          (ps1.TheState.Variables v).isSome = true
          ∧ (ps1.TheState.record v).size = .ConstantInt ps.TheState.sizetype 0)
        ∧ (∀ v, ps1.TheState.classOf v = ps.TheState.classOf v)
        ∧ (∀ w, w ∉ freeChain p → ps1.TheState.Variables w = ps.TheState.Variables w) := by
  have hsize := processCall_size_free env ps
    (Instruction.Call id ty cv Args t cc).asValue cv Args p hname harity harg
  obtain ⟨f1, f2, f3, f4⟩ := freeWalk_spec p (ps.TheState.SetSizeForPointerVariable p none) [p]
    (by
      intro v hv
      rw [List.mem_singleton] at hv
      subst hv
      exact reset_SetSizeForPointerVariable_none ps.TheState v)
  have hchain : [p] ++ (freeChain p).tail = freeChain p := freeChain_head p
  rw [hchain] at f1
  rw [AnalysisState.SetSizeForPointerVariable_sizetype] at f4
  have facts : ∀ ps1 : PassState,
      ps1.TheState = freeWalk p (ps.TheState.SetSizeForPointerVariable p none) →
      (∀ v ∈ freeChain p,
        (ps1.TheState.Variables v).isSome = true
        ∧ (ps1.TheState.record v).size = .ConstantInt ps.TheState.sizetype 0)
      ∧ (∀ v, ps1.TheState.classOf v = ps.TheState.classOf v)
      ∧ (∀ w, w ∉ freeChain p → ps1.TheState.Variables w = ps.TheState.Variables w) := by
    intro ps1 h1
    rw [h1]
    refine ⟨?_, ?_, ?_⟩
    · intro v hv
      have := f1 v hv
      rw [f4] at this
      exact this
    · intro v
      rw [f2, classOf_SetSizeForPointerVariable]
    · intro w hw
      have hw1 : w ∉ (freeChain p).tail := by
        intro hc
        exact hw (by rw [← freeChain_head p]; exact List.mem_cons_of_mem _ hc)
      have hw2 : w ≠ p := by
        rintro rfl
        exact hw (by rw [← freeChain_head w]; exact List.mem_cons_self _ _)
      rw [f3 w hw1, AnalysisState.SetSizeForPointerVariable_other _ _ _ _ hw2]
  constructor
  · intro hc
    simp only [processInstruction, processCall, hsize, calleeToRemove_eq]
    simp [PassState.setState, hc]
  · intro ps1 c h hor
    simp only [processInstruction, processCall, hsize, calleeToRemove_eq, Option.map_eq_some',
      Prod.mk.injEq] at h
    obtain ⟨a, ha, rfl, -⟩ := h
    split at ha
    · rename_i hc
      simp only [PassState.setState] at hc
      rcases hor with hor | hor
      · rw [hor] at hc; exact absurd hc Bool.false_ne_true
      · obtain ⟨sizes, ps2, NF, -, -, -, -, hcol, hrep⟩ :=
          rewriteCallSite_spec env _ a id ty cv Args t cc ha
        have htake : Args.take cv.getFunctionType.getNumParams = [p] := by
          rw [harity]
          cases Args with
          | nil => simp at harg
          | cons x rest =>
            simp only [List.get?_cons_zero, Option.some.injEq] at harg
            simp [harg]
        rw [htake] at hcol
        have htr := f1 p (by rw [← freeChain_head p]; exact List.mem_cons_self _ _)
        have h2 := collectSizeArguments_tracked env _ p (by simpa using htr.1) _ hcol
        simp only at h2
        apply facts
        rw [hrep, rewriteCallSite_replace_TheState _ _ _ (by
          simp [Instruction.asValue, Value.getType, needsRewritten, hor]), h2]
        rfl
    · simp only [Option.some.injEq] at ha
      apply facts
      rw [← ha]
      rfl

/-! ## The abstract state store: registration, sizes, the null constant -/

/-- C15. `RegisterVariable(v)` leaves the whole store as it is when `v` is
tracked, so a second call changes nothing; when `v` is not tracked it adds the
record of class `Safe`, size the zero constant of the size type and all flags
false for `v`; in both cases no other record, and nothing else of the store,
changes. -/
theorem C15_RegisterVariable (s : AnalysisState) (v : Value) :
    (s.count v = true → s.RegisterVariable v = s)
    ∧ (s.RegisterVariable v).RegisterVariable v = s.RegisterVariable v
    ∧ (s.count v = false →
        (s.RegisterVariable v).Variables v = some
          { classification := .Safe
            size := .ConstantInt s.sizetype 0
            hasMetadataTableEntry := false
            hasExplicitSizeVariable := false
            instantiatedExplicitSizeVariable := false
            explicitSizeVariable := none })
    ∧ (∀ w, w ≠ v → (s.RegisterVariable v).Variables w = s.Variables w)
    ∧ (s.RegisterVariable v).numFunctions = s.numFunctions
    ∧ (s.RegisterVariable v).sizetype = s.sizetype := by
  refine ⟨?_, ?_, ?_, ?_, ?_, ?_⟩
  · intro h
    simp [AnalysisState.RegisterVariable, h]
  · have h : (s.RegisterVariable v).count v = true := by
      simp [AnalysisState.count, AnalysisState.RegisterVariable_same]
    generalize s.RegisterVariable v = s1 at h
    simp [AnalysisState.RegisterVariable, h]
  · intro h
    simp [AnalysisState.RegisterVariable, h, AnalysisState.assign, AnalysisState.freshInfo,
      ConstantInt.get]
  · intro w hw
    exact AnalysisState.RegisterVariable_other s v w hw
  · unfold AnalysisState.RegisterVariable
    split <;> rfl
  · exact AnalysisState.RegisterVariable_sizetype s v

/-- C16. After `SetSizeForPointerVariable(v, size)` the value `v` is tracked, its
recorded size is `size`, or the zero constant of the size type when `size` is
null, its class and flags are those it had before, which are the defaults of
`RegisterVariable` when it was not tracked, and no other record changes. -/
theorem C16_SetSizeForPointerVariable (s : AnalysisState) (v : Value) (size : Option Value) :
    (∃ r, (s.SetSizeForPointerVariable v size).Variables v = some r
      ∧ r.size = (match size with
          | some sz => sz
          | none => .ConstantInt s.sizetype 0)
      ∧ r.classification = (s.record v).classification
      ∧ r.hasMetadataTableEntry = (s.record v).hasMetadataTableEntry
      ∧ r.hasExplicitSizeVariable = (s.record v).hasExplicitSizeVariable
      ∧ r.instantiatedExplicitSizeVariable = (s.record v).instantiatedExplicitSizeVariable
      ∧ r.explicitSizeVariable = (s.record v).explicitSizeVariable)
    ∧ (∀ i, s.Variables v = some i → s.record v = i)
    ∧ (s.Variables v = none → s.record v =
        { classification := .Safe
          size := .ConstantInt s.sizetype 0
          hasMetadataTableEntry := false
          hasExplicitSizeVariable := false
          instantiatedExplicitSizeVariable := false
          explicitSizeVariable := none })
    ∧ (∀ w, w ≠ v → (s.SetSizeForPointerVariable v size).Variables w = s.Variables w) := by
  refine ⟨⟨_, AnalysisState.SetSizeForPointerVariable_same s v size, ?_, rfl, rfl, rfl, rfl,
    rfl⟩, ?_, ?_, ?_⟩
  · cases size <;> simp [ConstantInt.get]
  · intro i hi
    exact AnalysisState.record_of_some s v i hi
  · intro h
    simp [AnalysisState.record, h, AnalysisState.freshInfo, ConstantInt.get]
  · intro w hw
    exact AnalysisState.SetSizeForPointerVariable_other s v w size hw

/-- C17. What `GetPointerVariableInfo` returns for the null-pointer constant: the
size of the record is the zero constant and the store is not written, but the
class is whatever the new allocation holds (`fresh`), since only `size` is
assigned; with an allocation whose class field reads `Dyn` the class returned is
`Dyn`, not `Safe`. -/
theorem C17_GetPointerVariableInfo_null (s : AnalysisState) (fresh : VariableInfo)
    (ty : LType) :
    (∃ r, s.GetPointerVariableInfo fresh (.ConstantPointerNull ty) = some r
      ∧ r.size = .ConstantInt s.sizetype 0
      ∧ r.classification = fresh.classification)
    ∧ AnalysisState.Op.run (.GetPointerVariableInfo fresh (.ConstantPointerNull ty)) s = s
    ∧ ((AnalysisState.init 64).GetPointerVariableInfo
          { classification := .Dyn
            size := .ConstantInt 64 0
            hasMetadataTableEntry := false
            hasExplicitSizeVariable := false
            instantiatedExplicitSizeVariable := false
            explicitSizeVariable := none }
          (.ConstantPointerNull (.PointerTy (.IntegerTy 32)))).map (·.classification)
        = some .Dyn := by
  refine ⟨⟨_, rfl, ?_, rfl⟩, rfl, rfl⟩
  simp [ConstantInt.get]

/-! ## The trap block -/

theorem getOffsetForGEPInst_TrapBB (env : Env) (ps : PassState) (g : GetElementPtrInst) :
    (getOffsetForGEPInst env ps g).1.TrapBB = ps.TrapBB := by
  unfold getOffsetForGEPInst
  split
  · rfl
  · split
    · rfl
    · simp

theorem instrumentGEP_LHS_TrapBB (ps : PassState) (size : Value) (typeStoreSize : Nat) :
    (instrumentGEP.LHS ps size typeStoreSize).1.TrapBB = ps.TrapBB := by
  unfold instrumentGEP.LHS
  split
  · rfl
  · simp

theorem getTrapBB_cached (env : Env) (ps : PassState) (I : Value) (bb : Ident)
    (h : ps.TrapBB = some bb) : getTrapBB env ps I = some (ps, bb) := by
  unfold getTrapBB
  rw [h]

theorem getTrapBB_keepsTrap (env : Env) (ps : PassState) (I : Value) (r : PassState × Ident)
    (h : getTrapBB env ps I = some r) (bb : Ident) (hb : ps.TrapBB = some bb) :
    r.1.TrapBB = some bb := by
  rw [getTrapBB_cached env ps I bb hb] at h
  simp only [Option.some.injEq] at h
  rw [← h]; exact hb

theorem instrumentGEP_emit_keepsTrap (env : Env) (ps : PassState) (Cmp : Option Value)
    (r : PassState × Bool) (h : instrumentGEP.emit env ps Cmp = some r) (bb : Ident)
    (hb : ps.TrapBB = some bb) : r.1.TrapBB = some bb := by
  unfold instrumentGEP.emit at h
  simp only [IS_DEBUGGING, Bool.false_eq_true, if_false, Option.bind_eq_bind,
    Option.bind_eq_some, Option.some.injEq] at h
  obtain ⟨ps2, h2, I, -, OldBB, -, r3, h3, h⟩ := h
  subst h2
  have := getTrapBB_keepsTrap _ _ _ _ h3 bb (by simpa using hb)
  rw [← h]
  simpa using this

theorem instrumentGEP_compare_keepsTrap (env : Env) (ps : PassState) (g : GetElementPtrInst)
    (varinfo : VariableInfo) (r : PassState × Bool)
    (h : instrumentGEP.compare env ps g varinfo = some r) (bb : Ident)
    (hb : ps.TrapBB = some bb) : r.1.TrapBB = some bb := by
  unfold instrumentGEP.compare at h
  simp only [IS_NAIVE, Bool.not_false, if_true] at h
  have k : ((instrumentGEP.LHS (getOffsetForGEPInst env ps g).1 varinfo.size
      (env.getTypeStoreSize g.getResultElementType)).1.CreateICmpSLT
      (instrumentGEP.LHS (getOffsetForGEPInst env ps g).1 varinfo.size
        (env.getTypeStoreSize g.getResultElementType)).2
      (getOffsetForGEPInst env ps g).2).1.TrapBB = some bb := by
    rw [PassState.CreateICmpSLT_TrapBB, instrumentGEP_LHS_TrapBB, getOffsetForGEPInst_TrapBB]
    exact hb
  split at h
  · split at h
    · simp only [Option.some.injEq] at h
      rw [← h]; simpa using k
    · exact instrumentGEP_emit_keepsTrap _ _ _ _ h bb (by simpa using k)
  · exact instrumentGEP_emit_keepsTrap _ _ _ _ h bb k

theorem instrumentGEP_keepsTrap (env : Env) (ps : PassState) (g : GetElementPtrInst)
    (r : PassState × Bool) (h : instrumentGEP env ps g = some r) (bb : Ident)
    (hb : ps.TrapBB = some bb) : r.1.TrapBB = some bb := by
  unfold instrumentGEP at h
  split at h
  · simp only [Option.some.injEq] at h; rw [← h]; exact hb
  · split at h
    · simp only [Option.some.injEq] at h; rw [← h]; simpa using hb
    · split at h
      · simp only [Option.some.injEq] at h; rw [← h]; simpa using hb
      · split at h
        · simp only [Option.some.injEq] at h; rw [← h]; simpa using hb
        · exact instrumentGEP_compare_keepsTrap _ _ _ _ _ h bb (by simpa using hb)

theorem lookupMetadataTableEntry_TrapBB (ps : PassState) (Ptr CurrInst : Value)
    (r : PassState × Value) (h : NesCheckPass.lookupMetadataTableEntry ps Ptr CurrInst = some r) :
    r.1.TrapBB = ps.TrapBB := by
  unfold NesCheckPass.lookupMetadataTableEntry at h
  split at h
  · simp only [Option.some.injEq] at h; rw [← h]; rfl
  · split at h
    · simp at h
    · split at h
      · simp at h
      · simp only [Option.some.injEq] at h
        rw [← h]; rfl

theorem setMetadataTableEntry_TrapBB (env : Env) (ps : PassState) (Ptr Size CurrInst : Value)
    (r : PassState) (h : NesCheckPass.setMetadataTableEntry env ps Ptr Size CurrInst = some r) :
    r.TrapBB = ps.TrapBB := by
  unfold NesCheckPass.setMetadataTableEntry at h
  split at h
  · simp only [Option.some.injEq] at h; rw [← h]
  · simp only [] at h
    cases h1 : (ps.CreateCastToInt 64 Ptr).1.CreateCall
        (ps.CreateCastToInt 64 Ptr).1.setMetadataFunction
        [(ps.CreateCastToInt 64 Ptr).2, Size, ConstantInt.get 64 (env.addressOf CurrInst)] with
    | none => rw [h1] at h; simp at h
    | some r1 =>
      rw [h1] at h
      simp only [Option.some.injEq] at h
      rw [← h]
      have := PassState.CreateCall_TrapBB _ _ _ _ h1
      simp only [PassState.setState_TrapBB, PassState.count_TrapBB, this,
        PassState.CreateCastToInt_TrapBB]

theorem lookupOrSizeConstant_TrapBB (env : Env) (ps : PassState) (v : Value) :
    (lookupOrSizeConstant env ps v).1.TrapBB = ps.TrapBB := by
  unfold lookupOrSizeConstant
  split
  · rfl
  · split
    · simp [getSizeForValue_fst]
    · rfl

theorem processAlloca_TrapBB (env : Env) (ps : PassState) (II : Value) (AllocatedType : LType)
    (ArraySize : Value) : (processAlloca env ps II AllocatedType ArraySize).TrapBB = ps.TrapBB := by
  unfold processAlloca
  split <;> simp

theorem collectSizeArguments_TrapBB (env : Env) (args : List Value) (ps : PassState)
    (r : PassState × List Value) (h : collectSizeArguments env ps args = some r) :
    r.1.TrapBB = ps.TrapBB := by
  induction args generalizing ps r with
  | nil =>
    simp only [collectSizeArguments, Option.some.injEq] at h
    rw [← h]
  | cons a rest ih =>
    unfold collectSizeArguments at h
    split at h
    · cases h1 : sizeArgumentFor env ps a with
      | none => rw [h1] at h; simp at h
      | some r1 =>
        rw [h1] at h
        simp only at h
        cases h2 : collectSizeArguments env r1.1 rest with
        | none => rw [h2] at h; simp at h
        | some r2 =>
          rw [h2] at h
          simp only [Option.some.injEq] at h
          rw [← h]
          have e2 := ih r1.1 r2 h2
          have e1 : r1.1.TrapBB = ps.TrapBB := by
            unfold sizeArgumentFor at h1
            split at h1
            · simp only [Option.some.injEq] at h1; rw [← h1]
            · split at h1
              · simp only [Option.some.injEq] at h1; rw [← h1]
                simp [getSizeForValue_fst]
              · simp at h1
          exact e2.trans e1
    · exact ih ps r h

theorem rewriteCallSite_replace_TrapBB (ps : PassState) (Call NewCall : Instruction) :
    (rewriteCallSite.replace ps Call NewCall).TrapBB = ps.TrapBB := by
  unfold rewriteCallSite.replace
  simp only [PassState.setModule_TrapBB]
  split
  · simp [splitNewReturn]
  · simp

theorem processCall_TrapBB (env : Env) (ps : PassState) (I : Instruction) (cv : Value)
    (Args : List Value) (r : PassState) (h : processCall env ps I cv Args = some r) :
    r.TrapBB = ps.TrapBB := by
  unfold processCall at h
  split at h
  · simp at h
  · rename_i ps1 h1
    obtain ⟨s, rfl⟩ := processCall_size_eq env ps _ cv Args ps1 h1
    split at h
    · unfold rewriteCallSite at h
      split at h
      · split at h
        · simp at h
        · split at h
          · simp at h
          · rename_i r1 hr1
            split at h
            · simp at h
            · simp only [Option.some.injEq] at h
              rw [← h, rewriteCallSite_replace_TrapBB]
              unfold rewriteCallSite.buildArgs at hr1
              split at hr1
              · simp at hr1
              · rename_i r2 hr2
                simp only [Option.some.injEq] at hr1
                rw [← hr1]
                simpa using collectSizeArguments_TrapBB env _ _ r2 hr2
      · simp at h
    · simp only [Option.some.injEq] at h; rw [← h]; rfl

theorem processReturn_TrapBB (env : Env) (ps : PassState) (RI : Value) (Operand : Option Value)
    (r : PassState) (h : processReturn env ps RI Operand = some r) : r.TrapBB = ps.TrapBB := by
  unfold processReturn at h
  simp only [Option.bind_eq_bind, Option.bind_eq_some] at h
  obtain ⟨Fn, -, h⟩ := h
  split at h
  · simp only [Option.bind_eq_some, Option.some.injEq] at h
    obtain ⟨F, -, op0, -, varinfo, -, h⟩ := h
    rw [← h]; rfl
  · simp only [Option.some.injEq] at h; rw [← h]

theorem processStore_otherBlock_TrapBB (env : Env) (ps : PassState) (instr : Value)
    (B : Option Ident) (varinfo : Option InfoPtr) (r : PassState)
    (h : processStore.otherBlock env ps instr B varinfo = some r) : r.TrapBB = ps.TrapBB := by
  unfold processStore.otherBlock at h
  simp only [Option.bind_eq_bind, Option.bind_eq_some, Option.some.injEq] at h
  obtain ⟨varinfo2, -, sizevaralloca, -, vi, -, h⟩ := h
  rw [← h]
  simp only [PassState.Insert_TrapBB, PassState.fresh_TrapBB]
  split <;> rfl

theorem processStore_TrapBB (env : Env) (ps : PassState) (II valoperand ptroperand : Value)
    (r : PassState) (h : processStore env ps II valoperand ptroperand = some r) :
    r.TrapBB = ps.TrapBB := by
  unfold processStore at h
  split at h
  · simp only [] at h
    have k := lookupOrSizeConstant_TrapBB env ps valoperand
    split at h
    · exact (processStore_otherBlock_TrapBB _ _ _ _ _ _ h).trans k
    · split at h
      · simp at h
      · split at h
        · exact (setMetadataTableEntry_TrapBB _ _ _ _ _ _ h).trans (by simpa using k)
        · simp only [Option.some.injEq] at h; rw [← h]
          simpa using k
  · simp only [Option.some.injEq] at h; rw [← h]

theorem processLoad_TrapBB (env : Env) (ps : PassState) (II : Value) (ty : LType)
    (ptroperand : Value) (r : PassState) (h : processLoad env ps II ty ptroperand = some r) :
    r.TrapBB = ps.TrapBB := by
  unfold processLoad at h
  split at h
  · simp only [] at h
    have k := lookupOrSizeConstant_TrapBB env ps ptroperand
    split at h
    · simp at h
    · split at h
      · simp at h
      · rename_i ps2 h2
        simp only [Option.some.injEq] at h; rw [← h]
        simp only [PassState.setState_TrapBB]
        split at h2
        · split at h2
          · simp at h2
          · simp only [Option.some.injEq] at h2; rw [← h2]
            simpa using k
        · simp only [Option.some.injEq] at h2; rw [← h2]; exact k
  · simp only [Option.some.injEq] at h; rw [← h]

theorem processGEP_size_TrapBB (env : Env) (ps : PassState) (II : GetElementPtrInst)
    (r : PassState) (h : processGEP.size env ps II = some r) : r.TrapBB = ps.TrapBB := by
  unfold processGEP.size at h
  split at h
  · simp at h
  · simp only [Option.some.injEq] at h; rw [← h]
    simp only [PassState.setState_TrapBB]
    split
    · simp [getOffsetForGEPInst_TrapBB]
    · rfl

theorem processGEP_keepsTrap (env : Env) (ps : PassState) (II : GetElementPtrInst)
    (r : PassState × Bool) (h : processGEP env ps II = some r) (bb : Ident)
    (hb : ps.TrapBB = some bb) : r.1.TrapBB = some bb := by
  unfold processGEP at h
  simp only [] at h
  split at h
  · simp at h
  · rename_i ps2 h2
    refine instrumentGEP_keepsTrap _ _ _ _ h bb ?_
    generalize ((if (!II.hasAllZeroIndices) = true then
        ps.TheState.ClassifyPointerVariable II.PointerOperand VariableStates.Seq
      else ps.TheState).RegisterVariable II.asValue) = s at h2
    split at h2
    · simp only [Option.map_eq_some'] at h2
      obtain ⟨a, ha, rfl⟩ := h2
      rw [lookupMetadataTableEntry_TrapBB _ _ _ _ ha]
      simpa using hb
    · rw [processGEP_size_TrapBB _ _ _ _ h2]
      simpa using hb

theorem processCast_TrapBB (env : Env) (ps : PassState) (II : Value) (isBitCast : Bool)
    (dstT : LType) (op : Value) (r : PassState)
    (h : processCast env ps II isBitCast dstT op = some r) : r.TrapBB = ps.TrapBB := by
  unfold processCast at h
  simp only [] at h
  split at h
  · split at h
    · simp at h
    · rename_i ps1 h1
      have k : ps1.TrapBB = ps.TrapBB := by
        split at h1
        · unfold processCast.promote at h1
          split at h1
          · simp only [Option.some.injEq] at h1; rw [← h1]; rfl
          · simp only [Option.map_eq_some'] at h1
            obtain ⟨ps0, h0, rfl⟩ := h1
            simp only [PassState.setState_TrapBB]
            split at h0
            · split at h0
              · simp at h0
              · split at h0
                · simp only [Option.some.injEq] at h0; rw [← h0]
                  simp [getSizeForValue_fst]
                · simp only [Option.some.injEq] at h0; rw [← h0]
            · simp only [Option.some.injEq] at h0; rw [← h0]
          · simp only [Option.some.injEq] at h1; rw [← h1]
        · simp only [Option.some.injEq] at h1; rw [← h1]
      split at h
      · simp only [Option.some.injEq] at h; rw [← h]
        simpa using k
      · simp only [Option.some.injEq] at h; rw [← h]; exact k
  · simp only [Option.some.injEq] at h; rw [← h]

theorem processInstruction_keepsTrap (env : Env) (ps : PassState) (I : Instruction)
    (r : PassState × Bool) (h : processInstruction env ps I = some r) (bb : Ident)
    (hb : ps.TrapBB = some bb) : r.1.TrapBB = some bb := by
  cases I with
  | Call id ty cv Args t cc =>
    simp only [processInstruction, Option.map_eq_some'] at h
    obtain ⟨a, ha, rfl⟩ := h
    rw [processCall_TrapBB _ _ _ _ _ _ ha]; exact hb
  | Alloca id aty sz =>
    simp only [processInstruction, Option.some.injEq] at h
    rw [← h, processAlloca_TrapBB]; exact hb
  | Return id op =>
    simp only [processInstruction, Option.map_eq_some'] at h
    obtain ⟨a, ha, rfl⟩ := h
    rw [processReturn_TrapBB _ _ _ _ _ ha]; exact hb
  | Store id v p =>
    simp only [processInstruction, Option.map_eq_some'] at h
    obtain ⟨a, ha, rfl⟩ := h
    rw [processStore_TrapBB _ _ _ _ _ _ ha]; exact hb
  | Load id ty p =>
    simp only [processInstruction, Option.map_eq_some'] at h
    obtain ⟨a, ha, rfl⟩ := h
    rw [processLoad_TrapBB _ _ _ _ _ _ ha]; exact hb
  | GetElementPtr g =>
    simp only [processInstruction] at h
    exact processGEP_keepsTrap _ _ _ _ h bb hb
  | Cast id b ty op =>
    simp only [processInstruction, Option.map_eq_some'] at h
    obtain ⟨a, ha, rfl⟩ := h
    rw [processCast_TrapBB _ _ _ _ _ _ _ ha]; exact hb
  | Invoke id ty cv Args cc nd ud =>
    simp only [processInstruction, Option.some.injEq] at h
    rw [← h]; exact hb
  | Br id d =>
    simp only [processInstruction, Option.some.injEq] at h
    rw [← h]; exact hb
  | CondBr id c a b =>
    simp only [processInstruction, Option.some.injEq] at h
    rw [← h]; exact hb
  | Unreachable id =>
    simp only [processInstruction, Option.some.injEq] at h
    rw [← h]; exact hb
  | Other id res ops =>
    simp only [processInstruction, Option.some.injEq] at h
    rw [← h]; exact hb

theorem analyzeInstructions_keepsTrap (env : Env) :
    ∀ (n : Nat) (ps r : PassState), analyzeInstructions env n ps = some r →
      ∀ bb, ps.TrapBB = some bb → r.TrapBB = some bb := by
  intro n
  induction n with
  | zero =>
    intro ps r h bb hb
    simp only [analyzeInstructions, Option.some.injEq] at h
    rw [← h]; exact hb
  | succ k ih =>
    intro ps r h bb hb
    unfold analyzeInstructions at h
    split at h
    · simp only [Option.some.injEq] at h
      rw [← h]; exact hb
    · rename_i I rest hw
      split at h
      · simp at h
      · rename_i r1 hp
        exact ih r1.1 r h bb (processInstruction_keepsTrap env _ I r1 hp bb hb)

theorem analyzeInstructions_add (env : Env) :
    ∀ (a b : Nat) (ps : PassState),
      analyzeInstructions env (a + b) ps
        = (analyzeInstructions env a ps).bind (analyzeInstructions env b) := by
  intro a
  induction a with
  | zero =>
    intro b ps
    simp [analyzeInstructions]
  | succ k ih =>
    intro b ps
    have hk : k + 1 + b = (k + b) + 1 := by omega
    rw [hk]
    cases hw : ps.instructionsToAnalyze with
    | nil =>
      have h1 : analyzeInstructions env (k + b + 1) ps = some ps := by
        unfold analyzeInstructions; rw [hw]
      have h2 : analyzeInstructions env (k + 1) ps = some ps := by
        unfold analyzeInstructions; rw [hw]
      have h3 : analyzeInstructions env b ps = some ps := by
        cases b with
        | zero => rfl
        | succ m => unfold analyzeInstructions; rw [hw]
      rw [h1, h2, Option.some_bind, h3]
    | cons I rest =>
      have h1 : ∀ m, analyzeInstructions env (m + 1) ps =
          match processInstruction env (nextInstruction ps I rest) I with
          | none => none
          | some r => analyzeInstructions env m r.1 := by
        intro m
        conv => lhs; unfold analyzeInstructions
        rw [hw]
      rw [h1, h1]
      cases hp : processInstruction env (nextInstruction ps I rest) I with
      | none => rfl
      | some r => exact ih b r.1

theorem Module.getParentFunction_eq_some {M : Module} {v : Value} {Fn : String}
    (h : M.getParentFunction v = some Fn) : ∃ G ∈ M.functions, G.name = Fn := by
  unfold Module.getParentFunction at h
  simp only [Option.map_eq_some'] at h
  obtain ⟨G, hG, hn⟩ := h
  exact ⟨G, List.mem_of_find?_eq_some hG, hn⟩

theorem Module.hasBlock_createBlock (M : Module) (Fn : String) (bb : Ident)
    (h : ∃ G ∈ M.functions, G.name = Fn) :
    (M.createBlock Fn bb).hasBlock Fn ⟨bb, []⟩ := by
  obtain ⟨G, hG, hn⟩ := h
  refine ⟨{ G with blocks := G.blocks ++ [⟨bb, []⟩] }, ?_, hn, by simp⟩
  simp only [Module.createBlock, List.mem_map]
  exact ⟨G, hG, by simp [hn]⟩

theorem Module.hasBlock_appendToBlock (M : Module) (Fn : String) (bb : Ident)
    (l : List Instruction) (I : Instruction) (h : M.hasBlock Fn ⟨bb, l⟩) :
    (M.appendToBlock bb I).hasBlock Fn ⟨bb, l ++ [I]⟩ := by
  obtain ⟨G, hG, hn, hb⟩ := h
  refine ⟨{ G with blocks := G.blocks.map (fun b =>
    if b.id = bb then { b with insts := b.insts ++ [I] } else b) }, ?_, hn, ?_⟩
  · simp only [Module.appendToBlock, Module.mapBlocks, List.mem_map]
    exact ⟨G, hG, rfl⟩
  · simp only [List.mem_map]
    exact ⟨⟨bb, l⟩, hb, by simp⟩

theorem Module.hasBlock_getTrapDeclaration (M : Module) (Fn : String) (b : BasicBlock)
    (h : M.hasBlock Fn b) : M.getTrapDeclaration.1.hasBlock Fn b := by
  unfold Module.getTrapDeclaration
  split
  · exact h
  · obtain ⟨G, hG, hn, hb⟩ := h
    exact ⟨G, List.mem_append_left _ hG, hn, hb⟩

/-- What `getTrapBB` creates when no trap block is cached: a block of the function
that holds `CurrInst`, with a new identity, made of the call of `printErrorLine`
with the line number, the call of `llvm.trap` and `unreachable`. -/
theorem getTrapBB_creates (env : Env) (ps : PassState) (I : Value) (r : PassState × Ident)
    (hn : ps.TrapBB = none) (h : getTrapBB env ps I = some r) :
    ∃ (Fn : String) (printFn trapFn : Value) (id1 id2 id3 : Ident),
      ps.CurrentModule.getParentFunction I = some Fn
      ∧ ps.MyPrintErrorLineFn = some printFn
      ∧ trapFn.asFunctionName = some "llvm.trap"
      ∧ r.2 = ps.fresh.2
      ∧ r.1.CurrentModule.hasBlock Fn ⟨r.2,
          [PassState.callTo id1 printFn
              [ConstantInt.get 64 (getLineNumberForInstruction env I)],
            PassState.callTo id2 trapFn [], .Unreachable id3]⟩ := by
  unfold getTrapBB at h
  rw [hn] at h
  simp only [Option.bind_eq_bind, Option.bind_eq_some, Option.some.injEq] at h
  obtain ⟨Fn, hFn, r3, h3, r4, h4, h⟩ := h
  obtain ⟨fn3, hfn3, rfl⟩ := PassState.CreateCall_eq _ _ _ _ h3
  obtain ⟨fn4, hfn4, rfl⟩ := PassState.CreateCall_eq _ _ _ _ h4
  simp only [Option.some.injEq] at hfn4
  have hb0 := Module.hasBlock_createBlock ps.CurrentModule Fn ps.fresh.2
    (Module.getParentFunction_eq_some hFn)
  refine ⟨Fn, fn3, fn4, .made (ps.nextId + 1), .made (ps.nextId + 2), .made (ps.nextId + 3),
    hFn, hfn3, ?_, by rw [← h], ?_⟩
  · rw [← hfn4]; exact Module.getTrapDeclaration_name _
  · rw [← h]
    simp only [PassState.SetInsertPoint, PassState.Insert, PassState.fresh, enterTrapBB,
      PassState.setModule]
    exact Module.hasBlock_appendToBlock _ _ _ _ _
      (Module.hasBlock_appendToBlock _ _ _ _ _
        (Module.hasBlock_getTrapDeclaration _ _ _
          (Module.hasBlock_appendToBlock _ _ _ [] _ hb0)))

/-- C14. Trap singleton.  A call of `getTrapBB` that finds a cached trap block
returns that block and leaves the state as it is; a call that finds none creates
the block in the function of the current instruction and caches it; while the
instructions of a function are walked the cached block, once set, stays the same,
so the trap blocks cached after any two numbers of steps of the walk are the same
block; and `analyzeFunction` starts the walk of each function with no cached
block. -/
theorem C14_trap_singleton (env : Env) :
    (∀ (ps : PassState) (I : Value) (bb : Ident),
      ps.TrapBB = some bb → getTrapBB env ps I = some (ps, bb))
    ∧ (∀ (ps : PassState) (I : Value) (r : PassState × Ident),
        getTrapBB env ps I = some r → r.1.TrapBB = some r.2)
    ∧ (∀ (ps : PassState) (I : Value) (r : PassState × Ident),
        ps.TrapBB = none → getTrapBB env ps I = some r →
        ∃ (Fn : String) (printFn trapFn : Value) (id1 id2 id3 : Ident),
          ps.CurrentModule.getParentFunction I = some Fn
          ∧ ps.MyPrintErrorLineFn = some printFn
          ∧ trapFn.asFunctionName = some "llvm.trap"
          ∧ r.2 = ps.fresh.2
          ∧ r.1.CurrentModule.hasBlock Fn ⟨r.2,
              [PassState.callTo id1 printFn
                  [ConstantInt.get 64 (getLineNumberForInstruction env I)],
                PassState.callTo id2 trapFn [], .Unreachable id3]⟩)
    ∧ (∀ (ps : PassState) (I : Instruction) (r : PassState × Bool) (bb : Ident),
        processInstruction env ps I = some r → ps.TrapBB = some bb → r.1.TrapBB = some bb)
    ∧ (∀ (ps : PassState) (Fn : Function) (k1 k2 : Nat) (s1 s2 : PassState) (b1 b2 : Ident),
        analyzeInstructions env k1 (enterFunction ps Fn) = some s1 →
        analyzeInstructions env k2 (enterFunction ps Fn) = some s2 →
        s1.TrapBB = some b1 → s2.TrapBB = some b2 → b1 = b2)
    ∧ (∀ (ps : PassState) (Fn : Function), (enterFunction ps Fn).TrapBB = none)
    ∧ (∀ (ps : PassState) (F : String) (Fn : Function),
        ps.CurrentModule.getFunction F = some Fn →
        analyzeFunction env ps F
          = analyzeInstructions env Fn.instructions.length (enterFunction ps Fn)) := by
  refine ⟨fun ps I bb h => getTrapBB_cached env ps I bb h,
    fun ps I r h => getTrapBB_TrapBB env ps I r h,
    fun ps I r hn h => getTrapBB_creates env ps I r hn h,
    fun ps I r bb h hb => processInstruction_keepsTrap env ps I r h bb hb, ?_,
    fun _ _ => rfl, ?_⟩
  · have key : ∀ (ps0 : PassState) (k1 k2 : Nat) (s1 s2 : PassState) (b1 b2 : Ident),
        k1 ≤ k2 → analyzeInstructions env k1 ps0 = some s1 →
        analyzeInstructions env k2 ps0 = some s2 →
        s1.TrapBB = some b1 → s2.TrapBB = some b2 → b1 = b2 := by
      intro ps0 k1 k2 s1 s2 b1 b2 hle h1 h2 hb1 hb2
      obtain ⟨d, rfl⟩ := Nat.exists_eq_add_of_le hle
      rw [analyzeInstructions_add, h1, Option.some_bind] at h2
      have := analyzeInstructions_keepsTrap env d s1 s2 h2 b1 hb1
      rw [hb2] at this
      exact (Option.some.inj this).symm
    intro ps Fn k1 k2 s1 s2 b1 b2 h1 h2 hb1 hb2
    rcases Nat.le_total k1 k2 with hle | hle
    · exact key _ k1 k2 s1 s2 b1 b2 hle h1 h2 hb1 hb2
    · exact (key _ k2 k1 s2 s1 b2 b1 hle h2 h1 hb2 hb1).symm
  · intro ps F Fn h
    unfold analyzeFunction
    rw [h]

/-! ## `rewriteFunctionSignature`: when it rewrites -/

/-- C13, on `free(%32)` with `%32 = bitcast (load %30)`: the call is processed,
and the bitcast, the load and the slot `%30` end with size zero. -/
theorem C13_free_propagation_witness :
    (processInstruction Demo.paperEnv (initialState Demo.paper) Demo.freeCall).isSome = true
    ∧ ∀ (ps1 : PassState) (c : Bool),
        processInstruction Demo.paperEnv (initialState Demo.paper) Demo.freeCall
          = some (ps1, c) →
        ∀ v ∈ [Demo.freed, Demo.loaded 31 Demo.i32p (Demo.slotOf 30 Demo.i32p),
            Demo.slotOf 30 Demo.i32p],
          (ps1.TheState.record v).size = .ConstantInt 64 0 :=
  ⟨(C13_free_propagation Demo.paperEnv (initialState Demo.paper) (.input 33) .VoidTy
      Demo.free.asValue [Demo.freed] false 0 Demo.freed rfl rfl rfl).1 rfl,
    fun ps1 c hp v hv =>
      (((C13_free_propagation Demo.paperEnv (initialState Demo.paper) (.input 33) .VoidTy
        Demo.free.asValue [Demo.freed] false 0 Demo.freed rfl rfl rfl).2 ps1 c hp
          (Or.inl rfl)).1 v hv).2⟩

theorem registerWhitelistedArgs_spec (U : Value) :
    ∀ (args : List Value) (s : AnalysisState),
      (∀ a ∈ args, needsRewritten a.getType = true →
        ∃ r, (registerWhitelistedArgs U args s).Variables a = some r ∧ r.size = U)
      ∧ (∀ v, (∃ r, s.Variables v = some r ∧ r.size = U) →
        ∃ r, (registerWhitelistedArgs U args s).Variables v = some r ∧ r.size = U) := by
  intro args
  induction args with
  | nil =>
    intro s
    exact ⟨fun a ha => by simp at ha, fun v hv => hv⟩
  | cons i rest ih =>
    intro s
    unfold registerWhitelistedArgs
    split
    · obtain ⟨h1, h2⟩ := ih ((s.RegisterVariable i).SetSizeForPointerVariable i (some U))
      have hi : ∃ r, ((s.RegisterVariable i).SetSizeForPointerVariable i (some U)).Variables i
          = some r ∧ r.size = U :=
        ⟨_, AnalysisState.SetSizeForPointerVariable_same _ i (some U), rfl⟩
      refine ⟨?_, ?_⟩
      · intro a ha hn
        rw [List.mem_cons] at ha
        rcases ha with rfl | ha
        · exact h2 a hi
        · exact h1 a ha hn
      · intro v hv
        apply h2
        by_cases hvi : v = i
        · subst hvi; exact hi
        · rw [AnalysisState.SetSizeForPointerVariable_other _ _ _ _ hvi,
            AnalysisState.RegisterVariable_other _ _ _ hvi]
          exact hv
    · rename_i hn
      obtain ⟨h1, h2⟩ := ih s
      refine ⟨?_, h2⟩
      intro a ha hna
      rw [List.mem_cons] at ha
      rcases ha with rfl | ha
      · exact absurd hna hn
      · exact h1 a ha hna

theorem rewriteFunctionSignature_UnknownSizeConstInt (ps : PassState) (F : Function) :
    (rewriteFunctionSignature ps F).1.UnknownSizeConstInt = ps.UnknownSizeConstInt := by
  unfold rewriteFunctionSignature
  split
  · rfl
  · simp only []
    split
    · rfl
    · split <;> rfl

/-- C19, as stated, fails on the whitelisted `sim_send`: the size recorded for
its pointer parameter is the constant 10000000, not 10000. -/
theorem C19_whitelisted_parameters_counterexample :
    isWhitelisted Demo.sim_send.name = true
    ∧ (Demo.sim_send.getArg 0).getType.isPointerTy = true
    ∧ ((rewriteFunctionSignature Demo.simState Demo.sim_send).1.TheState.Variables
        (Demo.sim_send.getArg 0)).map (·.size) = some (.ConstantInt 64 10000000)
    ∧ Value.ConstantInt 64 10000000 ≠ .ConstantInt 64 10000 := by
  decide

/-- C19 (amended). When `rewriteFunctionSignature` is applied to a fully
whitelisted function, the function is returned as it is, the module, the deletion
list and the counters are left as they are, and each pointer-typed parameter is
tracked with recorded size `UnknownSizeConstInt`, which `runOnModule` sets to
the constant 10000000 of the size type and `rewriteFunctionSignature` never
changes. -/
theorem C19_whitelisted_parameters (ps : PassState) (F : Function)
    (hw : ps.isCurrentFunctionWhitelisted = true) :
    (rewriteFunctionSignature ps F).2 = F
    ∧ (rewriteFunctionSignature ps F).1.CurrentModule = ps.CurrentModule
    ∧ (rewriteFunctionSignature ps F).1.FunctionsToRemove = ps.FunctionsToRemove
    ∧ (rewriteFunctionSignature ps F).1.stats = ps.stats
    ∧ (∀ a ∈ F.args, a.getType.isPointerTy = true →
        ∃ r, (rewriteFunctionSignature ps F).1.TheState.Variables a = some r
          ∧ r.size = ps.UnknownSizeConstInt)
    ∧ (∀ (env : Env) (M : Module),
        (registerGlobals env M.globals (initialState M)).UnknownSizeConstInt
          = .ConstantInt 64 10000000)
    ∧ (∀ (qs : PassState) (G : Function),
        (rewriteFunctionSignature qs G).1.UnknownSizeConstInt = qs.UnknownSizeConstInt) := by
  have hrw : rewriteFunctionSignature ps F =
      (ps.setState (registerWhitelistedArgs ps.UnknownSizeConstInt F.args ps.TheState), F) := by
    unfold rewriteFunctionSignature
    simp [hw]
  rw [hrw]
  refine ⟨rfl, rfl, rfl, rfl, ?_, ?_, rewriteFunctionSignature_UnknownSizeConstInt⟩
  · intro a ha hp
    exact (registerWhitelistedArgs_spec ps.UnknownSizeConstInt F.args ps.TheState).1 a ha
      (by rw [needsRewritten_eq_isPointerTy]; exact hp)
  · intro env M
    obtain ⟨s, hs⟩ := registerGlobals_eq env M.globals (initialState M)
    rw [hs]
    rfl

/-- C19 (amended), on the whitelisted `sim_send`: it is returned as it is and its
pointer parameter is tracked with size 10000000. -/
theorem C19_whitelisted_parameters_witness :
    Demo.simState.isCurrentFunctionWhitelisted = true
    ∧ (rewriteFunctionSignature Demo.simState Demo.sim_send).2 = Demo.sim_send
    ∧ ∃ r, (rewriteFunctionSignature Demo.simState Demo.sim_send).1.TheState.Variables
          (.Argument "sim_send" 0 Demo.i32p) = some r
        ∧ r.size = .ConstantInt 64 10000000 := by
  have h := C19_whitelisted_parameters Demo.simState Demo.sim_send (by decide)
  exact ⟨by decide, h.1, h.2.2.2.2.1 _ (by decide) rfl⟩

/-! ## The return case of the walker -/

/-- The loop of the return case finds the first value of the walk behind the
return operand that `GetPointerVariableInfo` knows. -/
theorem walkBackLoadsAndCasts_eq (s : AnalysisState) (u : VariableInfo) (v : Value) :
    walkBackLoadsAndCasts s u v
      = (returnChain v).findSome? (s.GetPointerVariableInfoPtr u) := by
  induction v with
  | LoadInst id ty ptr ih =>
    simp only [walkBackLoadsAndCasts, returnChain, List.findSome?]
    cases s.GetPointerVariableInfoPtr u (.LoadInst id ty ptr) with
    | none => exact ih
    | some i => rfl
  | BitCastInst id ty op ih =>
    simp only [walkBackLoadsAndCasts, returnChain, List.findSome?]
    cases s.GetPointerVariableInfoPtr u (.BitCastInst id ty op) with
    | none => exact ih
    | some i => rfl
  | CastInst id ty op ih =>
    simp only [walkBackLoadsAndCasts, returnChain, List.findSome?]
    cases s.GetPointerVariableInfoPtr u (.CastInst id ty op) with
    | none => exact ih
    | some i => rfl
  | _ =>
    simp only [walkBackLoadsAndCasts, returnChain, List.findSome?]
    split <;> simp_all

theorem Module.hasIn_setReturnOperand_return (M : Module) (id : Ident) (op : Option Value)
    (v : Value) (Fn : String) (h : M.hasIn Fn (fun J => J = .Return id op)) :
    (M.setReturnOperand (Instruction.Return id op).asValue v).hasIn Fn
      (fun J => J = .Return id (some v)) :=
  Module.hasIn_mapBlocks M _ Fn _ _
    (fun _ J hJ hP => ⟨_, List.mem_map_of_mem _ hJ, by
      subst hP
      simp [Instruction.asValue]⟩) h

theorem Module.hasIn_setReturnOperand_other (M : Module) (ret v : Value) (Fn : String)
    (id : Ident) (res : Value) (ops : List Value)
    (h : M.hasIn Fn (fun J => J = .Other id res ops)) :
    (M.setReturnOperand ret v).hasIn Fn (fun J => J = .Other id res ops) :=
  Module.hasIn_mapBlocks M _ Fn _ _
    (fun _ J hJ hP => ⟨_, List.mem_map_of_mem _ hJ, by
      subst hP
      rfl⟩) h

/-- C20. The return case.  For a return instruction with operand `op0` in a
function `F` whose return type was widened, when the walk from `op0` through load
address operands and cast operands reaches a value `GetPointerVariableInfo`
knows, the walker processes the instruction, leaves the store as it is, and the
instruction then returns the aggregate built from the zero aggregate of the
return type of `F` by inserting `op0` as field 0 and, as field 1, the recorded
size of the first such value of the walk; the two `insertvalue` instructions
that build it are in the function of the return instruction. -/
theorem C20_return_aggregate (env : Env) (ps : PassState) (id : Ident) (op0 : Value)
    (Fn : String) (F : Function) (info : InfoPtr)
    (hparent : ps.CurrentModule.getParentFunction
      (Instruction.Return id (some op0)).asValue = some Fn)
    (hwide : ps.FunctionsAddedWithNewReturnType.contains Fn = true)
    (hF : ps.CurrentModule.getFunction Fn = some F)
    (hinfo : (returnChain op0).findSome? (ps.TheState.GetPointerVariableInfoPtr env.uninit)
      = some info) :
    ∃ ps1 : PassState,
      processInstruction env ps (.Return id (some op0)) = some (ps1, false)
      ∧ ps1.TheState = ps.TheState
      ∧ ∀ G, ps.CurrentModule.hasIn G (fun J => J = .Return id (some op0)) →
          ps1.CurrentModule.hasIn G (fun J => J = .Return id (some
            (.InsertValueInst ps.fresh.1.fresh.2
              (.InsertValueInst ps.fresh.2 (.ConstantAggregateZero F.ReturnType) op0 0)
              (ps.TheState.deref info).size 1)))
          ∧ ps1.CurrentModule.hasIn G (fun J => J = .Other ps.fresh.2
              (.InsertValueInst ps.fresh.2 (.ConstantAggregateZero F.ReturnType) op0 0)
              [.ConstantAggregateZero F.ReturnType, op0])
          ∧ ps1.CurrentModule.hasIn G (fun J => J = .Other ps.fresh.1.fresh.2
              (.InsertValueInst ps.fresh.1.fresh.2
                (.InsertValueInst ps.fresh.2 (.ConstantAggregateZero F.ReturnType) op0 0)
                (ps.TheState.deref info).size 1)
              [.InsertValueInst ps.fresh.2 (.ConstantAggregateZero F.ReturnType) op0 0,
                (ps.TheState.deref info).size]) := by
  rw [← walkBackLoadsAndCasts_eq] at hinfo
  refine ⟨ps.fresh.1.fresh.1.setModule
    (((ps.CurrentModule.insertBefore (Instruction.Return id (some op0)).asValue
      (.Other ps.fresh.2
        (.InsertValueInst ps.fresh.2 (.ConstantAggregateZero F.ReturnType) op0 0)
        [.ConstantAggregateZero F.ReturnType, op0])).insertBefore
      (Instruction.Return id (some op0)).asValue
      (.Other ps.fresh.1.fresh.2
        (.InsertValueInst ps.fresh.1.fresh.2
          (.InsertValueInst ps.fresh.2 (.ConstantAggregateZero F.ReturnType) op0 0)
          (ps.TheState.deref info).size 1)
        [.InsertValueInst ps.fresh.2 (.ConstantAggregateZero F.ReturnType) op0 0,
          (ps.TheState.deref info).size])).setReturnOperand
      (Instruction.Return id (some op0)).asValue
      (.InsertValueInst ps.fresh.1.fresh.2
        (.InsertValueInst ps.fresh.2 (.ConstantAggregateZero F.ReturnType) op0 0)
        (ps.TheState.deref info).size 1)), ?_, ?_, ?_⟩
  · simp only [processInstruction, processReturn, Option.bind_eq_bind, hparent,
      Option.some_bind, hwide, if_true, hF, hinfo, Option.map_some']
  · rfl
  · intro G hG
    simp only [PassState.setModule]
    have h1 := Module.hasIn_insertBefore_new ps.CurrentModule
      (.Other ps.fresh.2
        (.InsertValueInst ps.fresh.2 (.ConstantAggregateZero F.ReturnType) op0 0)
        [.ConstantAggregateZero F.ReturnType, op0])
      (.Return id (some op0)) G (fun J => J = .Other ps.fresh.2
        (.InsertValueInst ps.fresh.2 (.ConstantAggregateZero F.ReturnType) op0 0)
        [.ConstantAggregateZero F.ReturnType, op0]) rfl hG
    have h0 := Module.hasIn_insertBefore ps.CurrentModule
      (Instruction.Return id (some op0)).asValue
      (.Other ps.fresh.2
        (.InsertValueInst ps.fresh.2 (.ConstantAggregateZero F.ReturnType) op0 0)
        [.ConstantAggregateZero F.ReturnType, op0]) G _ hG
    have h2 := Module.hasIn_insertBefore_new _
      (.Other ps.fresh.1.fresh.2
        (.InsertValueInst ps.fresh.1.fresh.2
          (.InsertValueInst ps.fresh.2 (.ConstantAggregateZero F.ReturnType) op0 0)
          (ps.TheState.deref info).size 1)
        [.InsertValueInst ps.fresh.2 (.ConstantAggregateZero F.ReturnType) op0 0,
          (ps.TheState.deref info).size])
      (.Return id (some op0)) G (fun J => J = .Other ps.fresh.1.fresh.2
        (.InsertValueInst ps.fresh.1.fresh.2
          (.InsertValueInst ps.fresh.2 (.ConstantAggregateZero F.ReturnType) op0 0)
          (ps.TheState.deref info).size 1)
        [.InsertValueInst ps.fresh.2 (.ConstantAggregateZero F.ReturnType) op0 0,
          (ps.TheState.deref info).size]) rfl h0
    refine ⟨?_, ?_, ?_⟩
    · exact Module.hasIn_setReturnOperand_return _ id (some op0) _ G
        (Module.hasIn_insertBefore _ _ _ G _ h0)
    · exact Module.hasIn_setReturnOperand_other _ _ _ G _ _ _
        (Module.hasIn_insertBefore _ _ _ G _ h1)
    · exact Module.hasIn_setReturnOperand_other _ _ _ G _ _ _ h2

/-- C20, on `int* f(int* q) { return q + 1; }`: when the walk of `f_nesCheck`
reaches the return instruction, the walker processes it and the value returned
is the aggregate of `q + 1` and of `q_size - 4`, the size recorded for `q + 1`,
where 4 is the size of `int`. -/
theorem C20_return_aggregate_witness :
    ∃ (ps ps1 : PassState) (F : Function),
      Demo.beforeReturn = some ps
      ∧ processInstruction Demo.paperEnv ps Demo.retAddPtr = some (ps1, false)
      ∧ ps1.CurrentModule.hasIn "f_nesCheck" (fun J => J = .Return (.input 404) (some
          (.InsertValueInst ps.fresh.1.fresh.2
            (.InsertValueInst ps.fresh.2 (.ConstantAggregateZero F.ReturnType) Demo.addPtr 0)
            (.BinaryOperator (.made 0) .Sub (.Argument "f_nesCheck" 1 (.IntegerTy 64))
              (.ConstantInt 64 4)) 1)))
      ∧ F.ReturnType = LType.structOf2 Demo.i32p (.IntegerTy 64) := by
  obtain ⟨ps, hps⟩ := Option.isSome_iff_exists.mp
    (show Demo.beforeReturn.isSome = true by rfl)
  have e1 : Demo.beforeReturn.map (fun ps =>
      ps.CurrentModule.getParentFunction Demo.retAddPtr.asValue) = some (some "f_nesCheck") := by
    rfl
  have e2 : Demo.beforeReturn.map (fun ps =>
      ps.FunctionsAddedWithNewReturnType.contains "f_nesCheck") = some true := by rfl
  have e3 : Demo.beforeReturn.map (fun ps =>
      (ps.CurrentModule.getFunction "f_nesCheck").map Function.ReturnType)
      = some (some (LType.structOf2 Demo.i32p (.IntegerTy 64))) := by rfl
  have e4 : Demo.beforeReturn.map (fun ps =>
      (returnChain Demo.addPtr).findSome?
        (ps.TheState.GetPointerVariableInfoPtr Demo.paperEnv.uninit))
      = some (some (.stored Demo.addPtr)) := by rfl
  have e5 : Demo.beforeReturn.map (fun ps => (ps.TheState.deref (.stored Demo.addPtr)).size)
      = some (.BinaryOperator (.made 0) .Sub (.Argument "f_nesCheck" 1 (.IntegerTy 64))
          (.ConstantInt 64 4)) := by rfl
  have e6 : Demo.beforeReturn.map (fun ps =>
      (ps.CurrentModule.getFunction "f_nesCheck").map
        (fun F => decide (Demo.retAddPtr ∈ F.instructions))) = some (some true) := by rfl
  rw [hps] at e1 e2 e3 e4 e5 e6
  simp only [Option.map_some', Option.some.injEq] at e1 e2 e3 e4 e5 e6
  obtain ⟨F, hF, hret⟩ := Option.map_eq_some'.mp e3
  obtain ⟨ps1, h1, -, h3⟩ :=
    C20_return_aggregate Demo.paperEnv ps (.input 404) Demo.addPtr "f_nesCheck" F
      (.stored Demo.addPtr) e1 e2 hF e4
  have hin : ps.CurrentModule.hasIn "f_nesCheck" (fun J => J = Demo.retAddPtr) := by
    rw [hF] at e6
    simp only [Option.map_some', Option.some.injEq, decide_eq_true_eq] at e6
    exact ⟨F, (Module.getFunction_eq_some hF).1, (Module.getFunction_eq_some hF).2, _, e6, rfl⟩
  refine ⟨ps, ps1, F, hps, h1, ?_, hret⟩
  have := (h3 "f_nesCheck" hin).1
  rw [e5] at this
  exact this

/-! ## The return whose operand leads to no tracked value -/

/-- In a function with a widened return type, a return whose operand leads
through loads and casts to no tracked value is not survived: the C++ code reads
`varinfo->size` through the null `varinfo` the loop ended with. -/
theorem processReturn_unfulfilled (env : Env) (ps : PassState) (RI op0 : Value) (Fn : String)
    (hFn : ps.CurrentModule.getParentFunction RI = some Fn)
    (hwide : ps.FunctionsAddedWithNewReturnType.contains Fn = true)
    (hwalk : walkBackLoadsAndCasts ps.TheState env.uninit op0 = none) :
    processReturn env ps RI (some op0) = none := by
  unfold processReturn
  simp only [hFn, Option.bind_eq_bind, Option.some_bind, hwide, if_true, hwalk,
    Option.none_bind]
  cases ps.CurrentModule.getFunction Fn <;> rfl

/-- C21. A return in a function with a widened return type whose operand leads to
no tracked value: the specification has the rewrite of that return abandoned and
the walk continued.  The code does not do that.  On
`char* name(void) { return "abc"; }` the function is rewritten to
`name_nesCheck`, the walk back from the returned constant expression ends at
once without a record, and `processInstruction` reads the size through the null
pointer: there is no state in which the return is left as it was, and
`runOnModule` does not return. -/
theorem C21_return_unfulfilled :
    Demo.atReturnOfName.map (fun ps =>
        (ps.FunctionsAddedWithNewReturnType.contains "name_nesCheck",
          ps.CurrentModule.getParentFunction Demo.retStr.asValue,
          walkBackLoadsAndCasts ps.TheState Demo.paperEnv.uninit Demo.strDecay,
          processInstruction Demo.paperEnv ps Demo.retStr))
      = some (true, some "name_nesCheck", none, none)
    ∧ runOnModule Demo.paperEnv Demo.nameModule = none := by
  refine ⟨by rfl, by rfl⟩

/-! ## The value `runOnModule` returns -/

/-- The value `runOnModule` returns is what the first loop accumulated: whether
some function was replaced by a function of another name.  The walk of the second
loop does not add to it. -/
theorem runOnModule_changed_eq (env : Env) (M : Module) (r : PassState × Bool)
    (h : runOnModule env M = some r) :
    r.2 = (rewriteSignatures M.functions
      (registerGlobals env M.globals (initialState M), [], false)).2.2 := by
  unfold runOnModule at h
  simp only [] at h
  split at h
  · cases h
  · simp only [Option.some.injEq] at h
    rw [← h]

/-- C22. The value `runOnModule` returns: the specification has it true whenever
the pass changed the IR of the module, an inserted bounds check included.  The
code does not do that: `changed` is accumulated from `F != NF` in the first loop
only, and `analyzeFunction` drops the flag `processInstruction` returns.  On
`int main(void) { int* a = malloc(8); return a[5]; }` no signature is rewritten,
one bounds check is added (the block of `main` now ends in a branch to the trap
block, the module is no longer the module that was given), and the value
returned is false. -/
theorem C22_runOnModule_changed :
    (runOnModule Demo.paperEnv (Demo.heapModule 8 5)).map (fun r =>
        (r.2, decide (r.1.CurrentModule = Demo.heapModule 8 5),
          r.1.stats.FunctionSignaturesRewritten, r.1.stats.ChecksAdded, r.1.TrapBB,
          (r.1.CurrentModule.getFunction "main").map
            (fun F => F.blocks.map (fun b => (b.id, b.insts.length))),
          (r.1.CurrentModule.getFunction "main").bind
            (fun F => F.blocks.head?.bind (fun b => b.insts.getLast?))))
      = some (false, false, 0, 1, some (.made 2),
          some [(.input 710, 6), (.made 0, 3), (.made 2, 3)],
          some (.Br (.made 6) (.made 2))) := by
  rfl

/-! ## The check on a pointer whose recorded size is zero -/

/-- The left-hand side for a recorded size of zero reads as `-e` in the signed
comparison. -/
theorem toSigned_wrapSub_zero (e : Nat) (he : 0 < e) (he2 : e ≤ 2 ^ 63) :
    toSigned 64 (wrapSub 64 0 e) = -(e : Int) := by
  unfold toSigned wrapSub
  have h1 : e % 2 ^ 64 = e := Nat.mod_eq_of_lt (by omega)
  have h2 : (0 + 2 ^ 64 - e) % 2 ^ 64 = 2 ^ 64 - e := Nat.mod_eq_of_lt (by omega)
  rw [h1, h2, Nat.mod_eq_of_lt (by omega)]
  have h3 : ¬ (2 ^ 64 - e < 2 ^ (64 - 1)) := by
    simp only [Nat.add_one_sub_one, not_lt]; omega
  rw [if_neg h3]
  omega

theorem icmpSLT_wrapSub_zero (e off : Nat) (he : 0 < e) (he2 : e ≤ 2 ^ 63)
    (hoff : off < 2 ^ 63) : icmpSLT 64 (wrapSub 64 0 e) off = true := by
  unfold icmpSLT
  rw [toSigned_wrapSub_zero e he he2]
  have h : toSigned 64 off = (off : Int) := by
    unfold toSigned
    rw [Nat.mod_eq_of_lt (by omega), if_pos (show off < 2 ^ (64 - 1) from hoff)]
  rw [h]
  simp only [decide_eq_true_eq]
  omega

/-- What `instrumentGEP` does when the comparison of two constants is true. -/
theorem instrumentGEP_const_true (env : Env) (ps : PassState) (g : GetElementPtrInst)
    (info : VariableInfo) (bits S off : Nat)
    (hwl : ps.isCurrentFunctionWhitelisted = false)
    (hwli : ps.isCurrentFunctionWhitelistedForInstrumentation = false)
    (hidx : g.hasIndices = true)
    (hinfo : ps.TheState.GetPointerVariableInfo env.uninit g.PointerOperand = some info)
    (hsize : info.size = .ConstantInt bits S)
    (hns : info.classification ≠ .Safe)
    (hoff : (getOffsetForGEPInst env ps g).2 = .ConstantInt 64 off)
    (htrue : icmpSLT 64 (wrapSub 64 S (env.getTypeStoreSize g.getResultElementType)) off = true) :
    instrumentGEP env ps g = instrumentGEP.emit env
        ((ps.count Statistics.incChecksConsidered).count Statistics.incChecksAlwaysTrue) none
    ∧ ∀ r, instrumentGEP env ps g = some r →
        r.2 = true
        ∧ r.1.stats.ChecksAlwaysTrue = ps.stats.ChecksAlwaysTrue + 1
        ∧ r.1.stats.ChecksAdded = ps.stats.ChecksAdded + 1
        ∧ ∃ (I : Value) (OldBB trap id : Ident) (M : Module), ps.InsertPt = .before I
            ∧ ps.CurrentModule.getParent I = some OldBB
            ∧ r.1.TrapBB = some trap
            ∧ r.1.CurrentModule = M.appendToBlock OldBB (.Br id trap) := by
  have hoff1 : (getOffsetForGEPInst env (ps.count Statistics.incChecksConsidered) g).2
      = .ConstantInt 64 off := by
    rw [getOffsetForGEPInst_const env ps g 64 off hoff]
  have heq : instrumentGEP env ps g = instrumentGEP.emit env
      ((ps.count Statistics.incChecksConsidered).count Statistics.incChecksAlwaysTrue)
      none := by
    have hunf : instrumentGEP env ps g =
        instrumentGEP.compare env (ps.count Statistics.incChecksConsidered) g info := by
      unfold instrumentGEP
      simp [hwl, hwli, hidx, hinfo, hns]
    rw [hunf, instrumentGEP_compare_const env _ g info bits S off hsize hoff1, htrue]
    rfl
  refine ⟨heq, ?_⟩
  intro r hr
  rw [heq] at hr
  obtain ⟨hb, I, OldBB, trap, Cont, id, M, hI, hOld, hT, hM⟩ :=
    instrumentGEP_emit_branch _ _ _ _ hr
  have hst := (instrumentGEP_emit_stats _ _ _ _ hr).1
  refine ⟨hb, ?_, ?_, I, OldBB, trap, id, M, hI, hOld, hT, hM⟩
  · rw [hst]; rfl
  · rw [hst]; rfl

/-- C24, as stated, fails for the recorded size 0, the element size 4 and the
byte offset 8: the comparison is signed, the left-hand side `0 - 4` reads as
`-4`, so `LHS < off` is true, and `instrumentGEP` ends the block of the
`getelementptr` with an unconditional branch to the trap block. -/
theorem C24_freed_pointer_check_counterexample :
    toSigned 64 (wrapSub 64 0 4) = -4
    ∧ icmpSLT 64 (wrapSub 64 0 4) 8 = true
    ∧ (instrumentGEP (Demo.env 4) (Demo.ps 0 2 8 .Seq) (Demo.gep 2 8)).map
        (fun r => (r.2, r.1.stats.ChecksAlwaysFalse, r.1.stats.ChecksAlwaysTrue, r.1.TrapBB,
          (r.1.CurrentModule.getFunction "main").map
            (fun F => F.blocks.map (fun b => (b.id, b.insts.getLast?)))))
      = some (true, 0, 1, some (.made 2), some
          [ (.input 100, some (.Br (.made 6) (.made 2))),
            (.made 0, some (.Return (.input 3) (some (.ConstantInt 32 0)))),
            (.made 2, some (.Unreachable (.made 5))) ]) := by
  refine ⟨by decide, by decide, by rfl⟩

/-- C24 (amended). For a pointer that is not `Safe` whose recorded size is the
constant zero, in a function that is not whitelisted, and a result element byte
size `e` with `0 < e ≤ 2^63`: the subtraction `0 - e` wraps, and the signed
comparison reads the left-hand side as `-e`, so for every constant byte offset
that is not negative the comparison `LHS < off` is true, and `instrumentGEP`
takes its emitting end with the null condition: what that leaves is
`ChecksAlwaysTrue` and `ChecksAdded` grown by one and the block of the insertion
point ended by an unconditional branch to the trap block. -/
theorem C24_freed_pointer_check (env : Env) (ps : PassState) (g : GetElementPtrInst)
    (info : VariableInfo) (bits off : Nat)
    (hwl : ps.isCurrentFunctionWhitelisted = false)
    (hwli : ps.isCurrentFunctionWhitelistedForInstrumentation = false)
    (hidx : g.hasIndices = true)
    (hinfo : ps.TheState.GetPointerVariableInfo env.uninit g.PointerOperand = some info)
    (hsize : info.size = .ConstantInt bits 0)
    (hns : info.classification ≠ .Safe)
    (he : 0 < env.getTypeStoreSize g.getResultElementType)
    (he2 : env.getTypeStoreSize g.getResultElementType ≤ 2 ^ 63)
    (hoff : (getOffsetForGEPInst env ps g).2 = .ConstantInt 64 off)
    (hoff2 : off < 2 ^ 63) :
    toSigned 64 (wrapSub 64 0 (env.getTypeStoreSize g.getResultElementType))
      = -(env.getTypeStoreSize g.getResultElementType : Int)
    ∧ icmpSLT 64 (wrapSub 64 0 (env.getTypeStoreSize g.getResultElementType)) off = true
    ∧ instrumentGEP env ps g = instrumentGEP.emit env
        ((ps.count Statistics.incChecksConsidered).count Statistics.incChecksAlwaysTrue) none
    ∧ ∀ r, instrumentGEP env ps g = some r →
        r.2 = true
        ∧ r.1.stats.ChecksAlwaysTrue = ps.stats.ChecksAlwaysTrue + 1
        ∧ r.1.stats.ChecksAdded = ps.stats.ChecksAdded + 1
        ∧ ∃ (I : Value) (OldBB trap id : Ident) (M : Module), ps.InsertPt = .before I
            ∧ ps.CurrentModule.getParent I = some OldBB
            ∧ r.1.TrapBB = some trap
            ∧ r.1.CurrentModule = M.appendToBlock OldBB (.Br id trap) := by
  have htrue := icmpSLT_wrapSub_zero _ off he he2 hoff2
  exact ⟨toSigned_wrapSub_zero _ he he2, htrue,
    instrumentGEP_const_true env ps g info bits 0 off hwl hwli hidx hinfo hsize hns hoff htrue⟩

/-- C24 (amended) on a `Dyn` pointer with recorded size 0 indexed at `p[5]` with
`sizeof(int) = 4`: the comparison `-4 < 20` is true and the check is emitted
without a condition. -/
theorem C24_freed_pointer_check_witness :
    icmpSLT 64 (wrapSub 64 0 4) 20 = true
    ∧ ∃ r, instrumentGEP (Demo.env 4) (Demo.ps 0 5 20 .Dyn) (Demo.gep 5 20) = some r
        ∧ r.2 = true ∧ r.1.stats.ChecksAlwaysTrue = 1 ∧ r.1.stats.ChecksAdded = 1 := by
  have h := C24_freed_pointer_check (Demo.env 4) (Demo.ps 0 5 20 .Dyn) (Demo.gep 5 20)
    { (Demo.env 4).uninit with size := .ConstantInt 64 0, classification := .Dyn } 64 20
    rfl rfl rfl (by rfl) rfl (by decide) (by decide) (by decide) (by rfl) (by decide)
  refine ⟨h.2.1, ?_⟩
  obtain ⟨r, hr⟩ := Option.isSome_iff_exists.mp
    (show (instrumentGEP (Demo.env 4) (Demo.ps 0 5 20 .Dyn) (Demo.gep 5 20)).isSome = true
      by rfl)
  obtain ⟨h1, h2, h3, -⟩ := h.2.2.2 r hr
  exact ⟨r, hr, h1, h2, h3⟩

/-! ## The store across the bounds-check emitter -/

theorem classOf_RegisterVariable (s : AnalysisState) (v w : Value) :
    (s.RegisterVariable v).classOf w = s.classOf w := by
  by_cases h : w = v
  · subst h
    rw [AnalysisState.classOf_eq_record, AnalysisState.classOf_eq_record,
      AnalysisState.RegisterVariable_record]
  · unfold AnalysisState.classOf
    rw [AnalysisState.RegisterVariable_other s v w h]

theorem SetHasMetadataTableEntry_same (s : AnalysisState) (v : Value) :
    (s.SetHasMetadataTableEntry v).Variables v
      = some { s.record v with hasMetadataTableEntry := true } := by
  unfold AnalysisState.SetHasMetadataTableEntry
  simp [AnalysisState.RegisterVariable_record]

theorem SetHasMetadataTableEntry_other (s : AnalysisState) (v w : Value) (h : w ≠ v) :
    (s.SetHasMetadataTableEntry v).Variables w = s.Variables w := by
  unfold AnalysisState.SetHasMetadataTableEntry
  simp only []
  rw [AnalysisState.assign_other _ _ _ _ h, AnalysisState.RegisterVariable_other _ _ _ h]

theorem classOf_SetHasMetadataTableEntry (s : AnalysisState) (v w : Value) :
    (s.SetHasMetadataTableEntry v).classOf w = s.classOf w := by
  by_cases h : w = v
  · subst h
    rw [AnalysisState.classOf_eq_record, AnalysisState.classOf_eq_record,
      AnalysisState.record_of_some _ _ _ (SetHasMetadataTableEntry_same s w)]
  · unfold AnalysisState.classOf
    rw [SetHasMetadataTableEntry_other s v w h]

theorem classOf_ClassifyPointerVariable_other (s : AnalysisState) (v w : Value)
    (c : VariableStates) (h : w ≠ v) :
    (s.ClassifyPointerVariable v c).classOf w = s.classOf w := by
  unfold AnalysisState.classOf
  rw [AnalysisState.ClassifyPointerVariable_other s v w c h]

theorem getOffsetForGEPInst_TheState (env : Env) (ps : PassState) (g : GetElementPtrInst) :
    (getOffsetForGEPInst env ps g).1.TheState = ps.TheState := by
  unfold getOffsetForGEPInst
  split
  · rfl
  · split
    · rfl
    · simp

theorem instrumentGEP_LHS_TheState (ps : PassState) (size : Value) (typeStoreSize : Nat) :
    (instrumentGEP.LHS ps size typeStoreSize).1.TheState = ps.TheState := by
  unfold instrumentGEP.LHS
  split
  · rfl
  · simp

theorem CreateCall_TheState (ps : PassState) (Fn : Option Value) (Args : List Value)
    (r : PassState × Value) (h : ps.CreateCall Fn Args = some r) :
    r.1.TheState = ps.TheState := by
  obtain ⟨fn, -, rfl⟩ := PassState.CreateCall_eq ps Fn Args r h
  simp

theorem getTrapBB_TheState (env : Env) (ps : PassState) (I : Value) (r : PassState × Ident)
    (h : getTrapBB env ps I = some r) : r.1.TheState = ps.TheState := by
  unfold getTrapBB at h
  split at h
  · simp only [Option.some.injEq] at h; rw [← h]
  · simp only [Option.bind_eq_bind, Option.bind_eq_some, Option.some.injEq] at h
    obtain ⟨Fn, -, r3, h3, r4, h4, h⟩ := h
    have e3 := CreateCall_TheState _ _ _ _ h3
    have e4 := CreateCall_TheState _ _ _ _ h4
    rw [← h]
    simp only [PassState.Insert_TheState, PassState.fresh_TheState,
      PassState.setModule_TheState, PassState.SetInsertPoint_TheState] at e3 e4 ⊢
    rw [e4, e3]
    rfl

theorem instrumentGEP_emit_TheState (env : Env) (ps : PassState) (Cmp : Option Value)
    (r : PassState × Bool) (h : instrumentGEP.emit env ps Cmp = some r) :
    r.1.TheState = ps.TheState := by
  unfold instrumentGEP.emit at h
  simp only [IS_DEBUGGING, Bool.false_eq_true, if_false, Option.bind_eq_bind,
    Option.bind_eq_some, Option.some.injEq] at h
  obtain ⟨ps2, h2, I, -, OldBB, -, r3, h3, h⟩ := h
  subst h2
  have e3 := getTrapBB_TheState _ _ _ _ h3
  rw [← h]
  simpa using e3

theorem instrumentGEP_compare_TheState (env : Env) (ps : PassState) (g : GetElementPtrInst)
    (varinfo : VariableInfo) (r : PassState × Bool)
    (h : instrumentGEP.compare env ps g varinfo = some r) : r.1.TheState = ps.TheState := by
  unfold instrumentGEP.compare at h
  simp only [IS_NAIVE, Bool.not_false, if_true] at h
  have k : ((instrumentGEP.LHS (getOffsetForGEPInst env ps g).1 varinfo.size
      (env.getTypeStoreSize g.getResultElementType)).1.CreateICmpSLT
      (instrumentGEP.LHS (getOffsetForGEPInst env ps g).1 varinfo.size
        (env.getTypeStoreSize g.getResultElementType)).2
      (getOffsetForGEPInst env ps g).2).1.TheState = ps.TheState := by
    rw [PassState.CreateICmpSLT_TheState, instrumentGEP_LHS_TheState,
      getOffsetForGEPInst_TheState]
  split at h
  · split at h
    · simp only [Option.some.injEq] at h
      rw [← h]; simpa using k
    · rw [instrumentGEP_emit_TheState _ _ _ _ h]; simpa using k
  · rw [instrumentGEP_emit_TheState _ _ _ _ h]; exact k

theorem instrumentGEP_TheState (env : Env) (ps : PassState) (g : GetElementPtrInst)
    (r : PassState × Bool) (h : instrumentGEP env ps g = some r) :
    r.1.TheState = ps.TheState := by
  unfold instrumentGEP at h
  split at h
  · simp only [Option.some.injEq] at h; rw [← h]
  · split at h
    · simp only [Option.some.injEq] at h; rw [← h]; rfl
    · split at h
      · simp only [Option.some.injEq] at h; rw [← h]; rfl
      · split at h
        · simp only [Option.some.injEq] at h; rw [← h]; rfl
        · rw [instrumentGEP_compare_TheState _ _ _ _ _ h]; rfl

/-- What the lookup call of the metadata table leaves of the classes. -/
theorem lookupMetadataTableEntry_classOf (ps : PassState) (Ptr CurrInst : Value)
    (r : PassState × Value) (h : NesCheckPass.lookupMetadataTableEntry ps Ptr CurrInst = some r)
    (w : Value) : r.1.TheState.classOf w = ps.TheState.classOf w := by
  unfold NesCheckPass.lookupMetadataTableEntry at h
  split at h
  · simp only [Option.some.injEq] at h; rw [← h]
    simp [classOf_SetSizeForPointerVariable]
  · split at h
    · simp at h
    · split at h
      · simp at h
      · simp only [Option.some.injEq] at h
        rw [← h]
        simp [classOf_SetHasMetadataTableEntry, classOf_SetSizeForPointerVariable]

theorem processGEP_size_classOf (env : Env) (ps : PassState) (II : GetElementPtrInst)
    (r : PassState) (h : processGEP.size env ps II = some r) (w : Value) :
    r.TheState.classOf w = ps.TheState.classOf w := by
  unfold processGEP.size at h
  split at h
  · simp at h
  · simp only [Option.some.injEq] at h; rw [← h]
    simp only [PassState.setState_TheState, classOf_SetSizeForPointerVariable]
    split
    · simp [getOffsetForGEPInst_TheState]
    · rfl

/-- The classes after the `getelementptr` case: those of the store in which the
base was classified `Seq`, when not every index is zero. -/
theorem processGEP_classOf (env : Env) (ps : PassState) (II : GetElementPtrInst)
    (r : PassState × Bool) (h : processGEP env ps II = some r) (w : Value) :
    r.1.TheState.classOf w =
      (if (!II.hasAllZeroIndices) = true then
        ps.TheState.ClassifyPointerVariable II.PointerOperand VariableStates.Seq
      else ps.TheState).classOf w := by
  unfold processGEP at h
  simp only [] at h
  split at h
  · simp at h
  · rename_i ps2 h2
    rw [instrumentGEP_TheState _ _ _ _ h]
    generalize (if (!II.hasAllZeroIndices) = true then
        ps.TheState.ClassifyPointerVariable II.PointerOperand VariableStates.Seq
      else ps.TheState) = s at h2 ⊢
    split at h2
    · simp only [Option.map_eq_some'] at h2
      obtain ⟨a, ha, rfl⟩ := h2
      rw [lookupMetadataTableEntry_classOf _ _ _ _ ha]
      simp [classOf_RegisterVariable]
    · rw [processGEP_size_classOf _ _ _ _ h2]
      simp [classOf_RegisterVariable]

/-- C27. For every `getelementptr` instruction the walker processes: if not every
index is zero, the class of the base pointer afterwards is the greater of its
class before and `Seq`, so it is `Seq` or `Dyn`, and is `Dyn` when it was `Dyn`;
if all indices are zero, the class of the base pointer is unchanged. -/
theorem C27_gep_base_class (env : Env) (ps : PassState) (g : GetElementPtrInst)
    (r : PassState × Bool) (h : processInstruction env ps (.GetElementPtr g) = some r) :
    (g.hasAllZeroIndices = false →
      (r.1.TheState.classOf g.PointerOperand).toInt
          = max (ps.TheState.classOf g.PointerOperand).toInt VariableStates.Seq.toInt
      ∧ (r.1.TheState.classOf g.PointerOperand = .Seq
          ∨ r.1.TheState.classOf g.PointerOperand = .Dyn)
      ∧ (ps.TheState.classOf g.PointerOperand = .Dyn →
          r.1.TheState.classOf g.PointerOperand = .Dyn))
    ∧ (g.hasAllZeroIndices = true →
      r.1.TheState.classOf g.PointerOperand = ps.TheState.classOf g.PointerOperand) := by
  have hc := processGEP_classOf env ps g r h g.PointerOperand
  refine ⟨?_, ?_⟩
  · intro hz
    simp only [hz, Bool.not_false, if_true] at hc
    have hmax := AnalysisState.classOf_ClassifyPointerVariable ps.TheState g.PointerOperand .Seq
    rw [← hc] at hmax
    refine ⟨hmax, ?_, ?_⟩
    · revert hmax
      cases r.1.TheState.classOf g.PointerOperand <;>
        cases ps.TheState.classOf g.PointerOperand <;> simp [VariableStates.toInt]
    · intro hd
      rw [hd] at hmax
      revert hmax
      cases r.1.TheState.classOf g.PointerOperand <;> simp [VariableStates.toInt]
  · intro hz
    simp only [hz, Bool.not_true, Bool.false_eq_true, if_false] at hc
    exact hc

/-- C27 on `p[5]` with `p` recorded `Safe`, and on `p[0]`: the class of `p`
afterwards is `Seq` in the first case and still `Safe` in the second. -/
theorem C27_gep_base_class_witness :
    (∃ r, processInstruction (Demo.env 4) (Demo.ps 8 5 20 .Safe)
          (.GetElementPtr (Demo.gep 5 20)) = some r
        ∧ (Demo.gep 5 20).hasAllZeroIndices = false
        ∧ (Demo.ps 8 5 20 .Safe).TheState.classOf Demo.p = .Safe
        ∧ r.1.TheState.classOf Demo.p = .Seq)
    ∧ (∃ r, processInstruction (Demo.env 4) (Demo.ps 8 0 0 .Safe)
          (.GetElementPtr (Demo.gep 0 0)) = some r
        ∧ (Demo.gep 0 0).hasAllZeroIndices = true
        ∧ r.1.TheState.classOf Demo.p = .Safe) := by
  constructor
  · obtain ⟨r, hr⟩ := Option.isSome_iff_exists.mp
      (show (processInstruction (Demo.env 4) (Demo.ps 8 5 20 .Safe)
        (.GetElementPtr (Demo.gep 5 20))).isSome = true by rfl)
    have h := (C27_gep_base_class _ _ _ r hr).1 (by rfl)
    have hs : (Demo.ps 8 5 20 .Safe).TheState.classOf Demo.p = .Safe := by rfl
    refine ⟨r, hr, by rfl, hs, ?_⟩
    have h1 := h.1
    have hp : (Demo.gep 5 20).PointerOperand = Demo.p := rfl
    rw [hp] at h1 h
    rw [hs] at h1
    rcases h.2.1 with h2 | h2
    · exact h2
    · rw [h2] at h1; exact absurd h1 (by simp [VariableStates.toInt])
  · obtain ⟨r, hr⟩ := Option.isSome_iff_exists.mp
      (show (processInstruction (Demo.env 4) (Demo.ps 8 0 0 .Safe)
        (.GetElementPtr (Demo.gep 0 0))).isSome = true by rfl)
    have h := (C27_gep_base_class _ _ _ r hr).2 (by rfl)
    refine ⟨r, hr, by rfl, ?_⟩
    rw [show (Demo.gep 0 0).PointerOperand = Demo.p from rfl] at h
    rw [h]; rfl

/-! ## The cast case of the walker -/

theorem classOf_ClassifyPointerVariable_Dyn (s : AnalysisState) (v : Value) :
    (s.ClassifyPointerVariable v .Dyn).classOf v = .Dyn := by
  have h := AnalysisState.classOf_ClassifyPointerVariable s v .Dyn
  revert h
  cases (s.ClassifyPointerVariable v .Dyn).classOf v <;> cases s.classOf v <;>
    simp [VariableStates.toInt]

/-- Classifying never lowers `Dyn`. -/
theorem classOf_ClassifyPointerVariable_keeps_Dyn (s : AnalysisState) (v w : Value)
    (c : VariableStates) (h : s.classOf w = .Dyn) :
    (s.ClassifyPointerVariable v c).classOf w = .Dyn := by
  by_cases hw : w = v
  · subst hw
    have h1 := AnalysisState.classOf_ClassifyPointerVariable s w c
    rw [h] at h1
    revert h1
    cases (s.ClassifyPointerVariable w c).classOf w <;> cases c <;>
      simp [VariableStates.toInt]
  · rw [classOf_ClassifyPointerVariable_other s v w c hw, h]

theorem LoadInst_ne_operand (id : Ident) (ty : LType) (ptr : Value) :
    Value.LoadInst id ty ptr ≠ ptr := by
  intro h
  have := congrArg sizeOf h
  simp at this

/-- A cast of a pointer that changes the depth of indirection or the integer-ness
of the innermost type: the cast case is the promotion followed by the copy of the
size. -/
theorem processCast_promoting (env : Env) (ps : PassState) (II : Value) (isBitCast : Bool)
    (dstT : LType) (op : Value) (hsrc : op.getType.isPointerTy = true)
    (hchg : countIndirections op.getType ≠ countIndirections dstT
      ∨ (unwrapPointer op.getType).isIntegerTy ≠ (unwrapPointer dstT).isIntegerTy)
    (ps1 : PassState)
    (hp : processCast.promote env ps II isBitCast op
      (ps.TheState.GetPointerVariableInfoPtr env.uninit op) = some ps1) :
    ∃ r, processCast env ps II isBitCast dstT op = some r
      ∧ ∀ w, r.TheState.classOf w = ps1.TheState.classOf w := by
  have hcond : (decide (countIndirections op.getType ≠ countIndirections dstT)
      || ((unwrapPointer op.getType).isIntegerTy != (unwrapPointer dstT).isIntegerTy)) = true := by
    rcases hchg with h | h
    · simp [h]
    · simp [h]
  unfold processCast
  simp only [hsrc, if_true, hcond, hp]
  cases ps.TheState.GetPointerVariableInfoPtr env.uninit op with
  | none => exact ⟨ps1, rfl, fun w => rfl⟩
  | some vi =>
    exact ⟨_, rfl, fun w => by simp [classOf_SetSizeForPointerVariable]⟩

/-- C26, as stated, fails on the cast `(foo_t*) a` in
`int main(void) { int* a = malloc(8); (foo_t*) a; return 0; }`: the operand of the
cast is the load of `a`, the cast toggles the integer-ness of the innermost type,
and after the pass the class of the operand is `Safe`; it is the slot the operand
was loaded from that is `Dyn`. -/
theorem C26_cast_promotion_counterexample :
    Demo.heapLoad.asValue.getType.isPointerTy = true
    ∧ (unwrapPointer Demo.heapLoad.asValue.getType).isIntegerTy
        ≠ (unwrapPointer Demo.fooP).isIntegerTy
    ∧ (runOnModule Demo.paperEnv Demo.castModule).map (fun r =>
        (r.1.TheState.classOf Demo.heapLoad.asValue,
          r.1.TheState.classOf (Demo.slotOf 700 Demo.i32p),
          r.1.TheState.classOf Demo.castOfLoad.asValue))
      = some (.Safe, .Dyn, .Safe) := by
  refine ⟨by rfl, by decide, by rfl⟩

/-- The promotion of a call result: unless the cast is a bitcast of a call result
without a record, both the call result and the cast are classified `Dyn` in a
state with the classes of the state before. -/
theorem processCast_promote_call (env : Env) (ps : PassState) (II : Value) (isBitCast : Bool)
    (cid : Ident) (cty : LType) (callee : Option String)
    (h : isBitCast = false ∨ (ps.TheState.Variables (.CallInst cid cty callee)).isSome = true) :
    ∃ ps0 : PassState,
      processCast.promote env ps II isBitCast (.CallInst cid cty callee)
          (ps.TheState.GetPointerVariableInfoPtr env.uninit (.CallInst cid cty callee))
        = some (ps0.setState ((ps0.TheState.ClassifyPointerVariable (.CallInst cid cty callee)
            .Dyn).ClassifyPointerVariable II .Dyn))
      ∧ ∀ w, ps0.TheState.classOf w = ps.TheState.classOf w := by
  unfold processCast.promote
  cases hb : isBitCast with
  | false => exact ⟨ps, rfl, fun _ => rfl⟩
  | true =>
    have ht : (ps.TheState.Variables (.CallInst cid cty callee)).isSome = true := by
      rcases h with h | h
      · rw [hb] at h; cases h
      · exact h
    have hv : ps.TheState.GetPointerVariableInfoPtr env.uninit (.CallInst cid cty callee)
        = some (.stored (.CallInst cid cty callee)) := by
      unfold AnalysisState.GetPointerVariableInfoPtr AnalysisState.count
      rw [ht]
      rfl
    simp only [hv, if_true]
    by_cases h1 : (ps.TheState.deref (.stored (.CallInst cid cty callee))).size.asConstantInt
        = some 1
    · simp only [h1, if_true, Option.map_some', getSizeForValue_fst]
      exact ⟨_, rfl, fun w => by simp [classOf_SetSizeForPointerVariable]⟩
    · simp only [h1, if_false, Option.map_some']
      exact ⟨ps, rfl, fun _ => rfl⟩

/-- C26 (amended). For every cast instruction whose source type is a pointer and
which changes the pointer indirection depth or toggles whether the innermost type
is an integer: when the operand is a load, the walker processes the cast and
afterwards the class of the address operand of the load is `Dyn`, while the class
of the operand itself, and of every other value, is what it was; when the operand
is a call result, and the cast is no bitcast or the call result has a record, the
walker processes the cast and afterwards the class of the operand and of the cast
result is `Dyn` and the class of every other value is what it was; a bitcast of a
call result without a record is not survived (the code reads the size through a
null pointer); for an operand that is neither a load nor a call result the walker
processes the cast and no class changes. -/
theorem C26_cast_promotion (env : Env) (ps : PassState) (id : Ident) (isBitCast : Bool)
    (dstT : LType) (op : Value) (hsrc : op.getType.isPointerTy = true)
    (hchg : countIndirections op.getType ≠ countIndirections dstT
      ∨ (unwrapPointer op.getType).isIntegerTy ≠ (unwrapPointer dstT).isIntegerTy) :
    (∀ lid lty ptr, op = .LoadInst lid lty ptr →
      ∃ r, processInstruction env ps (.Cast id isBitCast dstT op) = some (r, false)
        ∧ r.TheState.classOf ptr = .Dyn
        ∧ r.TheState.classOf op = ps.TheState.classOf op
        ∧ ∀ w, w ≠ ptr → r.TheState.classOf w = ps.TheState.classOf w)
    ∧ (∀ cid cty callee, op = .CallInst cid cty callee →
      (isBitCast = false ∨ (ps.TheState.Variables op).isSome = true) →
      ∃ r, processInstruction env ps (.Cast id isBitCast dstT op) = some (r, false)
        ∧ r.TheState.classOf op = .Dyn
        ∧ r.TheState.classOf (Instruction.Cast id isBitCast dstT op).asValue = .Dyn
        ∧ ∀ w, w ≠ op → w ≠ (Instruction.Cast id isBitCast dstT op).asValue →
            r.TheState.classOf w = ps.TheState.classOf w)
    ∧ (∀ cid cty callee, op = .CallInst cid cty callee → isBitCast = true →
      (ps.TheState.Variables op).isSome = false →
      processInstruction env ps (.Cast id isBitCast dstT op) = none)
    ∧ ((∀ lid lty ptr, op ≠ .LoadInst lid lty ptr) →
      (∀ cid cty callee, op ≠ .CallInst cid cty callee) →
      ∃ r, processInstruction env ps (.Cast id isBitCast dstT op) = some (r, false)
        ∧ ∀ w, r.TheState.classOf w = ps.TheState.classOf w) := by
  have hPI : ∀ r, processCast env ps (Instruction.Cast id isBitCast dstT op).asValue
      isBitCast dstT op = some r →
      processInstruction env ps (.Cast id isBitCast dstT op) = some (r, false) := by
    intro r hr
    unfold processInstruction
    simp only [hr, Option.map_some']
  refine ⟨?_, ?_, ?_, ?_⟩
  · intro lid lty ptr hop
    have hp : processCast.promote env ps (Instruction.Cast id isBitCast dstT op).asValue
        isBitCast op (ps.TheState.GetPointerVariableInfoPtr env.uninit op)
        = some (ps.setState (ps.TheState.ClassifyPointerVariable ptr .Dyn)) := by
      rw [hop]; rfl
    obtain ⟨r, hr, hcl⟩ := processCast_promoting env ps _ isBitCast dstT op hsrc hchg _ hp
    refine ⟨r, hPI r hr, ?_, ?_, ?_⟩
    · rw [hcl]; exact classOf_ClassifyPointerVariable_Dyn _ _
    · rw [hcl]
      exact classOf_ClassifyPointerVariable_other _ _ _ _
        (by rw [hop]; exact LoadInst_ne_operand lid lty ptr)
    · intro w hw
      rw [hcl]
      exact classOf_ClassifyPointerVariable_other _ _ _ _ hw
  · intro cid cty callee hop htr
    subst hop
    obtain ⟨ps0, hp, hsame⟩ := processCast_promote_call env ps
      (Instruction.Cast id isBitCast dstT (.CallInst cid cty callee)).asValue isBitCast
      cid cty callee htr
    obtain ⟨r, hr, hcl⟩ := processCast_promoting env ps _ isBitCast dstT _ hsrc hchg _ hp
    refine ⟨r, hPI r hr, ?_, ?_, ?_⟩
    · rw [hcl]
      exact classOf_ClassifyPointerVariable_keeps_Dyn _ _ _ _
        (classOf_ClassifyPointerVariable_Dyn _ _)
    · rw [hcl]
      exact classOf_ClassifyPointerVariable_Dyn _ _
    · intro w hw1 hw2
      rw [hcl]
      simp only [PassState.setState_TheState]
      rw [classOf_ClassifyPointerVariable_other _ _ _ _ hw2,
        classOf_ClassifyPointerVariable_other _ _ _ _ hw1, hsame]
  · intro cid cty callee hop hb hun
    subst hop
    subst hb
    have hcond : (decide (countIndirections (Value.CallInst cid cty callee).getType
          ≠ countIndirections dstT)
        || ((unwrapPointer (Value.CallInst cid cty callee).getType).isIntegerTy
          != (unwrapPointer dstT).isIntegerTy)) = true := by
      rcases hchg with h | h
      · simp [h]
      · simp [h]
    have hv : ps.TheState.GetPointerVariableInfoPtr env.uninit (.CallInst cid cty callee)
        = none := by
      unfold AnalysisState.GetPointerVariableInfoPtr AnalysisState.count
      rw [hun]
      rfl
    unfold processInstruction processCast
    simp only [hsrc, if_true, hcond, hv, processCast.promote, Option.map_none']
  · intro hl hc
    have hp : processCast.promote env ps (Instruction.Cast id isBitCast dstT op).asValue
        isBitCast op (ps.TheState.GetPointerVariableInfoPtr env.uninit op) = some ps := by
      unfold processCast.promote
      split
      · exact absurd rfl (hl _ _ _)
      · exact absurd rfl (hc _ _ _)
      · rfl
    obtain ⟨r, hr, hcl⟩ := processCast_promoting env ps _ isBitCast dstT op hsrc hchg _ hp
    exact ⟨r, hPI r hr, hcl⟩

/-- C26 (amended) on the cast `(foo_t*) p` of the loaded pointer `p` of `main`:
afterwards the slot `p` was loaded from is `Dyn` and `p` is still `Safe`; and on
`ptrtoint` of a call result that has no record: afterwards the call result and
the cast are `Dyn`. -/
theorem C26_cast_promotion_witness :
    (∃ r, processInstruction (Demo.env 4) (Demo.ps 8 5 20 .Safe)
        (.Cast (.input 50) true Demo.fooP Demo.p) = some (r, false)
      ∧ r.TheState.classOf Demo.slot = .Dyn
      ∧ r.TheState.classOf Demo.p = .Safe)
    ∧ ((Demo.ps 8 5 20 .Safe).TheState.Variables (.CallInst (.input 52) Demo.i32p none)).isSome
        = false
    ∧ ∃ r, processInstruction (Demo.env 4) (Demo.ps 8 5 20 .Safe)
        (.Cast (.input 51) false (.IntegerTy 64) (.CallInst (.input 52) Demo.i32p none))
          = some (r, false)
      ∧ r.TheState.classOf (.CallInst (.input 52) Demo.i32p none) = .Dyn
      ∧ r.TheState.classOf
          (.CastInst (.input 51) (.IntegerTy 64) (.CallInst (.input 52) Demo.i32p none)) = .Dyn := by
  refine ⟨?_, by rfl, ?_⟩
  · obtain ⟨r, h1, h2, h3, -⟩ := (C26_cast_promotion (Demo.env 4) (Demo.ps 8 5 20 .Safe)
      (.input 50) true Demo.fooP Demo.p (by rfl) (Or.inr (by decide))).1
      (.input 1) Demo.i32p Demo.slot rfl
    exact ⟨r, h1, h2, by rw [h3]; rfl⟩
  · obtain ⟨r, h1, h2, h3, -⟩ := (C26_cast_promotion (Demo.env 4) (Demo.ps 8 5 20 .Safe)
      (.input 51) false (.IntegerTy 64) (.CallInst (.input 52) Demo.i32p none) (by rfl)
      (Or.inl (by decide))).2.1 (.input 52) Demo.i32p none rfl (Or.inl rfl)
    exact ⟨r, h1, h2, h3⟩

/-! ## The store case of the walker and the metadata table -/

theorem CreateCastToInt_setState (ps : PassState) (s : AnalysisState) (bits : Nat)
    (V : Value) :
    (ps.setState s).CreateCastToInt bits V
      = ((ps.CreateCastToInt bits V).1.setState s, (ps.CreateCastToInt bits V).2) := by
  unfold PassState.CreateCastToInt
  split
  · rfl
  · split
    · rfl
    · cases ps with
      | mk M T w wi trap wl added rem pe pc sm lm unk st pt nid work =>
        cases pt <;> rfl

/-- The lookup of the store and load cases finds a record for a value that is
tracked or a constant, and changes nothing but the store. -/
theorem lookupOrSizeConstant_found (env : Env) (ps : PassState) (v : Value)
    (hval : (ps.TheState.Variables v).isSome = true ∨ v.isConstant = true) :
    ∃ (s1 : AnalysisState) (vi : InfoPtr),
      lookupOrSizeConstant env ps v = (ps.setState s1, some vi)
      ∧ ((v.isConstantPointerNull = true ∧ s1 = ps.TheState
            ∧ vi = .heap { env.uninit with size := ConstantInt.get ps.TheState.sizetype 0 })
          ∨ (v.isConstantPointerNull = false ∧ vi = .stored v
            ∧ (s1.Variables v).isSome = true)) := by
  unfold lookupOrSizeConstant AnalysisState.GetPointerVariableInfoPtr AnalysisState.count
  by_cases hn : v.isConstantPointerNull = true
  · simp only [hn, if_true]
    exact ⟨ps.TheState, _, rfl, Or.inl ⟨trivial, rfl, rfl⟩⟩
  · by_cases ht : (ps.TheState.Variables v).isSome = true
    · simp only [hn, ht, if_true, if_false]
      exact ⟨ps.TheState, _, rfl, Or.inr ⟨by simp [hn], rfl, ht⟩⟩
    · have hc : v.isConstant = true := by
        rcases hval with h | h
        · exact absurd h ht
        · exact h
      simp only [hn, ht, hc, if_true, if_false, getSizeForValue_fst]
      refine ⟨_, _, rfl, Or.inr ⟨by simp [hn], rfl, ?_⟩⟩
      rw [AnalysisState.SetSizeForPointerVariable_same]
      rfl

theorem SetHasMetadataTableEntry_sizetype (s : AnalysisState) (v : Value) :
    (s.SetHasMetadataTableEntry v).sizetype = s.sizetype := by
  unfold AnalysisState.SetHasMetadataTableEntry
  simp

theorem record_SetHasMetadataTableEntry_size (s : AnalysisState) (v w : Value) :
    ((s.SetHasMetadataTableEntry v).record w).size = (s.record w).size := by
  by_cases h : w = v
  · subst h
    rw [AnalysisState.record_of_some _ _ _ (SetHasMetadataTableEntry_same s w)]
  · unfold AnalysisState.record
    rw [SetHasMetadataTableEntry_other s v w h]
    unfold AnalysisState.freshInfo
    rw [SetHasMetadataTableEntry_sizetype]

theorem processStore_updates_table (env : Env) (ps : PassState) (II val dst fn : Value)
    (hwli : ps.isCurrentFunctionWhitelistedForInstrumentation = false)
    (hptr : val.getType.isPointerTy = true)
    (hdst : dst.isAllocaInst = false)
    (hsame : dst.isInstruction = true →
      ps.CurrentModule.getParent II = ps.CurrentModule.getParent dst)
    (hfn : ps.setMetadataFunction = some fn)
    (s1 : AnalysisState) (vi : InfoPtr)
    (hl : lookupOrSizeConstant env ps val = (ps.setState s1, some vi)) :
    processStore env ps II val dst = some
      ((((((ps.setState ((s1.ClassifyPointerVariable dst (s1.deref vi).classification
            ).SetSizeForPointerVariable dst
              (some ((s1.ClassifyPointerVariable dst (s1.deref vi).classification
                ).deref vi).size))).CreateCastToInt 64 dst).1.fresh.1.Insert
          (PassState.callTo (ps.CreateCastToInt 64 dst).1.fresh.2 fn
            [(ps.CreateCastToInt 64 dst).2,
              (((s1.ClassifyPointerVariable dst (s1.deref vi).classification
                ).SetSizeForPointerVariable dst
                  (some ((s1.ClassifyPointerVariable dst (s1.deref vi).classification
                    ).deref vi).size)).deref vi).size,
              ConstantInt.get 64 (env.addressOf II)])).count
            Statistics.incMetadataTableUpdates).setState
        ((((s1.ClassifyPointerVariable dst (s1.deref vi).classification
            ).SetSizeForPointerVariable dst
              (some ((s1.ClassifyPointerVariable dst (s1.deref vi).classification
                ).deref vi).size))).SetHasMetadataTableEntry dst))) := by
  have hcond : (dst.isInstruction
      && decide (ps.CurrentModule.getParent II ≠ ps.CurrentModule.getParent dst)) = false := by
    cases hi : dst.isInstruction with
    | false => rfl
    | true => simp [hsame hi]
  unfold processStore
  simp only [hptr, if_true, hl]
  have e1 : (ps.setState s1).CurrentModule = ps.CurrentModule := rfl
  have e2 : (ps.setState s1).TheState = s1 := rfl
  rw [e1, e2, hcond]
  simp only [Bool.false_eq_true, if_false, hdst, Bool.not_false, if_true]
  unfold NesCheckPass.setMetadataTableEntry
  have e3 : ∀ s2, ((ps.setState s1).setState s2) = ps.setState s2 := fun _ => rfl
  simp only [e3, CreateCastToInt_setState]
  simp only [PassState.setState_isCurrentFunctionWhitelistedForInstrumentation, hwli,
    Bool.false_eq_true, if_false, PassState.setState_setMetadataFunction,
    PassState.CreateCastToInt_setMetadataFunction, hfn, PassState.CreateCall,
    PassState.count_TheState, PassState.Insert_TheState, PassState.fresh_TheState,
    PassState.setState_TheState]
  rfl

theorem Insert_before (ps : PassState) (I : Instruction) (anchor : Value)
    (h : ps.InsertPt = .before anchor) :
    (ps.Insert I).CurrentModule = ps.CurrentModule.insertBefore anchor I := by
  unfold PassState.Insert
  rw [h]
  rfl

theorem CreateCastToInt_hasIn (ps : PassState) (bits : Nat) (V anchor : Value)
    (hpt : ps.InsertPt = .before anchor) (G : String) (P : Instruction → Prop)
    (h : ps.CurrentModule.hasIn G P) :
    (ps.CreateCastToInt bits V).1.CurrentModule.hasIn G P := by
  unfold PassState.CreateCastToInt
  split
  · exact h
  · split
    · exact h
    · rw [Insert_before _ _ anchor (by simpa using hpt)]
      exact Module.hasIn_insertBefore _ _ _ _ _ h

/-- C25, as stated, fails on the store `*q = &x` of
`entry: %q = load i32**, i32*** %qq; br i1 %c, then, end`,
`then: store i32* %x, i32** %q`: the stored value is a pointer, the destination
is a load, no stack allocation, of another basic block than the store, the
function `h` is not whitelisted; the store case takes its branch for another
basic block, which writes an explicit size variable, and after the pass no call
of `setMetadataTableEntry` is in the module, no table update is counted and the
record of the destination is not marked. -/
theorem C25_store_updates_table_counterexample :
    Demo.storeThroughQ = .Store (.input 811) (Demo.slotOf 802 Demo.i32) Demo.q
    ∧ (Demo.slotOf 802 Demo.i32).getType.isPointerTy = true
    ∧ Demo.q.isAllocaInst = false
    ∧ isWhitelistedForInstrumentation (initialState Demo.hModule).WhitelistedFunctions "h" = false
    ∧ (runOnModule Demo.paperEnv Demo.hModule).map (fun r =>
        (r.1.stats.MetadataTableUpdates,
          (r.1.TheState.record Demo.q).hasMetadataTableEntry,
          (r.1.TheState.record Demo.q).hasExplicitSizeVariable,
          r.1.CurrentModule.instructions.any
            (fun I => I.namesOneOf ["setMetadataTableEntry"]),
          (r.1.CurrentModule.getFunction "h").map (fun F =>
            F.blocks.map (fun b => (b.id, decide (Demo.storeThroughQ ∈ b.insts))))))
      = some (0, false, true, false,
          some [(.input 800, false), (.input 810, true), (.input 820, false)]) := by
  refine ⟨rfl, by rfl, by rfl, by decide, by rfl⟩

/-- C25 (amended). For every store instruction the walker processes in a function
that is not whitelisted for instrumentation, if the stored value is pointer-typed
and is tracked or a constant, and the destination is no stack allocation and no
instruction of another basic block than the store, and the module declares
`setMetadataTableEntry`: the walker processes the store, a call of
`setMetadataTableEntry` for the destination (cast to the 64-bit integer type when
it is not of that type), with the recorded size of the stored value (the zero
constant for the null pointer) and the address of the store, is created at the
insertion point, so in front of the store when the builder is set there, one
table update is counted, and the record of the destination is marked
`hasMetadataTableEntry`. -/
theorem C25_store_updates_table (env : Env) (ps : PassState) (id : Ident)
    (val dst fn : Value)
    (hwli : ps.isCurrentFunctionWhitelistedForInstrumentation = false)
    (hptr : val.getType.isPointerTy = true)
    (hval : (ps.TheState.Variables val).isSome = true ∨ val.isConstant = true)
    (hdst : dst.isAllocaInst = false)
    (hsame : dst.isInstruction = true →
      ps.CurrentModule.getParent (Instruction.Store id val dst).asValue
        = ps.CurrentModule.getParent dst)
    (hfn : ps.setMetadataFunction = some fn) :
    ∃ (r : PassState) (Size : Value),
      processInstruction env ps (.Store id val dst) = some (r, false)
      ∧ r.stats.MetadataTableUpdates = ps.stats.MetadataTableUpdates + 1
      ∧ (r.TheState.Variables dst).map (·.hasMetadataTableEntry) = some true
      ∧ (val.isConstantPointerNull = false → Size = (r.TheState.record val).size)
      ∧ (val.isConstantPointerNull = true → Size = ConstantInt.get ps.TheState.sizetype 0)
      ∧ r.CurrentModule = ((ps.CreateCastToInt 64 dst).1.fresh.1.Insert
          (PassState.callTo (ps.CreateCastToInt 64 dst).1.fresh.2 fn
            [(ps.CreateCastToInt 64 dst).2, Size,
              ConstantInt.get 64 (env.addressOf (Instruction.Store id val dst).asValue)])
          ).CurrentModule
      ∧ ∀ G, ps.InsertPt = .before (Instruction.Store id val dst).asValue →
          ps.CurrentModule.hasIn G (fun J => J = .Store id val dst) →
          r.CurrentModule.hasIn G (fun J => J =
            PassState.callTo (ps.CreateCastToInt 64 dst).1.fresh.2 fn
              [(ps.CreateCastToInt 64 dst).2, Size,
                ConstantInt.get 64 (env.addressOf (Instruction.Store id val dst).asValue)]) := by
  obtain ⟨s1, vi, hl, hcase⟩ := lookupOrSizeConstant_found env ps val hval
  have hps := processStore_updates_table env ps (Instruction.Store id val dst).asValue val dst
    fn hwli hptr hdst hsame hfn s1 vi hl
  generalize hs2 : (s1.ClassifyPointerVariable dst (s1.deref vi).classification
      ).SetSizeForPointerVariable dst
        (some ((s1.ClassifyPointerVariable dst (s1.deref vi).classification).deref vi).size)
      = s2 at hps
  have hmod : ∀ (X : PassState) (I : Instruction),
      (((X.setState s2).fresh.1.Insert I).count Statistics.incMetadataTableUpdates
        |>.setState (s2.SetHasMetadataTableEntry dst)).CurrentModule
      = (X.fresh.1.Insert I).CurrentModule := by
    intro X I
    cases X with
    | mk M T w wi trap wl added rem pe pc sm lm unk st pt nid work =>
      cases pt <;> rfl
  refine ⟨((((ps.setState s2).CreateCastToInt 64 dst).1.fresh.1.Insert
      (PassState.callTo (ps.CreateCastToInt 64 dst).1.fresh.2 fn
        [(ps.CreateCastToInt 64 dst).2, (s2.deref vi).size,
          ConstantInt.get 64 (env.addressOf (Instruction.Store id val dst).asValue)])).count
      Statistics.incMetadataTableUpdates).setState (s2.SetHasMetadataTableEntry dst),
    (s2.deref vi).size, ?_, ?_, ?_, ?_, ?_, ?_, ?_⟩
  · unfold processInstruction
    simp only [hps, Option.map_some']
  · simp only [PassState.setState_stats, PassState.count_stats, PassState.Insert_stats,
      PassState.fresh_stats, PassState.CreateCastToInt_stats]
    rfl
  · simp only [PassState.setState_TheState, SetHasMetadataTableEntry_same, Option.map_some']
  · intro hn
    rcases hcase with ⟨h1, -⟩ | ⟨-, h2, -⟩
    · rw [h1] at hn; cases hn
    · simp only [PassState.setState_TheState, record_SetHasMetadataTableEntry_size, h2,
        AnalysisState.deref]
  · intro hn
    rcases hcase with ⟨-, -, h3⟩ | ⟨h1, -⟩
    · rw [h3]; rfl
    · rw [h1] at hn; cases hn
  · rw [CreateCastToInt_setState, hmod]
  · intro G hpt hG
    rw [CreateCastToInt_setState, hmod,
      Insert_before _ _ (Instruction.Store id val dst).asValue (by simpa using hpt)]
    exact Module.hasIn_insertBefore_new _ _ (.Store id val dst) G _ rfl
      (CreateCastToInt_hasIn ps 64 dst _ hpt G _ hG)

/-- C25 (amended) on the store `blurb->bar = p` of `testMT_aux`: the destination
is the `getelementptr` of the same block, the walker processes the store, the call
of `setMetadataTableEntry` with the size recorded for `p` is in the function,
one table update is counted and the record of `blurb->bar` is marked. -/
theorem C25_store_updates_table_witness :
    ∃ (ps r : PassState) (fn Size : Value),
      Demo.beforeStore = some ps
      ∧ ps.setMetadataFunction = some fn
      ∧ processInstruction Demo.paperEnv ps Demo.storeBar = some (r, false)
      ∧ r.stats.MetadataTableUpdates = ps.stats.MetadataTableUpdates + 1
      ∧ (r.TheState.Variables Demo.blurbBar).map (·.hasMetadataTableEntry) = some true
      ∧ Size = (r.TheState.record (Demo.loaded 4 Demo.i32p (Demo.slotOf 0 Demo.i32p))).size
      ∧ r.CurrentModule.hasIn "testMT_aux_nesCheck" (fun J => J =
          PassState.callTo (ps.CreateCastToInt 64 Demo.blurbBar).1.fresh.2 fn
            [(ps.CreateCastToInt 64 Demo.blurbBar).2, Size,
              ConstantInt.get 64 (Demo.paperEnv.addressOf Demo.storeBar.asValue)]) := by
  obtain ⟨ps, hps⟩ := Option.isSome_iff_exists.mp
    (show Demo.beforeStore.isSome = true by rfl)
  have e1 : Demo.beforeStore.map (fun ps =>
      ps.isCurrentFunctionWhitelistedForInstrumentation) = some false := by rfl
  have e2 : Demo.beforeStore.map (fun ps =>
      (ps.TheState.Variables (Demo.loaded 4 Demo.i32p (Demo.slotOf 0 Demo.i32p))).isSome)
      = some true := by rfl
  have e3 : Demo.beforeStore.map (fun ps =>
      decide (ps.CurrentModule.getParent Demo.storeBar.asValue
        = ps.CurrentModule.getParent Demo.blurbBar)) = some true := by rfl
  have e4 : Demo.beforeStore.map (fun ps => ps.setMetadataFunction.isSome) = some true := by
    rfl
  have e5 : Demo.beforeStore.map (fun ps => ps.InsertPt)
      = some (.before Demo.storeBar.asValue) := by rfl
  have e6 : Demo.beforeStore.map (fun ps =>
      (ps.CurrentModule.getFunction "testMT_aux_nesCheck").map
        (fun F => decide (Demo.storeBar ∈ F.instructions))) = some (some true) := by rfl
  rw [hps] at e1 e2 e3 e4 e5 e6
  simp only [Option.map_some', Option.some.injEq, decide_eq_true_eq] at e1 e2 e3 e4 e5 e6
  obtain ⟨fn, hfn⟩ := Option.isSome_iff_exists.mp e4
  obtain ⟨F, hF, hmem⟩ := Option.map_eq_some'.mp e6
  have hin : ps.CurrentModule.hasIn "testMT_aux_nesCheck" (fun J => J = Demo.storeBar) :=
    ⟨F, (Module.getFunction_eq_some hF).1, (Module.getFunction_eq_some hF).2, _,
      by simpa using hmem, rfl⟩
  obtain ⟨r, Size, h1, h2, h3, h4, -, -, h7⟩ :=
    C25_store_updates_table Demo.paperEnv ps (.input 7)
      (Demo.loaded 4 Demo.i32p (Demo.slotOf 0 Demo.i32p)) Demo.blurbBar fn
      e1 rfl (Or.inl e2) rfl (fun _ => e3) hfn
  exact ⟨ps, r, fn, Size, hps, hfn, h1, h2, h3, h4 rfl, h7 "testMT_aux_nesCheck" e5 hin⟩

/-! ## Call sites and rewritten signatures -/

theorem LTypes.toList_ofList (l : List LType) : (LTypes.ofList l).toList = l := by
  induction l with
  | nil => rfl
  | cons t ts ih => simp [LTypes.ofList, LTypes.toList, ih]

theorem Function.getNumParams_asValue (F : Function) :
    F.asValue.getFunctionType.getNumParams = F.Params.length := by
  simp [Function.asValue, Value.getFunctionType, LType.getElementType,
    Function.getFunctionType, LType.getNumParams, LTypes.toList_ofList]

/-- Every count below the number of elements that satisfy `p` is the count in
front of one of them. -/
theorem countP_take_surj {α : Type} (p : α → Bool) (l : List α) (k : Nat)
    (hk : k < l.countP p) :
    ∃ i a, l.get? i = some a ∧ p a = true ∧ (l.take i).countP p = k := by
  induction l generalizing k with
  | nil => simp at hk
  | cons x l ih =>
    by_cases hx : p x = true
    · cases k with
      | zero => exact ⟨0, x, rfl, hx, by simp⟩
      | succ k =>
        have hk1 : k < l.countP p := by
          simp only [List.countP_cons, hx, if_true] at hk
          omega
        obtain ⟨i, a, hi, ha, hc⟩ := ih k hk1
        exact ⟨i + 1, a, by simpa using hi, ha, by
          simp [List.take_succ_cons, List.countP_cons, hx, hc]⟩
    · have hk1 : k < l.countP p := by
        simpa [List.countP_cons, hx] using hk
      obtain ⟨i, a, hi, ha, hc⟩ := ih k hk1
      exact ⟨i + 1, a, by simpa using hi, ha, by
        simp [List.take_succ_cons, List.countP_cons, hx, hc]⟩

/-! ## Size propagation from `malloc` to an indexed use -/

theorem ClassifyPointerVariable_sizetype (s : AnalysisState) (v : Value) (c : VariableStates) :
    (s.ClassifyPointerVariable v c).sizetype = s.sizetype := by
  unfold AnalysisState.ClassifyPointerVariable
  simp only []
  split <;> simp

theorem record_congr (s t : AnalysisState) (w : Value) (hv : t.Variables w = s.Variables w)
    (hs : t.sizetype = s.sizetype) : t.record w = s.record w := by
  unfold AnalysisState.record AnalysisState.freshInfo
  rw [hv, hs]

theorem record_SetSizeForPointerVariable_same (s : AnalysisState) (v sz : Value) :
    (s.SetSizeForPointerVariable v (some sz)).record v = { s.record v with size := sz } := by
  rw [AnalysisState.record_of_some _ _ _ (AnalysisState.SetSizeForPointerVariable_same s v _)]
  rfl

theorem record_SetSizeForPointerVariable_other (s : AnalysisState) (v w : Value)
    (size : Option Value) (h : w ≠ v) :
    (s.SetSizeForPointerVariable v size).record w = s.record w :=
  record_congr _ _ _ (AnalysisState.SetSizeForPointerVariable_other s v w size h)
    (AnalysisState.SetSizeForPointerVariable_sizetype s v size)

theorem record_ClassifyPointerVariable_other (s : AnalysisState) (v w : Value)
    (c : VariableStates) (h : w ≠ v) : (s.ClassifyPointerVariable v c).record w = s.record w :=
  record_congr _ _ _ (AnalysisState.ClassifyPointerVariable_other s v w c h)
    (ClassifyPointerVariable_sizetype s v c)

/-- Classifying a value with a class that is not above its class leaves its
record as it is. -/
theorem record_ClassifyPointerVariable_le (s : AnalysisState) (v : Value) (c : VariableStates)
    (h : ¬ (s.record v).classification.toInt < c.toInt) :
    (s.ClassifyPointerVariable v c).record v = s.record v := by
  rw [AnalysisState.record_of_some _ _ _ (AnalysisState.ClassifyPointerVariable_same s v c),
    if_neg h]

theorem record_ClassifyPointerVariable_lt (s : AnalysisState) (v : Value) (c : VariableStates)
    (h : (s.record v).classification.toInt < c.toInt) :
    (s.ClassifyPointerVariable v c).record v = { s.record v with classification := c } := by
  rw [AnalysisState.record_of_some _ _ _ (AnalysisState.ClassifyPointerVariable_same s v c),
    if_pos h]

theorem record_classification (s : AnalysisState) (v : Value) :
    (s.record v).classification = s.classOf v :=
  (AnalysisState.classOf_eq_record s v).symm

theorem GetPointerVariableInfoPtr_tracked (s : AnalysisState) (u : VariableInfo) (v : Value)
    (hn : v.isConstantPointerNull = false) (ht : (s.Variables v).isSome = true) :
    s.GetPointerVariableInfoPtr u v = some (.stored v) := by
  unfold AnalysisState.GetPointerVariableInfoPtr AnalysisState.count
  simp [hn, ht]

theorem lookupOrSizeConstant_tracked (env : Env) (ps : PassState) (v : Value)
    (hn : v.isConstantPointerNull = false) (ht : (ps.TheState.Variables v).isSome = true) :
    lookupOrSizeConstant env ps v = (ps, some (.stored v)) := by
  unfold lookupOrSizeConstant
  rw [GetPointerVariableInfoPtr_tracked _ _ _ hn ht]

/-- The call case on `malloc(a)`, for a `malloc` that stays in the module: the
argument is recorded as the size of the result. -/
theorem processInstruction_malloc (env : Env) (ps : PassState) (id : Ident) (ty : LType)
    (cv a : Value) (Args : List Value) (t : Bool) (cc : Nat)
    (hname : cv.asFunctionName = some "malloc")
    (harity : cv.getFunctionType.getNumParams = 1)
    (hkeep : ps.FunctionsToRemove.contains "malloc" = false) :
    processInstruction env ps (.Call id ty cv (a :: Args) t cc)
      = some (ps.setState (ps.TheState.SetSizeForPointerVariable
          (.CallInst id ty (some "malloc")) (some a)), false) := by
  unfold processInstruction processCall processCall.size
  simp only [hname, harity, decide_True, Bool.and_self, if_true, List.get?_cons_zero,
    Option.map_some', Instruction.asValue]
  have hk : calleeToRemove (ps.setState (ps.TheState.SetSizeForPointerVariable
      (.CallInst id ty (some "malloc")) (some a))) cv = false := by
    unfold calleeToRemove
    rw [hname]
    exact hkeep
  simp only [hk, Bool.false_eq_true, if_false, Option.map_some']

/-- The cast case on a cast of a tracked pointer that keeps the depth of
indirection and the integer-ness of the innermost type: the size of the operand
is recorded for the result. -/
theorem processInstruction_cast_keeping (env : Env) (ps : PassState) (id : Ident)
    (isBitCast : Bool) (dstT : LType) (op : Value)
    (hsrc : op.getType.isPointerTy = true)
    (hdepth : countIndirections op.getType = countIndirections dstT)
    (hint : (unwrapPointer op.getType).isIntegerTy = (unwrapPointer dstT).isIntegerTy)
    (hn : op.isConstantPointerNull = false)
    (ht : (ps.TheState.Variables op).isSome = true) :
    processInstruction env ps (.Cast id isBitCast dstT op)
      = some (ps.setState (ps.TheState.SetSizeForPointerVariable
          (Instruction.Cast id isBitCast dstT op).asValue
          (some (ps.TheState.record op).size)), false) := by
  unfold processInstruction processCast
  simp only [hsrc, if_true, hdepth, hint, ne_eq, not_true_eq_false, decide_False, bne_self_eq_false,
    Bool.or_self, Bool.false_eq_true, if_false,
    GetPointerVariableInfoPtr_tracked _ _ _ hn ht, Option.map_some', AnalysisState.deref]

/-- The store case on a store of a tracked pointer to a stack slot of the same
block: the slot takes the class and the size of the stored pointer. -/
theorem processInstruction_store_slot (env : Env) (ps : PassState) (id ida : Ident)
    (aty : LType) (val : Value)
    (hptr : val.getType.isPointerTy = true)
    (hn : val.isConstantPointerNull = false)
    (ht : (ps.TheState.Variables val).isSome = true)
    (hsame : ps.CurrentModule.getParent (Instruction.Store id val (.AllocaInst ida aty)).asValue
      = ps.CurrentModule.getParent (.AllocaInst ida aty)) :
    processInstruction env ps (.Store id val (.AllocaInst ida aty))
      = some (ps.setState
          ((ps.TheState.ClassifyPointerVariable (.AllocaInst ida aty)
              (ps.TheState.record val).classification).SetSizeForPointerVariable
            (.AllocaInst ida aty)
            (some ((ps.TheState.ClassifyPointerVariable (.AllocaInst ida aty)
              (ps.TheState.record val).classification).record val).size)), false) := by
  unfold processInstruction processStore
  simp only [hptr, if_true, lookupOrSizeConstant_tracked env ps val hn ht, hsame,
    ne_eq, not_true_eq_false, decide_False, Bool.and_false, Bool.false_eq_true, if_false,
    Value.isAllocaInst, Bool.not_true, Option.map_some', AnalysisState.deref]

/-- The load case on a load of a pointer from a tracked slot that has no explicit
size variable: the result takes the class and the size of the slot. -/
theorem processInstruction_load_slot (env : Env) (ps : PassState) (id : Ident) (ty : LType)
    (slot : Value) (hty : ty.isPointerTy = true)
    (hn : slot.isConstantPointerNull = false)
    (ht : (ps.TheState.Variables slot).isSome = true)
    (hexp : (ps.TheState.record slot).hasExplicitSizeVariable = false) :
    processInstruction env ps (.Load id ty slot)
      = some (ps.setState
          ((ps.TheState.ClassifyPointerVariable (.LoadInst id ty slot)
              (ps.TheState.record slot).classification).SetSizeForPointerVariable
            (.LoadInst id ty slot)
            (some ((ps.TheState.ClassifyPointerVariable (.LoadInst id ty slot)
              (ps.TheState.record slot).classification).record slot).size)), false) := by
  unfold processInstruction processLoad
  simp only [hty, if_true, lookupOrSizeConstant_tracked env ps slot hn ht,
    AnalysisState.deref, hexp, Bool.false_and, Bool.false_eq_true, if_false,
    Option.map_some', Instruction.asValue]

theorem GetElementPtrInst.base_ne_asValue (g : GetElementPtrInst) :
    g.PointerOperand ≠ g.asValue := by
  intro h
  have := congrArg sizeOf h
  simp [GetElementPtrInst.asValue] at this

theorem Variables_eq_some_record (s : AnalysisState) (v : Value)
    (h : (s.Variables v).isSome = true) : s.Variables v = some (s.record v) := by
  unfold AnalysisState.record
  cases hv : s.Variables v with
  | none => rw [hv] at h; cases h
  | some i => rfl

/-- With a constant size and a constant offset, for a base that is not `Safe` in
a function that is not whitelisted: the check is emitted without a condition
when the comparison is true and elided when it is false. -/
theorem instrumentGEP_const_eq (env : Env) (ps : PassState) (g : GetElementPtrInst)
    (info : VariableInfo) (bits S off : Nat)
    (hwl : ps.isCurrentFunctionWhitelisted = false)
    (hwli : ps.isCurrentFunctionWhitelistedForInstrumentation = false)
    (hidx : g.hasIndices = true)
    (hinfo : ps.TheState.GetPointerVariableInfo env.uninit g.PointerOperand = some info)
    (hsize : info.size = .ConstantInt bits S)
    (hns : info.classification ≠ .Safe)
    (hoff : (getOffsetForGEPInst env ps g).2 = .ConstantInt 64 off) :
    instrumentGEP env ps g =
      if icmpSLT 64 (wrapSub 64 S (env.getTypeStoreSize g.getResultElementType)) off = true
      then instrumentGEP.emit env
        ((ps.count Statistics.incChecksConsidered).count Statistics.incChecksAlwaysTrue) none
      else some ((ps.count Statistics.incChecksConsidered).count
        Statistics.incChecksAlwaysFalse, false) := by
  have hoff1 : (getOffsetForGEPInst env (ps.count Statistics.incChecksConsidered) g).2
      = .ConstantInt 64 off := by
    rw [getOffsetForGEPInst_const env ps g 64 off hoff]
  have hunf : instrumentGEP env ps g =
      instrumentGEP.compare env (ps.count Statistics.incChecksConsidered) g info := by
    unfold instrumentGEP
    simp [hwl, hwli, hidx, hinfo, hns]
  rw [hunf, instrumentGEP_compare_const env _ g info bits S off hsize hoff1]

/-- The state in which the `getelementptr` case calls `instrumentGEP`, for a
tracked base of class `Safe` and an index that is not zero: the base is `Seq`
there, with the record it had otherwise, and the counters of the checks are
untouched. -/
theorem processGEP_reaches_check (env : Env) (ps : PassState) (g : GetElementPtrInst)
    (bits S off : Nat)
    (hwli : ps.isCurrentFunctionWhitelistedForInstrumentation = false)
    (hnz : g.hasAllZeroIndices = false)
    (hn : g.PointerOperand.isConstantPointerNull = false)
    (ht : (ps.TheState.Variables g.PointerOperand).isSome = true)
    (hsafe : ps.TheState.classOf g.PointerOperand = .Safe)
    (hsize : (ps.TheState.record g.PointerOperand).size = .ConstantInt bits S)
    (hoff : (getOffsetForGEPInst env ps g).2 = .ConstantInt 64 off)
    (hlookup : g.getResultElementType.isPointerTy = true → ps.lookupMetadataFunction ≠ none) :
    ∃ ps2 : PassState,
      processInstruction env ps (.GetElementPtr g) = instrumentGEP env ps2 g
      ∧ ps2.isCurrentFunctionWhitelisted = ps.isCurrentFunctionWhitelisted
      ∧ ps2.isCurrentFunctionWhitelistedForInstrumentation = false
      ∧ ps2.TheState.Variables g.PointerOperand
          = some { ps.TheState.record g.PointerOperand with classification := .Seq }
      ∧ ps2.stats.ChecksAlwaysFalse = ps.stats.ChecksAlwaysFalse
      ∧ ps2.stats.ChecksAlwaysTrue = ps.stats.ChecksAlwaysTrue
      ∧ ps2.stats.ChecksAdded = ps.stats.ChecksAdded := by
  have hne := GetElementPtrInst.base_ne_asValue g
  have hlt : (ps.TheState.record g.PointerOperand).classification.toInt
      < VariableStates.Seq.toInt := by
    rw [record_classification, hsafe]; decide
  have hR : ((ps.TheState.ClassifyPointerVariable g.PointerOperand .Seq).RegisterVariable
      g.asValue).Variables g.PointerOperand
      = some { ps.TheState.record g.PointerOperand with classification := .Seq } := by
    rw [AnalysisState.RegisterVariable_other _ _ _ hne,
      AnalysisState.ClassifyPointerVariable_same, if_pos hlt]
  unfold processInstruction processGEP
  simp only [hnz, Bool.not_false, if_true]
  by_cases hp : g.getResultElementType.isPointerTy = true
  · simp only [hp, if_true]
    obtain ⟨fn, hfn⟩ := Option.ne_none_iff_exists'.mp (hlookup hp)
    have hty : g.asValue.getType ≠ .IntegerTy 64 := by
      intro h64
      have h1 : g.ty = .IntegerTy 64 := h64
      unfold GetElementPtrInst.getResultElementType at hp
      rw [h1] at hp
      cases hp
    unfold NesCheckPass.lookupMetadataTableEntry
    simp only [PassState.setState_isCurrentFunctionWhitelistedForInstrumentation, hwli,
      Bool.false_eq_true, if_false, hty, decide_False, Bool.false_or,
      show g.asValue.isConstant = false from rfl,
      PassState.setState_lookupMetadataFunction, hfn, Option.map_some']
    refine ⟨_, rfl, rfl, hwli, ?_, rfl, rfl, rfl⟩
    simp only [PassState.setState_TheState, PassState.count_TheState,
      PassState.setModule_TheState, PassState.fresh_TheState]
    rw [SetHasMetadataTableEntry_other _ _ _ hne,
      AnalysisState.SetSizeForPointerVariable_other _ _ _ _ hne, hR]
  · simp only [hp, Bool.false_eq_true, if_false]
    unfold processGEP.size
    have hRt : (((ps.TheState.ClassifyPointerVariable g.PointerOperand .Seq).RegisterVariable
        g.asValue).Variables g.PointerOperand).isSome = true := by rw [hR]; rfl
    simp only [PassState.setState_TheState,
      GetPointerVariableInfoPtr_tracked _ _ _ hn hRt, hnz, Bool.not_false, if_true,
      getOffsetForGEPInst_const env ps g 64 off hoff]
    refine ⟨_, rfl, ?_, ?_, ?_, ?_, ?_, ?_⟩
    · simp
    · simpa using hwli
    · simp only [PassState.setState_TheState, PassState.CreateBinOp_TheState]
      rw [AnalysisState.SetSizeForPointerVariable_other _ _ _ _ hne, hR]
    · simp
    · simp
    · simp

theorem analyzeInstructions_step (env : Env) (n : Nat) (ps : PassState) (I : Instruction)
    (rest : List Instruction) (r : PassState × Bool)
    (hw : ps.instructionsToAnalyze = I :: rest)
    (h : processInstruction env (nextInstruction ps I rest) I = some r) :
    analyzeInstructions env (n + 1) ps = analyzeInstructions env n r.1 := by
  rw [analyzeInstructions]
  simp only [hw, h]

theorem isPointerTy_of_countIndirections (s t : LType) (hs : s.isPointerTy = true)
    (h : countIndirections s = countIndirections t) : t.isPointerTy = true := by
  cases s <;> cases t <;> simp_all [countIndirections, LType.isPointerTy]

theorem icmpSLT_mod_right (a b : Nat) : icmpSLT 64 a (b % 2 ^ 64) = icmpSLT 64 a b := by
  unfold icmpSLT toSigned
  rw [Nat.mod_mod]

theorem Cast_asValue_ne_alloca (id : Ident) (b : Bool) (ty : LType) (op : Value) (ida : Ident)
    (aty : LType) : (Instruction.Cast id b ty op).asValue ≠ .AllocaInst ida aty := by
  cases b <;> simp [Instruction.asValue]

theorem Cast_asValue_ne_load (id : Ident) (b : Bool) (ty : LType) (op : Value) (idl : Ident)
    (lty : LType) (ptr : Value) :
    (Instruction.Cast id b ty op).asValue ≠ .LoadInst idl lty ptr := by
  cases b <;> simp [Instruction.asValue]

theorem Cast_asValue_ne_call (id : Ident) (b : Bool) (ty : LType) (op : Value) (idc : Ident)
    (cty : LType) (nm : Option String) :
    (Instruction.Cast id b ty op).asValue ≠ .CallInst idc cty nm := by
  cases b <;> simp [Instruction.asValue]

theorem Cast_asValue_getType (id : Ident) (b : Bool) (ty : LType) (op : Value) :
    (Instruction.Cast id b ty op).asValue.getType = ty := by
  cases b <;> rfl

theorem Cast_asValue_not_null (id : Ident) (b : Bool) (ty : LType) (op : Value) :
    (Instruction.Cast id b ty op).asValue.isConstantPointerNull = false := by
  cases b <;> rfl

theorem classOf_ClassifyPointerVariable_Safe (s : AnalysisState) (v w : Value)
    (c : VariableStates) (hc : c = .Safe) (hw : s.classOf w = .Safe) :
    (s.ClassifyPointerVariable v c).classOf w = .Safe := by
  by_cases h : w = v
  · subst h
    have h1 := AnalysisState.classOf_ClassifyPointerVariable s w c
    rw [hw, hc] at h1
    rw [hc]
    revert h1
    cases (s.ClassifyPointerVariable w .Safe).classOf w <;> simp [VariableStates.toInt]
  · rw [classOf_ClassifyPointerVariable_other s v w c h, hw]

/-- The walk over `p = malloc(n)`, the cast of the result, its store into a
stack slot and a load of the slot: the state of the pass in front of the next
instruction. -/
theorem heap_array_prefix (env : Env) (ps : PassState) (idc idk ids idl ida : Ident)
    (cty dstT lty aty : LType) (cv nV : Value) (t : Bool) (cc : Nat) (isBitCast : Bool)
    (rest : List Instruction)
    (hwork : ps.instructionsToAnalyze =
      .Call idc cty cv [nV] t cc
      :: .Cast idk isBitCast dstT (.CallInst idc cty (some "malloc"))
      :: .Store ids (Instruction.Cast idk isBitCast dstT
            (.CallInst idc cty (some "malloc"))).asValue (.AllocaInst ida aty)
      :: .Load idl lty (.AllocaInst ida aty) :: rest)
    (hname : cv.asFunctionName = some "malloc")
    (harity : cv.getFunctionType.getNumParams = 1)
    (hkeep : ps.FunctionsToRemove.contains "malloc" = false)
    (hcty : cty.isPointerTy = true)
    (hdepth : countIndirections cty = countIndirections dstT)
    (hint : (unwrapPointer cty).isIntegerTy = (unwrapPointer dstT).isIntegerTy)
    (hsame : ps.CurrentModule.getParent (.OtherInst ids .VoidTy)
      = ps.CurrentModule.getParent (.AllocaInst ida aty))
    (hlty : lty.isPointerTy = true)
    (hcast : ps.TheState.classOf (Instruction.Cast idk isBitCast dstT
      (.CallInst idc cty (some "malloc"))).asValue = .Safe)
    (hslot : ps.TheState.classOf (.AllocaInst ida aty) = .Safe)
    (hload : ps.TheState.classOf (.LoadInst idl lty (.AllocaInst ida aty)) = .Safe)
    (hexp : (ps.TheState.record (.AllocaInst ida aty)).hasExplicitSizeVariable = false) :
    ∃ s4 : AnalysisState,
      analyzeInstructions env 4 ps = some
        { ps with
          TheState := s4
          instructionsToAnalyze := rest
          InsertPt := .before (.LoadInst idl lty (.AllocaInst ida aty)) }
      ∧ (s4.Variables (.LoadInst idl lty (.AllocaInst ida aty))).isSome = true
      ∧ s4.classOf (.LoadInst idl lty (.AllocaInst ida aty)) = .Safe
      ∧ (s4.record (.LoadInst idl lty (.AllocaInst ida aty))).size = nV := by
  -- the call of `malloc`
  have h1 := processInstruction_malloc env
    (nextInstruction ps (.Call idc cty cv [nV] t cc)
      (.Cast idk isBitCast dstT (.CallInst idc cty (some "malloc"))
        :: .Store ids (Instruction.Cast idk isBitCast dstT
              (.CallInst idc cty (some "malloc"))).asValue (.AllocaInst ida aty)
        :: .Load idl lty (.AllocaInst ida aty) :: rest))
    idc cty cv nV [] t cc hname harity hkeep
  rw [analyzeInstructions_step env 3 ps _ _ _ hwork h1]
  generalize hs1 : (nextInstruction ps (.Call idc cty cv [nV] t cc)
      (.Cast idk isBitCast dstT (.CallInst idc cty (some "malloc"))
        :: .Store ids (Instruction.Cast idk isBitCast dstT
              (.CallInst idc cty (some "malloc"))).asValue (.AllocaInst ida aty)
        :: .Load idl lty (.AllocaInst ida aty) :: rest)).TheState.SetSizeForPointerVariable
      (.CallInst idc cty (some "malloc")) (some nV) = s1
  have e0 : ps.TheState.SetSizeForPointerVariable (.CallInst idc cty (some "malloc")) (some nV)
      = s1 := hs1
  have t1 : (s1.Variables (.CallInst idc cty (some "malloc"))).isSome = true := by
    rw [← e0, AnalysisState.SetSizeForPointerVariable_same]; rfl
  have z1 : (s1.record (.CallInst idc cty (some "malloc"))).size = nV := by
    rw [← e0, record_SetSizeForPointerVariable_same]
  have c1 : ∀ w, s1.classOf w = ps.TheState.classOf w := by
    intro w; rw [← e0, classOf_SetSizeForPointerVariable]
  have x1 : (s1.record (.AllocaInst ida aty)).hasExplicitSizeVariable = false := by
    rw [← e0, record_SetSizeForPointerVariable_other _ _ _ _ (by simp)]; exact hexp
  clear e0 hs1 h1
  -- the cast
  have h2 := processInstruction_cast_keeping env
    (nextInstruction ((nextInstruction ps (.Call idc cty cv [nV] t cc)
      (.Cast idk isBitCast dstT (.CallInst idc cty (some "malloc"))
        :: .Store ids (Instruction.Cast idk isBitCast dstT
              (.CallInst idc cty (some "malloc"))).asValue (.AllocaInst ida aty)
        :: .Load idl lty (.AllocaInst ida aty) :: rest)).setState s1)
      (.Cast idk isBitCast dstT (.CallInst idc cty (some "malloc")))
      (.Store ids (Instruction.Cast idk isBitCast dstT
            (.CallInst idc cty (some "malloc"))).asValue (.AllocaInst ida aty)
        :: .Load idl lty (.AllocaInst ida aty) :: rest))
    idk isBitCast dstT (.CallInst idc cty (some "malloc")) hcty hdepth hint rfl t1
  rw [analyzeInstructions_step env 2 _ _ _ _ rfl h2]
  have e1 : ∀ (q : PassState) (I : Instruction) (w : List Instruction) (s : AnalysisState),
      (nextInstruction (q.setState s) I w).TheState = s := fun _ _ _ _ => rfl
  simp only [e1, z1] at h2 ⊢
  generalize hs2 : s1.SetSizeForPointerVariable (Instruction.Cast idk isBitCast dstT
      (.CallInst idc cty (some "malloc"))).asValue (some nV) = s2
  have t2 : (s2.Variables (Instruction.Cast idk isBitCast dstT
      (.CallInst idc cty (some "malloc"))).asValue).isSome = true := by
    rw [← hs2, AnalysisState.SetSizeForPointerVariable_same]; rfl
  have z2 : (s2.record (Instruction.Cast idk isBitCast dstT
      (.CallInst idc cty (some "malloc"))).asValue).size = nV := by
    rw [← hs2, record_SetSizeForPointerVariable_same]
  have c2 : ∀ w, s2.classOf w = ps.TheState.classOf w := by
    intro w; rw [← hs2, classOf_SetSizeForPointerVariable, c1]
  have x2 : (s2.record (.AllocaInst ida aty)).hasExplicitSizeVariable = false := by
    rw [← hs2, record_SetSizeForPointerVariable_other _ _ _ _
      (Cast_asValue_ne_alloca _ _ _ _ _ _).symm]
    exact x1
  clear hs2 h2 t1 z1 c1 x1
  -- the store
  have h3 := processInstruction_store_slot env
    (nextInstruction ((nextInstruction ((nextInstruction ps (.Call idc cty cv [nV] t cc)
      (.Cast idk isBitCast dstT (.CallInst idc cty (some "malloc"))
        :: .Store ids (Instruction.Cast idk isBitCast dstT
              (.CallInst idc cty (some "malloc"))).asValue (.AllocaInst ida aty)
        :: .Load idl lty (.AllocaInst ida aty) :: rest)).setState s1)
      (.Cast idk isBitCast dstT (.CallInst idc cty (some "malloc")))
      (.Store ids (Instruction.Cast idk isBitCast dstT
            (.CallInst idc cty (some "malloc"))).asValue (.AllocaInst ida aty)
        :: .Load idl lty (.AllocaInst ida aty) :: rest)).setState s2)
      (.Store ids (Instruction.Cast idk isBitCast dstT
            (.CallInst idc cty (some "malloc"))).asValue (.AllocaInst ida aty))
      (.Load idl lty (.AllocaInst ida aty) :: rest))
    ids ida aty (Instruction.Cast idk isBitCast dstT (.CallInst idc cty (some "malloc"))).asValue
    (by rw [Cast_asValue_getType]; exact isPointerTy_of_countIndirections _ _ hcty hdepth)
    (Cast_asValue_not_null _ _ _ _) t2 hsame
  rw [analyzeInstructions_step env 1 _ _ _ _ rfl h3]
  have k2 : (s2.record (Instruction.Cast idk isBitCast dstT
      (.CallInst idc cty (some "malloc"))).asValue).classification = .Safe := by
    rw [record_classification, c2]; exact hcast
  simp only [e1, k2] at h3 ⊢
  rw [record_ClassifyPointerVariable_other _ _ _ _ (Cast_asValue_ne_alloca _ _ _ _ _ _), z2]
    at h3 ⊢
  generalize hs3 : (s2.ClassifyPointerVariable (.AllocaInst ida aty)
      .Safe).SetSizeForPointerVariable (.AllocaInst ida aty) (some nV) = s3
  have hle : ¬ (s2.record (.AllocaInst ida aty)).classification.toInt
      < VariableStates.Safe.toInt := by
    rw [record_classification, c2, hslot]; decide
  have t3 : (s3.Variables (.AllocaInst ida aty)).isSome = true := by
    rw [← hs3, AnalysisState.SetSizeForPointerVariable_same]; rfl
  have r3 : s3.record (.AllocaInst ida aty)
      = { s2.record (.AllocaInst ida aty) with size := nV } := by
    rw [← hs3, record_SetSizeForPointerVariable_same, record_ClassifyPointerVariable_le _ _ _ hle]
  have c3 : s3.classOf (.LoadInst idl lty (.AllocaInst ida aty)) = .Safe := by
    rw [← hs3, classOf_SetSizeForPointerVariable,
      classOf_ClassifyPointerVariable_other _ _ _ _ (by simp), c2]
    exact hload
  have k3 : (s3.record (.AllocaInst ida aty)).classification = .Safe := by
    rw [r3]
    show (s2.record (.AllocaInst ida aty)).classification = .Safe
    rw [record_classification, c2]; exact hslot
  have x3 : (s3.record (.AllocaInst ida aty)).hasExplicitSizeVariable = false := by
    rw [r3]; exact x2
  have z3 : (s3.record (.AllocaInst ida aty)).size = nV := by rw [r3]
  clear hs3 h3 t2 z2 c2 x2 k2 hle r3
  -- the load
  have h4 := processInstruction_load_slot env
    (nextInstruction ((nextInstruction ((nextInstruction ((nextInstruction ps
      (.Call idc cty cv [nV] t cc)
      (.Cast idk isBitCast dstT (.CallInst idc cty (some "malloc"))
        :: .Store ids (Instruction.Cast idk isBitCast dstT
              (.CallInst idc cty (some "malloc"))).asValue (.AllocaInst ida aty)
        :: .Load idl lty (.AllocaInst ida aty) :: rest)).setState s1)
      (.Cast idk isBitCast dstT (.CallInst idc cty (some "malloc")))
      (.Store ids (Instruction.Cast idk isBitCast dstT
            (.CallInst idc cty (some "malloc"))).asValue (.AllocaInst ida aty)
        :: .Load idl lty (.AllocaInst ida aty) :: rest)).setState s2)
      (.Store ids (Instruction.Cast idk isBitCast dstT
            (.CallInst idc cty (some "malloc"))).asValue (.AllocaInst ida aty))
      (.Load idl lty (.AllocaInst ida aty) :: rest)).setState s3)
      (.Load idl lty (.AllocaInst ida aty)) rest)
    idl lty (.AllocaInst ida aty) hlty rfl t3 x3
  rw [analyzeInstructions_step env 0 _ _ _ _ rfl h4]
  simp only [e1, k3] at h4 ⊢
  rw [record_ClassifyPointerVariable_other _ _ _ _ (by simp), z3] at h4 ⊢
  refine ⟨(s3.ClassifyPointerVariable (.LoadInst idl lty (.AllocaInst ida aty))
      .Safe).SetSizeForPointerVariable (.LoadInst idl lty (.AllocaInst ida aty)) (some nV),
    ?_, ?_, ?_, ?_⟩
  · rw [analyzeInstructions]
    rfl
  · rw [AnalysisState.SetSizeForPointerVariable_same]; rfl
  · rw [classOf_SetSizeForPointerVariable]
    exact classOf_ClassifyPointerVariable_Safe _ _ _ _ rfl c3
  · rw [record_SetSizeForPointerVariable_same]

/-- C23 (amended). End-to-end size propagation for a heap array.  When the walker
processes, in a function that is not whitelisted and with `malloc` staying in the
module, `p = malloc(n)` with constant `n`, a cast of the result that keeps the
depth of indirection and the integer-ness of the innermost type, its store into
a stack slot of the same block, a load of that slot and a `getelementptr` on the
loaded pointer with the constant index `i`, not zero, at the constant byte offset
`i * e`, where `e` is the byte size of the result element (the cast result, the
slot and the loaded pointer being `Safe` so far, the slot having no explicit size
variable): the first four instructions are processed and leave the loaded
pointer `Safe` with the recorded size `n`; when the signed comparison
`(n - e) < i * e` is false, the `getelementptr` is processed, the loaded pointer
is `Seq` with recorded size `n`, the check is elided, `ChecksAlwaysFalse` grows
by one and `ChecksAdded` stays; when the comparison is true, every state the walk
of the five instructions ends in has the loaded pointer `Seq` with recorded size
`n`, and `ChecksAlwaysTrue` and `ChecksAdded` grown by one. -/
theorem C23_heap_array_size_propagation (env : Env) (ps : PassState)
    (idc idk ids idl ida : Ident) (cty dstT lty aty : LType) (cv : Value) (bn n : Nat)
    (t : Bool) (cc : Nat) (isBitCast : Bool) (g : GetElementPtrInst) (bi i : Nat)
    (rest : List Instruction)
    (hwork : ps.instructionsToAnalyze =
      .Call idc cty cv [.ConstantInt bn n] t cc
      :: .Cast idk isBitCast dstT (.CallInst idc cty (some "malloc"))
      :: .Store ids (Instruction.Cast idk isBitCast dstT
            (.CallInst idc cty (some "malloc"))).asValue (.AllocaInst ida aty)
      :: .Load idl lty (.AllocaInst ida aty) :: .GetElementPtr g :: rest)
    (hwl : ps.isCurrentFunctionWhitelisted = false)
    (hwli : ps.isCurrentFunctionWhitelistedForInstrumentation = false)
    (hname : cv.asFunctionName = some "malloc")
    (harity : cv.getFunctionType.getNumParams = 1)
    (hkeep : ps.FunctionsToRemove.contains "malloc" = false)
    (hcty : cty.isPointerTy = true)
    (hdepth : countIndirections cty = countIndirections dstT)
    (hint : (unwrapPointer cty).isIntegerTy = (unwrapPointer dstT).isIntegerTy)
    (hsame : ps.CurrentModule.getParent (.OtherInst ids .VoidTy)
      = ps.CurrentModule.getParent (.AllocaInst ida aty))
    (hlty : lty.isPointerTy = true)
    (hcast : ps.TheState.classOf (Instruction.Cast idk isBitCast dstT
      (.CallInst idc cty (some "malloc"))).asValue = .Safe)
    (hslot : ps.TheState.classOf (.AllocaInst ida aty) = .Safe)
    (hload : ps.TheState.classOf (.LoadInst idl lty (.AllocaInst ida aty)) = .Safe)
    (hexp : (ps.TheState.record (.AllocaInst ida aty)).hasExplicitSizeVariable = false)
    (hbase : g.PointerOperand = .LoadInst idl lty (.AllocaInst ida aty))
    (hidx : g.Indices = [.ConstantInt bi i]) (hi : i ≠ 0)
    (hobj : (env.ObjSizeEval g.asValue).2 = none)
    (hoffs : g.ConstantOffset = some (i * env.getTypeStoreSize g.getResultElementType))
    (hlookup : g.getResultElementType.isPointerTy = true → ps.lookupMetadataFunction ≠ none) :
    (∃ ps4, analyzeInstructions env 4 ps = some ps4
      ∧ ps4.instructionsToAnalyze = .GetElementPtr g :: rest
      ∧ ps4.TheState.classOf (.LoadInst idl lty (.AllocaInst ida aty)) = .Safe
      ∧ (ps4.TheState.record (.LoadInst idl lty (.AllocaInst ida aty))).size
          = .ConstantInt bn n)
    ∧ (icmpSLT 64 (wrapSub 64 n (env.getTypeStoreSize g.getResultElementType))
          (i * env.getTypeStoreSize g.getResultElementType) = false →
        ∃ ps5, analyzeInstructions env 5 ps = some ps5
          ∧ ps5.TheState.classOf (.LoadInst idl lty (.AllocaInst ida aty)) = .Seq
          ∧ (ps5.TheState.record (.LoadInst idl lty (.AllocaInst ida aty))).size
              = .ConstantInt bn n
          ∧ ps5.stats.ChecksAlwaysFalse = ps.stats.ChecksAlwaysFalse + 1
          ∧ ps5.stats.ChecksAdded = ps.stats.ChecksAdded)
    ∧ (icmpSLT 64 (wrapSub 64 n (env.getTypeStoreSize g.getResultElementType))
          (i * env.getTypeStoreSize g.getResultElementType) = true →
        ∀ ps5, analyzeInstructions env 5 ps = some ps5 →
          ps5.TheState.classOf (.LoadInst idl lty (.AllocaInst ida aty)) = .Seq
          ∧ (ps5.TheState.record (.LoadInst idl lty (.AllocaInst ida aty))).size
              = .ConstantInt bn n
          ∧ ps5.stats.ChecksAlwaysTrue = ps.stats.ChecksAlwaysTrue + 1
          ∧ ps5.stats.ChecksAdded = ps.stats.ChecksAdded + 1) := by
  obtain ⟨s4, h4, t4, c4, z4⟩ := heap_array_prefix env ps idc idk ids idl ida cty dstT lty aty
    cv (.ConstantInt bn n) t cc isBitCast (.GetElementPtr g :: rest) hwork hname harity hkeep
    hcty hdepth hint hsame hlty hcast hslot hload hexp
  have hnz : g.hasAllZeroIndices = false := by
    unfold GetElementPtrInst.hasAllZeroIndices
    rw [hidx]
    simp [Value.asConstantInt, hi]
  have hhas : g.hasIndices = true := by
    unfold GetElementPtrInst.hasIndices
    rw [hidx]; rfl
  have hoffq : ∀ q, getOffsetForGEPInst env q g
      = (q, .ConstantInt 64 (i * env.getTypeStoreSize g.getResultElementType % 2 ^ 64)) := by
    intro q
    unfold getOffsetForGEPInst
    rw [hobj]
    simp only [hoffs]
    rfl
  generalize hq : nextInstruction
      { ps with
        TheState := s4
        instructionsToAnalyze := .GetElementPtr g :: rest
        InsertPt := .before (.LoadInst idl lty (.AllocaInst ida aty)) }
      (.GetElementPtr g) rest = q5
  have q1 : q5.TheState = s4 := by rw [← hq]; rfl
  have q2 : q5.isCurrentFunctionWhitelisted = false := by rw [← hq]; exact hwl
  have q3 : q5.isCurrentFunctionWhitelistedForInstrumentation = false := by
    rw [← hq]; exact hwli
  have q4 : q5.stats = ps.stats := by rw [← hq]; rfl
  have q6 : q5.lookupMetadataFunction = ps.lookupMetadataFunction := by rw [← hq]; rfl
  have h5 : analyzeInstructions env 5 ps
      = (processInstruction env q5 (.GetElementPtr g)).map (·.1) := by
    rw [show (5 : Nat) = 4 + 1 from rfl, analyzeInstructions_add, h4, Option.some_bind,
      analyzeInstructions]
    simp only [hq]
    cases processInstruction env q5 (.GetElementPtr g) with
    | none => rfl
    | some r => rfl
  obtain ⟨ps2, hPI, hf1, hf2, hV, hs1, hs2, hs3⟩ := processGEP_reaches_check env q5 g bn n
    (i * env.getTypeStoreSize g.getResultElementType % 2 ^ 64) q3 hnz
    (by rw [hbase]; rfl) (by rw [hbase, q1]; exact t4) (by rw [hbase, q1]; exact c4)
    (by rw [hbase, q1]; exact z4) (by rw [hoffq]) (by rw [q6]; exact hlookup)
  rw [hbase, q1] at hV
  have hinfo : ps2.TheState.GetPointerVariableInfo env.uninit g.PointerOperand
      = some { s4.record (.LoadInst idl lty (.AllocaInst ida aty)) with
          classification := .Seq } := by
    rw [hbase]
    unfold AnalysisState.GetPointerVariableInfo
    simp only [Value.isConstantPointerNull, Bool.false_eq_true, if_false]
    exact hV
  have hconst := instrumentGEP_const_eq env ps2 g
    { s4.record (.LoadInst idl lty (.AllocaInst ida aty)) with classification := .Seq }
    bn n (i * env.getTypeStoreSize g.getResultElementType % 2 ^ 64) (hf1.trans q2) hf2 hhas
    hinfo z4 (by simp) (by rw [hoffq])
  rw [icmpSLT_mod_right] at hconst
  have hcls : ∀ s : AnalysisState, s = ps2.TheState →
      s.classOf (.LoadInst idl lty (.AllocaInst ida aty)) = .Seq
      ∧ (s.record (.LoadInst idl lty (.AllocaInst ida aty))).size = .ConstantInt bn n := by
    intro s hs
    subst hs
    refine ⟨?_, ?_⟩
    · unfold AnalysisState.classOf
      rw [hV]; rfl
    · rw [AnalysisState.record_of_some _ _ _ hV]
      exact z4
  refine ⟨⟨_, h4, rfl, c4, z4⟩, ?_, ?_⟩
  · intro hfalse
    rw [hfalse] at hconst
    simp only [Bool.false_eq_true, if_false] at hconst
    refine ⟨(ps2.count Statistics.incChecksConsidered).count Statistics.incChecksAlwaysFalse,
      ?_, (hcls _ rfl).1, (hcls _ rfl).2, ?_, ?_⟩
    · rw [h5, hPI, hconst]; rfl
    · show ps2.stats.ChecksAlwaysFalse + 1 = _
      rw [hs1, q4]
    · show ps2.stats.ChecksAdded = _
      rw [hs3, q4]
  · intro htrue ps5 h
    rw [htrue] at hconst
    simp only [if_true] at hconst
    rw [h5, hPI, hconst] at h
    obtain ⟨r, hr, h⟩ := Option.map_eq_some'.mp h
    subst h
    have hT := instrumentGEP_emit_TheState _ _ _ _ hr
    have hS := (instrumentGEP_emit_stats _ _ _ _ hr).1
    refine ⟨(hcls _ (by rw [hT]; rfl)).1, (hcls _ (by rw [hT]; rfl)).2, ?_, ?_⟩
    · rw [hS]
      show ps2.stats.ChecksAlwaysTrue + 1 = _
      rw [hs2, q4]
    · rw [hS]
      show ps2.stats.ChecksAdded + 1 = _
      rw [hs3, q4]

/-- C23, as stated, fails on `foo_t* a = malloc(32); a[1]`, with 16 bytes for a
`foo_t`: the cast of the result of `malloc` to `foo_t*` toggles the integer-ness
of the innermost type, so the cast case classifies the call result and the cast
`Dyn`, the store and the load carry that class to the loaded pointer, and the
`getelementptr` does not lower it: the loaded pointer is `Dyn`, not `Seq`.  The
recorded size is 32 and the comparison `16 < 16` is false, as the claim has it. -/
theorem C23_heap_array_size_propagation_counterexample :
    countIndirections Demo.i8p = countIndirections Demo.fooP
    ∧ (unwrapPointer Demo.i8p).isIntegerTy ≠ (unwrapPointer Demo.fooP).isIntegerTy
    ∧ icmpSLT 64 (wrapSub 64 32 16) (1 * 16) = false
    ∧ (runOnModule Demo.paperEnv Demo.structModule).map (fun r =>
        (r.1.TheState.classOf Demo.structLoad, (r.1.TheState.record Demo.structLoad).size,
          r.1.stats.ChecksAlwaysFalse, r.1.stats.ChecksAdded))
      = some (.Dyn, .ConstantInt 64 32, 1, 0) := by
  refine ⟨by decide, by decide, by decide, by rfl⟩

/-- C23 (amended) on `int* a = malloc(12); a[2]` with `sizeof(int) = 4`, the
witness of the claim: the loaded pointer is `Seq` with recorded size 12, the
comparison is `8 < 8`, false, the check is elided, `ChecksAlwaysFalse` grows by
one and `ChecksAdded` is unchanged. -/
theorem C23_heap_array_size_propagation_witness :
    wrapSub 64 12 4 = 8
    ∧ icmpSLT 64 (wrapSub 64 12 4) (2 * 4) = false
    ∧ (∃ ps5, analyzeInstructions Demo.paperEnv 5 (Demo.heapStart 12 2) = some ps5
        ∧ ps5.TheState.classOf Demo.heapLoad.asValue = .Seq
        ∧ (ps5.TheState.record Demo.heapLoad.asValue).size = .ConstantInt 64 12
        ∧ ps5.stats.ChecksAlwaysFalse = (Demo.heapStart 12 2).stats.ChecksAlwaysFalse + 1
        ∧ ps5.stats.ChecksAdded = (Demo.heapStart 12 2).stats.ChecksAdded)
    ∧ (runOnModule Demo.paperEnv (Demo.heapModule 12 2)).map (fun r =>
        (r.1.TheState.classOf Demo.heapLoad.asValue,
          (r.1.TheState.record Demo.heapLoad.asValue).size,
          r.1.stats.ChecksAlwaysFalse, r.1.stats.ChecksAdded))
      = some (.Seq, .ConstantInt 64 12, 1, 0) :=
  ⟨by decide, by decide,
    (C23_heap_array_size_propagation Demo.paperEnv (Demo.heapStart 12 2)
      (.input 701) (.input 702) (.input 703) (.input 704) (.input 700)
      Demo.i8p Demo.i32p Demo.i32p (.PointerTy Demo.i32p) Demo.malloc.asValue 64 12 false 0
      true (Demo.heapGEP 2) 64 2
      [.Load (.input 706) Demo.i32 (Demo.heapGEP 2).asValue,
        .Return (.input 707) (some (Demo.loaded 706 Demo.i32 (Demo.heapGEP 2).asValue))]
      (by rfl) (by rfl) (by rfl) (by rfl) (by rfl) (by rfl) (by rfl) (by rfl) (by rfl)
      (by rfl) (by rfl) (by rfl) (by rfl) (by rfl) (by rfl) (by rfl) (by rfl) (by decide)
      (by rfl) (by rfl) (fun h => absurd h (by decide))).2.1 (by decide), by rfl⟩

/-! ## Whitelisting and the renaming of rewritten functions -/

theorem prefix_append_cases (p l s : List Char) (h : p <+: l ++ s) :
    p <+: l ∨ ∃ k, k < p.length ∧ l = p.take k ∧ (p.drop k).isPrefixOf s = true := by
  induction p generalizing l with
  | nil => exact Or.inl (List.nil_prefix)
  | cons a p ih =>
    cases l with
    | nil =>
      refine Or.inr ⟨0, by simp, rfl, ?_⟩
      rw [List.isPrefixOf_iff_prefix]
      simpa using h
    | cons b l =>
      rw [List.cons_append, List.cons_prefix_cons] at h
      obtain ⟨hab, h⟩ := h
      rcases ih l h with h1 | ⟨k, hk, hl, hd⟩
      · exact Or.inl (by rw [List.cons_prefix_cons]; exact ⟨hab, h1⟩)
      · exact Or.inr ⟨k + 1, by simp [hk], by simp [hab, ← hl], by simpa using hd⟩

theorem startswith_append_cases (n pre s : String) (h : startswith (n ++ s) pre = true) :
    startswith n pre = true ∨
      ∃ k, k < pre.data.length ∧ n.data = pre.data.take k
        ∧ (pre.data.drop k).isPrefixOf s.data = true := by
  unfold startswith at h ⊢
  rw [List.isPrefixOf_iff_prefix, String.data_append] at h
  rw [List.isPrefixOf_iff_prefix]
  exact prefix_append_cases _ _ _ h

theorem endswith_append_cases (n suf s : String) (h : endswith (n ++ s) suf = true) :
    suf.data.isSuffixOf s.data = true ∨ s.data.isSuffixOf suf.data = true := by
  unfold endswith at h
  rw [List.isSuffixOf_iff_suffix, String.data_append] at h
  simp only [List.isSuffixOf_iff_suffix]
  exact List.suffix_or_suffix_of_suffix h (List.suffix_append _ _)

/-- C29, as stated, fails on the name `sim`: `isWhitelisted` is false for it, a
function of that name with a pointer parameter is rewritten in the signature
phase and collected for the analysis phase as `sim_nesCheck`, and
`isWhitelisted` is true for that name, which starts with `sim_`. -/
theorem C29_whitelist_after_renaming_counterexample :
    isWhitelisted "sim" = false
    ∧ (rewriteSignatures Demo.simOnly.functions (initialState Demo.simOnly, [], false)).2.1
        = ["sim" ++ "_nesCheck"]
    ∧ isWhitelisted ("sim" ++ "_nesCheck") = true := by
  refine ⟨by decide, by rfl, by decide⟩

/-- C29 (amended). For every function name `n` for which `isWhitelisted` is
false, `isWhitelisted` is true for `n` followed by `_nesCheck` exactly when `n`
is `sim` or `hashtable`; so for every other such name the renamed function gets
the same verdict, false. -/
theorem C29_whitelist_after_renaming (n : String) (h : isWhitelisted n = false) :
    (isWhitelisted (n ++ "_nesCheck") = true ↔ n = "sim" ∨ n = "hashtable")
    ∧ (n ≠ "sim" → n ≠ "hashtable" → isWhitelisted (n ++ "_nesCheck") = false) := by
  have key : isWhitelisted (n ++ "_nesCheck") = true ↔ n = "sim" ∨ n = "hashtable" := by
    constructor
    · intro hw
      unfold isWhitelisted at h hw
      simp only [Bool.or_eq_false_iff] at h
      obtain ⟨⟨⟨⟨h1, h2⟩, h3⟩, h4⟩, h5⟩ := h
      simp only [Bool.or_eq_true] at hw
      rcases hw with (((hw | hw) | hw) | hw) | hw
      · rcases startswith_append_cases _ _ _ hw with hs | ⟨k, hk, hn, hd⟩
        · rw [hs] at h1; cases h1
        · have hk4 : k < 4 := hk
          left
          apply String.ext
          interval_cases k
          · exact absurd hd (by decide)
          · exact absurd hd (by decide)
          · exact absurd hd (by decide)
          · rw [hn]; rfl
      · rcases startswith_append_cases _ _ _ hw with hs | ⟨k, hk, hn, hd⟩
        · rw [hs] at h2; cases h2
        · have hk4 : k < 4 := hk
          exfalso
          interval_cases k <;> exact absurd hd (by decide)
      · rcases endswith_append_cases _ _ _ hw with hs | hs
        · exact absurd hs (by decide)
        · exact absurd hs (by decide)
      · rcases startswith_append_cases _ _ _ hw with hs | ⟨k, hk, hn, hd⟩
        · rw [hs] at h4; cases h4
        · have hk10 : k < 10 := hk
          right
          apply String.ext
          interval_cases k
          all_goals first
            | (rw [hn]; rfl)
            | exact absurd hd (by decide)
      · rcases endswith_append_cases _ _ _ hw with hs | hs
        · exact absurd hs (by decide)
        · exact absurd hs (by decide)
    · rintro (rfl | rfl) <;> decide
  refine ⟨key, ?_⟩
  intro h1 h2
  cases hw : isWhitelisted (n ++ "_nesCheck") with
  | false => rfl
  | true => rcases key.mp hw with h3 | h3 <;> contradiction

/-- C29 (amended) on the name `f`: `f_nesCheck` is no more whitelisted than `f`. -/
theorem C29_whitelist_after_renaming_witness :
    isWhitelisted "f" = false ∧ isWhitelisted ("f" ++ "_nesCheck") = false :=
  ⟨by decide, (C29_whitelist_after_renaming "f" (by decide)).2 (by decide) (by decide)⟩

/-! ## The argument list of a rewritten call -/

/-- The loop `while (!(varinfo = GetPointerVariableInfo(varr)) && isa<LoadInst>(varr))`
finds the first value of the walk behind the argument that
`GetPointerVariableInfo` knows; when there is none it ends at the last value of
the walk. -/
theorem walkBackLoads_eq (s : AnalysisState) (u : VariableInfo) (a : Value) :
    (walkBackLoads s u a).1 = (loadChain a).findSome? (s.GetPointerVariableInfoPtr u)
    ∧ ((walkBackLoads s u a).1 = none → (loadChain a).getLast? = some (walkBackLoads s u a).2) := by
  induction a with
  | LoadInst id ty ptr ih =>
    simp only [walkBackLoads, loadChain, List.findSome?]
    cases hg : s.GetPointerVariableInfoPtr u (.LoadInst id ty ptr) with
    | none =>
      refine ⟨ih.1, fun hn => ?_⟩
      have h2 := ih.2 hn
      cases hl : loadChain ptr with
      | nil => rw [hl] at h2; cases h2
      | cons y ys =>
        rw [hl] at h2
        rw [List.getLast?_cons_cons]
        exact h2
    | some i => exact ⟨rfl, fun hn => by cases hn⟩
  | _ =>
    refine ⟨?_, fun _ => ?_⟩
    · simp only [walkBackLoads, loadChain, List.findSome?]
      split <;> simp_all
    · simp [walkBackLoads, loadChain]

/-- The size `rewriteCallSite` finds for an argument: the recorded size of the
first value of the walk behind the argument that `GetPointerVariableInfo` knows;
when there is none, the walk ends at a constant, whose size `getSizeForValue`
gives and which is recorded with that size. -/
theorem sizeArgumentFor_value (env : Env) (p q : PassState) (a sz : Value)
    (h : sizeArgumentFor env p a = some (q, sz)) :
    (∀ info, (loadChain a).findSome? (p.TheState.GetPointerVariableInfoPtr env.uninit)
        = some info → sz = (p.TheState.deref info).size ∧ q = p)
    ∧ ((loadChain a).findSome? (p.TheState.GetPointerVariableInfoPtr env.uninit) = none →
        ∃ varr, (loadChain a).getLast? = some varr ∧ varr.isConstant = true
          ∧ sz = (getSizeForValue env p varr).2
          ∧ q = p.setState (p.TheState.SetSizeForPointerVariable varr (some sz))) := by
  obtain ⟨e1, e2⟩ := walkBackLoads_eq p.TheState env.uninit a
  unfold sizeArgumentFor at h
  cases hw : walkBackLoads p.TheState env.uninit a with
  | mk found varr =>
    rw [hw] at h e1 e2
    simp only at e1 e2
    cases found with
    | some info =>
      simp only [Option.some.injEq, Prod.mk.injEq] at h
      refine ⟨fun i hi => ?_, fun hn => ?_⟩
      · rw [← e1] at hi
        cases hi
        exact ⟨h.2.symm, h.1.symm⟩
      · rw [← e1] at hn; cases hn
    | none =>
      simp only at h
      refine ⟨fun i hi => ?_, fun _ => ?_⟩
      · rw [← e1] at hi; cases hi
      · by_cases hc : varr.isConstant = true
        · simp only [hc, if_true, Option.some.injEq, Prod.mk.injEq, getSizeForValue_fst] at h
          have hsz : sz = (getSizeForValue env p varr).2 := by
            rw [← h.2, record_SetSizeForPointerVariable_same]
          refine ⟨varr, e2 rfl, hc, hsz, ?_⟩
          rw [← h.1, hsz]
        · simp [hc] at h

/-- The size collected for the pointer-typed argument at position `i`: it is the
size found for that argument in the state the arguments in front of it leave,
and it stands in the list at the position that counts the pointer-typed arguments
in front of `i`. -/
theorem collectSizeArguments_at (env : Env) (l : List Value) (ps pf : PassState)
    (sizes : List Value) (h : collectSizeArguments env ps l = some (pf, sizes)) (i : Nat)
    (a : Value) (hi : l.get? i = some a) (hp : a.getType.isPointerTy = true) :
    ∃ (p q : PassState) (szs : List Value) (sz : Value),
      collectSizeArguments env ps (l.take i) = some (p, szs)
      ∧ sizeArgumentFor env p a = some (q, sz)
      ∧ sizes.get? ((l.take i).countP (fun a => a.getType.isPointerTy)) = some sz := by
  induction l generalizing ps i sizes with
  | nil => simp at hi
  | cons x l ih =>
    unfold collectSizeArguments at h
    cases i with
    | zero =>
      simp only [List.get?_cons_zero, Option.some.injEq] at hi
      subst hi
      have hn : needsRewritten x.getType = true := by
        rw [needsRewritten_eq_isPointerTy]; exact hp
      simp only [hn, if_true] at h
      cases h1 : sizeArgumentFor env ps x with
      | none => simp [h1] at h
      | some r1 =>
        simp only [h1] at h
        cases h2 : collectSizeArguments env r1.1 l with
        | none => simp [h2] at h
        | some r2 =>
          simp only [h2, Option.some.injEq, Prod.mk.injEq] at h
          refine ⟨ps, r1.1, [], r1.2, rfl, h1, ?_⟩
          rw [← h.2]
          rfl
    | succ i =>
      simp only [List.get?_cons_succ] at hi
      by_cases hx : x.getType.isPointerTy = true
      · have hn : needsRewritten x.getType = true := by
          rw [needsRewritten_eq_isPointerTy]; exact hx
        simp only [hn, if_true] at h
        cases h1 : sizeArgumentFor env ps x with
        | none => simp [h1] at h
        | some r1 =>
          simp only [h1] at h
          cases h2 : collectSizeArguments env r1.1 l with
          | none => simp [h2] at h
          | some r2 =>
            simp only [h2, Option.some.injEq, Prod.mk.injEq] at h
            obtain ⟨p, q, szs, sz, e1, e2, e3⟩ := ih r1.1 r2.2 (by rw [h2, ← h.1]) i hi
            refine ⟨p, q, r1.2 :: szs, sz, ?_, e2, ?_⟩
            · rw [List.take_succ_cons, collectSizeArguments]
              simp only [hn, if_true, h1, e1]
            · rw [← h.2]
              simpa [List.take_succ_cons, List.countP_cons, hx] using e3
      · have hn : needsRewritten x.getType = false := by
          rw [needsRewritten_eq_isPointerTy]; simpa using hx
        simp only [hn] at h
        obtain ⟨p, q, szs, sz, e1, e2, e3⟩ := ih ps sizes h i hi
        refine ⟨p, q, szs, sz, ?_, e2, ?_⟩
        · rw [List.take_succ_cons, collectSizeArguments]
          simp only [hn]
          exact e1
        · simpa [List.take_succ_cons, List.countP_cons, hx] using e3

theorem Module.hasIn_replaceAllUsesWith_eq (M : Module) (old new : Value) (Fn : String)
    (J0 : Instruction) (h : M.hasIn Fn (fun J => J = J0)) :
    (M.replaceAllUsesWith old new).hasIn Fn (fun J => J = Instruction.replaceUses old new J0) :=
  Module.hasIn_mapBlocks M _ Fn _ _
    (fun _ J hJ hP => ⟨Instruction.replaceUses old new J, List.mem_map_of_mem _ hJ, by
      rw [hP]⟩) h

/-- The call `rewriteCallSite.replace` leaves in the module where the old call
was: the new call, with the uses of the old call among its arguments given the
value all uses of the old call are given. -/
theorem rewriteCallSite_replace_call (ps : PassState) (id : Ident) (ty : LType) (cv : Value)
    (Args : List Value) (t : Bool) (cc : Nat) (nid : Ident) (rty fty : LType) (nm : String)
    (NewArgs : List Value) (hnm : cv.asFunctionName ≠ some nm) (Fn : String)
    (h : ps.CurrentModule.hasIn Fn (fun J => J = .Call id ty cv Args t cc)) :
    (rewriteCallSite.replace ps (.Call id ty cv Args t cc)
        (.Call nid rty (.Function nm fty) NewArgs t cc)).CurrentModule.hasIn Fn
      (fun J => J = .Call nid rty (.Function nm fty)
        (NewArgs.map (Value.replaceUses (Instruction.Call id ty cv Args t cc).asValue
          (rewriteCallSite.usesGiven ps (.Call id ty cv Args t cc)
            (.Call nid rty (.Function nm fty) NewArgs t cc)))) t cc) := by
  have h2 := Module.hasIn_insertBefore_new ps.CurrentModule
    (.Call nid rty (.Function nm fty) NewArgs t cc) (.Call id ty cv Args t cc) Fn
    (fun J => J = .Call nid rty (.Function nm fty) NewArgs t cc) rfl h
  have hrep : ∀ X, Instruction.replaceUses (Instruction.Call id ty cv Args t cc).asValue X
      (.Call nid rty (.Function nm fty) NewArgs t cc)
      = .Call nid rty (.Function nm fty)
        (NewArgs.map (Value.replaceUses (Instruction.Call id ty cv Args t cc).asValue X))
        t cc := by
    intro X
    simp [Instruction.replaceUses, Value.replaceUses, Instruction.asValue]
  unfold rewriteCallSite.replace rewriteCallSite.usesGiven
  simp only []
  refine Module.hasIn_erase _ _ Fn _ ?_ ?_
  · rintro J rfl heq
    simp only [Instruction.asValue, Value.asFunctionName, Value.CallInst.injEq] at heq
    exact hnm heq.2.2.symm
  · split
    · simp only [splitNewReturn, PassState.setState, PassState.replaceAllUsesWith,
        PassState.setModule, PassState.fresh]
      rw [← hrep]
      refine Module.hasIn_replaceAllUsesWith_eq _ _ _ Fn _ ?_
      exact Module.hasIn_insertBefore _ _ _ Fn _ (Module.hasIn_insertBefore _ _ _ Fn _ h2)
    · simp only [PassState.replaceAllUsesWith, PassState.setModule, PassState.fresh]
      rw [← hrep]
      exact Module.hasIn_replaceAllUsesWith_eq _ _ _ Fn _ h2

/-- What `rewriteCallSite` does when it succeeds, with every part determined: the
size arguments are those the loop over the fixed arguments collects, the function
called is the function of the module named `<callee>_nesCheck`, and the call left
in the module where the old call was has the new argument list. -/
theorem rewriteCallSite_arguments (env : Env) (ps ps1 : PassState) (id : Ident) (ty : LType)
    (cv : Value) (Args : List Value) (isTailCall : Bool) (CallingConv : Nat)
    (h : rewriteCallSite env ps (.Call id ty cv Args isTailCall CallingConv) = some ps1) :
    ∃ (calledF : String) (sizes : List Value) (ps2 : PassState) (NF : Function),
      cv.asFunctionName = some calledF
      ∧ collectSizeArguments env (ps.count Statistics.incFunctionCallSitesRewritten)
          (Args.take cv.getFunctionType.getNumParams) = some (ps2, sizes)
      ∧ ps.CurrentModule.getFunction (calledF ++ "_nesCheck") = some NF
      ∧ ps2.CurrentModule = ps.CurrentModule ∧ ps2.nextId = ps.nextId
      ∧ ps1 = rewriteCallSite.replace ps2 (.Call id ty cv Args isTailCall CallingConv)
          (.Call (.made ps.nextId) NF.ReturnType NF.asValue
            (Args.take cv.getFunctionType.getNumParams ++ sizes
              ++ Args.drop cv.getFunctionType.getNumParams) isTailCall CallingConv)
      ∧ ∀ Fn, ps.CurrentModule.hasIn Fn
            (fun J => J = .Call id ty cv Args isTailCall CallingConv) →
          ps1.CurrentModule.hasIn Fn (fun J => J =
            .Call (.made ps.nextId) NF.ReturnType NF.asValue
              ((Args.take cv.getFunctionType.getNumParams ++ sizes
                  ++ Args.drop cv.getFunctionType.getNumParams).map
                (Value.replaceUses (Instruction.Call id ty cv Args isTailCall CallingConv).asValue
                  (rewriteCallSite.usesGiven ps2
                    (.Call id ty cv Args isTailCall CallingConv)
                    (.Call (.made ps.nextId) NF.ReturnType NF.asValue
                      (Args.take cv.getFunctionType.getNumParams ++ sizes
                        ++ Args.drop cv.getFunctionType.getNumParams)
                      isTailCall CallingConv))))
              isTailCall CallingConv) := by
  unfold rewriteCallSite at h
  cases hn : cv.asFunctionName with
  | none => simp [hn] at h
  | some calledF =>
    simp only [hn] at h
    unfold rewriteCallSite.buildArgs at h
    cases hc : collectSizeArguments env (ps.count Statistics.incFunctionCallSitesRewritten)
        (Args.take cv.getFunctionType.getNumParams) with
    | none => simp [hc] at h
    | some r =>
      simp only [hc] at h
      obtain ⟨hmod, hnid⟩ := collectSizeArguments_module env _ _ _ hc
      have hmod1 : r.1.CurrentModule = ps.CurrentModule := hmod
      have hnid1 : r.1.nextId = ps.nextId := hnid
      cases hf : r.1.CurrentModule.getFunction (calledF ++ "_nesCheck") with
      | none => simp [hf] at h
      | some NF =>
        simp only [hf, Option.some.injEq] at h
        have hfresh : r.1.fresh.2 = .made ps.nextId := by
          rw [PassState.fresh_snd, hnid1]
        rw [hfresh] at h
        have hname : NF.name = calledF ++ "_nesCheck" := (Module.getFunction_eq_some hf).2
        have hne : cv.asFunctionName ≠ some NF.name := by
          rw [hn, hname]
          intro hcontra
          exact String.append_ne_self _ (Option.some.inj hcontra).symm
        refine ⟨calledF, r.2, r.1, NF, rfl, rfl, by rw [← hmod1]; exact hf, hmod1, hnid1,
          h.symm, ?_⟩
        intro Fn hFn
        rw [← h]
        exact rewriteCallSite_replace_call r.1 id ty cv Args isTailCall CallingConv
          (.made ps.nextId) NF.ReturnType (.PointerTy NF.getFunctionType) NF.name _ hne Fn
          (by rw [hmod1]; exact hFn)

/-- C7. The argument list of a rewritten call.  When `rewriteCallSite` rewrites a
call whose callee has `N` fixed parameters, the call that stands in the module
where the old call was is a call of the function of the module named
`<callee>_nesCheck` whose arguments are the first `N` arguments of the old call
in their order, then the size arguments the loop over these `N` arguments
collects, one for each pointer-typed one among them, in the same order, then the
remaining variadic arguments in their order (uses of the old call among them
being replaced as all its uses are); the length of the list is the old length
plus the number of pointer-typed fixed arguments; and the size argument for the
pointer-typed argument at position `i` stands `k` places behind the fixed
arguments, `k` counting the pointer-typed fixed arguments in front of `i`, and
is, in the state the
arguments in front of `i` leave, the recorded size of the first value that
`GetPointerVariableInfo` knows on the walk from the argument through load address
operands, or, when there is none, what `getSizeForValue` gives for the constant
the walk ends at. -/
theorem C7_call_site_arguments (env : Env) (ps ps1 : PassState) (id : Ident) (ty : LType)
    (cv : Value) (Args : List Value) (isTailCall : Bool) (CallingConv : Nat)
    (h : rewriteCallSite env ps (.Call id ty cv Args isTailCall CallingConv) = some ps1) :
    ∃ (calledF : String) (sizes : List Value) (ps2 : PassState) (NF : Function),
      cv.asFunctionName = some calledF
      ∧ collectSizeArguments env (ps.count Statistics.incFunctionCallSitesRewritten)
          (Args.take cv.getFunctionType.getNumParams) = some (ps2, sizes)
      ∧ ps.CurrentModule.getFunction (calledF ++ "_nesCheck") = some NF
      ∧ ps1 = rewriteCallSite.replace ps2 (.Call id ty cv Args isTailCall CallingConv)
          (.Call (.made ps.nextId) NF.ReturnType NF.asValue
            (Args.take cv.getFunctionType.getNumParams ++ sizes
              ++ Args.drop cv.getFunctionType.getNumParams) isTailCall CallingConv)
      ∧ (∀ Fn, ps.CurrentModule.hasIn Fn
            (fun J => J = .Call id ty cv Args isTailCall CallingConv) →
          ps1.CurrentModule.hasIn Fn (fun J => J =
            .Call (.made ps.nextId) NF.ReturnType NF.asValue
              ((Args.take cv.getFunctionType.getNumParams ++ sizes
                  ++ Args.drop cv.getFunctionType.getNumParams).map
                (Value.replaceUses (Instruction.Call id ty cv Args isTailCall CallingConv).asValue
                  (rewriteCallSite.usesGiven ps2
                    (.Call id ty cv Args isTailCall CallingConv)
                    (.Call (.made ps.nextId) NF.ReturnType NF.asValue
                      (Args.take cv.getFunctionType.getNumParams ++ sizes
                        ++ Args.drop cv.getFunctionType.getNumParams)
                      isTailCall CallingConv))))
              isTailCall CallingConv))
      ∧ sizes.length = (Args.take cv.getFunctionType.getNumParams).countP
          (fun a => a.getType.isPointerTy)
      ∧ (Args.take cv.getFunctionType.getNumParams ++ sizes
            ++ Args.drop cv.getFunctionType.getNumParams).length
          = Args.length + (Args.take cv.getFunctionType.getNumParams).countP
              (fun a => a.getType.isPointerTy)
      ∧ ∀ i a, (Args.take cv.getFunctionType.getNumParams).get? i = some a →
          a.getType.isPointerTy = true →
          ∃ (p : PassState) (szs : List Value) (sz : Value),
            collectSizeArguments env (ps.count Statistics.incFunctionCallSitesRewritten)
              ((Args.take cv.getFunctionType.getNumParams).take i) = some (p, szs)
            ∧ (Args.take cv.getFunctionType.getNumParams ++ sizes
                ++ Args.drop cv.getFunctionType.getNumParams).get?
                  ((Args.take cv.getFunctionType.getNumParams).length
                    + ((Args.take cv.getFunctionType.getNumParams).take i).countP
                        (fun a => a.getType.isPointerTy)) = some sz
            ∧ (∀ info, (loadChain a).findSome?
                  (p.TheState.GetPointerVariableInfoPtr env.uninit) = some info →
                sz = (p.TheState.deref info).size)
            ∧ ((loadChain a).findSome?
                  (p.TheState.GetPointerVariableInfoPtr env.uninit) = none →
                ∃ varr, (loadChain a).getLast? = some varr ∧ varr.isConstant = true
                  ∧ sz = (getSizeForValue env p varr).2) := by
  obtain ⟨calledF, sizes, ps2, NF, h1, h2, h3, -, -, h4, h5⟩ :=
    rewriteCallSite_arguments env ps ps1 id ty cv Args isTailCall CallingConv h
  have hlen : sizes.length = (Args.take cv.getFunctionType.getNumParams).countP
      (fun a => a.getType.isPointerTy) := (collectSizeArguments_spec env _ _ _ h2).1
  refine ⟨calledF, sizes, ps2, NF, h1, h2, h3, h4, h5, hlen, ?_, ?_⟩
  · have hl := congrArg List.length
      (List.take_append_drop cv.getFunctionType.getNumParams Args)
    simp only [List.length_append] at hl ⊢
    omega
  · intro i a hi hp
    obtain ⟨p, q, szs, sz, e1, e2, e3⟩ := collectSizeArguments_at env _ _ _ _ h2 i a hi hp
    obtain ⟨v1, v2⟩ := sizeArgumentFor_value env p q a sz e2
    have hk : ((Args.take cv.getFunctionType.getNumParams).take i).countP
        (fun a => a.getType.isPointerTy) < sizes.length := by
      have := List.get?_eq_some.mp e3
      exact this.1
    refine ⟨p, szs, sz, e1, ?_, fun info hinfo => (v1 info hinfo).1, fun hn => ?_⟩
    · rw [List.get?_eq_getElem?] at e3 ⊢
      rw [List.append_assoc, List.getElem?_append_right (by omega),
        Nat.add_sub_cancel_left, List.getElem?_append_left hk]
      exact e3
    · obtain ⟨varr, w1, w2, w3, -⟩ := v2 hn
      exact ⟨varr, w1, w2, w3⟩

/-- C7, on the call `logf(str, 7, &extra)` of the variadic `logf`, which has one
fixed parameter, in `caller`: after `rewriteCallSite` the call in `caller` is
`logf_nesCheck(str, 4, 7, &extra)`, where 4 is the size recorded for the global
`str`. -/
theorem C7_call_site_arguments_witness :
    ∃ ps1, rewriteCallSite Demo.paperEnv Demo.logRewritten Demo.logCall = some ps1
      ∧ ps1.CurrentModule.hasIn "caller" (fun J => J =
          .Call (.made Demo.logRewritten.nextId) .VoidTy (newFunction Demo.logf).asValue
            [Demo.fmt, .ConstantInt 64 4, .ConstantInt 32 7, Demo.extra] false 0)
      ∧ (Demo.logRewritten.TheState.record Demo.fmt).size = .ConstantInt 64 4 := by
  obtain ⟨ps1, h⟩ := Option.isSome_iff_exists.mp
    (show (rewriteCallSite Demo.paperEnv Demo.logRewritten Demo.logCall).isSome = true by rfl)
  obtain ⟨calledF, sizes, ps2, NF, h1, h2, h3, -, h5, -⟩ :=
    C7_call_site_arguments Demo.paperEnv Demo.logRewritten ps1 _ _ _ _ _ _ h
  have hc : calledF = "logf" := by
    have : some "logf" = some calledF := h1
    exact (Option.some.inj this).symm
  subst hc
  have e2 : (collectSizeArguments Demo.paperEnv
      (Demo.logRewritten.count Statistics.incFunctionCallSitesRewritten)
      ([Demo.fmt, .ConstantInt 32 7, Demo.extra].take
        Demo.logf.asValue.getFunctionType.getNumParams)).map (·.2)
      = some [.ConstantInt 64 4] := by rfl
  rw [h2] at e2
  simp only [Option.map_some', Option.some.injEq] at e2
  subst e2
  have e3 : (Demo.logRewritten.CurrentModule.getFunction ("logf" ++ "_nesCheck")).map
      (fun F => (F.ReturnType, F.asValue))
      = some (.VoidTy, (newFunction Demo.logf).asValue) := by rfl
  rw [h3] at e3
  simp only [Option.map_some', Option.some.injEq, Prod.mk.injEq] at e3
  have hin : Demo.logRewritten.CurrentModule.hasIn "caller" (fun J => J = Demo.logCall) := by
    have e4 : (Demo.logRewritten.CurrentModule.getFunction "caller").map
        (fun F => decide (Demo.logCall ∈ F.instructions)) = some true := by rfl
    obtain ⟨F, hF, hmem⟩ := Option.map_eq_some'.mp e4
    exact ⟨F, (Module.getFunction_eq_some hF).1, (Module.getFunction_eq_some hF).2, _,
      by simpa using hmem, rfl⟩
  have h6 := h5 "caller" hin
  rw [e3.1, e3.2] at h6
  exact ⟨ps1, h, h6, by rfl⟩

/-- C28. Call sites agree with rewritten signatures.  For a function `F` that
`rewriteFunctionSignature` rewrites, with `N` parameters, and a direct call of
`F` whose first `N` arguments have exactly the types of the parameters of `F`:
when `rewriteCallSite` rewrites the call, the call that stands in the module
where the old call was calls the function of the module that has the name of the
new function, with the old fixed arguments, then the size arguments collected for
them, then the variadic arguments; the fixed part of that list is as long as the
parameter list of the new function; the first `N` entries are the old arguments
under parameters of their types; for the pointer parameter at position `i`, with
`k` pointer parameters in front of it, the new parameter at position `N + k` is
of the 64-bit size type and the new argument at position `N + k` is the size of
the argument at position `i`: in the state the arguments in front of it leave,
the recorded size of the first value `GetPointerVariableInfo` knows on the walk
from that argument through load address operands, or what `getSizeForValue` gives
for the constant the walk ends at; and every position from `N` on is such a
position. -/
theorem C28_call_site_matches_signature (env : Env) (ps0 ps ps1 : PassState) (F : Function)
    (id : Ident) (ty : LType) (Args : List Value) (isTailCall : Bool) (CallingConv : Nat)
    (hrw : (rewriteFunctionSignature ps0 F).2 ≠ F)
    (htypes : (Args.take F.Params.length).map Value.getType = F.Params.map (·.2))
    (h : rewriteCallSite env ps (.Call id ty F.asValue Args isTailCall CallingConv)
      = some ps1) :
    ∃ (sizes : List Value) (ps2 : PassState) (NF : Function),
      collectSizeArguments env (ps.count Statistics.incFunctionCallSitesRewritten)
          (Args.take F.Params.length) = some (ps2, sizes)
      ∧ ps.CurrentModule.getFunction (rewriteFunctionSignature ps0 F).2.name = some NF
      ∧ ps1 = rewriteCallSite.replace ps2 (.Call id ty F.asValue Args isTailCall CallingConv)
          (.Call (.made ps.nextId) NF.ReturnType NF.asValue
            (Args.take F.Params.length ++ sizes ++ Args.drop F.Params.length)
            isTailCall CallingConv)
      ∧ (∀ Fn, ps.CurrentModule.hasIn Fn
            (fun J => J = .Call id ty F.asValue Args isTailCall CallingConv) →
          ps1.CurrentModule.hasIn Fn (fun J => J =
            .Call (.made ps.nextId) NF.ReturnType NF.asValue
              ((Args.take F.Params.length ++ sizes ++ Args.drop F.Params.length).map
                (Value.replaceUses
                  (Instruction.Call id ty F.asValue Args isTailCall CallingConv).asValue
                  (rewriteCallSite.usesGiven ps2
                    (.Call id ty F.asValue Args isTailCall CallingConv)
                    (.Call (.made ps.nextId) NF.ReturnType NF.asValue
                      (Args.take F.Params.length ++ sizes ++ Args.drop F.Params.length)
                      isTailCall CallingConv))))
              isTailCall CallingConv))
      ∧ (Args.take F.Params.length ++ sizes).length
          = (rewriteFunctionSignature ps0 F).2.Params.length
      ∧ (∀ j, j < F.Params.length →
          (Args.take F.Params.length ++ sizes ++ Args.drop F.Params.length).get? j
            = Args.get? j
          ∧ ((rewriteFunctionSignature ps0 F).2.Params.map (·.2)).get? j
            = (Args.get? j).map Value.getType)
      ∧ (∀ i pty, (F.Params.map (·.2)).get? i = some pty → pty.isPointerTy = true →
          ((rewriteFunctionSignature ps0 F).2.Params.map (·.2)).get?
              (F.Params.length + ((F.Params.map (·.2)).take i).countP LType.isPointerTy)
            = some (.IntegerTy 64)
          ∧ ∃ (a sz : Value) (p : PassState) (szs : List Value),
            Args.get? i = some a
            ∧ (Args.take F.Params.length ++ sizes ++ Args.drop F.Params.length).get?
                (F.Params.length + ((F.Params.map (·.2)).take i).countP LType.isPointerTy)
              = some sz
            ∧ collectSizeArguments env (ps.count Statistics.incFunctionCallSitesRewritten)
                ((Args.take F.Params.length).take i) = some (p, szs)
            ∧ (∀ info, (loadChain a).findSome?
                  (p.TheState.GetPointerVariableInfoPtr env.uninit) = some info →
                sz = (p.TheState.deref info).size)
            ∧ ((loadChain a).findSome?
                  (p.TheState.GetPointerVariableInfoPtr env.uninit) = none →
                ∃ varr, (loadChain a).getLast? = some varr ∧ varr.isConstant = true
                  ∧ sz = (getSizeForValue env p varr).2))
      ∧ (∀ j, F.Params.length ≤ j → j < (rewriteFunctionSignature ps0 F).2.Params.length →
          ∃ i pty, (F.Params.map (·.2)).get? i = some pty ∧ pty.isPointerTy = true
            ∧ j = F.Params.length
                + ((F.Params.map (·.2)).take i).countP LType.isPointerTy) := by
  obtain ⟨calledF, sizes, ps2, NF, hcalled, hcol, hNF, -, -, hps1, hmodule⟩ :=
    rewriteCallSite_arguments env ps ps1 id ty F.asValue Args isTailCall CallingConv h
  rw [Function.getNumParams_asValue] at hcol hps1 hmodule
  have hcF : calledF = F.name := by
    have : some F.name = some calledF := hcalled
    exact (Option.some.inj this).symm
  subst hcF
  have hlen : sizes.length = (Args.take F.Params.length).countP
      (fun a => a.getType.isPointerTy) := (collectSizeArguments_spec env _ _ _ hcol).1
  obtain ⟨-, -, hnm, -, -, -⟩ := rewriteFunctionSignature_rewritten ps0 F hrw
  obtain ⟨hC6t, hC6l⟩ := C6_signature_fidelity_aux ps0 F hrw
  have hcP : F.Params.countP (fun p => p.2.isPointerTy)
      = (F.Params.map (·.2)).countP LType.isPointerTy := by
    rw [List.countP_map]; rfl
  rw [hcP] at hC6t hC6l
  have hAlen : (Args.take F.Params.length).length = F.Params.length := by
    have := congrArg List.length htypes
    simpa using this
  have hcount : ∀ i, ((Args.take F.Params.length).take i).countP
        (fun a => a.getType.isPointerTy)
      = ((F.Params.map (·.2)).take i).countP LType.isPointerTy := by
    intro i
    rw [← htypes, ← List.map_take, List.countP_map]
    rfl
  have hcountAll : (Args.take F.Params.length).countP (fun a => a.getType.isPointerTy)
      = (F.Params.map (·.2)).countP LType.isPointerTy := by
    rw [← htypes, List.countP_map]
    rfl
  rw [hcountAll] at hlen
  refine ⟨sizes, ps2, NF, hcol, by rw [hnm]; exact hNF, hps1, hmodule, ?_, ?_, ?_, ?_⟩
  · rw [List.length_append, hAlen, hlen, hC6l]
  · intro j hj
    have hjA : j < (Args.take F.Params.length).length := by rw [hAlen]; exact hj
    have e1 : (Args.take F.Params.length ++ sizes ++ Args.drop F.Params.length).get? j
        = Args.get? j := by
      rw [List.get?_eq_getElem?, List.get?_eq_getElem?, List.append_assoc,
        List.getElem?_append_left hjA, List.getElem?_take_of_lt hj]
    refine ⟨e1, ?_⟩
    rw [hC6t, List.get?_eq_getElem?, List.getElem?_append_left (by simpa using hj),
      ← htypes, List.getElem?_map, List.getElem?_take_of_lt hj, List.get?_eq_getElem?]
  · intro i pty hi hpty
    have hk := countP_take_lt LType.isPointerTy (F.Params.map (·.2)) i pty hi hpty
    have hiN : i < F.Params.length := by
      have := List.get?_eq_some.mp hi
      obtain ⟨hlt, -⟩ := this
      simpa using hlt
    refine ⟨?_, ?_⟩
    · rw [hC6t, List.get?_eq_getElem?, List.getElem?_append_right (by simp)]
      simp only [List.length_map, Nat.add_sub_cancel_left]
      rw [List.getElem?_replicate, if_pos hk]
    · have hA : ((Args.take F.Params.length).map Value.getType).get? i = some pty := by
        rw [htypes]; exact hi
      rw [List.get?_eq_getElem?, List.getElem?_map] at hA
      obtain ⟨a, ha, hat⟩ := Option.map_eq_some'.mp hA
      obtain ⟨p, q, szs, sz, e1, e2, e3⟩ := collectSizeArguments_at env _ _ _ _ hcol i a
        (by rw [List.get?_eq_getElem?]; exact ha) (by rw [hat]; exact hpty)
      obtain ⟨v1, v2⟩ := sizeArgumentFor_value env p q a sz e2
      rw [hcount i] at e3
      refine ⟨a, sz, p, szs, ?_, ?_, e1, fun info hinfo => (v1 info hinfo).1, fun hn => ?_⟩
      · rw [List.get?_eq_getElem?, ← List.getElem?_take_of_lt hiN]; exact ha
      · rw [List.get?_eq_getElem?] at e3 ⊢
        rw [List.append_assoc, List.getElem?_append_right (by rw [hAlen]; omega), hAlen,
          Nat.add_sub_cancel_left, List.getElem?_append_left (by rw [hlen]; exact hk)]
        exact e3
      · obtain ⟨varr, w1, w2, w3, -⟩ := v2 hn
        exact ⟨varr, w1, w2, w3⟩
  · intro j hjN hj
    rw [hC6l] at hj
    obtain ⟨i, pty, hi, hp, hc⟩ := countP_take_surj LType.isPointerTy (F.Params.map (·.2))
      (j - F.Params.length) (by omega)
    exact ⟨i, pty, hi, hp, by omega⟩

/-- C28 on the call `logf(str, 7, &extra)` of `void logf(char* fmt, ...)` in
`caller`: the new function takes `(i8*, i64, ...)`, the call left in `caller` is
`logf_nesCheck(str, 4, 7, &extra)`, and the argument at position 1, under the
size parameter, is the size recorded for `str`, the argument at position 0. -/
theorem C28_call_site_matches_signature_witness :
    (rewriteFunctionSignature (initialState Demo.logModule) Demo.logf).2 ≠ Demo.logf
    ∧ (rewriteFunctionSignature (initialState Demo.logModule) Demo.logf).2.Params.map (·.2)
        = [Demo.i8p, .IntegerTy 64]
    ∧ ∃ (ps1 : PassState) (NF : Function),
        rewriteCallSite Demo.paperEnv Demo.logRewritten Demo.logCall = some ps1
        ∧ Demo.logRewritten.CurrentModule.getFunction "logf_nesCheck" = some NF
        ∧ NF.Params.map (·.2) = [Demo.i8p, .IntegerTy 64]
        ∧ ps1.CurrentModule.hasIn "caller" (fun J => J =
            .Call (.made Demo.logRewritten.nextId) NF.ReturnType NF.asValue
              [Demo.fmt, (Demo.logRewritten.TheState.record Demo.fmt).size,
                .ConstantInt 32 7, Demo.extra] false 0)
        ∧ (Demo.logRewritten.TheState.record Demo.fmt).size = .ConstantInt 64 4 := by
  refine ⟨by decide, by rfl, ?_⟩
  obtain ⟨ps1, h⟩ := Option.isSome_iff_exists.mp
    (show (rewriteCallSite Demo.paperEnv Demo.logRewritten Demo.logCall).isSome = true by rfl)
  obtain ⟨sizes, ps2, NF, h2, h3, -, h5, -⟩ :=
    C28_call_site_matches_signature Demo.paperEnv (initialState Demo.logModule)
      Demo.logRewritten ps1 Demo.logf (.input 211) .VoidTy
      [Demo.fmt, .ConstantInt 32 7, Demo.extra] false 0 (by decide) (by rfl) h
  have e2 : (collectSizeArguments Demo.paperEnv
      (Demo.logRewritten.count Statistics.incFunctionCallSitesRewritten)
      ([Demo.fmt, .ConstantInt 32 7, Demo.extra].take Demo.logf.Params.length)).map (·.2)
      = some [(Demo.logRewritten.TheState.record Demo.fmt).size] := by rfl
  rw [h2] at e2
  simp only [Option.map_some', Option.some.injEq] at e2
  subst e2
  have e3 : (Demo.logRewritten.CurrentModule.getFunction
      (rewriteFunctionSignature (initialState Demo.logModule) Demo.logf).2.name).map
      (fun F => F.Params.map (·.2)) = some [Demo.i8p, .IntegerTy 64] := by rfl
  rw [h3] at e3
  simp only [Option.map_some', Option.some.injEq] at e3
  have hin : Demo.logRewritten.CurrentModule.hasIn "caller" (fun J => J = Demo.logCall) := by
    have e4 : (Demo.logRewritten.CurrentModule.getFunction "caller").map
        (fun F => decide (Demo.logCall ∈ F.instructions)) = some true := by rfl
    obtain ⟨F, hF, hmem⟩ := Option.map_eq_some'.mp e4
    exact ⟨F, (Module.getFunction_eq_some hF).1, (Module.getFunction_eq_some hF).2, _,
      by simpa using hmem, rfl⟩
  exact ⟨ps1, NF, h, h3, e3, h5 "caller" hin, by rfl⟩

end NesCheck
